import Mathlib

/-!
# midi2uge: MIDI to UGE (hUGETracker) converter

A shallow embedding of `src/midi2uge.cpp` (`convertMidiToUge`) and the properties
of its stages: tempo resolution, channel mapping, row-grid building and pattern
emission.

Conventions of the embedding

* C++ `int` values are `Int` (or `Nat` where the source value is never negative);
  stores into `uint8_t` vectors are written with an explicit `% 256`.
* C++ `double` values are rationals; every arithmetic operation is followed by
  rounding to the nearest binary64 value (ties to even), see `roundDouble` and `fl`.
* `std::map` tables are association lists or partial functions.
* `channelProgram` is a `std::array` of 4 entries that the source subscripts with the
  source channel of an event; an access outside the array is undefined behaviour. The
  embedding records such an access in `BuildState.out_of_bounds`, and statements about
  the notes of a whole run are made for runs that leave this flag unset.
-/

namespace Midi2Uge

/-! ## Binary64 arithmetic used by the tempo resolver -/

/-- Round a rational to the nearest integer, ties going to the even neighbour. -/
def roundHalfEven (x : ℚ) : ℤ :=
  if x - ⌊x⌋ < 1 / 2 then ⌊x⌋
  else if 1 / 2 < x - ⌊x⌋ then ⌊x⌋ + 1
  else if ⌊x⌋ % 2 = 0 then ⌊x⌋ else ⌊x⌋ + 1

/-- Nearest value with a 53-bit significand of a positive rational `x`
(round to nearest, ties to even): with `e = ⌊log₂ x⌋` the significand is
`x * 2^(52-e)` rounded to an integer in `[2^52, 2^53]`. -/
def roundDouble (x : ℚ) : ℚ :=
  (roundHalfEven (x * 2 ^ (52 - Int.log 2 x)) : ℚ) * 2 ^ (Int.log 2 x - 52)

/-- Smallest positive normal binary64 value. -/
def DBL_MIN : ℚ := 2 ^ (-1022 : ℤ)

/-- Largest finite binary64 value. -/
def DBL_MAX : ℚ := 2 ^ (1024 : ℤ) - 2 ^ (971 : ℤ)

/-- One binary64 operation whose exact mathematical result is `x`: the correctly
rounded value when `x` is a positive number in the normal range, `none`
otherwise (zero, negative, subnormal, overflowing and non-finite results are
outside the modelled fragment; `x / 0` is `0` in `ℚ` and therefore `none`). -/
def fl (x : ℚ) : Option ℚ :=
  if DBL_MIN ≤ x ∧ x ≤ DBL_MAX then some (roundDouble x) else none

/-- The conversion `static_cast<int>(v)` of a double: truncation toward zero,
defined only when the truncated value fits a 32-bit `int`. -/
def double_to_int (v : ℚ) : Option ℤ :=
  if -(2 : ℚ) ^ 31 - 1 < v ∧ v < 2 ^ 31 then
    some (if 0 ≤ v then ⌊v⌋ else ⌈v⌉)
  else none

/-! ## TempoResolver (midi2uge.cpp lines 136-150) -/

/-- Rows per quarter note (`user_rows_per_qn`). -/
def user_rows_per_qn : ℤ := 4

/-- The header field `ticks_per_row`:
`std::max(1, std::min(tpq / user_rows_per_qn, 16))` with C++ truncating division. -/
def ticks_per_row (tpq : ℤ) : ℤ :=
  max 1 (min (Int.tdiv tpq user_rows_per_qn) 16)

/-- The two clamping statements applied to `timer_divider`. -/
def clampDivider (d : ℤ) : ℤ :=
  let d1 := if d < 1 then 1 else d
  if d1 > 255 then 255 else d1

/-- The header field `timer_divider` computed from the tempo (microseconds per
quarter note) and the ticks per quarter note:
```
double rows_per_qn = static_cast<double>(tpq) / ticks_per_row;
double row_rate = 1000000.0 / midi_tempo_us_per_qn * rows_per_qn;
timer_divider = static_cast<int>(4194304.0 / (16.0 * row_rate) + 0.5);
if (timer_divider < 1) timer_divider = 1;
if (timer_divider > 255) timer_divider = 255;
```
-/
def timer_divider (midi_tempo_us_per_qn tpq : ℤ) : Option ℤ :=
  (fl ((tpq : ℚ) / (ticks_per_row tpq : ℚ))).bind fun rows_per_qn =>
  (fl (1000000 / (midi_tempo_us_per_qn : ℚ))).bind fun t =>
  (fl (t * rows_per_qn)).bind fun row_rate =>
  (fl (16 * row_rate)).bind fun s =>
  (fl (4194304 / s)).bind fun w =>
  (fl (w + 1 / 2)).bind fun v =>
  (double_to_int v).map clampDivider

/-- The divider of the specification, in exact rational arithmetic:
`clamp(round(4194304 / (16 * row_rate)), 1, 255)` with
`row_rate = (1000000 / T) * (Q / R)`, `R = ticks_per_row Q`, and `round x = ⌊x + 1/2⌋`. -/
def specDivider (T Q : ℤ) : ℤ :=
  max 1 (min 255
    ⌊(4194304 : ℚ) / (16 * ((1000000 / (T : ℚ)) * ((Q : ℚ) / (ticks_per_row Q : ℚ)))) + 1 / 2⌋)

/-- The closed form of the specification's divider:
`clamp(⌊262144 * T * R / (1000000 * Q) + 1/2⌋, 1, 255)`. -/
def specDividerClosed (T Q : ℤ) : ℤ :=
  max 1 (min 255
    ⌊(262144 * (T : ℚ) * (ticks_per_row Q : ℚ)) / (1000000 * (Q : ℚ)) + 1 / 2⌋)

/-! ## Source events -/

/-- Modelled from the spec: the variant tag of a decoded source event
(`SourceEvent` of the data model). `noteOn` is a message whose status is note-on
(`isNoteOn`, any velocity), `noteOff` one whose status is note-off (`isNoteOff`),
`programChange` is `isTimbre`, `tempo` is a meta event of type `0x51`. -/
inductive EventKind
  | noteOn
  | noteOff
  | programChange
  | tempo
  | other
  deriving DecidableEq, Repr

/-- Modelled from the spec: a decoded source event, the `smf::MidiEvent` of the
midifile library as `convertMidiToUge` reads it: `tick`, `getChannel()`,
`getKeyNumber()`, `getVelocity()`, `getP1()` and, for a tempo meta event, the
24-bit value `(ev[3] << 16) | (ev[4] << 8) | ev[5]`. -/
structure MidiEvent where
  tick : Nat
  kind : EventKind
  channel : Int
  key : Nat
  velocity : Nat
  program : Int
  tempo : Int
  deriving DecidableEq, Repr

/-- The test `ev.isNoteOn() && ev.getVelocity() > 0`. -/
abbrev MidiEvent.isOn (ev : MidiEvent) : Prop :=
  ev.kind = EventKind.noteOn ∧ 0 < ev.velocity

/-- The test `ev.isNoteOff() || (ev.isNoteOn() && ev.getVelocity() == 0)`. -/
abbrev MidiEvent.isOff (ev : MidiEvent) : Prop :=
  ev.kind = EventKind.noteOff ∨ (ev.kind = EventKind.noteOn ∧ ev.velocity = 0)

/-! ## Constants -/

/-- Ticks per row of the pattern grid (`TICKS_PER_ROW`). -/
def TICKS_PER_ROW : Nat := 6

/-- The note value that marks an empty row (`UGE_EMPTY_NOTE`). -/
def UGE_EMPTY_NOTE : Nat := 90

/-- Rows per pattern (`UGE_PATTERN_ROWS`). -/
def UGE_PATTERN_ROWS : Nat := 64

/-- The number of hardware channels (`UGE_NUM_CHANNELS`); it is also the size of the
array `channelProgram` (line 102). -/
def UGE_NUM_CHANNELS : Nat := 4

/-- Size of the Duty instrument bank. -/
def UGE_NUM_DUTY : Nat := 15

/-- Size of the Wave instrument bank. -/
def UGE_NUM_WAVE : Nat := 15

/-- Size of the Noise instrument bank. -/
def UGE_NUM_NOISE : Nat := 15

/-! ## Tempo scan and song length (lines 123-134, 156-162) -/

/-- The tempo scan: the value of the first tempo meta event, 500000 when there is none. -/
def midi_tempo_us_per_qn : List MidiEvent → Int
  | [] => 500000
  | ev :: rest => if ev.kind = EventKind.tempo then ev.tempo else midi_tempo_us_per_qn rest

/-- The largest tick of the joined track (`max_tick`, starting from 0). -/
def max_tick (evs : List MidiEvent) : Nat :=
  evs.foldl (fun m ev => max m ev.tick) 0

/-- Number of rows of the grid: `max_tick / TICKS_PER_ROW + 1`. -/
def total_rows (evs : List MidiEvent) : Nat :=
  max_tick evs / TICKS_PER_ROW + 1

/-- Number of 64-row pages: `(total_rows + UGE_PATTERN_ROWS - 1) / UGE_PATTERN_ROWS`. -/
def num_patterns (evs : List MidiEvent) : Nat :=
  (total_rows evs + UGE_PATTERN_ROWS - 1) / UGE_PATTERN_ROWS

/-! ## ChannelMapper (lines 173-223) -/

/-- The array `channel_note_counts`: one increment per event with
`isNoteOn() && getVelocity() > 0` whose channel is in `0..15` and is not 9. -/
def channel_note_counts (evs : List MidiEvent) : Int → Nat :=
  evs.foldl (fun counts ev =>
    if ev.isOn then
      if 0 ≤ ev.channel ∧ ev.channel < 16 ∧ ev.channel ≠ 9 then
        Function.update counts ev.channel (counts ev.channel + 1)
      else counts
    else counts) (fun _ => 0)

/-- The number of note-on events with velocity above 0 on source channel `ch`
(the activity count in the words of the specification). -/
def noteOnCount (evs : List MidiEvent) (ch : Int) : Nat :=
  evs.countP (fun ev => decide (ev.isOn ∧ ev.channel = ch))

/-- The comparison `operator<` of `std::pair<int, int>`: lexicographic. -/
abbrev pairLt (a b : Nat × Int) : Prop :=
  a.1 < b.1 ∨ (¬ b.1 < a.1 ∧ a.2 < b.2)

/-- Insertion into a list sorted in descending `pairLt` order. -/
def insertDesc (x : Nat × Int) : List (Nat × Int) → List (Nat × Int)
  | [] => [x]
  | y :: ys => if pairLt y x then x :: y :: ys else y :: insertDesc x ys

/-- The call `std::sort(v.rbegin(), v.rend())`: the elements in descending `pairLt`
order. The entries sorted here are pairwise different, so the sorted
arrangement is unique and any correct sorting algorithm produces it. -/
def sortDesc (l : List (Nat × Int)) : List (Nat × Int) :=
  l.foldr insertDesc []

/-- The source channels other than the percussion channel 9, in increasing order. -/
def melodicSources : List Int := [0, 1, 2, 3, 4, 5, 6, 7, 8, 10, 11, 12, 13, 14, 15]

/-- The vector `channel_activity` after sorting: pairs (count, channel) for the
channels `0..15` other than 9, most active first. -/
def channel_activity (evs : List MidiEvent) : List (Nat × Int) :=
  sortDesc (melodicSources.map fun ch => (channel_note_counts evs ch, ch))

/-- The array `midi_to_uge`: hardware channel (0 Duty1, 1 Duty2, 2 Wave, 3 Noise)
to source channel. A user map is copied entry by entry; without one the three
most active channels are taken and Noise is bound to channel 9. -/
def midi_to_uge (evs : List MidiEvent) (user_channel_map : Option (Fin 4 → Int)) :
    Fin 4 → Int :=
  match user_channel_map with
  | some m => fun i => m i
  | none => fun i => if i = 3 then 9 else ((channel_activity evs).getD i.val (0, 0)).2

/-! ## RowGridBuilder (lines 225-327) -/

/-- One row of a hardware channel: the entries of `channel_notes`,
`channel_instruments` and `channel_velocities` at one row index. The three
vectors are always resized and written together at the same index, so they are
kept as one vector of records. -/
structure Row where
  note : Nat
  instrument : Nat
  velocity : Nat
  deriving DecidableEq, Repr

/-- The row `(UGE_EMPTY_NOTE, 0, 0)`. -/
def emptyRow : Row := ⟨UGE_EMPTY_NOTE, 0, 0⟩

/-- The flag `out_of_bounds` after the statement `channelProgram[i]` has been executed:
the array has `UGE_NUM_CHANNELS` entries (line 102), `operator[]` does not check
its subscript, and a subscript outside `0 .. 3` is an access outside the array. -/
def markSubscript (flag : Bool) (i : Int) : Bool :=
  if 0 ≤ i ∧ i < UGE_NUM_CHANNELS then flag else true

/-- The mutable state of the row-grid loop. `std::map` tables that are later
iterated are association lists in insertion order; maps that are only looked
up are partial functions. `channelProgram` is the source array
`std::array<int, UGE_NUM_CHANNELS>` (4 entries, subscripts `0 .. 3`), read and written
at the source channel of the event (`channelProgram[channel]`, a value in
`0 .. 15`). An access at a subscript outside `0 .. 3` is outside the array: the C++
program has undefined behaviour from there on. The state records this in
`out_of_bounds`; the function `channelProgram` then goes on as if the array had
an entry for that subscript, and a state with `out_of_bounds = true` describes no
run of the program. -/
structure BuildState where
  midiProgToUgeInst : List (Int × Nat)
  midiProgToUgeWaveInst : List (Int × Nat)
  nextUgeInst : Nat
  nextUgeWaveInst : Nat
  channelProgram : Int → Int
  percussionNoteToUgeInst : List (Nat × Nat)
  nextNoiseInst : Nat
  progMaxVelocity : Int → Option Nat
  waveProgMaxVelocity : Int → Option Nat
  percMaxVelocity : Nat → Option Nat
  channel_rows : Fin 4 → List Row
  active_notes : Fin 4 → Nat → Option (Nat × Nat × Nat)
  out_of_bounds : Bool

/-- The state before the first event: empty tables, every row empty, the four
entries of `channelProgram` filled with 0 (line 103), and no access made yet; the
value 0 given to the other subscripts stands for storage outside the array and
is read only in a run that `out_of_bounds` marks as undefined. -/
def initState (total_rows : Nat) : BuildState where
  midiProgToUgeInst := []
  midiProgToUgeWaveInst := []
  nextUgeInst := 0
  nextUgeWaveInst := 0
  channelProgram := fun _ => 0
  percussionNoteToUgeInst := []
  nextNoiseInst := 0
  progMaxVelocity := fun _ => none
  waveProgMaxVelocity := fun _ => none
  percMaxVelocity := fun _ => none
  channel_rows := fun _ => List.replicate total_rows emptyRow
  active_notes := fun _ _ => none
  out_of_bounds := false

/-- The statement pair `if (table.count(k) == 0 && next < limit) table[k] = next++;`. -/
def tableAssign {κ : Type} [BEq κ] (table : List (κ × Nat)) (next limit : Nat) (k : κ) :
    List (κ × Nat) × Nat :=
  if (table.lookup k).isNone ∧ next < limit then (table ++ [(k, next)], next + 1)
  else (table, next)

/-- The statement `if (m[k] < velocity) m[k] = velocity;` (`m[k]` creates a zero entry). -/
def bumpMax {κ : Type} [DecidableEq κ] (m : κ → Option Nat) (k : κ) (velocity : Nat) :
    κ → Option Nat :=
  Function.update m k (some (if (m k).getD 0 < velocity then velocity else (m k).getD 0))

/-- Write one row of one hardware channel. -/
def setRow (s : BuildState) (ch : Fin 4) (r : Nat) (v : Row) : BuildState :=
  { s with channel_rows := Function.update s.channel_rows ch ((s.channel_rows ch).set r v) }

/-- The loop body `rows[r] = v` executed for `n` consecutive rows starting at `r`. -/
def fillLoop (v : Row) : Nat → Nat → List Row → List Row
  | _, 0, l => l
  | r, n + 1, l => fillLoop v (r + 1) n (l.set r v)

/-- The loop `for (r = start; r < stop; ++r) rows[r] = v`. -/
def fillRows (l : List Row) (v : Row) (start stop : Nat) : List Row :=
  fillLoop v start (stop - start) l

/-- The Noise branch (lines 250-267) for an event on the source channel mapped to
hardware channel 3. -/
def processNoise (s : BuildState) (ev : MidiEvent) (row total_rows : Nat) : BuildState :=
  if ev.isOn then
    let note := ev.key
    let velocity := ev.velocity
    let t := tableAssign s.percussionNoteToUgeInst s.nextNoiseInst UGE_NUM_NOISE note
    let ugeInst := (t.1.lookup note).getD 0
    let s1 := { s with percussionNoteToUgeInst := t.1, nextNoiseInst := t.2 }
    let s2 := setRow s1 3 row ⟨note % 256, ugeInst, velocity % 256⟩
    let s3 := { s2 with percMaxVelocity := bumpMax s2.percMaxVelocity note velocity }
    if row + 1 < total_rows then setRow s3 3 (row + 1) emptyRow else s3
  else s

/-- The melodic branch (lines 269-323) for an event on the source channel mapped
to hardware channel `uge_ch` (0, 1 or 2). The subscript of `channelProgram` is the
source channel of the event (lines 271 and 283), not `uge_ch`; each of the two
accesses is recorded in `out_of_bounds` by `markSubscript`. -/
def processMelodic (s : BuildState) (ev : MidiEvent) (row total_rows : Nat)
    (uge_ch : Fin 4) : BuildState :=
  if ev.kind = EventKind.programChange then
    let prog := ev.program
    let s1 := { s with
      channelProgram := Function.update s.channelProgram ev.channel prog
      out_of_bounds := markSubscript s.out_of_bounds ev.channel }
    if uge_ch = 2 then
      let t := tableAssign s1.midiProgToUgeWaveInst s1.nextUgeWaveInst UGE_NUM_WAVE prog
      { s1 with midiProgToUgeWaveInst := t.1, nextUgeWaveInst := t.2 }
    else
      let t := tableAssign s1.midiProgToUgeInst s1.nextUgeInst UGE_NUM_DUTY prog
      { s1 with midiProgToUgeInst := t.1, nextUgeInst := t.2 }
  else if ev.isOn then
    let note := ev.key
    let velocity := ev.velocity
    let prog := s.channelProgram ev.channel
    if uge_ch = 2 then
      let t := tableAssign s.midiProgToUgeWaveInst s.nextUgeWaveInst UGE_NUM_WAVE prog
      let ugeInst := (t.1.lookup prog).getD 0
      { s with
        midiProgToUgeWaveInst := t.1
        nextUgeWaveInst := t.2
        waveProgMaxVelocity := bumpMax s.waveProgMaxVelocity prog velocity
        active_notes := Function.update s.active_notes uge_ch
          (Function.update (s.active_notes uge_ch) note (some (row, ugeInst, velocity)))
        out_of_bounds := markSubscript s.out_of_bounds ev.channel }
    else
      let t := tableAssign s.midiProgToUgeInst s.nextUgeInst UGE_NUM_DUTY prog
      let ugeInst := (t.1.lookup prog).getD 0
      { s with
        midiProgToUgeInst := t.1
        nextUgeInst := t.2
        progMaxVelocity := bumpMax s.progMaxVelocity prog velocity
        active_notes := Function.update s.active_notes uge_ch
          (Function.update (s.active_notes uge_ch) note (some (row, ugeInst, velocity)))
        out_of_bounds := markSubscript s.out_of_bounds ev.channel }
  else if ev.isOff then
    let note := ev.key
    match s.active_notes uge_ch note with
    | some (start_row, ugeInst, velocity) =>
      let off_row := row
      let filled := fillRows (s.channel_rows uge_ch) ⟨note % 256, ugeInst, velocity % 256⟩
        start_row (min off_row total_rows)
      let cleared := if off_row < total_rows then filled.set off_row emptyRow else filled
      { s with
        channel_rows := Function.update s.channel_rows uge_ch cleared
        active_notes := Function.update s.active_notes uge_ch
          (Function.update (s.active_notes uge_ch) note none) }
    | none => s
  else s

/-- The body of the loop over `uge_ch` (lines 244-326) for one hardware channel. -/
def processChannel (map : Fin 4 → Int) (total_rows : Nat) (ev : MidiEvent) (row : Nat)
    (s : BuildState) (uge_ch : Fin 4) : BuildState :=
  let mapped_midi_ch := map uge_ch
  if mapped_midi_ch < 0 ∨ mapped_midi_ch > 15 then s
  else if ev.channel ≠ mapped_midi_ch then s
  else if uge_ch = 3 then processNoise s ev row total_rows
  else processMelodic s ev row total_rows uge_ch

/-- The body of the event loop (lines 236-327) for one event. -/
def processEvent (map : Fin 4 → Int) (total_rows : Nat) (s : BuildState)
    (ev : MidiEvent) : BuildState :=
  let row := ev.tick / TICKS_PER_ROW
  if row ≥ total_rows then s
  else if ev.channel < 0 ∨ ev.channel > 15 then s
  else ([0, 1, 2, 3] : List (Fin 4)).foldl (processChannel map total_rows ev row) s

/-- The row grid and tables after the event loop has processed `evs`. -/
def buildGrid (map : Fin 4 → Int) (total_rows : Nat) (evs : List MidiEvent) : BuildState :=
  evs.foldl (processEvent map total_rows) (initState total_rows)

/-! ## Pattern emission (lines 364-375, 624-670)

The vectors `uge_notes`, `uge_instruments`, `uge_velocities` are element-wise
copies of the channel vectors (lines 344-363) and are not modelled separately. -/

/-- One row of a pattern (`UgePatternRow`; the fields are bytes). -/
structure UgePatternRow where
  note : Nat
  instrument : Nat
  unused1 : Nat
  effect : Nat
  effect_param : Nat
  deriving DecidableEq, Repr

/-- A pattern (`UgePattern`): its index and its 64 rows. -/
structure UgePattern where
  index : Nat
  rows : List UgePatternRow
  deriving DecidableEq, Repr

/-- The first row at which some hardware channel holds a note other than
`UGE_EMPTY_NOTE`; `total_rows` when there is none. -/
def first_nonempty_row (rows : Fin 4 → List Row) (total_rows : Nat) : Nat :=
  ((List.range total_rows).find? fun row =>
    ([0, 1, 2, 3] : List (Fin 4)).any fun ch =>
      decide (((rows ch).getD row emptyRow).note ≠ UGE_EMPTY_NOTE)).getD total_rows

/-- The byte `note` of song row `song_row` of channel `ch`. -/
def songNote (rows : Fin 4 → List Row) (total_rows : Nat) (ch : Fin 4) (song_row : Nat) : Nat :=
  if song_row < total_rows then ((rows ch).getD song_row emptyRow).note else UGE_EMPTY_NOTE

/-- The byte `inst` of song row `song_row` of channel `ch` (an `int` stored into a byte). -/
def songInst (rows : Fin 4 → List Row) (total_rows : Nat) (ch : Fin 4) (song_row : Nat) : Nat :=
  if song_row < total_rows then ((rows ch).getD song_row emptyRow).instrument % 256 else 0

/-- The string `pat_data` that is hashed: note, instrument, 0, 0 for each of the 64 rows. -/
def pat_data (rows : Fin 4 → List Row) (total_rows : Nat) (ch : Fin 4) (pat : Nat) : List Nat :=
  (List.range UGE_PATTERN_ROWS).foldr (fun row acc =>
    songNote rows total_rows ch (pat * UGE_PATTERN_ROWS + row) ::
    songInst rows total_rows ch (pat * UGE_PATTERN_ROWS + row) :: 0 :: 0 :: acc) []

/-- The pattern `p` built on a miss (lines 653-662). -/
def buildPattern (idx : Nat) (rows : Fin 4 → List Row) (total_rows : Nat) (ch : Fin 4)
    (pat : Nat) : UgePattern where
  index := idx
  rows := (List.range UGE_PATTERN_ROWS).map fun row =>
    { note := songNote rows total_rows ch (pat * UGE_PATTERN_ROWS + row)
      instrument := songInst rows total_rows ch (pat * UGE_PATTERN_ROWS + row)
      unused1 := 0
      effect := 0
      effect_param := 0 }

/-- The mutable state of the pattern loop. -/
structure EmitState where
  patterns : List UgePattern
  orders : Fin 4 → List Nat
  new_pattern_idx : Nat
  pattern_hash_to_index : Fin 4 → Nat → Option Nat

/-- The body of the loop over `pat` (lines 634-668). `hasher` is
`std::hash<std::string>`, whose values the C++ standard does not fix. -/
def emitBlock (hasher : List Nat → Nat) (rows : Fin 4 → List Row) (total_rows : Nat)
    (ch : Fin 4) (st : EmitState) (pat : Nat) : EmitState :=
  let hash := hasher (pat_data rows total_rows ch pat)
  match st.pattern_hash_to_index ch hash with
  | some pat_idx =>
    { st with orders := Function.update st.orders ch (st.orders ch ++ [pat_idx]) }
  | none =>
    { patterns := st.patterns ++ [buildPattern st.new_pattern_idx rows total_rows ch pat]
      orders := Function.update st.orders ch (st.orders ch ++ [st.new_pattern_idx])
      new_pattern_idx := st.new_pattern_idx + 1
      pattern_hash_to_index := Function.update st.pattern_hash_to_index ch
        (Function.update (st.pattern_hash_to_index ch) hash (some st.new_pattern_idx)) }

/-- The loop over the pages `start_pattern .. num_patterns - 1` of one channel,
after `orders[ch].clear()`. -/
def emitChannel (hasher : List Nat → Nat) (rows : Fin 4 → List Row) (total_rows : Nat)
    (start_pattern num_patterns : Nat) (st : EmitState) (ch : Fin 4) : EmitState :=
  (List.range' start_pattern (num_patterns - start_pattern)).foldl
    (emitBlock hasher rows total_rows ch)
    { st with orders := Function.update st.orders ch [] }

/-- The pattern loop over the four channels (lines 624-670). -/
def emitPatterns (hasher : List Nat → Nat) (rows : Fin 4 → List Row) (total_rows : Nat)
    (start_pattern num_patterns : Nat) : EmitState :=
  ([0, 1, 2, 3] : List (Fin 4)).foldl
    (emitChannel hasher rows total_rows start_pattern num_patterns)
    { patterns := []
      orders := fun _ => []
      new_pattern_idx := 0
      pattern_hash_to_index := fun _ _ => none }

/-! ## Note lengths (lines 416-479) -/

/-- The mutable state of the note-length loop: `progNoteLengths`, `percNoteLengths`
(a key is present exactly when its list is not empty) and `noteOnRow`. -/
structure LengthState where
  progNoteLengths : Int → List Nat
  percNoteLengths : Nat → List Nat
  noteOnRow : Fin 4 → Nat → Option Nat

/-- The statement `noteOnRow[slot][note] = row`. -/
def lengthNoteOn (st : LengthState) (slot : Fin 4) (note row : Nat) : LengthState :=
  { st with
    noteOnRow := Function.update st.noteOnRow slot
      (Function.update (st.noteOnRow slot) note (some row)) }

/-- The note-off branch for a melodic slot: when a start row is recorded,
`len = row - start_row` is appended to `progNoteLengths[prog]` if `len > 0`, and
the start row is erased. A difference that is not positive is never stored, so
the truncated subtraction of `Nat` gives the same result as the `int` one. -/
def lengthProgOff (st : LengthState) (slot : Fin 4) (prog : Int) (note row : Nat) :
    LengthState :=
  match st.noteOnRow slot note with
  | some start_row =>
    let len := row - start_row
    { st with
      progNoteLengths :=
        if 0 < len then
          Function.update st.progNoteLengths prog (st.progNoteLengths prog ++ [len])
        else st.progNoteLengths
      noteOnRow := Function.update st.noteOnRow slot
        (Function.update (st.noteOnRow slot) note none) }
  | none => st

/-- The note-off branch for percussion (source channel 9). -/
def lengthPercOff (st : LengthState) (note row : Nat) : LengthState :=
  match st.noteOnRow 3 note with
  | some start_row =>
    let len := row - start_row
    { st with
      percNoteLengths :=
        if 0 < len then
          Function.update st.percNoteLengths note (st.percNoteLengths note ++ [len])
        else st.percNoteLengths
      noteOnRow := Function.update st.noteOnRow 3
        (Function.update (st.noteOnRow 3) note none) }
  | none => st

/-- The body of the note-length loop (lines 421-479) for one event. The source
channels 9, 2, 0 and 1 are fixed in the source; `channelProgram` is the table
left by the row-grid loop. -/
def lengthStep (channelProgram : Int → Int) (total_rows : Nat) (st : LengthState)
    (ev : MidiEvent) : LengthState :=
  let row := ev.tick / TICKS_PER_ROW
  if row ≥ total_rows then st
  else if ev.channel < 0 ∨ ev.channel > 15 then st
  else if ev.channel = 9 then
    if ev.isOn then lengthNoteOn st 3 ev.key row
    else if ev.isOff then lengthPercOff st ev.key row
    else st
  else if ev.channel = 2 then
    if ev.kind = EventKind.programChange then st
    else if ev.isOn then lengthNoteOn st 2 ev.key row
    else if ev.isOff then lengthProgOff st 2 (channelProgram ev.channel) ev.key row
    else st
  else if ev.channel ≥ 0 ∧ ev.channel < 2 then
    if ev.kind = EventKind.programChange then st
    else if ev.isOn then lengthNoteOn st (if ev.channel = 0 then 0 else 1) ev.key row
    else if ev.isOff then
      lengthProgOff st (if ev.channel = 0 then 0 else 1) (channelProgram ev.channel) ev.key row
    else st
  else st

/-- The note lengths after the loop has processed `evs`. -/
def noteLengths (channelProgram : Int → Int) (total_rows : Nat) (evs : List MidiEvent) :
    LengthState :=
  evs.foldl (lengthStep channelProgram total_rows)
    { progNoteLengths := fun _ => []
      percNoteLengths := fun _ => []
      noteOnRow := fun _ _ => none }

/-- An entry of `progAvgLen` / `percAvgLen`: absent when no length was recorded,
otherwise `sum / size` in integer division. -/
def avgLen (lengths : List Nat) : Option Nat :=
  if lengths = [] then none else some (lengths.sum / lengths.length)

/-- The lambda `lenToSweep`. -/
def lenToSweep (len : Nat) : Nat :=
  if len ≤ 2 then 7 else if len ≤ 8 then 4 else 1

/-- The lambda `noteToNoiseMode`. -/
def noteToNoiseMode (note : Nat) : Nat :=
  if note = 42 ∨ note = 44 ∨ note = 46 ∨ note = 49 ∨ note = 51 ∨ note = 52 ∨ note = 55 ∨
    note = 57 ∨ note = 59 then 1 else 0

/-! ## InstrumentSynthesizer (lines 505-604) -/

/-- The expression `std::max(1, std::min(15, (v * 15 + 63) / 127))` that maps a
maximum velocity to a volume. -/
def velocityToVolume (v : Nat) : Nat :=
  max 1 (min 15 ((v * 15 + 63) / 127))

/-- The volume of the specification: `clamp(round(v * 15/127 + 0.5), 1, 15)` with
`round x = ⌊x + 1/2⌋`. -/
def specVolume (v : Nat) : ℤ :=
  max 1 (min 15 ⌊((v : ℚ) * 15 / 127 + 1 / 2) + 1 / 2⌋)

/-- The reverse maps `ugeInstToProg`, `ugeWaveInstToProg`, `ugeNoiseInstToNote`:
`rev[kv.second] = kv.first` for every entry of the table. The indices of a table
are pairwise different, so the order in which the entries are visited does not
change the result. -/
def reverseTable {κ : Type} (table : List (κ × Nat)) : Nat → Option κ :=
  table.foldl (fun m kv => Function.update m kv.2 (some kv.1)) (fun _ => none)

/-- A Duty instrument (`UgeDutyInstrument`); `name` is the string handed to
`make_shortstring`. -/
structure UgeDutyInstrument where
  type : Nat
  name : String
  length : Nat
  length_enabled : Nat
  initial_volume : Nat
  volume_sweep_direction : Nat
  volume_sweep_change : Nat
  frequency_sweep_time : Nat
  frequency_sweep_direction : Nat
  frequency_sweep_shift : Nat
  duty : Nat
  unused1 : Nat
  unused2 : Nat
  unused3 : Nat
  subpattern_enabled : Nat
  deriving DecidableEq, Repr

/-- A Wave instrument (`UgeWaveInstrument`). -/
structure UgeWaveInstrument where
  type : Nat
  name : String
  length : Nat
  length_enabled : Nat
  unused1 : Nat
  unused2 : Nat
  unused3 : Nat
  unused4 : Nat
  unused5 : Nat
  unused6 : Nat
  unused7 : Nat
  volume : Nat
  wave_index : Nat
  unused8 : Nat
  unused9 : Nat
  subpattern_enabled : Nat
  deriving DecidableEq, Repr

/-- A Noise instrument (`UgeNoiseInstrument`). -/
structure UgeNoiseInstrument where
  type : Nat
  name : String
  length : Nat
  length_enabled : Nat
  initial_volume : Nat
  volume_sweep_direction : Nat
  volume_sweep_change : Nat
  unused1 : Nat
  unused2 : Nat
  unused3 : Nat
  unused4 : Nat
  unused5 : Nat
  unused6 : Nat
  noise_mode : Nat
  subpattern_enabled : Nat
  deriving DecidableEq, Repr

/-- The helper `init_duty_instrument`; the `uint8_t` parameters and fields are
reduced modulo 256. -/
def init_duty_instrument (name : String) (initial_volume sweep_amt duty_idx : Nat) :
    UgeDutyInstrument where
  type := 0
  name := name
  length := 0
  length_enabled := 0
  initial_volume := initial_volume % 256
  volume_sweep_direction := 1
  volume_sweep_change := sweep_amt % 256
  frequency_sweep_time := 0
  frequency_sweep_direction := 0
  frequency_sweep_shift := 0
  duty := duty_idx % 4
  unused1 := 0
  unused2 := 0
  unused3 := 0
  subpattern_enabled := 0

/-- The helper `init_wave_instrument` (its parameter `sweep_amt` is not stored). -/
def init_wave_instrument (name : String) (initial_volume wave_idx : Nat) :
    UgeWaveInstrument where
  type := 1
  name := name
  length := 0
  length_enabled := 0
  unused1 := 0
  unused2 := 0
  unused3 := 0
  unused4 := 0
  unused5 := 0
  unused6 := 0
  unused7 := 0
  volume := initial_volume % 256
  wave_index := wave_idx
  unused8 := 0
  unused9 := 0
  subpattern_enabled := 0

/-- The helper `init_noise_instrument`. -/
def init_noise_instrument (name : String) (initial_volume sweep_amt noise_mode : Nat) :
    UgeNoiseInstrument where
  type := 2
  name := name
  length := 0
  length_enabled := 0
  initial_volume := initial_volume % 256
  volume_sweep_direction := 1
  volume_sweep_change := sweep_amt % 256
  unused1 := 0
  unused2 := 0
  unused3 := 0
  unused4 := 0
  unused5 := 0
  unused6 := 0
  noise_mode := noise_mode % 256
  subpattern_enabled := 0

/-- The volume `vol`: 15, replaced by the mapped maximum velocity when one is recorded. -/
def instVolume (maxVelocity : Option Nat) : Nat :=
  match maxVelocity with
  | some v => velocityToVolume v
  | none => 15

/-- The Duty instrument of slot `i` (lines 520-548). -/
def dutyInstrument (grid : BuildState) (lens : LengthState) (i : Nat) : UgeDutyInstrument :=
  match reverseTable grid.midiProgToUgeInst i with
  | some prog =>
    let name := "MIDI Prog " ++ toString prog
    let vol := instVolume (grid.progMaxVelocity prog)
    match avgLen (lens.progNoteLengths prog) with
    | some avg =>
      if 0 < avg then
        { init_duty_instrument name vol (lenToSweep avg) (i % 4) with
          volume_sweep_direction := 1
          length_enabled := 1
          length := (avg * TICKS_PER_ROW) % 2 ^ 32 }
      else
        { init_duty_instrument name vol 4 (i % 4) with
          volume_sweep_direction := 1
          length_enabled := 0
          length := 0 }
    | none =>
      { init_duty_instrument name vol 4 (i % 4) with
        volume_sweep_direction := 1
        length_enabled := 0
        length := 0 }
  | none =>
    { init_duty_instrument "(unused)" 15 4 (i % 4) with volume_sweep_direction := 1 }

/-- The Wave instrument of slot `i` (lines 550-575); the length fields written
before `init_wave_instrument` are cleared by it. -/
def waveInstrument (grid : BuildState) (i : Nat) : UgeWaveInstrument :=
  match reverseTable grid.midiProgToUgeWaveInst i with
  | some prog =>
    init_wave_instrument ("MIDI Prog " ++ toString prog)
      (instVolume (grid.waveProgMaxVelocity prog)) 0
  | none => init_wave_instrument "(unused)" 15 0

/-- The Noise instrument of slot `i` (lines 577-604). -/
def noiseInstrument (grid : BuildState) (lens : LengthState) (i : Nat) :
    UgeNoiseInstrument :=
  match reverseTable grid.percussionNoteToUgeInst i with
  | some note =>
    let name := "Perc Note " ++ toString note
    let vol := instVolume (grid.percMaxVelocity note)
    match avgLen (lens.percNoteLengths note) with
    | some avg =>
      if 0 < avg then
        { init_noise_instrument name vol (lenToSweep avg) (noteToNoiseMode note) with
          volume_sweep_direction := 1
          length_enabled := 1
          length := (avg * TICKS_PER_ROW) % 2 ^ 32 }
      else
        { init_noise_instrument name vol 4 (noteToNoiseMode note) with
          volume_sweep_direction := 1
          length_enabled := 0
          length := 0 }
    | none =>
      { init_noise_instrument name vol 4 (noteToNoiseMode note) with
        volume_sweep_direction := 1
        length_enabled := 0
        length := 0 }
  | none =>
    { init_noise_instrument "(unused)" 15 4 0 with volume_sweep_direction := 1 }

/-! ## Truncation limits (lines 608-622) -/

/-- The constant `MAX_PATTERNS_PER_CHANNEL`. -/
def MAX_PATTERNS_PER_CHANNEL : Nat := 256

/-- The constant `MAX_PATTERN_DATA_BYTES` (16 KB). -/
def MAX_PATTERN_DATA_BYTES : Nat := 0x4000

/-- The value `max_patterns_by_size`: `MAX_PATTERN_DATA_BYTES /
(UGE_PATTERN_ROWS * sizeof(UgePatternRow) + sizeof(uint32_t))` with a 20-byte row. -/
def max_patterns_by_size : Nat :=
  MAX_PATTERN_DATA_BYTES / (UGE_PATTERN_ROWS * 20 + 4)

/-- The variable `max_patterns` after the two truncation tests. -/
def max_patterns (num_patterns : Nat) : Nat :=
  let m := if num_patterns > MAX_PATTERNS_PER_CHANNEL then MAX_PATTERNS_PER_CHANNEL
    else num_patterns
  if m > max_patterns_by_size then max_patterns_by_size else m

/-! ## The conversion -/

/-- What `convertMidiToUge` hands to the writer: the timing fields of the
header, the three instrument banks, the patterns and the order lists; the
channel map, the row grid with its tables and the note lengths are kept for
reference. -/
structure UgeSong where
  ticks_per_row : Int
  timer_enabled : Int
  timer_divider : Option Int
  midi_to_uge : Fin 4 → Int
  total_rows : Nat
  grid : BuildState
  lengths : LengthState
  duty : List UgeDutyInstrument
  wave : List UgeWaveInstrument
  noise : List UgeNoiseInstrument
  patterns : List UgePattern
  orders : Fin 4 → List Nat

/-- The conversion for ticks per quarter note `tpq`, the events of the joined
track and an optional user channel map. -/
def convertMidiToUge (hasher : List Nat → Nat) (tpq : Int) (evs : List MidiEvent)
    (user_channel_map : Option (Fin 4 → Int)) : UgeSong :=
  let map := midi_to_uge evs user_channel_map
  let grid := buildGrid map (total_rows evs) evs
  let lens := noteLengths grid.channelProgram (total_rows evs) evs
  let first_nonempty_page :=
    first_nonempty_row grid.channel_rows (total_rows evs) / UGE_PATTERN_ROWS
  let em := emitPatterns hasher grid.channel_rows (total_rows evs) first_nonempty_page
    (num_patterns evs)
  { ticks_per_row := ticks_per_row tpq
    timer_enabled := 1
    timer_divider := timer_divider (midi_tempo_us_per_qn evs) tpq
    midi_to_uge := map
    total_rows := total_rows evs
    grid := grid
    lengths := lens
    duty := (List.range UGE_NUM_DUTY).map (dutyInstrument grid lens)
    wave := (List.range UGE_NUM_WAVE).map (waveInstrument grid)
    noise := (List.range UGE_NUM_NOISE).map (noiseInstrument grid lens)
    patterns := em.patterns
    orders := em.orders }

/-! ## BinarySerializer: the order matrix (uge_writer.cpp lines 168-179)

`write_le` copies the bytes of the value as they lie in memory; the host is
taken to be little-endian, as the name of the helper says. -/

/-- The call `write_le<uint32_t>(out, v)`: the four bytes of `v` modulo `2^32`, least
significant first. -/
def write_le32 (v : Nat) : List Nat :=
  [v % 2 ^ 32 % 256, v % 2 ^ 32 / 256 % 256, v % 2 ^ 32 / 65536 % 256,
    v % 2 ^ 32 / 16777216 % 256]

/-- The helper `read_u32` of the reader: `b[0] | (b[1]<<8) | (b[2]<<16) | (b[3]<<24)`
for four bytes. -/
def read_u32 (b : List Nat) : Nat :=
  b.getD 0 0 + b.getD 1 0 * 256 + b.getD 2 0 * 65536 + b.getD 3 0 * 16777216

/-- The loop `for (i = 0; i < len; ++i) write_le(out, orders[ch][i])`. -/
def writeOrderEntries : List Nat → List Nat
  | [] => []
  | idx :: rest => write_le32 idx ++ writeOrderEntries rest

/-- The bytes written for the order list of one channel: `len + 1` (in `uint32_t`
arithmetic), the entries, and a zero. -/
def writeOrderChannel (order : List Nat) : List Nat :=
  write_le32 ((order.length % 2 ^ 32 + 1) % 2 ^ 32) ++ writeOrderEntries
    (order.take (order.length % 2 ^ 32)) ++ write_le32 0

/-- The order matrix section: the four channels in order. -/
def writeOrderMatrix (orders : Fin 4 → List Nat) : List Nat :=
  writeOrderChannel (orders 0) ++ writeOrderChannel (orders 1) ++
    writeOrderChannel (orders 2) ++ writeOrderChannel (orders 3)

/-- Replace the tempo payload of an event, leaving every other field as it is. -/
def withTempo (f : MidiEvent → Int) (ev : MidiEvent) : MidiEvent :=
  { ev with tempo := f ev }

/-- Unit roundoff of binary64, `2^-53`. -/
def EPS : ℚ := 1 / 2 ^ 53

/-- Relative closeness: `a` lies within relative distance `d` of `x`. -/
def Near (d a x : ℚ) : Prop := x * (1 - d) ≤ a ∧ a ≤ x * (1 + d)

/-! ## Names for the states of the pattern loop -/

/-- The 64 rows written into a pattern for page `pat` of channel `ch` (lines 655-662). -/
def blockRows (rows : Fin 4 → List Row) (total_rows : Nat) (ch : Fin 4) (pat : Nat) :
    List UgePatternRow :=
  (buildPattern 0 rows total_rows ch pat).rows

/-- The state of the pattern loop after the loop over `ch` has completed its first
`n` iterations. -/
def emitEntry (hasher : List Nat → Nat) (rows : Fin 4 → List Row)
    (total_rows start_pattern num_patterns : Nat) (n : Nat) : EmitState :=
  (([0, 1, 2, 3] : List (Fin 4)).take n).foldl
    (emitChannel hasher rows total_rows start_pattern num_patterns)
    { patterns := []
      orders := fun _ => []
      new_pattern_idx := 0
      pattern_hash_to_index := fun _ _ => none }

/-- The state of the pattern loop inside the iteration for channel `ch`, after
`orders[ch].clear()` and `j` iterations of the loop over `pat`. -/
def emitAt (hasher : List Nat → Nat) (rows : Fin 4 → List Row)
    (total_rows start_pattern num_patterns : Nat) (ch : Fin 4) (j : Nat) : EmitState :=
  (List.range' start_pattern j).foldl (emitBlock hasher rows total_rows ch)
    { emitEntry hasher rows total_rows start_pattern num_patterns ch.val with
      orders := Function.update
        (emitEntry hasher rows total_rows start_pattern num_patterns ch.val).orders ch [] }

/-- Invariant of the loop over `pat` for channel `ch`: `st0` is the state at entry
to the channel, `pages` the pages processed so far, `st` the current state. -/
def ChanInv (hasher : List Nat → Nat) (rows : Fin 4 → List Row) (total_rows : Nat)
    (ch : Fin 4) (st0 : EmitState) (pages : List Nat) (st : EmitState) : Prop :=
  st.patterns.length = st.new_pattern_idx ∧
  (∀ (k : Nat) (p : UgePattern), st.patterns[k]? = some p → p.index = k) ∧
  (∃ ext, st.patterns = st0.patterns ++ ext) ∧
  st0.new_pattern_idx ≤ st.new_pattern_idx ∧
  List.Forall₂ (fun p i => st.pattern_hash_to_index ch (hasher (pat_data rows total_rows ch p))
    = some i) pages (st.orders ch) ∧
  (∀ h i, st.pattern_hash_to_index ch h = some i →
    st0.new_pattern_idx ≤ i ∧ i < st.new_pattern_idx ∧
    ∃ p ∈ pages, hasher (pat_data rows total_rows ch p) = h ∧
      st.patterns[i]? = some (buildPattern i rows total_rows ch p)) ∧
  (∀ i, st0.new_pattern_idx ≤ i → i < st.new_pattern_idx →
    ∃ h, st.pattern_hash_to_index ch h = some i) ∧
  (∀ c, c ≠ ch → st.orders c = st0.orders c ∧
    st.pattern_hash_to_index c = st0.pattern_hash_to_index c)

/-- What holds of a channel `ch` whose pages `pages` have all been processed, in
any later state `st` of the pattern loop; the patterns made for the channel
have the indices `lo .. hi - 1`. -/
def ChanRes (hasher : List Nat → Nat) (rows : Fin 4 → List Row) (total_rows : Nat)
    (ch : Fin 4) (lo hi : Nat) (pages : List Nat) (st : EmitState) : Prop :=
  List.Forall₂ (fun p i => st.pattern_hash_to_index ch (hasher (pat_data rows total_rows ch p))
    = some i) pages (st.orders ch) ∧
  (∀ h i, st.pattern_hash_to_index ch h = some i →
    lo ≤ i ∧ i < hi ∧
    ∃ p ∈ pages, hasher (pat_data rows total_rows ch p) = h ∧
      st.patterns[i]? = some (buildPattern i rows total_rows ch p)) ∧
  (∀ i, lo ≤ i → i < hi → ∃ h, st.pattern_hash_to_index ch h = some i)

/-! ## Inputs used in examples -/

/-- An input with one note on source channel 0, from row 0 to row 4. -/
def oneNoteSong : List MidiEvent :=
  [⟨0, EventKind.noteOn, 0, 60, 100, 0, 0⟩, ⟨24, EventKind.noteOff, 0, 60, 0, 0, 0⟩]

/-- A hash function with collisions, used in examples: the sum of the bytes of the
string. -/
def byteSum (l : List Nat) : Nat :=
  l.foldl (fun a b => a + b) 0

/-- An input of 769 rows: two percussion hits, at tick 0 and at tick 4608 (row 768). -/
def longSong : List MidiEvent :=
  [⟨0, EventKind.noteOn, 9, 36, 100, 0, 0⟩, ⟨4608, EventKind.noteOn, 9, 36, 100, 0, 0⟩]

/-- Every instrument index held by the state of the row-grid loop is below 15. -/
def InstBound (s : BuildState) : Prop :=
  (∀ kv ∈ s.midiProgToUgeInst, kv.2 < 15) ∧
  (∀ kv ∈ s.midiProgToUgeWaveInst, kv.2 < 15) ∧
  (∀ kv ∈ s.percussionNoteToUgeInst, kv.2 < 15) ∧
  (∀ (h : Fin 4) (k a i v : Nat), s.active_notes h k = some (a, i, v) → i < 15) ∧
  (∀ h : Fin 4, ∀ x ∈ s.channel_rows h, x.instrument < 15)

/-! ## A family of two-page inputs -/

/-- A note held for one row on source channel 0: the note-on for key `k` at row
`r` and its note-off at row `r + 1`. -/
def noteEvents (r k : Nat) : List MidiEvent :=
  [⟨r * TICKS_PER_ROW, EventKind.noteOn, 0, k, 100, 0, 0⟩,
    ⟨(r + 1) * TICKS_PER_ROW, EventKind.noteOff, 0, k, 0, 0, 0⟩]

/-- One-row notes with the keys `ks` at the rows `r`, `r + 2`, `r + 4`, ... -/
def blockEvents : Nat → List Nat → List MidiEvent
  | _, [] => []
  | r, k :: ks => noteEvents r k ++ blockEvents (r + 2) ks

/-- An input of two pages: notes with the keys `xs` from row 0 and notes with the
keys `ys` from row 64. -/
def twoPageSong (xs ys : List Nat) : List MidiEvent :=
  blockEvents 0 xs ++ blockEvents 64 ys

/-- The user channel map that binds Duty 1 to source channel 0 and nothing else. -/
def dutyOnlyMap : Fin 4 → Int := fun i => if i = 0 then 0 else -1

/-- The rows that the notes of `blockEvents r ks` leave in a channel. -/
def writeNotes : Nat → List Nat → List Row → List Row
  | _, [], l => l
  | r, k :: ks, l => writeNotes (r + 2) ks ((l.set r ⟨k, 0, 100⟩).set (r + 1) emptyRow)

/-- The note byte at row `row` of a page that holds the keys `ks` at its even rows. -/
def noteAt (ks : List Nat) (row : Nat) : Nat :=
  if row < 2 * ks.length ∧ row % 2 = 0 then ks.getD (row / 2) 0 else UGE_EMPTY_NOTE

/-- The hashed string of a page that holds the keys `ks` at its even rows. -/
def blockData (ks : List Nat) : List Nat :=
  (List.range UGE_PATTERN_ROWS).foldr (fun row acc => noteAt ks row :: 0 :: 0 :: 0 :: acc) []

/-- The state of Duty 1 between two notes of `blockEvents`: no note is held, the
program of source channel 0 is 0, and program 0 has instrument 0 or none yet. -/
def DutyIdle (tr : Nat) (s : BuildState) : Prop :=
  (∀ k, s.active_notes 0 k = none) ∧ s.channelProgram 0 = 0 ∧
  ((s.midiProgToUgeInst = [] ∧ s.nextUgeInst = 0) ∨ s.midiProgToUgeInst = [(0, 0)]) ∧
  (s.channel_rows 0).length = tr

/-! ## BinarySerializer: the whole file (uge_writer.cpp)

The output stream is modelled by the list of the bytes written to it. -/

/-- `UgeShortString`: a length byte and the array `char data[255]`. -/
structure UgeShortString where
  length : Nat
  data : List Nat
  data_length : data.length = 255

/-- The function `make_shortstring` on a byte string: the length capped at 255,
the data zeroed and then overwritten by the first `length` bytes of the string. -/
def make_shortstring (s : List Nat) : UgeShortString where
  length := min s.length 255
  data := s.take (min s.length 255) ++ List.replicate (255 - min s.length 255) 0
  data_length := by
    rw [List.length_append, List.length_take, List.length_replicate]
    omega

/-- The calls `write_le<uint8_t>(out, v)` and `out.put(v)`: one byte. -/
def write_le8 (v : Nat) : List Nat :=
  [v % 256]

/-- The function `write_shortstring`: the length byte and the 255 data bytes. -/
def write_shortstring (s : UgeShortString) : List Nat :=
  write_le8 s.length ++ s.data

/-- The helper `read_u8` of uge2json.cpp on the bytes still to be read. -/
def read_u8 (b : List Nat) : Nat :=
  b.getD 0 0

/-- The helper `read_shortstring` of uge2json.cpp on the bytes still to be read:
the length byte, 255 bytes into `buf`, and the string `buf[0 .. len)`. -/
def read_shortstring (b : List Nat) : List Nat :=
  ((b.drop 1).take 255).take (read_u8 b)

/-- The bytes of a name built by the converter (a `std::string`); all these names
are ASCII, one byte per character. -/
def nameBytes (s : String) : List Nat :=
  s.toList.map fun c => c.toNat % 256

/-- The bytes of `n` consecutive copies of a block. -/
def repeatBytes : Nat → List Nat → List Nat
  | 0, _ => []
  | n + 1, b => b ++ repeatBytes n b

/-- One row of a subpattern block: note 90, three zero words, one zero byte. -/
def subpatternRow : List Nat :=
  write_le32 90 ++ write_le32 0 ++ write_le32 0 ++ write_le32 0 ++ write_le8 0

/-- The subpattern block written after every instrument (64 rows). -/
def writeSubpattern : List Nat :=
  repeatBytes 64 subpatternRow

/-- The record written for a Duty instrument (lines 58-73): constants, apart from
the name. -/
def dutyRecord (inst : UgeDutyInstrument) : List Nat :=
  write_le32 0 ++ write_shortstring (make_shortstring (nameBytes inst.name)) ++
    write_le32 0 ++ write_le8 0 ++ write_le8 15 ++ write_le32 0 ++ write_le8 0 ++
    write_le32 0 ++ write_le32 0 ++ write_le32 0 ++ write_le8 0 ++
    write_le32 0 ++ write_le32 0 ++ write_le32 0 ++ write_le8 0

/-- The little-endian encoding of the fields of a Duty instrument in the order and
widths of the declaration of `UgeDutyInstrument` (uge_writer.h lines 26-42): the
record that the specification describes, to be compared with `dutyRecord`. -/
def dutyFields (inst : UgeDutyInstrument) : List Nat :=
  write_le32 inst.type ++ write_shortstring (make_shortstring (nameBytes inst.name)) ++
    write_le32 inst.length ++ write_le8 inst.length_enabled ++
    write_le8 inst.initial_volume ++ write_le32 inst.volume_sweep_direction ++
    write_le8 inst.volume_sweep_change ++ write_le32 inst.frequency_sweep_time ++
    write_le32 inst.frequency_sweep_direction ++ write_le32 inst.frequency_sweep_shift ++
    write_le8 inst.duty ++ write_le32 inst.unused1 ++ write_le32 inst.unused2 ++
    write_le32 inst.unused3 ++ write_le8 inst.subpattern_enabled

/-- The record written for a Wave instrument (lines 87-101): constants, apart from
the name. -/
def waveRecord (inst : UgeWaveInstrument) : List Nat :=
  write_le32 1 ++ write_shortstring (make_shortstring (nameBytes inst.name)) ++
    write_le32 0 ++ write_le8 0 ++ write_le8 0 ++ write_le32 0 ++ write_le8 0 ++
    write_le32 0 ++ write_le32 0 ++ write_le32 0 ++ write_le8 0 ++
    write_le32 0 ++ write_le32 0 ++ write_le32 0 ++ write_le8 0

/-- The record written for a Noise instrument (lines 113-127): its fields. -/
def noiseRecord (inst : UgeNoiseInstrument) : List Nat :=
  write_le32 inst.type ++ write_shortstring (make_shortstring (nameBytes inst.name)) ++
    write_le32 inst.length ++ write_le8 inst.length_enabled ++
    write_le8 inst.initial_volume ++ write_le32 inst.volume_sweep_direction ++
    write_le8 inst.volume_sweep_change ++
    write_le32 inst.unused1 ++ write_le32 inst.unused2 ++ write_le32 inst.unused3 ++
    write_le8 inst.unused4 ++
    write_le32 inst.unused5 ++ write_le32 inst.unused6 ++ write_le32 inst.noise_mode ++
    write_le8 inst.subpattern_enabled

/-- A loop that writes every element of a container in order. -/
def writeAll {α : Type} (w : α → List Nat) : List α → List Nat
  | [] => []
  | x :: xs => w x ++ writeAll w xs

/-- One row of a pattern (lines 161-165): the byte fields `note`, `instrument` and
`effect` widened to 32 bits, a zero word in third place, and the byte
`effect_param`. -/
def writePatternRow (r : UgePatternRow) : List Nat :=
  write_le32 (r.note % 256) ++ write_le32 (r.instrument % 256) ++ write_le32 0 ++
    write_le32 (r.effect % 256) ++ write_le8 r.effect_param

/-- One pattern (lines 159-166): the index and the rows. -/
def writePattern (p : UgePattern) : List Nat :=
  write_le32 p.index ++ writeAll writePatternRow p.rows

/-- The pattern table (lines 155-167): the count and the patterns. -/
def writePatterns (patterns : List UgePattern) : List Nat :=
  write_le32 patterns.length ++ writeAll writePattern patterns

/-- Number of routines (`UGE_NUM_ROUTINES`). -/
def UGE_NUM_ROUTINES : Nat := 16

/-- One routine (lines 183-187): the length, the bytes when the length is not 0,
and the terminator. -/
def writeRoutine (r : List Nat) : List Nat :=
  write_le32 r.length ++ (if r.length % 2 ^ 32 > 0 then r.take (r.length % 2 ^ 32) else []) ++
    write_le8 0

/-- The routines section (lines 182-188). -/
def writeRoutines (routines : List (List Nat)) : List Nat :=
  writeAll (fun i => writeRoutine (routines.getD i [])) (List.range UGE_NUM_ROUTINES)

/-- The header `UgeSongHeader`; the banks and the wavetable are arrays of fixed
size. -/
structure UgeSongHeader where
  version : Nat
  name : UgeShortString
  artist : UgeShortString
  comment : UgeShortString
  duty : List UgeDutyInstrument
  wave : List UgeWaveInstrument
  noise : List UgeNoiseInstrument
  wavetable : List (List Nat)
  ticks_per_row : Nat
  timer_enabled : Nat
  timer_divider : Nat
  duty_size : duty.length = 15
  wave_size : wave.length = 15
  noise_size : noise.length = 15
  wavetable_size : wavetable.length = 16
  wavetable_row_size : ∀ w ∈ wavetable, w.length = 32

/-- Everything written before the timing block (lines 45-141): version, the three
strings, the three banks with their subpattern blocks, the wavetable. -/
def writeHead (header : UgeSongHeader) : List Nat :=
  write_le32 header.version ++ write_shortstring header.name ++
    write_shortstring header.artist ++ write_shortstring header.comment ++
    writeAll (fun inst => dutyRecord inst ++ writeSubpattern) header.duty ++
    writeAll (fun inst => waveRecord inst ++ writeSubpattern) header.wave ++
    writeAll (fun inst => noiseRecord inst ++ writeSubpattern) header.noise ++
    writeAll (fun w => w.map fun b => b % 256) header.wavetable

/-- The timing block (lines 146-150). -/
def writeTiming (header : UgeSongHeader) : List Nat :=
  write_le32 header.ticks_per_row ++ write_le8 header.timer_enabled ++
    write_le32 header.timer_divider

/-- The bytes written before the padding (lines 45-188). -/
def writeBody (header : UgeSongHeader) (patterns : List UgePattern)
    (orders : Fin 4 → List Nat) (routines : List (List Nat)) : List Nat :=
  writeHead header ++ writeTiming header ++ writePatterns patterns ++
    writeOrderMatrix orders ++ writeRoutines routines

/-- The constant `REF_SIZE`. -/
def REF_SIZE : Nat := 81254

/-- The bytes of the file that `writeUgeFile` leaves (lines 45-198): the body,
followed by `REF_SIZE - final_size` zero bytes when `final_size < REF_SIZE`. -/
def writeUgeFile (header : UgeSongHeader) (patterns : List UgePattern)
    (orders : Fin 4 → List Nat) (routines : List (List Nat)) : List Nat :=
  if (writeBody header patterns orders routines).length < REF_SIZE then
    writeBody header patterns orders routines ++
      List.replicate (REF_SIZE - (writeBody header patterns orders routines).length) 0
  else writeBody header patterns orders routines

/-- A header with the given Duty bank and empty strings, unused Wave and Noise
banks, a zero wavetable and the timing fields 6, 1, 255: an input for examples. -/
def exampleHeader (duty : List UgeDutyInstrument) (h : duty.length = 15) : UgeSongHeader where
  version := 6
  name := make_shortstring []
  artist := make_shortstring []
  comment := make_shortstring []
  duty := duty
  wave := (List.range 15).map fun _ => init_wave_instrument "(unused)" 15 0
  noise := (List.range 15).map fun _ => init_noise_instrument "(unused)" 15 4 0
  wavetable := List.replicate 16 (List.replicate 32 0)
  ticks_per_row := 6
  timer_enabled := 1
  timer_divider := 255
  duty_size := h
  wave_size := by simp
  noise_size := by simp
  wavetable_size := by simp
  wavetable_row_size := by
    intro w hw
    rw [List.eq_of_mem_replicate hw, List.length_replicate]

/-- The shape of an index table with its counter: the indices are `0, 1, ..` in
the order of insertion, the counter is the number of entries, at most 15, and
no key occurs twice. -/
def IndexTable {κ : Type} (table : List (κ × Nat)) (next : Nat) : Prop :=
  table.map Prod.snd = List.range table.length ∧ next = table.length ∧ table.length ≤ 15 ∧
    (table.map Prod.fst).Nodup

/-- The table read as a map (`table.lookup`) is injective, and its image is
`0 .. n - 1` for some `n ≤ 15`. -/
def IsIndexMap {κ : Type} [BEq κ] (table : List (κ × Nat)) : Prop :=
  (∀ (k1 k2 : κ) (i : Nat), table.lookup k1 = some i → table.lookup k2 = some i → k1 = k2) ∧
  ∃ n, n ≤ 15 ∧ ∀ i : Nat, (∃ k : κ, table.lookup k = some i) ↔ i < n

/-- The later table `t2` extends the earlier table `t1` by new entries at its end, and every
key of `t1` keeps its index. -/
def KeepsIndices {κ : Type} [BEq κ] (t1 t2 : List (κ × Nat)) : Prop :=
  (∃ e, t2 = t1 ++ e) ∧ ∀ (k : κ) (i : Nat), t1.lookup k = some i → t2.lookup k = some i

/-- The three index tables of a state have the shape `IndexTable`. -/
def TablesOk (s : BuildState) : Prop :=
  IndexTable s.midiProgToUgeInst s.nextUgeInst ∧
  IndexTable s.midiProgToUgeWaveInst s.nextUgeWaveInst ∧
  IndexTable s.percussionNoteToUgeInst s.nextNoiseInst

/-- Each index table of `s2` is the table of `s1` followed by new entries. -/
def TablesGrow (s1 s2 : BuildState) : Prop :=
  (∃ e, s2.midiProgToUgeInst = s1.midiProgToUgeInst ++ e) ∧
  (∃ e, s2.midiProgToUgeWaveInst = s1.midiProgToUgeWaveInst ++ e) ∧
  (∃ e, s2.percussionNoteToUgeInst = s1.percussionNoteToUgeInst ++ e)

/-- The input of scenario A for key `k`: a note-on at tick 0 with velocity 100 and its
note-off at tick 24, both on source channel 0. -/
def scenarioA (k : Nat) : List MidiEvent :=
  [⟨0, EventKind.noteOn, 0, k, 100, 0, 0⟩, ⟨24, EventKind.noteOff, 0, k, 0, 0, 0⟩]

/-- An input with one note of 20 rows on source channel `ch`: note-on at tick 0, note-off
at tick 120. -/
def longNoteSong (ch : Int) : List MidiEvent :=
  [⟨0, EventKind.noteOn, ch, 60, 100, 0, 0⟩, ⟨120, EventKind.noteOff, ch, 60, 0, 0, 0⟩]

/-- The subscripts at which the melodic branch accesses `channelProgram` for one
event: `channelProgram[channel] = prog` for a program change (line 271) and
`prog = channelProgram[channel]` for a note-on (line 283); `channel` is the source
channel of the event. -/
def programSubscripts (ev : MidiEvent) : List Int :=
  if ev.kind = EventKind.programChange then [ev.channel]
  else if ev.isOn then [ev.channel]
  else []

/-- The subscripts of `channelProgram` used by the body of the event loop (lines
236-327) for one event, in order: those of the melodic branch, once for every
melodic hardware channel bound to the source channel of the event. -/
def channelProgramSubscripts (map : Fin 4 → Int) (total_rows : Nat) (ev : MidiEvent) :
    List Int :=
  let row := ev.tick / TICKS_PER_ROW
  if row ≥ total_rows then []
  else if ev.channel < 0 ∨ ev.channel > 15 then []
  else ([0, 1, 2, 3] : List (Fin 4)).flatMap fun uge_ch =>
    if map uge_ch < 0 ∨ map uge_ch > 15 then []
    else if ev.channel ≠ map uge_ch then []
    else if uge_ch = 3 then []
    else programSubscripts ev

/-- An input on source channel 5: a program change to program 3, a note-on and its
note-off. -/
def channelFiveSong : List MidiEvent :=
  [⟨0, EventKind.programChange, 5, 0, 0, 3, 0⟩, ⟨0, EventKind.noteOn, 5, 60, 100, 0, 0⟩,
    ⟨24, EventKind.noteOff, 5, 60, 0, 0, 0⟩]

/-! ## The reader of uge2json.cpp: patterns and orders (lines 122-155)

The input stream is modelled by the list of the bytes still to be read; a read
past the end of the file yields 0 (the files read here are long enough). -/

/-- The number of iterations of `for (int i = 0; i < n; ++i)` where `int n = read_u32(in)`:
a value from `2^31` on is negative as an `int`, and the body does not run. -/
def loopCount (v : Nat) : Nat :=
  if v < 2 ^ 31 then v else 0

/-- One row read by `parse_uge` (lines 133-137): note, instrument, unused and effect
with `read_u32`, the effect parameter with `read_u8`; the row and the bytes still
to be read. -/
def parseRow (b : List Nat) : UgePatternRow × List Nat :=
  ({ note := read_u32 b
     instrument := read_u32 (b.drop 4)
     unused1 := read_u32 (b.drop 8)
     effect := read_u32 (b.drop 12)
     effect_param := read_u8 (b.drop 16) }, b.drop 17)

/-- The loop over `r` (line 131) for `n` rows. -/
def parseRows : Nat → List Nat → List UgePatternRow × List Nat
  | 0, b => ([], b)
  | n + 1, b => ((parseRow b).1 :: (parseRows n (parseRow b).2).1,
      (parseRows n (parseRow b).2).2)

/-- One pattern read by `parse_uge` (lines 128-140): the index and 64 rows. -/
def parsePattern (b : List Nat) : UgePattern × List Nat :=
  ({ index := read_u32 b, rows := (parseRows 64 (b.drop 4)).1 }, (parseRows 64 (b.drop 4)).2)

/-- The loop over `p` (line 127) for `n` patterns. -/
def parsePatternList : Nat → List Nat → List UgePattern × List Nat
  | 0, b => ([], b)
  | n + 1, b => ((parsePattern b).1 :: (parsePatternList n (parsePattern b).2).1,
      (parsePatternList n (parsePattern b).2).2)

/-- The loop `for (i = 0; i < len; ++i) order.push_back(read_u32(in))` for `n` entries. -/
def parseEntries : Nat → List Nat → List Nat × List Nat
  | 0, b => ([], b)
  | n + 1, b => (read_u32 b :: (parseEntries n (b.drop 4)).1, (parseEntries n (b.drop 4)).2)

/-- The order list of one channel read by `parse_uge` (lines 146-149): the length, then
that many entries. -/
def parseOrder (b : List Nat) : List Nat × List Nat :=
  parseEntries (loopCount (read_u32 b)) (b.drop 4)

/-- The loop over `ch` (lines 145-151): the four order lists, read one after the other. -/
def parseOrders (b : List Nat) : Fin 4 → List Nat :=
  fun ch =>
    if ch = 0 then (parseOrder b).1
    else if ch = 1 then (parseOrder (parseOrder b).2).1
    else if ch = 2 then (parseOrder (parseOrder (parseOrder b).2).2).1
    else (parseOrder (parseOrder (parseOrder (parseOrder b).2).2).2).1

/-- The parts `patterns` and `orders` of the result of `parse_uge`, with the count
read at offset `0xf882`. -/
structure ParsedUge where
  num_patterns : Nat
  patterns : List UgePattern
  orders : Fin 4 → List Nat

/-- The reader from the pattern count (line 124) to the end of the order matrix
(line 151), on the bytes that follow the seek. -/
def parseTables (b : List Nat) : ParsedUge where
  num_patterns := read_u32 b
  patterns := (parsePatternList (loopCount (read_u32 b)) (b.drop 4)).1
  orders := parseOrders (parsePatternList (loopCount (read_u32 b)) (b.drop 4)).2

/-- The function `parse_uge` from the seek to `0xf882` (line 122) on. -/
def parse_uge (file : List Nat) : ParsedUge :=
  parseTables (file.drop 0xf882)

/-- A row as it is stored in the file: byte fields, and 0 for the unused word. -/
def storedRow (r : UgePatternRow) : UgePatternRow where
  note := r.note % 256
  instrument := r.instrument % 256
  unused1 := 0
  effect := r.effect % 256
  effect_param := r.effect_param % 256

/-- A pattern as it is stored in the file. -/
def storedPattern (p : UgePattern) : UgePattern where
  index := p.index % 2 ^ 32
  rows := p.rows.map storedRow

/-- What the reader keeps of a row: note, instrument, effect and effect parameter. -/
def rowFields (r : UgePatternRow) : Nat × Nat × Nat × Nat :=
  (r.note, r.instrument, r.effect, r.effect_param)

/-- What the reader keeps of a pattern: the index and the fields of its rows. -/
def patternFields (p : UgePattern) : Nat × List (Nat × Nat × Nat × Nat) :=
  (p.index, p.rows.map rowFields)

/-- The event loop hands the note-on `ev` to the branch of hardware channel `c`: the
event is a note-on with a velocity above 0, its row lies in the grid (line 238), its
source channel is one of 0..15 (line 242) and is the one bound to `c` (line 247). -/
abbrev NoteOnAt (map : Fin 4 → Int) (tr : Nat) (ev : MidiEvent) (c : Fin 4) : Prop :=
  ev.isOn ∧ ev.tick / TICKS_PER_ROW < tr ∧ (0 ≤ ev.channel ∧ ev.channel ≤ 15) ∧
    map c = ev.channel

/-- Some note of the run over `evs` that is played on a Duty channel while the program
of its source channel is `p` has velocity `w`: the run is `pre ++ ev :: post`, the
note-on `ev` reaches the branch of Duty1 or Duty2, and `channelProgram[channel]`
after `pre` is `p`. -/
def DutyVelocity (map : Fin 4 → Int) (tr : Nat) (evs : List MidiEvent) (p : Int) (w : Nat) :
    Prop :=
  ∃ pre ev post, evs = pre ++ ev :: post ∧ (NoteOnAt map tr ev 0 ∨ NoteOnAt map tr ev 1) ∧
    (buildGrid map tr pre).channelProgram ev.channel = p ∧ ev.velocity = w

/-- Some note of the run over `evs` that is played on the Wave channel while the
program of its source channel is `p` has velocity `w`. -/
def WaveVelocity (map : Fin 4 → Int) (tr : Nat) (evs : List MidiEvent) (p : Int) (w : Nat) :
    Prop :=
  ∃ pre ev post, evs = pre ++ ev :: post ∧ NoteOnAt map tr ev 2 ∧
    (buildGrid map tr pre).channelProgram ev.channel = p ∧ ev.velocity = w

/-- Some note of the run over `evs` that is played on the Noise channel with key `k`
has velocity `w`. -/
def NoiseVelocity (map : Fin 4 → Int) (tr : Nat) (evs : List MidiEvent) (k : Nat) (w : Nat) :
    Prop :=
  ∃ pre ev post, evs = pre ++ ev :: post ∧ NoteOnAt map tr ev 3 ∧
    ev.key = k ∧ ev.velocity = w

/-- An input with two notes on source channel 0, the first with velocity 100 and the
second with velocity 80. -/
def loudSong : List MidiEvent :=
  [⟨0, EventKind.noteOn, 0, 60, 100, 0, 0⟩, ⟨24, EventKind.noteOff, 0, 60, 0, 0, 0⟩,
    ⟨24, EventKind.noteOn, 0, 62, 80, 0, 0⟩, ⟨48, EventKind.noteOff, 0, 62, 0, 0, 0⟩]

/-- An input on source channel 0 in which the note-on for key 60 has no note-off: a
note-on for key 60 at row 0, and a note for key 62 from row 2 to row 4. -/
def heldNoteSong : List MidiEvent :=
  [⟨0, EventKind.noteOn, 0, 60, 100, 0, 0⟩, ⟨12, EventKind.noteOn, 0, 62, 100, 0, 0⟩,
    ⟨24, EventKind.noteOff, 0, 62, 0, 0, 0⟩]

/-- The user channel map `0 -1 -1 0`: Duty 1 and Noise are both bound to source channel 0. -/
def dutyNoiseMap : Fin 4 → Int := fun i => if i = 0 ∨ i = 3 then 0 else -1

/-- The user channel map `5 -1 -1 -1`: Duty 1 is bound to source channel 5. -/
def channelFiveMap : Fin 4 → Int := fun i => if i = 0 then 5 else -1

/-! # Theorems -/

/-! ## Rounding -/

theorem roundHalfEven_sub_le (x : ℚ) : |(roundHalfEven x : ℚ) - x| ≤ 1 / 2 := by
  have h1 := Int.floor_le x
  have h2 := Int.lt_floor_add_one x
  unfold roundHalfEven
  rw [abs_le]
  split_ifs <;> push_cast <;> constructor <;> linarith

theorem int_eq_of_near (m k : ℤ) (x : ℚ) (h1 : (m : ℚ) - 1 / 2 < x) (h2 : x < m + 1 / 2)
    (h3 : (k : ℚ) - 1 / 2 ≤ x) (h4 : x ≤ k + 1 / 2) : k = m := by
  have a1 : (m : ℚ) - 1 < k := by linarith
  have a2 : (k : ℚ) - 1 < m := by linarith
  have b1 : m - 1 < k := by exact_mod_cast a1
  have b2 : k - 1 < m := by exact_mod_cast a2
  omega

theorem roundHalfEven_eq_of_lt (x : ℚ) (m : ℤ) (h1 : (m : ℚ) - 1 / 2 < x)
    (h2 : x < m + 1 / 2) : roundHalfEven x = m := by
  have h := abs_le.mp (roundHalfEven_sub_le x)
  exact int_eq_of_near m (roundHalfEven x) x h1 h2 (by linarith [h.2]) (by linarith [h.1])

theorem roundDouble_rel (x : ℚ) (hx : 0 < x) :
    |roundDouble x - x| ≤ x * 2 ^ (-53 : ℤ) := by
  have hlog := Int.zpow_log_le_self (b := 2) (r := x) (by norm_num) hx
  set e := Int.log 2 x with he
  have hr := roundHalfEven_sub_le (x * 2 ^ (52 - e))
  unfold roundDouble
  rw [← he]
  have hpos : (0 : ℚ) < 2 ^ (e - 52) := by positivity
  have hx2 : x = (x * 2 ^ (52 - e)) * 2 ^ (e - 52) := by
    rw [mul_assoc, ← zpow_add₀ (by norm_num : (2 : ℚ) ≠ 0)]
    simp
  have hrw : (roundHalfEven (x * 2 ^ (52 - e)) : ℚ) * 2 ^ (e - 52) - x
      = ((roundHalfEven (x * 2 ^ (52 - e)) : ℚ) - x * 2 ^ (52 - e)) * 2 ^ (e - 52) := by
    nth_rewrite 2 [hx2]
    ring
  rw [hrw, abs_mul, abs_of_pos hpos]
  have h53 : (2 : ℚ) ^ (e - 52) * (1 / 2) = 2 ^ e * 2 ^ (-53 : ℤ) := by
    rw [show e - 52 = e + (-52) from rfl, zpow_add₀ (by norm_num : (2 : ℚ) ≠ 0)]
    rw [mul_assoc]
    congr 1
    norm_num
  calc |(roundHalfEven (x * 2 ^ (52 - e)) : ℚ) - x * 2 ^ (52 - e)| * 2 ^ (e - 52)
      ≤ (1 / 2) * 2 ^ (e - 52) := by gcongr
    _ = 2 ^ e * 2 ^ (-53 : ℤ) := by rw [mul_comm, h53]
    _ ≤ x * 2 ^ (-53 : ℤ) := by
        have hlog2 : (2 : ℚ) ^ e ≤ x := by exact_mod_cast hlog
        gcongr

theorem log2_eq_of_bounds (x : ℚ) (e : ℤ) (h1 : (2 : ℚ) ^ e ≤ x) (h2 : x < 2 ^ (e + 1)) :
    Int.log 2 x = e := by
  have hx : 0 < x := lt_of_lt_of_le (by positivity) h1
  have a1 : e ≤ Int.log 2 x :=
    (Int.zpow_le_iff_le_log (b := 2) (by norm_num) hx).mp (by exact_mod_cast h1)
  have a2 : Int.log 2 x < e + 1 :=
    (Int.lt_zpow_iff_log_lt (b := 2) (by norm_num) hx).mp (by exact_mod_cast h2)
  omega

/-- Evaluation rule for `roundDouble` at a concrete value: exponent `e`, significand `m`. -/
theorem roundDouble_eq (x : ℚ) (e m : ℤ) (h1 : (2 : ℚ) ^ e ≤ x) (h2 : x < 2 ^ (e + 1))
    (h3 : (m : ℚ) - 1 / 2 < x * 2 ^ (52 - e)) (h4 : x * 2 ^ (52 - e) < m + 1 / 2) :
    roundDouble x = m * 2 ^ (e - 52) := by
  unfold roundDouble
  rw [log2_eq_of_bounds x e h1 h2, roundHalfEven_eq_of_lt _ m h3 h4]

theorem DBL_MIN_le : DBL_MIN ≤ 2 ^ (-64 : ℤ) := by
  unfold DBL_MIN
  exact zpow_le_zpow_right₀ (by norm_num) (by norm_num)

theorem le_DBL_MAX : (2 : ℚ) ^ (64 : ℤ) ≤ DBL_MAX := by
  unfold DBL_MAX
  have h1 : (2 : ℚ) ^ (64 : ℤ) ≤ 2 ^ (971 : ℤ) := zpow_le_zpow_right₀ (by norm_num) (by norm_num)
  have h2 : (2 : ℚ) ^ (1024 : ℤ) = 2 ^ (971 : ℤ) * 2 ^ (53 : ℤ) := by
    rw [← zpow_add₀ (by norm_num : (2 : ℚ) ≠ 0)]
    norm_num
  have h3 : (0 : ℚ) < 2 ^ (971 : ℤ) := by positivity
  have h4 : (2 : ℚ) ^ (53 : ℤ) = 9007199254740992 := by norm_num
  rw [h2, h4]
  linarith

theorem fl_eq_some (x : ℚ) (hlo : 2 ^ (-64 : ℤ) ≤ x) (hhi : x ≤ 2 ^ (64 : ℤ)) :
    fl x = some (roundDouble x) := by
  unfold fl
  rw [if_pos ⟨le_trans DBL_MIN_le hlo, le_trans hhi le_DBL_MAX⟩]

theorem roundDouble_near (x : ℚ) (hx : 0 < x) : Near EPS (roundDouble x) x := by
  have h := abs_le.mp (roundDouble_rel x hx)
  have e : (2 : ℚ) ^ (-53 : ℤ) = EPS := by
    unfold EPS
    norm_num
  rw [e] at h
  constructor
  · linarith [h.1]
  · linarith [h.2]

/-- Evaluation rule for one binary64 operation at a concrete value. -/
theorem fl_eval (x y : ℚ) (e m : ℤ) (h1 : (2 : ℚ) ^ e ≤ x) (h2 : x < 2 ^ (e + 1))
    (h3 : (m : ℚ) - 1 / 2 < x * 2 ^ (52 - e)) (h4 : x * 2 ^ (52 - e) < m + 1 / 2)
    (hy : y = m * 2 ^ (e - 52)) (hlo : 2 ^ (-64 : ℤ) ≤ x) (hhi : x ≤ 2 ^ (64 : ℤ)) :
    fl x = some y := by
  rw [fl_eq_some x hlo hhi, roundDouble_eq x e m h1 h2 h3 h4, hy]

theorem timer_divider_tie_example : timer_divider 1453125 131072 = some 46 := by
  have hR : ticks_per_row 131072 = 16 := by decide
  have s1 : fl (((131072 : ℤ) : ℚ) / ((16 : ℤ) : ℚ)) = some 8192 :=
    fl_eval _ _ 13 4503599627370496 (by norm_num) (by norm_num) (by norm_num) (by norm_num)
      (by norm_num) (by norm_num) (by norm_num)
  have s2 : fl (1000000 / ((1453125 : ℤ) : ℚ))
      = some (3099251356470019 / 4503599627370496) :=
    fl_eval _ _ (-1) 6198502712940038 (by norm_num) (by norm_num) (by norm_num) (by norm_num)
      (by norm_num) (by norm_num) (by norm_num)
  have s3 : fl ((3099251356470019 / 4503599627370496 : ℚ) * 8192)
      = some (3099251356470019 / 549755813888) :=
    fl_eval _ _ 12 6198502712940038 (by norm_num) (by norm_num) (by norm_num) (by norm_num)
      (by norm_num) (by norm_num) (by norm_num)
  have s4 : fl (16 * (3099251356470019 / 549755813888 : ℚ))
      = some (3099251356470019 / 34359738368) :=
    fl_eval _ _ 16 6198502712940038 (by norm_num) (by norm_num) (by norm_num) (by norm_num)
      (by norm_num) (by norm_num) (by norm_num)
  have s5 : fl (4194304 / (3099251356470019 / 34359738368 : ℚ))
      = some (6544293208522751 / 140737488355328) :=
    fl_eval _ _ 5 6544293208522751 (by norm_num) (by norm_num) (by norm_num) (by norm_num)
      (by norm_num) (by norm_num) (by norm_num)
  have s6 : fl ((6544293208522751 / 140737488355328 : ℚ) + 1 / 2)
      = some (6614661952700415 / 140737488355328) :=
    fl_eval _ _ 5 6614661952700415 (by norm_num) (by norm_num) (by norm_num) (by norm_num)
      (by norm_num) (by norm_num) (by norm_num)
  have s7 : double_to_int (6614661952700415 / 140737488355328 : ℚ) = some 46 := by
    unfold double_to_int
    rw [if_pos (by norm_num), if_pos (by norm_num)]
    congr 1
    rw [Int.floor_eq_iff]
    norm_num
  unfold timer_divider
  rw [hR, s1, Option.some_bind, s2, Option.some_bind, s3, Option.some_bind, s4,
    Option.some_bind, s5, Option.some_bind, s6, Option.some_bind, s7]
  rfl

/-! ## Relative error bookkeeping -/

theorem EPS_pos : 0 < EPS := by
  unfold EPS
  norm_num

theorem fl_near (x : ℚ) (hlo : 2 ^ (-64 : ℤ) ≤ x) (hhi : x ≤ 2 ^ (64 : ℤ)) :
    ∃ a, fl x = some a ∧ Near EPS a x :=
  ⟨roundDouble x, fl_eq_some x hlo hhi,
    roundDouble_near x (lt_of_lt_of_le (by positivity) hlo)⟩

theorem Near.trans {d e a y x : ℚ} (h1 : Near d a y) (h2 : Near e y x) (hx : 0 ≤ x)
    (hd0 : 0 ≤ d) (hd1 : d ≤ 1) (he0 : 0 ≤ e) : Near (d + e + d * e) a x := by
  obtain ⟨l1, u1⟩ := h1
  obtain ⟨l2, u2⟩ := h2
  constructor
  · have k1 : x * (1 - e) * (1 - d) ≤ y * (1 - d) :=
      mul_le_mul_of_nonneg_right l2 (by linarith)
    have k2 : 0 ≤ x * (d * e) := by positivity
    nlinarith
  · have k1 : y * (1 + d) ≤ x * (1 + e) * (1 + d) :=
      mul_le_mul_of_nonneg_right u2 (by linarith)
    nlinarith

theorem Near.mul {d e a b x y : ℚ} (h1 : Near d a x) (h2 : Near e b y) (hx : 0 ≤ x)
    (hy : 0 ≤ y) (hd0 : 0 ≤ d) (hd1 : d ≤ 1) (he0 : 0 ≤ e) (he1 : e ≤ 1) :
    Near (d + e + d * e) (a * b) (x * y) := by
  obtain ⟨l1, u1⟩ := h1
  obtain ⟨l2, u2⟩ := h2
  have a0 : 0 ≤ x * (1 - d) := mul_nonneg hx (by linarith)
  have b0 : 0 ≤ y * (1 - e) := mul_nonneg hy (by linarith)
  constructor
  · have k1 : x * (1 - d) * (y * (1 - e)) ≤ a * b :=
      mul_le_mul l1 l2 b0 (le_trans a0 l1)
    have k2 : 0 ≤ x * y * (d * e) := by positivity
    nlinarith
  · have k1 : a * b ≤ x * (1 + d) * (y * (1 + e)) :=
      mul_le_mul u1 u2 (le_trans b0 l2) (le_trans (le_trans a0 l1) u1)
    nlinarith

theorem Near.scale {d a x : ℚ} (h : Near d a x) (c : ℚ) (hc : 0 ≤ c) :
    Near d (c * a) (c * x) := by
  obtain ⟨l, u⟩ := h
  constructor
  · have := mul_le_mul_of_nonneg_left l hc
    linarith
  · have := mul_le_mul_of_nonneg_left u hc
    linarith

theorem Near.add_const {d a x : ℚ} (h : Near d a x) (c : ℚ) (hc : 0 ≤ c) (hd0 : 0 ≤ d) :
    Near d (a + c) (x + c) := by
  obtain ⟨l, u⟩ := h
  have k : 0 ≤ c * d := mul_nonneg hc hd0
  constructor
  · nlinarith
  · nlinarith

theorem Near.weaken {d e a x : ℚ} (h : Near d a x) (hde : d ≤ e) (hx : 0 ≤ x) :
    Near e a x := by
  obtain ⟨l, u⟩ := h
  have k : x * d ≤ x * e := mul_le_mul_of_nonneg_left hde hx
  constructor
  · nlinarith
  · nlinarith

theorem Near.bounds {d a x : ℚ} (h : Near d a x) (hx : 0 ≤ x)
    (hd1 : d ≤ 1 / 2) : x / 2 ≤ a ∧ a ≤ 2 * x := by
  obtain ⟨l, u⟩ := h
  have k : x * d ≤ x * (1 / 2) := mul_le_mul_of_nonneg_left hd1 hx
  constructor
  · nlinarith
  · nlinarith

theorem Near.const_div {d s S : ℚ} (h : Near d s S) (hS : 0 < S) (hd0 : 0 ≤ d)
    (hd1 : d ≤ 1 / 2) (c : ℚ) (hc : 0 ≤ c) : Near (2 * d) (c / s) (c / S) := by
  obtain ⟨l, u⟩ := h
  have hs : 0 < s := by
    have : 0 < S * (1 - d) := mul_pos hS (by linarith)
    linarith
  constructor
  · rw [le_div_iff₀ hs]
    have e1 : c / S * (1 - 2 * d) * s = c * ((1 - 2 * d) * (s / S)) := by
      field_simp
      ring
    rw [e1]
    have k1 : s / S ≤ 1 + d := by
      rw [div_le_iff₀ hS]
      linarith
    have k2 : (1 - 2 * d) * (s / S) ≤ 1 := by
      have k3 : 0 ≤ 1 - 2 * d := by linarith
      have k4 : (1 - 2 * d) * (s / S) ≤ (1 - 2 * d) * (1 + d) :=
        mul_le_mul_of_nonneg_left k1 k3
      nlinarith
    have := mul_le_mul_of_nonneg_left k2 hc
    linarith
  · rw [div_le_iff₀ hs]
    have e1 : c / S * (1 + 2 * d) * s = c * ((1 + 2 * d) * (s / S)) := by
      field_simp
      ring
    rw [e1]
    have k1 : 1 - d ≤ s / S := by
      rw [le_div_iff₀ hS]
      linarith
    have k2 : 1 ≤ (1 + 2 * d) * (s / S) := by
      have k3 : 0 ≤ 1 + 2 * d := by linarith
      have k4 : (1 + 2 * d) * (1 - d) ≤ (1 + 2 * d) * (s / S) :=
        mul_le_mul_of_nonneg_left k1 k3
      nlinarith
    have := mul_le_mul_of_nonneg_left k2 hc
    linarith

/-! ## No exact ties below 2^17 ticks per quarter note -/

theorem pow_two_dvd_of_dvd_mul_odd (k : ℕ) (q n : ℤ) (c : ℤ) (hc : c = 15625)
    (h : (2 : ℤ) ^ k ∣ c * q * (2 * n - 1)) : (2 : ℤ) ^ k ∣ q := by
  have cop : IsCoprime (2 : ℤ) (c * (2 * n - 1)) :=
    ⟨-(7812 * (2 * n - 1) + n - 1), 1, by rw [hc]; ring⟩
  have h2 : (2 : ℤ) ^ k ∣ (c * (2 * n - 1)) * q := by
    have e : c * q * (2 * n - 1) = (c * (2 * n - 1)) * q := by ring
    rw [e] at h
    exact h
  exact IsCoprime.dvd_of_dvd_mul_left cop.pow_left h2

theorem ticks_per_row_eq (Q : ℤ) (hQ : 0 ≤ Q) : ticks_per_row Q = max 1 (min (Q / 4) 16) := by
  unfold ticks_per_row user_rows_per_qn
  rw [Int.tdiv_eq_ediv hQ (by norm_num)]

theorem EPS_le : EPS ≤ 1 / 1024 := by
  unfold EPS
  norm_num

theorem Near.refl (x : ℚ) : Near 0 x x := by
  constructor <;> simp

/-- One rounded operation: the exact input `y` approximates `x` within `d`, the
rounded result approximates `x` within `d + 2 * EPS` and `y` within a factor 2. -/
theorem fl_step (y x d : ℚ) (hlo : 1 / 2 ^ 64 ≤ y) (hhi : y ≤ 2 ^ 64) (h : Near d y x)
    (hx : 0 ≤ x) (hd0 : 0 ≤ d) (hd1 : d ≤ 1) :
    ∃ a, fl y = some a ∧ Near (d + 2 * EPS) a x ∧ y / 2 ≤ a ∧ a ≤ 2 * y := by
  have hlo2 : (2 : ℚ) ^ (-64 : ℤ) ≤ y := by
    have e : (2 : ℚ) ^ (-64 : ℤ) = 1 / 2 ^ 64 := by norm_num
    rw [e]
    exact hlo
  have hhi2 : y ≤ (2 : ℚ) ^ (64 : ℤ) := by
    have e : (2 : ℚ) ^ (64 : ℤ) = 2 ^ 64 := by norm_num
    rw [e]
    exact hhi
  obtain ⟨a, ha, na⟩ := fl_near y hlo2 hhi2
  have ypos : 0 < y := lt_of_lt_of_le (by positivity) hlo
  have e0 := EPS_pos
  have e1 := EPS_le
  have k : EPS * d ≤ EPS := by
    have := mul_le_mul_of_nonneg_left hd1 e0.le
    linarith
  refine ⟨a, ha, ?_, na.bounds ypos.le (by linarith)⟩
  exact (Near.trans na h hx e0.le (by linarith) hd0).weaken (by linarith) hx

theorem Near.mul_lin {d e a b x y : ℚ} (h1 : Near d a x) (h2 : Near e b y) (hx : 0 ≤ x)
    (hy : 0 ≤ y) (hd0 : 0 ≤ d) (hd1 : d ≤ 1) (he0 : 0 ≤ e) (he1 : e ≤ 1) :
    Near (d + 2 * e) (a * b) (x * y) := by
  have k : d * e ≤ e := by
    have := mul_le_mul_of_nonneg_right hd1 he0
    linarith
  exact (Near.mul h1 h2 hx hy hd0 hd1 he0 he1).weaken (by linarith) (mul_nonneg hx hy)

theorem div_bounds (c s lo hi : ℚ) (hc : 0 < c) (hlo : 0 < lo) (h1 : lo ≤ s) (h2 : s ≤ hi) :
    c / hi ≤ c / s ∧ c / s ≤ c / lo := by
  have hs : 0 < s := lt_of_lt_of_le hlo h1
  constructor
  · exact div_le_div_of_nonneg_left hc.le hs h2
  · exact div_le_div_of_nonneg_left hc.le hlo h1

theorem timer_chain (T Q R : ℤ) (hT1 : 1 ≤ T) (hT2 : T < 2 ^ 31) (hQ1 : 1 ≤ Q)
    (hQ2 : Q < 2 ^ 17) (hR1 : 1 ≤ R) (hR2 : R ≤ 16) (hRQ : R ≤ Q) :
    ∃ v, (∀ k : ℚ → Option ℤ, ((fl ((Q : ℚ) / (R : ℚ))).bind fun rows_per_qn =>
      (fl (1000000 / (T : ℚ))).bind fun t =>
      (fl (t * rows_per_qn)).bind fun row_rate =>
      (fl (16 * row_rate)).bind fun s =>
      (fl (4194304 / s)).bind fun w =>
      (fl (w + 1 / 2)).bind k) = k v) ∧
      Near (24 * EPS) v ((262144 * (T : ℚ) * (R : ℚ)) / (1000000 * (Q : ℚ)) + 1 / 2) := by
  have t1 : (1 : ℚ) ≤ T := by exact_mod_cast hT1
  have t2 : (T : ℚ) < 2147483648 := by exact_mod_cast hT2
  have q1 : (1 : ℚ) ≤ Q := by exact_mod_cast hQ1
  have q2 : (Q : ℚ) < 131072 := by exact_mod_cast hQ2
  have r1 : (1 : ℚ) ≤ R := by exact_mod_cast hR1
  have r2 : (R : ℚ) ≤ 16 := by exact_mod_cast hR2
  have rq : (R : ℚ) ≤ Q := by exact_mod_cast hRQ
  have e0 : (0 : ℚ) < EPS := EPS_pos
  have e1 := EPS_le
  have tpos : (0 : ℚ) < T := by linarith only [t1]
  have qpos : (0 : ℚ) < Q := by linarith only [q1]
  have rpos : (0 : ℚ) < R := by linarith only [r1]
  have p64 : (2 : ℚ) ^ 64 = 18446744073709551616 := by norm_num
  -- rows_per_qn
  have A1 : (1 : ℚ) ≤ (Q : ℚ) / R := by rw [le_div_iff₀ rpos]; linarith only [rq]
  have A2 : (Q : ℚ) / R ≤ 131072 := by
    rw [div_le_iff₀ rpos]
    have := mul_le_mul_of_nonneg_left r1 (by norm_num : (0 : ℚ) ≤ 131072)
    linarith only [this, q2]
  obtain ⟨a, ha, na, ba1, ba2⟩ := fl_step ((Q : ℚ) / R) _ 0 (by rw [p64]; linarith only [A1])
    (by rw [p64]; linarith only [A2]) (Near.refl _) (by linarith only [A1]) le_rfl
    (by norm_num)
  -- t
  have B1 : (1 : ℚ) / 4096 ≤ 1000000 / (T : ℚ) := by
    rw [le_div_iff₀ tpos]; linarith only [t2]
  have B2 : 1000000 / (T : ℚ) ≤ 1000000 := by
    rw [div_le_iff₀ tpos]
    have := mul_le_mul_of_nonneg_left t1 (by norm_num : (0 : ℚ) ≤ 1000000)
    linarith only [this]
  obtain ⟨b, hb, nb, bb1, bb2⟩ := fl_step (1000000 / (T : ℚ)) _ 0
    (by rw [p64]; linarith only [B1]) (by rw [p64]; linarith only [B2]) (Near.refl _)
    (by linarith only [B1]) le_rfl (by norm_num)
  have apos : (0 : ℚ) < a := by linarith only [ba1, A1]
  have bpos : (0 : ℚ) < b := by linarith only [bb1, B1]
  -- row_rate
  have AB0 : (0 : ℚ) ≤ 1000000 / (T : ℚ) * ((Q : ℚ) / R) := by positivity
  have C1 : (1 : ℚ) / 8192 * (1 / 2) ≤ b * a :=
    mul_le_mul (by linarith only [bb1, B1]) (by linarith only [ba1, A1]) (by norm_num) bpos.le
  have C2 : b * a ≤ 2000000 * 262144 :=
    mul_le_mul (by linarith only [bb2, B2]) (by linarith only [ba2, A2]) apos.le (by norm_num)
  have nba : Near (2 * EPS + 2 * (2 * EPS)) (b * a)
      (1000000 / (T : ℚ) * ((Q : ℚ) / R)) := by
    have nb2 : Near (2 * EPS) b (1000000 / (T : ℚ)) :=
      nb.weaken (by linarith only []) (by linarith only [B1])
    have na2 : Near (2 * EPS) a ((Q : ℚ) / R) :=
      na.weaken (by linarith only []) (by linarith only [A1])
    exact Near.mul_lin nb2 na2 (by linarith only [B1]) (by linarith only [A1])
      (by linarith only [e0]) (by linarith only [e1]) (by linarith only [e0])
      (by linarith only [e1])
  obtain ⟨c, hc, nc, bc1, bc2⟩ := fl_step (b * a) _ _ (by rw [p64]; linarith only [C1])
    (by rw [p64]; linarith only [C2]) nba AB0 (by linarith only [e0]) (by linarith only [e1])
  -- s
  have S0 : (0 : ℚ) < 16 * (1000000 / (T : ℚ) * ((Q : ℚ) / R)) := by positivity
  obtain ⟨s, hs, ns, bs1, bs2⟩ := fl_step (16 * c) _ _ (by rw [p64]; linarith only [C1, bc1])
    (by rw [p64]; linarith only [C2, bc2]) (nc.scale 16 (by norm_num)) S0.le
    (by linarith only [e0]) (by linarith only [e1])
  have s1 : (1 : ℚ) / 4096 ≤ s := by linarith only [bs1, bc1, C1]
  have s2 : s ≤ 33554432000000 * 1024 := by linarith only [bs2, bc2, C2]
  -- w
  have hdb := div_bounds 4194304 s _ _ (by norm_num) (by norm_num) s1 s2
  have W1 : (1 : ℚ) / 18446744073709551616 ≤ 4194304 / s := le_trans (by norm_num) hdb.1
  have W2 : 4194304 / s ≤ 17179869184 := le_trans hdb.2 (by norm_num)
  have X0 : (0 : ℚ) < 4194304 / (16 * (1000000 / (T : ℚ) * ((Q : ℚ) / R))) := by positivity
  have ndiv := ns.const_div S0 (by linarith only [e0]) (by linarith only [e1]) 4194304
    (by norm_num)
  obtain ⟨w, hw, nw, bw1, bw2⟩ := fl_step (4194304 / s) _ _
    (by rw [p64]; exact W1) (by rw [p64]; linarith only [W2])
    ndiv X0.le (by linarith only [e0]) (by linarith only [e1])
  -- v
  have nadd := nw.add_const (1 / 2) (by norm_num) (by linarith only [e0])
  obtain ⟨v, hv, nv, -, -⟩ := fl_step (w + 1 / 2) _ _
    (by rw [p64]; linarith only [bw1, W1]) (by rw [p64]; linarith only [bw2, W2])
    nadd (by linarith only [X0]) (by linarith only [e0]) (by linarith only [e1])
  have ex : (4194304 : ℚ) / (16 * (1000000 / (T : ℚ) * ((Q : ℚ) / R)))
      = (262144 * (T : ℚ) * (R : ℚ)) / (1000000 * (Q : ℚ)) := by
    field_simp
    ring
  rw [ex] at nv
  refine ⟨v, ?_, nv.weaken (by linarith only []) (by positivity)⟩
  intro k
  rw [ha, Option.some_bind, hb, Option.some_bind, hc, Option.some_bind, hs, Option.some_bind,
    hw, Option.some_bind, hv, Option.some_bind]

theorem no_tie (T Q R n : ℤ) (hQ1 : 1 ≤ Q) (hQ2 : Q < 2 ^ 17) (hR : 64 ≤ Q → R = 16) :
    8192 * T * R + 15625 * Q ≠ n * (31250 * Q) := by
  intro h
  have h2 : (15625 : ℤ) * Q * (2 * n - 1) = 8192 * T * R := by linarith
  by_cases hq : Q < 64
  · have d : (2 : ℤ) ^ 13 ∣ 15625 * Q * (2 * n - 1) := ⟨T * R, by rw [h2]; ring⟩
    have d2 := pow_two_dvd_of_dvd_mul_odd 13 Q n 15625 rfl d
    have := Int.le_of_dvd (by omega) d2
    norm_num at this
    omega
  · have hR16 := hR (by omega)
    rw [hR16] at h2
    have d : (2 : ℤ) ^ 17 ∣ 15625 * Q * (2 * n - 1) := ⟨T, by rw [h2]; ring⟩
    have d2 := pow_two_dvd_of_dvd_mul_odd 17 Q n 15625 rfl d
    have := Int.le_of_dvd (by omega) d2
    omega

/-- Distance of the exact value from the integers just below and above it. -/
theorem tie_margin (T Q R : ℤ) (hQ1 : 1 ≤ Q) (hQ2 : Q < 2 ^ 17) (hR : 64 ≤ Q → R = 16)
    (X : ℚ) (hXdef : X = (262144 * (T : ℚ) * (R : ℚ)) / (1000000 * (Q : ℚ)) + 1 / 2) :
    (⌊X⌋ : ℚ) + 1 / 4096000000 ≤ X ∧ X + 1 / 4096000000 ≤ ⌊X⌋ + 1 := by
  have q1 : (1 : ℚ) ≤ Q := by exact_mod_cast hQ1
  have q2 : (Q : ℚ) < 131072 := by exact_mod_cast hQ2
  have qpos : (0 : ℚ) < Q := by linarith only [q1]
  have Dpos : (0 : ℚ) < 31250 * (Q : ℚ) := by positivity
  have hX : X * (31250 * (Q : ℚ)) = ((8192 * T * R + 15625 * Q : ℤ) : ℚ) := by
    rw [hXdef]
    push_cast
    field_simp
    ring
  have f1 := Int.floor_le X
  have f2 := Int.lt_floor_add_one X
  have g1 : ((⌊X⌋ * (31250 * Q) : ℤ) : ℚ) ≤ ((8192 * T * R + 15625 * Q : ℤ) : ℚ) := by
    rw [← hX]
    push_cast
    exact mul_le_mul_of_nonneg_right f1 Dpos.le
  have g2 : ((8192 * T * R + 15625 * Q : ℤ) : ℚ) < (((⌊X⌋ + 1) * (31250 * Q) : ℤ) : ℚ) := by
    rw [← hX]
    push_cast
    exact mul_lt_mul_of_pos_right f2 Dpos
  have i1 : ⌊X⌋ * (31250 * Q) ≤ 8192 * T * R + 15625 * Q := by exact_mod_cast g1
  have i2 : 8192 * T * R + 15625 * Q < (⌊X⌋ + 1) * (31250 * Q) := by exact_mod_cast g2
  have ne1 := no_tie T Q R ⌊X⌋ hQ1 hQ2 hR
  have j1 : ⌊X⌋ * (31250 * Q) + 1 ≤ 8192 * T * R + 15625 * Q := by omega
  have j2 : 8192 * T * R + 15625 * Q + 1 ≤ (⌊X⌋ + 1) * (31250 * Q) := by omega
  have k1 : ((⌊X⌋ * (31250 * Q) + 1 : ℤ) : ℚ) ≤ ((8192 * T * R + 15625 * Q : ℤ) : ℚ) := by
    exact_mod_cast j1
  have k2 : ((8192 * T * R + 15625 * Q + 1 : ℤ) : ℚ) ≤ (((⌊X⌋ + 1) * (31250 * Q) : ℤ) : ℚ) := by
    exact_mod_cast j2
  rw [← hX] at k1
  have k2b : X * (31250 * (Q : ℚ)) + 1 ≤ ((⌊X⌋ : ℚ) + 1) * (31250 * (Q : ℚ)) := by
    rw [hX]
    push_cast at k2 ⊢
    exact k2
  push_cast at k1
  have m : (1 : ℚ) / 4096000000 * (31250 * (Q : ℚ)) ≤ 1 := by linarith only [q2]
  constructor
  · by_contra hc
    have hc2 := mul_lt_mul_of_pos_right (not_le.mp hc) Dpos
    linarith only [hc2, k1, m]
  · by_contra hc
    have hc2 := mul_lt_mul_of_pos_right (not_le.mp hc) Dpos
    linarith only [hc2, k2b, m]

theorem clampDivider_eq (d : ℤ) : clampDivider d = max 1 (min 255 d) := by
  unfold clampDivider
  simp only
  split_ifs <;> omega

theorem EPS_small : 24 * EPS ≤ 1 / 100000000000000 := by
  unfold EPS
  norm_num

/-- For tempos below 2^31 and resolutions below 2^17 the binary64 computation
agrees with the exact formula. -/
theorem timer_divider_exact (T Q : ℤ) (hT1 : 1 ≤ T) (hT2 : T < 2 ^ 31) (hQ1 : 1 ≤ Q)
    (hQ2 : Q < 2 ^ 17) : timer_divider T Q = some (specDividerClosed T Q) := by
  have hRe := ticks_per_row_eq Q (by omega)
  have hR1 : 1 ≤ ticks_per_row Q := by omega
  have hR2 : ticks_per_row Q ≤ 16 := by omega
  have hRQ : ticks_per_row Q ≤ Q := by omega
  have hR64 : 64 ≤ Q → ticks_per_row Q = 16 := by omega
  obtain ⟨v, hv, nv⟩ := timer_chain T Q (ticks_per_row Q) hT1 hT2 hQ1 hQ2 hR1 hR2 hRQ
  obtain ⟨m1, m2⟩ := tie_margin T Q (ticks_per_row Q) hQ1 hQ2 hR64 _ rfl
  unfold timer_divider specDividerClosed
  rw [hv]
  clear hv hRe hR64
  have t1 : (1 : ℚ) ≤ T := by exact_mod_cast hT1
  have t2 : (T : ℚ) < 2147483648 := by exact_mod_cast hT2
  have q1 : (1 : ℚ) ≤ Q := by exact_mod_cast hQ1
  have r1 : (1 : ℚ) ≤ ticks_per_row Q := by exact_mod_cast hR1
  have rq : ((ticks_per_row Q : ℤ) : ℚ) ≤ Q := by exact_mod_cast hRQ
  generalize ((ticks_per_row Q : ℤ) : ℚ) = r at *
  have qpos : (0 : ℚ) < Q := by linarith only [q1]
  have x0 : 0 ≤ 262144 * (T : ℚ) * r / (1000000 * (Q : ℚ)) := by
    have : (0 : ℚ) ≤ T := by linarith only [t1]
    have : (0 : ℚ) ≤ r := by linarith only [r1]
    positivity
  have x1 : 262144 * (T : ℚ) * r / (1000000 * (Q : ℚ)) ≤ 262144 * 2147483648 / 1000000 := by
    rw [div_le_iff₀ (by positivity)]
    have k1 : (T : ℚ) * r ≤ 2147483648 * (Q : ℚ) :=
      mul_le_mul t2.le rq (by linarith only [r1]) (by norm_num)
    linarith only [k1]
  generalize 262144 * (T : ℚ) * r / (1000000 * (Q : ℚ)) = x at *
  obtain ⟨nl, nu⟩ := nv
  have es := EPS_small
  have e0 := EPS_pos
  have X0 : 0 ≤ x + 1 / 2 := by linarith only [x0]
  have k2 : (x + 1 / 2) * (24 * EPS) ≤ (x + 1 / 2) * (1 / 100000000000000) :=
    mul_le_mul_of_nonneg_left es X0
  have vlo : x + 1 / 2 - (x + 1 / 2) * (1 / 100000000000000) ≤ v := by linarith only [nl, k2]
  have vhi : v ≤ x + 1 / 2 + (x + 1 / 2) * (1 / 100000000000000) := by linarith only [nu, k2]
  have hdi : double_to_int v = some ⌊v⌋ := by
    unfold double_to_int
    rw [if_pos ⟨by norm_num; linarith only [vlo, x0], by norm_num; linarith only [vhi, x1]⟩,
      if_pos (by linarith only [vlo, x0])]
  rw [hdi, Option.map_some', clampDivider_eq]
  congr 1
  by_cases hX : x + 1 / 2 < 256
  · have : ⌊v⌋ = ⌊x + 1 / 2⌋ := by
      rw [Int.floor_eq_iff]
      constructor
      · linarith only [vlo, m1, hX, X0]
      · linarith only [vhi, m2, hX, X0]
    rw [this]
  · have hX2 : (256 : ℚ) ≤ x + 1 / 2 := not_lt.mp hX
    have a1 : (255 : ℤ) ≤ ⌊v⌋ := by
      rw [Int.le_floor]
      push_cast
      linarith only [vlo, hX2]
    have a2 : (256 : ℤ) ≤ ⌊x + 1 / 2⌋ := by
      rw [Int.le_floor]
      push_cast
      exact hX2
    omega


theorem specDivider_eq_closed (T Q : ℤ) (hT : 1 ≤ T) (hQ : 1 ≤ Q) :
    specDivider T Q = specDividerClosed T Q := by
  have hRe := ticks_per_row_eq Q (by omega)
  have hR1 : 1 ≤ ticks_per_row Q := by omega
  have t1 : (1 : ℚ) ≤ T := by exact_mod_cast hT
  have q1 : (1 : ℚ) ≤ Q := by exact_mod_cast hQ
  have r1 : (1 : ℚ) ≤ ticks_per_row Q := by exact_mod_cast hR1
  have tne : (T : ℚ) ≠ 0 := by linarith only [t1] |> ne_of_gt
  have qne : (Q : ℚ) ≠ 0 := by linarith only [q1] |> ne_of_gt
  have rne : ((ticks_per_row Q : ℤ) : ℚ) ≠ 0 := by linarith only [r1] |> ne_of_gt
  unfold specDivider specDividerClosed
  have ex : (4194304 : ℚ) / (16 * (1000000 / (T : ℚ) * ((Q : ℚ) / (ticks_per_row Q : ℚ))))
      = (262144 * (T : ℚ) * (ticks_per_row Q : ℚ)) / (1000000 * (Q : ℚ)) := by
    field_simp
    ring
  rw [ex]

/-! ## Claims on the tempo resolver -/

/-- C1: for every tempo from 1 to 10,000,000 microseconds per quarter note and every
ticks-per-quarter-note from 1 to 960 the binary64 computation of the timer divider
is defined and the stored divider is at least 1 and at most 255. -/
theorem C1_timer_divider_range (T Q : ℤ) (hT1 : 1 ≤ T) (hT2 : T ≤ 10000000) (hQ1 : 1 ≤ Q)
    (hQ2 : Q ≤ 960) : ∃ d, timer_divider T Q = some d ∧ 1 ≤ d ∧ d ≤ 255 := by
  refine ⟨specDividerClosed T Q, timer_divider_exact T Q hT1 (by omega) hQ1 (by omega), ?_, ?_⟩
  · unfold specDividerClosed
    omega
  · unfold specDividerClosed
    omega

theorem C1_timer_divider_range_witness :
    ∃ d, timer_divider 500000 480 = some d ∧ 1 ≤ d ∧ d ≤ 255 :=
  C1_timer_divider_range 500000 480 (by decide) (by decide) (by decide) (by decide)

/-- Outside the range of a MIDI header: 131072 ticks per quarter note need 18 bits,
and the division field of a header has 15. There, at tempo 1453125, the exact value
`262144*T*R/(1000000*Q) + 1/2` is the integer 47, but the binary64 computation rounds
`4194304 / (16 * row_rate)` to just below 46.5 and gives 46: the bound `Q < 2^17` of
`timer_divider_exact` cannot be dropped. -/
theorem timer_divider_beyond_range :
    timer_divider 1453125 131072 = some 46 ∧ specDivider 1453125 131072 = 47 ∧
      specDividerClosed 1453125 131072 = 47 := by
  have hR : ticks_per_row 131072 = 16 := by decide
  refine ⟨timer_divider_tie_example, ?_, ?_⟩
  · unfold specDivider
    rw [hR]
    have : ⌊(4194304 : ℚ) / (16 * (1000000 / ((1453125 : ℤ) : ℚ) *
        (((131072 : ℤ) : ℚ) / ((16 : ℤ) : ℚ)))) + 1 / 2⌋ = 47 := by
      rw [Int.floor_eq_iff]
      norm_num
    rw [this]
    decide
  · unfold specDividerClosed
    rw [hR]
    have : ⌊(262144 * ((1453125 : ℤ) : ℚ) * ((16 : ℤ) : ℚ)) /
        (1000000 * ((131072 : ℤ) : ℚ)) + 1 / 2⌋ = 47 := by
      rw [Int.floor_eq_iff]
      norm_num
    rw [this]
    decide

/-- C2: for every tempo `1 ≤ T < 2^31` (the tempo is an `int`, read from a 24-bit field)
and every ticks-per-quarter `1 ≤ Q < 2^17 = 131072` (the header field has 15 bits),
with `R = clamp(Q div 4, 1, 16)`, the binary64 computation is
defined and the stored divider equals `clamp(round(4194304 / (16 * row_rate)), 1, 255)`
with `row_rate = (1000000 / T) * (Q / R)` in exact rational arithmetic, which is
`clamp(⌊262144*T*R / (1000000*Q) + 1/2⌋, 1, 255)`. -/
theorem C2_timer_divider_formula (T Q : ℤ) (hT1 : 1 ≤ T) (hT2 : T < 2 ^ 31) (hQ1 : 1 ≤ Q)
    (hQ2 : Q < 2 ^ 17) :
    timer_divider T Q = some (specDivider T Q) ∧
      specDivider T Q = specDividerClosed T Q := by
  have h := specDivider_eq_closed T Q hT1 hQ1
  exact ⟨by rw [h]; exact timer_divider_exact T Q hT1 hT2 hQ1 hQ2, h⟩

theorem C2_timer_divider_formula_witness :
    timer_divider 500000 480 = some (specDivider 500000 480) ∧
      specDivider 500000 480 = specDividerClosed 500000 480 :=
  C2_timer_divider_formula 500000 480 (by decide) (by decide) (by decide) (by decide)

/-- C3: for every ticks-per-quarter-note `Q ≥ 0` the header field `ticks_per_row`
equals `clamp(Q div 4, 1, 16)` and therefore lies between 1 and 16. -/
theorem C3_ticks_per_row (Q : ℤ) (hQ : 0 ≤ Q) :
    ticks_per_row Q = max 1 (min (Q / 4) 16) ∧ 1 ≤ ticks_per_row Q ∧ ticks_per_row Q ≤ 16 := by
  have h := ticks_per_row_eq Q hQ
  refine ⟨h, ?_, ?_⟩ <;> omega

theorem C3_ticks_per_row_witness :
    ticks_per_row 480 = max 1 (min (480 / 4) 16) ∧ 1 ≤ ticks_per_row 480 ∧
      ticks_per_row 480 ≤ 16 :=
  C3_ticks_per_row 480 (by decide)

/-! ## Tempo scan -/

theorem tempo_first (pre post : List MidiEvent) (e : MidiEvent)
    (hpre : ∀ x ∈ pre, x.kind ≠ EventKind.tempo) (he : e.kind = EventKind.tempo) :
    midi_tempo_us_per_qn (pre ++ e :: post) = e.tempo := by
  induction pre with
  | nil => simp [midi_tempo_us_per_qn, he]
  | cons x xs ih =>
    have hx : x.kind ≠ EventKind.tempo := hpre x (List.mem_cons_self x xs)
    have hxs : ∀ y ∈ xs, y.kind ≠ EventKind.tempo := fun y hy =>
      hpre y (List.mem_cons_of_mem x hy)
    simp only [List.cons_append, midi_tempo_us_per_qn, if_neg hx]
    exact ih hxs

theorem tempo_default (evs : List MidiEvent) (h : ∀ x ∈ evs, x.kind ≠ EventKind.tempo) :
    midi_tempo_us_per_qn evs = 500000 := by
  induction evs with
  | nil => rfl
  | cons x xs ih =>
    have hx : x.kind ≠ EventKind.tempo := h x (List.mem_cons_self x xs)
    simp only [midi_tempo_us_per_qn, if_neg hx]
    exact ih fun y hy => h y (List.mem_cons_of_mem x hy)

theorem foldl_withTempo {σ : Type} (step : σ → MidiEvent → σ) (f : MidiEvent → Int)
    (hstep : ∀ s ev, step s (withTempo f ev) = step s ev) (init : σ)
    (l1 l2 : List MidiEvent) :
    (l1 ++ l2.map (withTempo f)).foldl step init = (l1 ++ l2).foldl step init := by
  rw [List.foldl_append, List.foldl_append, List.foldl_map]
  congr 1
  funext s ev
  exact hstep s ev

theorem max_tick_withTempo (f : MidiEvent → Int) (l1 l2 : List MidiEvent) :
    max_tick (l1 ++ l2.map (withTempo f)) = max_tick (l1 ++ l2) := by
  unfold max_tick
  apply foldl_withTempo
  intro s ev
  rfl

theorem channel_note_counts_withTempo (f : MidiEvent → Int) (l1 l2 : List MidiEvent) :
    channel_note_counts (l1 ++ l2.map (withTempo f)) = channel_note_counts (l1 ++ l2) := by
  unfold channel_note_counts
  apply foldl_withTempo
  intro s ev
  rfl

theorem buildGrid_withTempo (map : Fin 4 → Int) (tr : Nat) (f : MidiEvent → Int)
    (l1 l2 : List MidiEvent) :
    buildGrid map tr (l1 ++ l2.map (withTempo f)) = buildGrid map tr (l1 ++ l2) := by
  unfold buildGrid
  apply foldl_withTempo
  intro s ev
  rfl

theorem noteLengths_withTempo (cp : Int → Int) (tr : Nat) (f : MidiEvent → Int)
    (l1 l2 : List MidiEvent) :
    noteLengths cp tr (l1 ++ l2.map (withTempo f)) = noteLengths cp tr (l1 ++ l2) := by
  unfold noteLengths
  apply foldl_withTempo
  intro s ev
  rfl

theorem convert_withTempo (hasher : List Nat → Nat) (tpq : Int)
    (um : Option (Fin 4 → Int)) (f : MidiEvent → Int) (l1 l2 : List MidiEvent)
    (ht : midi_tempo_us_per_qn (l1 ++ l2.map (withTempo f)) = midi_tempo_us_per_qn (l1 ++ l2)) :
    convertMidiToUge hasher tpq (l1 ++ l2.map (withTempo f)) um
      = convertMidiToUge hasher tpq (l1 ++ l2) um := by
  have h1 : total_rows (l1 ++ l2.map (withTempo f)) = total_rows (l1 ++ l2) := by
    unfold total_rows
    rw [max_tick_withTempo]
  have h2 : num_patterns (l1 ++ l2.map (withTempo f)) = num_patterns (l1 ++ l2) := by
    unfold num_patterns
    rw [h1]
  have h3 : midi_to_uge (l1 ++ l2.map (withTempo f)) um = midi_to_uge (l1 ++ l2) um := by
    unfold midi_to_uge channel_activity
    rw [channel_note_counts_withTempo]
  unfold convertMidiToUge
  simp only [h1, h2, h3, ht, buildGrid_withTempo, noteLengths_withTempo]

/-- C4: the tempo used is 500000 for a sequence without tempo event, it is the
value of the first tempo meta event otherwise, and the tempo values carried by
later tempo events do not change any output of the conversion. -/
theorem C4_first_tempo (hasher : List Nat → Nat) (tpq : Int) (um : Option (Fin 4 → Int))
    (pre post : List MidiEvent) (e : MidiEvent) (f : MidiEvent → Int)
    (hpre : ∀ x ∈ pre, x.kind ≠ EventKind.tempo) (he : e.kind = EventKind.tempo) :
    midi_tempo_us_per_qn pre = 500000 ∧
    midi_tempo_us_per_qn (pre ++ e :: post) = e.tempo ∧
    (convertMidiToUge hasher tpq (pre ++ e :: post) um).timer_divider
      = timer_divider e.tempo tpq ∧
    convertMidiToUge hasher tpq (pre ++ e :: post.map (withTempo f)) um
      = convertMidiToUge hasher tpq (pre ++ e :: post) um := by
  refine ⟨tempo_default pre hpre, tempo_first pre post e hpre he, ?_, ?_⟩
  · show timer_divider (midi_tempo_us_per_qn (pre ++ e :: post)) tpq = _
    rw [tempo_first pre post e hpre he]
  · have e1 : pre ++ e :: post.map (withTempo f) = (pre ++ [e]) ++ post.map (withTempo f) := by
      simp
    have e2 : pre ++ e :: post = (pre ++ [e]) ++ post := by simp
    rw [e1, e2]
    apply convert_withTempo
    rw [← e1, ← e2, tempo_first pre _ e hpre he, tempo_first pre _ e hpre he]

theorem C4_first_tempo_witness :
    midi_tempo_us_per_qn [⟨0, EventKind.noteOn, 0, 60, 100, 0, 0⟩] = 500000 ∧
    midi_tempo_us_per_qn ([⟨0, EventKind.noteOn, 0, 60, 100, 0, 0⟩] ++
      ⟨0, EventKind.tempo, 15, 0, 0, 0, 600000⟩ ::
      [⟨48, EventKind.tempo, 15, 0, 0, 0, 250000⟩]) = 600000 := by
  have h := C4_first_tempo (fun _ => 0) 24 none [⟨0, EventKind.noteOn, 0, 60, 100, 0, 0⟩]
    [⟨48, EventKind.tempo, 15, 0, 0, 0, 250000⟩] ⟨0, EventKind.tempo, 15, 0, 0, 0, 600000⟩
    (fun _ => 0) (by decide) (by decide)
  exact ⟨h.1, h.2.1⟩

/-! ## Channel ranking -/

theorem channel_note_counts_eq (evs : List MidiEvent) (ch : Int) :
    channel_note_counts evs ch =
      if 0 ≤ ch ∧ ch < 16 ∧ ch ≠ 9 then noteOnCount evs ch else 0 := by
  unfold channel_note_counts noteOnCount
  induction evs using List.reverseRecOn with
  | nil => simp
  | append_singleton l ev ih =>
    rw [List.foldl_append, List.countP_append]
    simp only [List.foldl_cons, List.foldl_nil, List.countP_cons, List.countP_nil]
    by_cases hon : ev.isOn
    · by_cases hr : 0 ≤ ev.channel ∧ ev.channel < 16 ∧ ev.channel ≠ 9
      · rw [if_pos hon, if_pos hr]
        by_cases hc : ev.channel = ch
        · subst hc
          rw [Function.update_same, ih, if_pos hr, if_pos hr]
          simp [hon]
        · rw [Function.update_noteq (Ne.symm hc), ih]
          simp [hon, hc]
      · rw [if_pos hon, if_neg hr, ih]
        by_cases hc : ev.channel = ch
        · subst hc
          simp [hr]
        · simp [hon, hc]
    · rw [if_neg hon, ih]
      simp [hon]

theorem mem_insertDesc (x y : Nat × Int) (l : List (Nat × Int)) :
    y ∈ insertDesc x l ↔ y = x ∨ y ∈ l := by
  induction l with
  | nil => simp [insertDesc]
  | cons z zs ih =>
    unfold insertDesc
    split_ifs
    · simp
    · simp only [List.mem_cons, ih]
      tauto

theorem insertDesc_perm (x : Nat × Int) (l : List (Nat × Int)) :
    (insertDesc x l).Perm (x :: l) := by
  induction l with
  | nil => simp [insertDesc]
  | cons z zs ih =>
    unfold insertDesc
    split_ifs
    · exact List.Perm.refl _
    · exact (List.Perm.cons z ih).trans (List.Perm.swap x z zs)

theorem sortDesc_perm (l : List (Nat × Int)) : (sortDesc l).Perm l := by
  induction l with
  | nil => exact List.Perm.refl _
  | cons x xs ih =>
    show (insertDesc x (sortDesc xs)).Perm (x :: xs)
    exact (insertDesc_perm x _).trans (List.Perm.cons x ih)

theorem insertDesc_sorted (x : Nat × Int) (l : List (Nat × Int))
    (h : l.Pairwise fun a b => ¬ pairLt a b) :
    (insertDesc x l).Pairwise fun a b => ¬ pairLt a b := by
  induction l with
  | nil => simp [insertDesc]
  | cons z zs ih =>
    rw [List.pairwise_cons] at h
    unfold insertDesc
    split_ifs with hz
    · rw [List.pairwise_cons, List.pairwise_cons]
      refine ⟨?_, h.1, h.2⟩
      intro b hb
      rcases List.mem_cons.mp hb with rfl | hb
      · obtain ⟨x1, x2⟩ := x
        obtain ⟨b1, b2⟩ := b
        simp only [pairLt] at hz ⊢
        omega
      · have hzb := h.1 b hb
        obtain ⟨x1, x2⟩ := x
        obtain ⟨b1, b2⟩ := b
        obtain ⟨z1, z2⟩ := z
        simp only [pairLt] at hz hzb ⊢
        omega
    · rw [List.pairwise_cons]
      refine ⟨?_, ih h.2⟩
      intro b hb
      rcases (mem_insertDesc x b zs).mp hb with rfl | hb
      · exact hz
      · exact h.1 b hb

theorem sortDesc_sorted (l : List (Nat × Int)) :
    (sortDesc l).Pairwise fun a b => ¬ pairLt a b := by
  induction l with
  | nil => exact List.Pairwise.nil
  | cons x xs ih => exact insertDesc_sorted x _ ih

/-- The sorted arrangement is unique: any descending arrangement of the same
entries, when the entries are pairwise different, is the one `sortDesc` returns. -/
theorem sortDesc_unique (l l2 : List (Nat × Int)) (hp : l2.Perm l)
    (hs : l2.Pairwise fun a b => ¬ pairLt a b) : l2 = sortDesc l := by
  have hperm : l2.Perm (sortDesc l) := hp.trans (sortDesc_perm l).symm
  have hanti : ∀ a b : Nat × Int, ¬ pairLt a b → ¬ pairLt b a → a = b := by
    intro a b h1 h2
    obtain ⟨a1, a2⟩ := a
    obtain ⟨b1, b2⟩ := b
    simp only [pairLt] at h1 h2
    have e1 : a1 = b1 := by omega
    have e2 : a2 = b2 := by omega
    rw [e1, e2]
  exact List.Perm.eq_of_sorted (fun a b _ _ h1 h2 => hanti a b h1 h2) hs (sortDesc_sorted l) hperm

theorem mem_melodicSources (c : Int) : c ∈ melodicSources ↔ 0 ≤ c ∧ c ≤ 15 ∧ c ≠ 9 := by
  unfold melodicSources
  simp only [List.mem_cons, List.mem_singleton, List.not_mem_nil, or_false]
  omega

theorem channel_activity_perm (evs : List MidiEvent) :
    (channel_activity evs).Perm (melodicSources.map fun ch => (noteOnCount evs ch, ch)) := by
  have e : (melodicSources.map fun ch => (channel_note_counts evs ch, ch))
      = melodicSources.map fun ch => (noteOnCount evs ch, ch) := by
    apply List.map_congr_left
    intro ch hch
    have h := (mem_melodicSources ch).mp hch
    rw [channel_note_counts_eq, if_pos ⟨h.1, by omega, h.2.2⟩]
  unfold channel_activity
  rw [e]
  exact sortDesc_perm _

theorem mem_channel_activity (evs : List MidiEvent) (p : Nat × Int) :
    p ∈ channel_activity evs ↔
      (0 ≤ p.2 ∧ p.2 ≤ 15 ∧ p.2 ≠ 9) ∧ p.1 = noteOnCount evs p.2 := by
  rw [(channel_activity_perm evs).mem_iff, List.mem_map]
  constructor
  · rintro ⟨ch, hch, rfl⟩
    exact ⟨(mem_melodicSources ch).mp hch, rfl⟩
  · rintro ⟨h1, h2⟩
    refine ⟨p.2, (mem_melodicSources p.2).mpr h1, ?_⟩
    rw [← h2]

/-- The ranking is strictly descending in (count, channel). -/
theorem channel_activity_strict (evs : List MidiEvent) :
    (channel_activity evs).Pairwise fun a b => b.1 < a.1 ∨ (b.1 = a.1 ∧ b.2 < a.2) := by
  have hs : (channel_activity evs).Pairwise fun a b => ¬ pairLt a b := sortDesc_sorted _
  have hnd : ((channel_activity evs).map Prod.snd).Nodup := by
    have hp := (channel_activity_perm evs).map Prod.snd
    rw [List.map_map] at hp
    have e : (melodicSources.map (Prod.snd ∘ fun ch => (noteOnCount evs ch, ch)))
        = melodicSources := by
      simp [Function.comp_def]
    rw [e] at hp
    exact hp.nodup_iff.mpr (by decide)
  have hne : (channel_activity evs).Pairwise fun a b => a.2 ≠ b.2 := by
    rw [List.Nodup, List.pairwise_map] at hnd
    exact hnd
  refine (hs.and hne).imp ?_
  rintro ⟨a1, a2⟩ ⟨b1, b2⟩ ⟨h1, h2⟩
  simp only [pairLt] at h1 h2 ⊢
  omega

theorem channel_activity_shape (evs : List MidiEvent) :
    ∃ a b c rest, channel_activity evs = a :: b :: c :: rest := by
  have hl := (channel_activity_perm evs).length_eq
  rw [List.length_map] at hl
  have h15 : melodicSources.length = 15 := rfl
  rw [h15] at hl
  match hS : channel_activity evs with
  | [] => rw [hS] at hl; simp at hl
  | [_] => rw [hS] at hl; simp at hl
  | [_, _] => rw [hS] at hl; simp at hl
  | a :: b :: c :: rest => exact ⟨a, b, c, rest, rfl⟩

/-- C5: without a user map, slot 3 (Noise) is source channel 9 and slots 0..2 are
three pairwise distinct source channels in 0..15 other than 9, in non-increasing
order of their number of note-on events with velocity above 0, and no
unselected non-percussion channel has a larger count than a selected one. -/
theorem C5_auto_channel_map (evs : List MidiEvent) :
    midi_to_uge evs none 3 = 9 ∧
    (∀ i : Fin 4, i ≠ 3 →
      0 ≤ midi_to_uge evs none i ∧ midi_to_uge evs none i ≤ 15 ∧ midi_to_uge evs none i ≠ 9) ∧
    midi_to_uge evs none 0 ≠ midi_to_uge evs none 1 ∧
    midi_to_uge evs none 0 ≠ midi_to_uge evs none 2 ∧
    midi_to_uge evs none 1 ≠ midi_to_uge evs none 2 ∧
    noteOnCount evs (midi_to_uge evs none 1) ≤ noteOnCount evs (midi_to_uge evs none 0) ∧
    noteOnCount evs (midi_to_uge evs none 2) ≤ noteOnCount evs (midi_to_uge evs none 1) ∧
    (∀ c : Int, 0 ≤ c → c ≤ 15 → c ≠ 9 →
      c ≠ midi_to_uge evs none 0 → c ≠ midi_to_uge evs none 1 → c ≠ midi_to_uge evs none 2 →
      ∀ i : Fin 4, i ≠ 3 → noteOnCount evs c ≤ noteOnCount evs (midi_to_uge evs none i)) := by
  obtain ⟨a, b, c, rest, hS⟩ := channel_activity_shape evs
  have hstrict := channel_activity_strict evs
  have hmem := mem_channel_activity evs
  rw [hS] at hstrict hmem
  have m0 : midi_to_uge evs none 0 = a.2 := by simp [midi_to_uge, hS]
  have m1 : midi_to_uge evs none 1 = b.2 := by simp [midi_to_uge, hS]
  have m2 : midi_to_uge evs none 2 = c.2 := by simp [midi_to_uge, hS]
  have m3 : midi_to_uge evs none 3 = 9 := by simp [midi_to_uge]
  have ha := (hmem a).mp (by simp)
  have hb := (hmem b).mp (by simp)
  have hc := (hmem c).mp (by simp)
  rw [List.pairwise_cons, List.pairwise_cons, List.pairwise_cons] at hstrict
  obtain ⟨pa, pb, pc, -⟩ := hstrict
  have hab := pa b (by simp)
  have hac := pa c (by simp)
  have hbc := pb c (by simp)
  beta_reduce at hab hac hbc
  have hsel : ∀ i : Fin 4, i ≠ 3 → midi_to_uge evs none i = a.2 ∨
      midi_to_uge evs none i = b.2 ∨ midi_to_uge evs none i = c.2 := by
    intro i hi
    fin_cases i
    · exact Or.inl m0
    · exact Or.inr (Or.inl m1)
    · exact Or.inr (Or.inr m2)
    · exact absurd rfl hi
  refine ⟨m3, ?_, ?_, ?_, ?_, ?_, ?_, ?_⟩
  · intro i hi
    rcases hsel i hi with h | h | h <;> rw [h]
    · exact ha.1
    · exact hb.1
    · exact hc.1
  · rw [m0, m1]
    intro h
    have : a.1 = b.1 := by rw [ha.2, hb.2, h]
    omega
  · rw [m0, m2]
    intro h
    have : a.1 = c.1 := by rw [ha.2, hc.2, h]
    omega
  · rw [m1, m2]
    intro h
    have : b.1 = c.1 := by rw [hb.2, hc.2, h]
    omega
  · rw [m0, m1, ← ha.2, ← hb.2]; omega
  · rw [m1, m2, ← hb.2, ← hc.2]; omega
  · intro d d0 d15 d9 dn0 dn1 dn2 i hi
    rw [m0] at dn0
    rw [m1] at dn1
    rw [m2] at dn2
    have hd : (noteOnCount evs d, d) ∈ a :: b :: c :: rest :=
      (hmem (noteOnCount evs d, d)).mpr ⟨⟨d0, d15, d9⟩, rfl⟩
    have hrest : (noteOnCount evs d, d) ∈ rest := by
      simp only [List.mem_cons] at hd
      rcases hd with h | h | h | h
      · exact absurd (congrArg Prod.snd h) dn0
      · exact absurd (congrArg Prod.snd h) dn1
      · exact absurd (congrArg Prod.snd h) dn2
      · exact h
    have qa := pa (noteOnCount evs d, d) (by simp [hrest])
    have qb := pb (noteOnCount evs d, d) (by simp [hrest])
    have qc := pc (noteOnCount evs d, d) hrest
    beta_reduce at qa qb qc
    rcases hsel i hi with h | h | h <;> rw [h]
    · rw [← ha.2]; omega
    · rw [← hb.2]; omega
    · rw [← hc.2]; omega

theorem C5_auto_channel_map_witness :
    midi_to_uge [⟨0, EventKind.noteOn, 4, 60, 100, 0, 0⟩] none 3 = 9 ∧
    midi_to_uge [⟨0, EventKind.noteOn, 4, 60, 100, 0, 0⟩] none 0
      ≠ midi_to_uge [⟨0, EventKind.noteOn, 4, 60, 100, 0, 0⟩] none 1 :=
  ⟨(C5_auto_channel_map _).1, (C5_auto_channel_map _).2.2.1⟩

theorem channel_activity_all_equal (evs : List MidiEvent) (n : Nat)
    (h : ∀ c : Int, 0 ≤ c → c ≤ 15 → c ≠ 9 → noteOnCount evs c = n) :
    channel_activity evs = (melodicSources.map fun ch => (n, ch)).reverse := by
  have e : (melodicSources.map fun ch => (channel_note_counts evs ch, ch))
      = melodicSources.map fun ch => (n, ch) := by
    apply List.map_congr_left
    intro ch hch
    have hc := (mem_melodicSources ch).mp hch
    rw [channel_note_counts_eq, if_pos ⟨hc.1, by omega, hc.2.2⟩, h ch hc.1 hc.2.1 hc.2.2]
  unfold channel_activity
  rw [e]
  symm
  apply sortDesc_unique
  · exact List.reverse_perm _
  · simp [melodicSources, pairLt]

/-- C6 (counterexample): with one note-on on each of the source channels 0 and 1
the two counts are equal and Duty1 receives channel 1, Duty2 channel 0; with no
events every count is 0 and the melodic slots receive the source channels
15, 14, 13, not 0, 1, 2. -/
theorem C6_counterexample :
    noteOnCount [⟨0, EventKind.noteOn, 0, 60, 100, 0, 0⟩,
      ⟨0, EventKind.noteOn, 1, 64, 100, 0, 0⟩] 0 = 1 ∧
    noteOnCount [⟨0, EventKind.noteOn, 0, 60, 100, 0, 0⟩,
      ⟨0, EventKind.noteOn, 1, 64, 100, 0, 0⟩] 1 = 1 ∧
    midi_to_uge [⟨0, EventKind.noteOn, 0, 60, 100, 0, 0⟩,
      ⟨0, EventKind.noteOn, 1, 64, 100, 0, 0⟩] none 0 = 1 ∧
    midi_to_uge [⟨0, EventKind.noteOn, 0, 60, 100, 0, 0⟩,
      ⟨0, EventKind.noteOn, 1, 64, 100, 0, 0⟩] none 1 = 0 ∧
    noteOnCount [] 15 = noteOnCount [] 0 ∧ midi_to_uge [] none 0 = 15 ∧
      midi_to_uge [] none 1 = 14 ∧ midi_to_uge [] none 2 = 13 := by
  decide

/-- C6 (amended): the ranking is strictly descending in (count, channel), so of
two non-percussion channels with equal note-on counts the one with the larger
index is ranked first; the slots Duty1, Duty2, Wave are the first three of the
ranking, and when all counts are equal they are the source channels 15, 14, 13. -/
theorem C6_tie_break_descending (evs : List MidiEvent) :
    ((channel_activity evs).Pairwise fun a b => b.1 < a.1 ∨ (b.1 = a.1 ∧ b.2 < a.2)) ∧
    (∀ p, p ∈ channel_activity evs ↔
      (0 ≤ p.2 ∧ p.2 ≤ 15 ∧ p.2 ≠ 9) ∧ p.1 = noteOnCount evs p.2) ∧
    (∀ i : Fin 4, i ≠ 3 →
      midi_to_uge evs none i = ((channel_activity evs).getD i.val (0, 0)).2) ∧
    (∀ n : Nat, (∀ c : Int, 0 ≤ c → c ≤ 15 → c ≠ 9 → noteOnCount evs c = n) →
      midi_to_uge evs none 0 = 15 ∧ midi_to_uge evs none 1 = 14 ∧
        midi_to_uge evs none 2 = 13) := by
  refine ⟨channel_activity_strict evs, mem_channel_activity evs, ?_, ?_⟩
  · intro i hi
    simp [midi_to_uge, hi]
  · intro n h
    have hall := channel_activity_all_equal evs n h
    simp [midi_to_uge, hall, melodicSources]

theorem C6_tie_break_descending_witness :
    midi_to_uge [⟨0, EventKind.noteOn, 9, 36, 100, 0, 0⟩] none 0 = 15 ∧
    midi_to_uge [⟨0, EventKind.noteOn, 9, 36, 100, 0, 0⟩] none 1 = 14 ∧
    midi_to_uge [⟨0, EventKind.noteOn, 9, 36, 100, 0, 0⟩] none 2 = 13 :=
  (C6_tie_break_descending [⟨0, EventKind.noteOn, 9, 36, 100, 0, 0⟩]).2.2.2 0 (by
    intro c _ _ h9
    simp [noteOnCount, Ne.symm h9])

/-! ## Row-grid building: frame lemmas -/

theorem mem_fillLoop (v : Row) (r n : Nat) (l : List Row) (x : Row)
    (h : x ∈ fillLoop v r n l) : x = v ∨ x ∈ l := by
  induction n generalizing r l with
  | zero => exact Or.inr h
  | succ n ih =>
    rcases ih (r + 1) (l.set r v) h with h1 | h1
    · exact Or.inl h1
    · rcases List.mem_or_eq_of_mem_set h1 with h2 | h2
      · exact Or.inr h2
      · exact Or.inl h2

theorem length_fillLoop (v : Row) (r n : Nat) (l : List Row) :
    (fillLoop v r n l).length = l.length := by
  induction n generalizing r l with
  | zero => rfl
  | succ n ih =>
    show (fillLoop v (r + 1) n (l.set r v)).length = l.length
    rw [ih, List.length_set]

theorem getElem?_fillLoop (v : Row) (r n : Nat) (l : List Row) (k : Nat) :
    (fillLoop v r n l)[k]? =
      if r ≤ k ∧ k < r + n ∧ k < l.length then some v else l[k]? := by
  induction n generalizing r l with
  | zero =>
    have : ¬ (r ≤ k ∧ k < r + 0 ∧ k < l.length) := by omega
    rw [if_neg this]
    rfl
  | succ n ih =>
    show (fillLoop v (r + 1) n (l.set r v))[k]? = _
    rw [ih, List.length_set]
    by_cases hk : r = k
    · subst hk
      have h1 : ¬ (r + 1 ≤ r ∧ r < r + 1 + n ∧ r < l.length) := by omega
      rw [if_neg h1, List.getElem?_set, if_pos rfl]
      by_cases hl : r < l.length
      · rw [if_pos hl, if_pos ⟨le_refl r, by omega, hl⟩]
      · rw [if_neg hl, if_neg (by omega), List.getElem?_eq_none (by omega)]
    · rw [List.getElem?_set_ne hk]
      by_cases hc : r + 1 ≤ k ∧ k < r + 1 + n ∧ k < l.length
      · rw [if_pos hc, if_pos (by omega)]
      · rw [if_neg hc, if_neg (by omega)]

theorem getElem?_fillRows (l : List Row) (v : Row) (a b k : Nat) :
    (fillRows l v a b)[k]? = if a ≤ k ∧ k < b ∧ k < l.length then some v else l[k]? := by
  unfold fillRows
  rw [getElem?_fillLoop]
  by_cases hc : a ≤ k ∧ k < b ∧ k < l.length
  · rw [if_pos hc, if_pos (by omega)]
  · rw [if_neg hc, if_neg (by omega)]

theorem setRow_rows_other (s : BuildState) (c h : Fin 4) (r : Nat) (v : Row) (hc : h ≠ c) :
    (setRow s c r v).channel_rows h = s.channel_rows h := by
  unfold setRow
  exact Function.update_noteq hc _ _

theorem setRow_rows_same (s : BuildState) (c : Fin 4) (r : Nat) (v : Row) :
    (setRow s c r v).channel_rows c = (s.channel_rows c).set r v := by
  unfold setRow
  exact Function.update_same _ _ _

theorem setRow_rows (s : BuildState) (c h : Fin 4) (r : Nat) (v : Row) :
    (setRow s c r v).channel_rows h
      = if h = c then (s.channel_rows h).set r v else s.channel_rows h := by
  by_cases hc : h = c
  · subst hc
    rw [if_pos rfl, setRow_rows_same]
  · rw [if_neg hc, setRow_rows_other s c h r v hc]

theorem processNoise_rows_other (s : BuildState) (ev : MidiEvent) (row tr : Nat) (h : Fin 4)
    (h3 : h ≠ 3) : (processNoise s ev row tr).channel_rows h = s.channel_rows h := by
  unfold processNoise
  split_ifs <;> simp only [setRow, Function.update_noteq h3]

theorem processNoise_active (s : BuildState) (ev : MidiEvent) (row tr : Nat) :
    (processNoise s ev row tr).active_notes = s.active_notes := by
  unfold processNoise
  split_ifs <;> rfl

theorem processNoise_length (s : BuildState) (ev : MidiEvent) (row tr : Nat) (h : Fin 4) :
    ((processNoise s ev row tr).channel_rows h).length = (s.channel_rows h).length := by
  unfold processNoise
  split_ifs <;> simp only [setRow_rows] <;> split_ifs <;> simp only [List.length_set]

theorem processNoise_mem (s : BuildState) (ev : MidiEvent) (row tr : Nat) (h : Fin 4)
    (x : Row) (hx : x ∈ (processNoise s ev row tr).channel_rows h) :
    x ∈ s.channel_rows h ∨ x = emptyRow ∨ ∃ i v, x = ⟨ev.key % 256, i, v⟩ := by
  unfold processNoise at hx
  split_ifs at hx
  · simp only [setRow_rows] at hx
    split_ifs at hx
    · rcases List.mem_or_eq_of_mem_set hx with h1 | h1
      · rcases List.mem_or_eq_of_mem_set h1 with h2 | h2
        · exact Or.inl h2
        · exact Or.inr (Or.inr ⟨_, _, h2⟩)
      · exact Or.inr (Or.inl h1)
    · exact Or.inl hx
  · simp only [setRow_rows] at hx
    split_ifs at hx
    · rcases List.mem_or_eq_of_mem_set hx with h2 | h2
      · exact Or.inl h2
      · exact Or.inr (Or.inr ⟨_, _, h2⟩)
    · exact Or.inl hx
  · exact Or.inl hx

theorem processMelodic_off_some (s : BuildState) (ev : MidiEvent) (row tr : Nat) (c : Fin 4)
    (hp : ev.kind ≠ EventKind.programChange) (hon : ¬ ev.isOn) (hoff : ev.isOff)
    (a b d : Nat) (hact : s.active_notes c ev.key = some (a, b, d)) :
    processMelodic s ev row tr c =
      { s with
        channel_rows := Function.update s.channel_rows c
          (if row < tr then
            (fillRows (s.channel_rows c) ⟨ev.key % 256, b, d % 256⟩ a (min row tr)).set row
              emptyRow
          else fillRows (s.channel_rows c) ⟨ev.key % 256, b, d % 256⟩ a (min row tr))
        active_notes := Function.update s.active_notes c
          (Function.update (s.active_notes c) ev.key none) } := by
  unfold processMelodic
  rw [if_neg hp, if_neg hon, if_pos hoff]
  simp only [hact]

theorem processMelodic_off_none (s : BuildState) (ev : MidiEvent) (row tr : Nat) (c : Fin 4)
    (hp : ev.kind ≠ EventKind.programChange) (hon : ¬ ev.isOn)
    (hact : s.active_notes c ev.key = none) :
    processMelodic s ev row tr c = s := by
  unfold processMelodic
  rw [if_neg hp, if_neg hon]
  split_ifs
  · simp only [hact]
  · rfl

theorem processMelodic_rows_not_off (s : BuildState) (ev : MidiEvent) (row tr : Nat)
    (c : Fin 4) (h : ev.kind = EventKind.programChange ∨ ev.isOn ∨ ¬ ev.isOff) :
    (processMelodic s ev row tr c).channel_rows = s.channel_rows := by
  unfold processMelodic
  by_cases hp : ev.kind = EventKind.programChange
  · rw [if_pos hp]
    split_ifs <;> rfl
  · rw [if_neg hp]
    by_cases hon : ev.isOn
    · rw [if_pos hon]
      split_ifs <;> rfl
    · have hoff : ¬ ev.isOff := by tauto
      rw [if_neg hon, if_neg hoff]

/-- The rows of channel `c` after the melodic branch. -/
theorem processMelodic_rows_same (s : BuildState) (ev : MidiEvent) (row tr : Nat) (c : Fin 4) :
    (processMelodic s ev row tr c).channel_rows c = s.channel_rows c ∨
    (ev.kind ≠ EventKind.programChange ∧ ¬ ev.isOn ∧ ev.isOff ∧
      ∃ start_row ugeInst velocity,
        s.active_notes c ev.key = some (start_row, ugeInst, velocity) ∧
        (processMelodic s ev row tr c).channel_rows c =
          if row < tr then
            (fillRows (s.channel_rows c) ⟨ev.key % 256, ugeInst, velocity % 256⟩
              start_row (min row tr)).set row emptyRow
          else
            fillRows (s.channel_rows c) ⟨ev.key % 256, ugeInst, velocity % 256⟩
              start_row (min row tr)) := by
  by_cases h : ev.kind = EventKind.programChange ∨ ev.isOn ∨ ¬ ev.isOff
  · exact Or.inl (by rw [processMelodic_rows_not_off s ev row tr c h])
  · have hp : ev.kind ≠ EventKind.programChange := fun hh => h (Or.inl hh)
    have hon : ¬ ev.isOn := fun hh => h (Or.inr (Or.inl hh))
    have hoff : ev.isOff := by
      by_contra hh
      exact h (Or.inr (Or.inr hh))
    cases hact : s.active_notes c ev.key with
    | none => exact Or.inl (by rw [processMelodic_off_none s ev row tr c hp hon hact])
    | some t =>
      obtain ⟨a, b, d⟩ := t
      right
      refine ⟨hp, hon, hoff, a, b, d, rfl, ?_⟩
      rw [processMelodic_off_some s ev row tr c hp hon hoff a b d hact]
      simp only [Function.update_same]

theorem processMelodic_rows_other (s : BuildState) (ev : MidiEvent) (row tr : Nat)
    (c h : Fin 4) (hc : h ≠ c) :
    (processMelodic s ev row tr c).channel_rows h = s.channel_rows h := by
  by_cases hk : ev.kind = EventKind.programChange ∨ ev.isOn ∨ ¬ ev.isOff
  · rw [processMelodic_rows_not_off s ev row tr c hk]
  · have hp : ev.kind ≠ EventKind.programChange := fun hh => hk (Or.inl hh)
    have hon : ¬ ev.isOn := fun hh => hk (Or.inr (Or.inl hh))
    have hoff : ev.isOff := by
      by_contra hh
      exact hk (Or.inr (Or.inr hh))
    cases hact : s.active_notes c ev.key with
    | none => rw [processMelodic_off_none s ev row tr c hp hon hact]
    | some t =>
      obtain ⟨a, b, d⟩ := t
      rw [processMelodic_off_some s ev row tr c hp hon hoff a b d hact]
      simp only [Function.update_noteq hc]

theorem processMelodic_active_other (s : BuildState) (ev : MidiEvent) (row tr : Nat)
    (c h : Fin 4) (hc : h ≠ c) :
    (processMelodic s ev row tr c).active_notes h = s.active_notes h := by
  by_cases hp : ev.kind = EventKind.programChange
  · unfold processMelodic
    rw [if_pos hp]
    split_ifs <;> rfl
  · by_cases hon : ev.isOn
    · unfold processMelodic
      rw [if_neg hp, if_pos hon]
      split_ifs <;> simp only [Function.update_noteq hc]
    · by_cases hoff : ev.isOff
      · cases hact : s.active_notes c ev.key with
        | none => rw [processMelodic_off_none s ev row tr c hp hon hact]
        | some t =>
          obtain ⟨a, b, d⟩ := t
          rw [processMelodic_off_some s ev row tr c hp hon hoff a b d hact]
          simp only [Function.update_noteq hc]
      · unfold processMelodic
        rw [if_neg hp, if_neg hon, if_neg hoff]

theorem processMelodic_length (s : BuildState) (ev : MidiEvent) (row tr : Nat) (c h : Fin 4) :
    ((processMelodic s ev row tr c).channel_rows h).length = (s.channel_rows h).length := by
  by_cases hc : h = c
  · subst hc
    rcases processMelodic_rows_same s ev row tr h with e | ⟨-, -, -, a, b, d, -, e⟩
    · rw [e]
    · rw [e]
      split_ifs
      · rw [List.length_set]
        exact length_fillLoop _ _ _ _
      · exact length_fillLoop _ _ _ _
  · rw [processMelodic_rows_other s ev row tr c h hc]

theorem processMelodic_mem (s : BuildState) (ev : MidiEvent) (row tr : Nat) (c h : Fin 4)
    (x : Row) (hx : x ∈ (processMelodic s ev row tr c).channel_rows h) :
    x ∈ s.channel_rows h ∨ x = emptyRow ∨ ∃ i v, x = ⟨ev.key % 256, i, v⟩ := by
  by_cases hc : h = c
  · subst hc
    rcases processMelodic_rows_same s ev row tr h with e | ⟨-, -, -, a, b, d, -, e⟩
    · rw [e] at hx
      exact Or.inl hx
    · rw [e] at hx
      have hfill : ∀ y, y ∈ fillRows (s.channel_rows h) ⟨ev.key % 256, b, d % 256⟩ a
          (min row tr) → y ∈ s.channel_rows h ∨ y = emptyRow ∨
            ∃ i v, y = ⟨ev.key % 256, i, v⟩ := by
        intro y hy
        rcases mem_fillLoop _ _ _ _ _ hy with h1 | h1
        · exact Or.inr (Or.inr ⟨_, _, h1⟩)
        · exact Or.inl h1
      split_ifs at hx
      · rcases List.mem_or_eq_of_mem_set hx with h1 | h1
        · exact hfill x h1
        · exact Or.inr (Or.inl h1)
      · exact hfill x hx
  · rw [processMelodic_rows_other s ev row tr c h hc] at hx
    exact Or.inl hx

theorem processChannel_skip (map : Fin 4 → Int) (tr : Nat) (ev : MidiEvent) (row : Nat)
    (s : BuildState) (c : Fin 4) (h : map c < 0 ∨ map c > 15 ∨ ev.channel ≠ map c) :
    processChannel map tr ev row s c = s := by
  unfold processChannel
  by_cases h1 : map c < 0 ∨ map c > 15
  · simp only [if_pos h1]
  · have h2 : ev.channel ≠ map c := by tauto
    simp only [if_neg h1, if_pos h2]

theorem processChannel_rows_frame (map : Fin 4 → Int) (tr : Nat) (ev : MidiEvent) (row : Nat)
    (s : BuildState) (c h : Fin 4)
    (hf : h ≠ c ∨ map h < 0 ∨ map h > 15 ∨ ev.channel ≠ map h) :
    (processChannel map tr ev row s c).channel_rows h = s.channel_rows h := by
  by_cases hc : h = c
  · subst hc
    rw [processChannel_skip map tr ev row s h (by tauto)]
  · unfold processChannel
    simp only
    split_ifs
    · rfl
    · rfl
    · rename_i h3
      exact processNoise_rows_other s ev row tr h (by rw [← h3]; exact hc)
    · exact processMelodic_rows_other s ev row tr c h hc

theorem processChannel_active_frame (map : Fin 4 → Int) (tr : Nat) (ev : MidiEvent)
    (row : Nat) (s : BuildState) (c h : Fin 4)
    (hf : h ≠ c ∨ map h < 0 ∨ map h > 15 ∨ ev.channel ≠ map h) :
    (processChannel map tr ev row s c).active_notes h = s.active_notes h := by
  by_cases hc : h = c
  · subst hc
    rw [processChannel_skip map tr ev row s h (by tauto)]
  · unfold processChannel
    simp only
    split_ifs
    · rfl
    · rfl
    · rw [processNoise_active]
    · exact processMelodic_active_other s ev row tr c h hc

theorem processChannel_length (map : Fin 4 → Int) (tr : Nat) (ev : MidiEvent) (row : Nat)
    (s : BuildState) (c h : Fin 4) :
    ((processChannel map tr ev row s c).channel_rows h).length = (s.channel_rows h).length := by
  unfold processChannel
  simp only
  split_ifs
  · rfl
  · rfl
  · exact processNoise_length s ev row tr h
  · exact processMelodic_length s ev row tr c h

theorem processChannel_mem (map : Fin 4 → Int) (tr : Nat) (ev : MidiEvent) (row : Nat)
    (s : BuildState) (c h : Fin 4) (x : Row)
    (hx : x ∈ (processChannel map tr ev row s c).channel_rows h) :
    x ∈ s.channel_rows h ∨ x = emptyRow ∨ ∃ i v, x = ⟨ev.key % 256, i, v⟩ := by
  unfold processChannel at hx
  simp only at hx
  split_ifs at hx
  · exact Or.inl hx
  · exact Or.inl hx
  · exact processNoise_mem s ev row tr h x hx
  · exact processMelodic_mem s ev row tr c h x hx

/-- The event loop body as four successive channel steps. -/
theorem processEvent_eq (map : Fin 4 → Int) (tr : Nat) (s : BuildState) (ev : MidiEvent)
    (hrow : ev.tick / TICKS_PER_ROW < tr) (hch : 0 ≤ ev.channel ∧ ev.channel ≤ 15) :
    processEvent map tr s ev =
      processChannel map tr ev (ev.tick / TICKS_PER_ROW)
        (processChannel map tr ev (ev.tick / TICKS_PER_ROW)
          (processChannel map tr ev (ev.tick / TICKS_PER_ROW)
            (processChannel map tr ev (ev.tick / TICKS_PER_ROW) s 0) 1) 2) 3 := by
  unfold processEvent
  simp only
  rw [if_neg (by omega), if_neg (by omega)]
  rfl

theorem processEvent_cases (map : Fin 4 → Int) (tr : Nat) (s : BuildState) (ev : MidiEvent) :
    processEvent map tr s ev = s ∨
    (ev.tick / TICKS_PER_ROW < tr ∧ (0 ≤ ev.channel ∧ ev.channel ≤ 15) ∧
      processEvent map tr s ev =
        processChannel map tr ev (ev.tick / TICKS_PER_ROW)
          (processChannel map tr ev (ev.tick / TICKS_PER_ROW)
            (processChannel map tr ev (ev.tick / TICKS_PER_ROW)
              (processChannel map tr ev (ev.tick / TICKS_PER_ROW) s 0) 1) 2) 3) := by
  by_cases hrow : ev.tick / TICKS_PER_ROW < tr
  · by_cases hch : 0 ≤ ev.channel ∧ ev.channel ≤ 15
    · exact Or.inr ⟨hrow, hch, processEvent_eq map tr s ev hrow hch⟩
    · left
      unfold processEvent
      simp only
      rw [if_neg (by omega), if_pos (by omega)]
  · left
    unfold processEvent
    simp only
    rw [if_pos (by omega)]

theorem processEvent_rows_frame (map : Fin 4 → Int) (tr : Nat) (s : BuildState)
    (ev : MidiEvent) (h : Fin 4) (hf : map h < 0 ∨ map h > 15 ∨ ev.channel ≠ map h) :
    (processEvent map tr s ev).channel_rows h = s.channel_rows h ∧
      (processEvent map tr s ev).active_notes h = s.active_notes h := by
  rcases processEvent_cases map tr s ev with e | ⟨-, -, e⟩
  · rw [e]
    exact ⟨rfl, rfl⟩
  · rw [e]
    constructor
    · rw [processChannel_rows_frame _ _ _ _ _ _ _ (Or.inr hf),
        processChannel_rows_frame _ _ _ _ _ _ _ (Or.inr hf),
        processChannel_rows_frame _ _ _ _ _ _ _ (Or.inr hf),
        processChannel_rows_frame _ _ _ _ _ _ _ (Or.inr hf)]
    · rw [processChannel_active_frame _ _ _ _ _ _ _ (Or.inr hf),
        processChannel_active_frame _ _ _ _ _ _ _ (Or.inr hf),
        processChannel_active_frame _ _ _ _ _ _ _ (Or.inr hf),
        processChannel_active_frame _ _ _ _ _ _ _ (Or.inr hf)]

theorem processEvent_length (map : Fin 4 → Int) (tr : Nat) (s : BuildState) (ev : MidiEvent)
    (h : Fin 4) :
    ((processEvent map tr s ev).channel_rows h).length = (s.channel_rows h).length := by
  rcases processEvent_cases map tr s ev with e | ⟨-, -, e⟩
  · rw [e]
  · rw [e, processChannel_length, processChannel_length, processChannel_length,
      processChannel_length]

theorem processEvent_mem (map : Fin 4 → Int) (tr : Nat) (s : BuildState) (ev : MidiEvent)
    (h : Fin 4) (x : Row) (hx : x ∈ (processEvent map tr s ev).channel_rows h) :
    x ∈ s.channel_rows h ∨ x = emptyRow ∨ ∃ i v, x = ⟨ev.key % 256, i, v⟩ := by
  rcases processEvent_cases map tr s ev with e | ⟨-, -, e⟩
  · rw [e] at hx
    exact Or.inl hx
  · rw [e] at hx
    rcases processChannel_mem _ _ _ _ _ _ _ _ hx with h3 | h3
    · rcases processChannel_mem _ _ _ _ _ _ _ _ h3 with h2 | h2
      · rcases processChannel_mem _ _ _ _ _ _ _ _ h2 with h1 | h1
        · exact processChannel_mem _ _ _ _ _ _ _ _ h1
        · exact Or.inr h1
      · exact Or.inr h2
    · exact Or.inr h3

/-! ## Invariants of the whole run -/

theorem foldl_invariant {σ α : Type} (P : σ → Prop) (step : σ → α → σ) (l : List α)
    (init : σ) (h0 : P init) (hstep : ∀ s, ∀ a ∈ l, P s → P (step s a)) :
    P (l.foldl step init) := by
  induction l generalizing init with
  | nil => exact h0
  | cons a as ih =>
    apply ih
    · exact hstep init a (List.mem_cons_self a as) h0
    · intro s b hb hs
      exact hstep s b (List.mem_cons_of_mem a hb) hs

theorem buildGrid_length (map : Fin 4 → Int) (tr : Nat) (evs : List MidiEvent) (h : Fin 4) :
    ((buildGrid map tr evs).channel_rows h).length = tr := by
  unfold buildGrid
  refine foldl_invariant (fun s : BuildState => (s.channel_rows h).length = tr) _ _ _ ?_ ?_
  · simp [initState]
  · intro s ev _ hs
    rw [processEvent_length, hs]

/-- Every row of the grid is empty or carries the key of an event of the input. -/
theorem buildGrid_rows (map : Fin 4 → Int) (tr : Nat) (evs : List MidiEvent) (h : Fin 4)
    (x : Row) (hx : x ∈ (buildGrid map tr evs).channel_rows h) :
    x = emptyRow ∨ ∃ e ∈ evs, x.note = e.key % 256 := by
  have key : ∀ h, ∀ x ∈ (buildGrid map tr evs).channel_rows h,
      x = emptyRow ∨ ∃ e ∈ evs, x.note = e.key % 256 := by
    unfold buildGrid
    refine foldl_invariant (fun s : BuildState => ∀ h, ∀ x ∈ s.channel_rows h,
      x = emptyRow ∨ ∃ e ∈ evs, x.note = e.key % 256) _ _ _ ?_ ?_
    · intro h x hx
      simp only [initState] at hx
      exact Or.inl (List.eq_of_mem_replicate hx)
    · intro s ev hev hs h x hx
      rcases processEvent_mem map tr s ev h x hx with h1 | h1 | ⟨i, v, h1⟩
      · exact hs h x h1
      · exact Or.inl h1
      · exact Or.inr ⟨ev, hev, by rw [h1]⟩
  exact key h x hx

theorem buildGrid_unmapped (map : Fin 4 → Int) (tr : Nat) (evs : List MidiEvent) (h : Fin 4)
    (hm : map h < 0 ∨ map h > 15) :
    (buildGrid map tr evs).channel_rows h = List.replicate tr emptyRow := by
  unfold buildGrid
  refine foldl_invariant (fun s : BuildState => s.channel_rows h = List.replicate tr emptyRow)
    _ _ _ ?_ ?_
  · rfl
  · intro s ev _ hs
    rw [(processEvent_rows_frame map tr s ev h (by tauto)).1, hs]

theorem getD_mem_or (l : List Row) (n : Nat) (d : Row) : l.getD n d ∈ l ∨ l.getD n d = d := by
  by_cases hn : n < l.length
  · left
    rw [List.getD_eq_getElem l d hn]
    exact List.getElem_mem hn
  · right
    exact List.getD_eq_default l d (by omega)

/-! ## Pattern emission -/

theorem emitBlock_patterns (hasher : List Nat → Nat) (rows : Fin 4 → List Row) (tr : Nat)
    (ch : Fin 4) (st : EmitState) (pat : Nat) (p : UgePattern)
    (hp : p ∈ (emitBlock hasher rows tr ch st pat).patterns) :
    p ∈ st.patterns ∨ p = buildPattern st.new_pattern_idx rows tr ch pat := by
  unfold emitBlock at hp
  simp only at hp
  split at hp
  · exact Or.inl hp
  · simp only [List.mem_append, List.mem_singleton] at hp
    exact hp

theorem emitPatterns_patterns (hasher : List Nat → Nat) (rows : Fin 4 → List Row) (tr : Nat)
    (start_pattern num : Nat) (p : UgePattern)
    (hp : p ∈ (emitPatterns hasher rows tr start_pattern num).patterns) :
    ∃ idx ch pat, p = buildPattern idx rows tr ch pat := by
  have key : ∀ p ∈ (emitPatterns hasher rows tr start_pattern num).patterns,
      ∃ idx ch pat, p = buildPattern idx rows tr ch pat := by
    unfold emitPatterns
    refine foldl_invariant (fun st : EmitState => ∀ p ∈ st.patterns,
      ∃ idx ch pat, p = buildPattern idx rows tr ch pat) _ _ _ ?_ ?_
    · intro p hp
      simp at hp
    · intro st ch _ hst
      unfold emitChannel
      refine foldl_invariant (fun st : EmitState => ∀ p ∈ st.patterns,
        ∃ idx ch pat, p = buildPattern idx rows tr ch pat) _ _ _ ?_ ?_
      · exact hst
      · intro st2 pat _ hst2 p hp
        rcases emitBlock_patterns hasher rows tr ch st2 pat p hp with h1 | h1
        · exact hst2 p h1
        · exact ⟨_, _, _, h1⟩
  exact key p hp

/-- Every row of an emitted pattern copies note and instrument of one song row of
one channel, or is the padding `(UGE_EMPTY_NOTE, 0)`; effect fields are 0. -/
theorem buildPattern_rows (idx : Nat) (rows : Fin 4 → List Row) (tr : Nat) (ch : Fin 4)
    (pat : Nat) (r : UgePatternRow) (hr : r ∈ (buildPattern idx rows tr ch pat).rows) :
    ((∃ x ∈ rows ch, r.note = x.note ∧ r.instrument = x.instrument % 256) ∨
      (r.note = UGE_EMPTY_NOTE ∧ r.instrument = 0)) ∧
    r.unused1 = 0 ∧ r.effect = 0 ∧ r.effect_param = 0 := by
  unfold buildPattern at hr
  simp only [List.mem_map] at hr
  obtain ⟨row, -, rfl⟩ := hr
  refine ⟨?_, rfl, rfl, rfl⟩
  simp only [songNote, songInst]
  split_ifs
  · rcases getD_mem_or (rows ch) (pat * UGE_PATTERN_ROWS + row) emptyRow with h1 | h1
    · exact Or.inl ⟨_, h1, rfl, rfl⟩
    · right
      rw [h1]
      exact ⟨rfl, rfl⟩
  · exact Or.inr ⟨rfl, rfl⟩

/-! ## Claims on the row grid -/

/-- C8 (counterexample): a percussion note-on with key 100 (a key number in
0..127) is stored unchanged: row 0 of the Noise channel and of its emitted
pattern holds note 100, which is neither in 0..89 nor the sentinel 90. -/
theorem C8_counterexample :
    (convertMidiToUge (fun _ => 0) 24 [⟨0, EventKind.noteOn, 9, 100, 100, 0, 0⟩]
      none).grid.channel_rows 3 = [⟨100, 0, 100⟩] ∧
    ((convertMidiToUge (fun _ => 0) 24 [⟨0, EventKind.noteOn, 9, 100, 100, 0, 0⟩]
      none).patterns[3]?.bind fun p => p.rows[0]?) = some ⟨100, 0, 0, 0, 0⟩ ∧
    ¬ (100 ≤ 89) ∧ 100 ≠ UGE_EMPTY_NOTE := by
  decide

/-- C8 (amended): for every event sequence with key numbers in 0..127 and every
channel map, every row of every hardware channel's row grid and every row of
every emitted pattern holds a note value in 0..127 that is either the sentinel
90 or the unchanged key number of an event of the input. -/
theorem C8_row_notes (hasher : List Nat → Nat) (tpq : Int) (evs : List MidiEvent)
    (um : Option (Fin 4 → Int)) (hkeys : ∀ e ∈ evs, e.key ≤ 127) :
    (∀ h : Fin 4, ∀ x ∈ (convertMidiToUge hasher tpq evs um).grid.channel_rows h,
      x.note ≤ 127 ∧ (x.note = UGE_EMPTY_NOTE ∨ ∃ e ∈ evs, x.note = e.key)) ∧
    (∀ p ∈ (convertMidiToUge hasher tpq evs um).patterns, ∀ r ∈ p.rows,
      r.note ≤ 127 ∧ (r.note = UGE_EMPTY_NOTE ∨ ∃ e ∈ evs, r.note = e.key)) := by
  have grid : ∀ h : Fin 4,
      ∀ x ∈ (buildGrid (midi_to_uge evs um) (total_rows evs) evs).channel_rows h,
      x.note ≤ 127 ∧ (x.note = UGE_EMPTY_NOTE ∨ ∃ e ∈ evs, x.note = e.key) := by
    intro h x hx
    rcases buildGrid_rows _ _ _ h x hx with h1 | ⟨e, he, h1⟩
    · rw [h1]
      exact ⟨by decide, Or.inl rfl⟩
    · have hk := hkeys e he
      have h2 : x.note = e.key := by rw [h1]; omega
      exact ⟨by omega, Or.inr ⟨e, he, h2⟩⟩
  refine ⟨grid, ?_⟩
  intro p hp r hr
  obtain ⟨idx, ch, pat, rfl⟩ := emitPatterns_patterns _ _ _ _ _ p hp
  rcases (buildPattern_rows _ _ _ _ _ r hr).1 with ⟨x, hx, h1, -⟩ | ⟨h1, -⟩
  · rw [h1]
    exact grid ch x hx
  · rw [h1]
    exact ⟨by decide, Or.inl rfl⟩

theorem C8_row_notes_witness :
    (⟨100, 0, 100⟩ : Row).note ≤ 127 ∧ ((⟨100, 0, 100⟩ : Row).note = UGE_EMPTY_NOTE ∨
      ∃ e ∈ [(⟨0, EventKind.noteOn, 9, 100, 100, 0, 0⟩ : MidiEvent)],
        (⟨100, 0, 100⟩ : Row).note = e.key) :=
  (C8_row_notes (fun _ => 0) 24 [⟨0, EventKind.noteOn, 9, 100, 100, 0, 0⟩] none
    (by decide)).1 3 ⟨100, 0, 100⟩ (by decide)

/-- C9 (counterexample): percussion key 90 is stored as note 90, the value of the
sentinel; as the second percussion key it gets instrument 1, so row 2 of the
Noise channel holds (90, 1, 100) and the emitted pattern row holds note 90 with
instrument 1. -/
theorem C9_counterexample :
    (convertMidiToUge (fun _ => 0) 24
      [⟨0, EventKind.noteOn, 9, 36, 100, 0, 0⟩, ⟨12, EventKind.noteOn, 9, 90, 100, 0, 0⟩]
      none).grid.channel_rows 3 = [⟨36, 0, 100⟩, ⟨90, 0, 0⟩, ⟨90, 1, 100⟩] ∧
    ((convertMidiToUge (fun _ => 0) 24
      [⟨0, EventKind.noteOn, 9, 36, 100, 0, 0⟩, ⟨12, EventKind.noteOn, 9, 90, 100, 0, 0⟩]
      none).patterns[3]?.bind fun p => p.rows[2]?) = some ⟨90, 1, 0, 0, 0⟩ ∧
    UGE_EMPTY_NOTE = 90 := by
  decide

/-- C9 (amended): for every event sequence in which no event has key number 90
and every channel map, every row of the row grid whose note is the sentinel 90
is `(90, 0, 0)`, and every row of every emitted pattern whose note is 90 has
instrument 0. -/
theorem C9_empty_rows (hasher : List Nat → Nat) (tpq : Int) (evs : List MidiEvent)
    (um : Option (Fin 4 → Int)) (hkeys : ∀ e ∈ evs, e.key % 256 ≠ UGE_EMPTY_NOTE) :
    (∀ h : Fin 4, ∀ x ∈ (convertMidiToUge hasher tpq evs um).grid.channel_rows h,
      x.note = UGE_EMPTY_NOTE → x.instrument = 0 ∧ x.velocity = 0) ∧
    (∀ p ∈ (convertMidiToUge hasher tpq evs um).patterns, ∀ r ∈ p.rows,
      r.note = UGE_EMPTY_NOTE → r.instrument = 0) := by
  have grid : ∀ h : Fin 4,
      ∀ x ∈ (buildGrid (midi_to_uge evs um) (total_rows evs) evs).channel_rows h,
      x.note = UGE_EMPTY_NOTE → x.instrument = 0 ∧ x.velocity = 0 := by
    intro h x hx hn
    rcases buildGrid_rows _ _ _ h x hx with h1 | ⟨e, he, h1⟩
    · rw [h1]
      exact ⟨rfl, rfl⟩
    · exact absurd (h1 ▸ hn) (hkeys e he)
  refine ⟨grid, ?_⟩
  intro p hp r hr hn
  obtain ⟨idx, ch, pat, rfl⟩ := emitPatterns_patterns _ _ _ _ _ p hp
  rcases (buildPattern_rows _ _ _ _ _ r hr).1 with ⟨x, hx, h1, h2⟩ | ⟨-, h2⟩
  · rw [h2, (grid ch x hx (h1 ▸ hn)).1]
  · exact h2

theorem C9_empty_rows_witness :
    (⟨90, 0, 0⟩ : Row) ∈ (convertMidiToUge (fun _ => 0) 24
      [⟨0, EventKind.noteOn, 0, 60, 100, 0, 0⟩, ⟨24, EventKind.noteOff, 0, 60, 0, 0, 0⟩]
      none).grid.channel_rows 0 ∧
    (⟨90, 0, 0⟩ : Row).instrument = 0 ∧ (⟨90, 0, 0⟩ : Row).velocity = 0 :=
  ⟨by decide, (C9_empty_rows (fun _ => 0) 24
    [⟨0, EventKind.noteOn, 0, 60, 100, 0, 0⟩, ⟨24, EventKind.noteOff, 0, 60, 0, 0, 0⟩] none
    (by decide)).1 0 ⟨90, 0, 0⟩ (by decide) rfl⟩

/-! ## Note-off on a melodic channel -/

theorem isOff_not_isOn (ev : MidiEvent) (h : ev.isOff) :
    ¬ ev.isOn ∧ ev.kind ≠ EventKind.programChange := by
  rcases h with h | ⟨h, hv⟩
  · constructor
    · rintro ⟨h2, -⟩
      rw [h] at h2
      exact absurd h2 (by decide)
    · rw [h]
      decide
  · constructor
    · rintro ⟨-, h2⟩
      omega
    · rw [h]
      decide

theorem foldl_processChannel_frame (map : Fin 4 → Int) (tr : Nat) (ev : MidiEvent) (row : Nat)
    (h : Fin 4) (l : List (Fin 4)) (hl : h ∉ l) (s : BuildState) :
    (l.foldl (processChannel map tr ev row) s).channel_rows h = s.channel_rows h ∧
      (l.foldl (processChannel map tr ev row) s).active_notes h = s.active_notes h := by
  induction l generalizing s with
  | nil => exact ⟨rfl, rfl⟩
  | cons c cs ih =>
    have hc : h ≠ c := fun e => hl (e ▸ List.mem_cons_self c cs)
    have hcs : h ∉ cs := fun e => hl (List.mem_cons_of_mem c e)
    have := ih hcs (processChannel map tr ev row s c)
    rw [List.foldl_cons, this.1, this.2,
      processChannel_rows_frame map tr ev row s c h (Or.inl hc),
      processChannel_active_frame map tr ev row s c h (Or.inl hc)]
    exact ⟨rfl, rfl⟩

theorem processChannel_off_rows (map : Fin 4 → Int) (tr : Nat) (ev : MidiEvent) (row : Nat)
    (s : BuildState) (c : Fin 4) (hc : c ≠ 3) (hmap : map c = ev.channel)
    (hch : 0 ≤ ev.channel ∧ ev.channel ≤ 15) (hoff : ev.isOff) (a b d : Nat)
    (hact : s.active_notes c ev.key = some (a, b, d)) :
    (processChannel map tr ev row s c).channel_rows c =
      if row < tr then
        (fillRows (s.channel_rows c) ⟨ev.key % 256, b, d % 256⟩ a (min row tr)).set row emptyRow
      else fillRows (s.channel_rows c) ⟨ev.key % 256, b, d % 256⟩ a (min row tr) := by
  unfold processChannel
  simp only
  rw [if_neg (by omega), if_neg (by rw [hmap]; exact fun hh => hh rfl), if_neg hc,
    processMelodic_off_some s ev row tr c (isOff_not_isOn ev hoff).2 (isOff_not_isOn ev hoff).1
      hoff a b d hact]
  simp only [Function.update_same]

theorem split_channels (h : Fin 4) :
    ∃ pre post : List (Fin 4), ([0, 1, 2, 3] : List (Fin 4)) = pre ++ h :: post ∧
      h ∉ pre ∧ h ∉ post := by
  fin_cases h
  · exact ⟨[], [1, 2, 3], rfl, by decide, by decide⟩
  · exact ⟨[0], [2, 3], rfl, by decide, by decide⟩
  · exact ⟨[0, 1], [3], rfl, by decide, by decide⟩
  · exact ⟨[0, 1, 2], [], rfl, by decide, by decide⟩

theorem processEvent_off_rows (map : Fin 4 → Int) (tr : Nat) (s : BuildState) (ev : MidiEvent)
    (h : Fin 4) (hh : h ≠ 3) (hmap : map h = ev.channel)
    (hch : 0 ≤ ev.channel ∧ ev.channel ≤ 15) (hoff : ev.isOff) (a b d : Nat)
    (hact : s.active_notes h ev.key = some (a, b, d))
    (hrow : ev.tick / TICKS_PER_ROW < tr) :
    (processEvent map tr s ev).channel_rows h =
      (fillRows (s.channel_rows h) ⟨ev.key % 256, b, d % 256⟩ a
        (min (ev.tick / TICKS_PER_ROW) tr)).set (ev.tick / TICKS_PER_ROW) emptyRow := by
  obtain ⟨pre, post, hsplit, hpre, hpost⟩ := split_channels h
  unfold processEvent
  simp only
  rw [if_neg (by omega), if_neg (by omega), hsplit, List.foldl_append, List.foldl_cons,
    (foldl_processChannel_frame map tr ev _ h post hpost _).1]
  have hf := foldl_processChannel_frame map tr ev (ev.tick / TICKS_PER_ROW) h pre hpre s
  rw [processChannel_off_rows map tr ev _ _ h hh hmap hch hoff a b d (by rw [hf.2]; exact hact),
    if_pos hrow, hf.1]

/-- A melodic note-on records the held note `(row, instrument, velocity)` under its key;
it writes no row. -/
theorem processMelodic_on (s : BuildState) (ev : MidiEvent) (row tr : Nat) (c : Fin 4)
    (hon : ev.isOn) :
    (∃ inst, (processMelodic s ev row tr c).active_notes c ev.key
      = some (row, inst, ev.velocity)) ∧
    (processMelodic s ev row tr c).channel_rows = s.channel_rows := by
  have hp : ev.kind ≠ EventKind.programChange := by
    rw [hon.1]
    decide
  refine ⟨?_, processMelodic_rows_not_off s ev row tr c (Or.inr (Or.inl hon))⟩
  unfold processMelodic
  rw [if_neg hp, if_pos hon]
  split_ifs
  · refine ⟨((tableAssign s.midiProgToUgeWaveInst s.nextUgeWaveInst UGE_NUM_WAVE
      (s.channelProgram ev.channel)).1.lookup (s.channelProgram ev.channel)).getD 0, ?_⟩
    simp only [Function.update_same]
  · refine ⟨((tableAssign s.midiProgToUgeInst s.nextUgeInst UGE_NUM_DUTY
      (s.channelProgram ev.channel)).1.lookup (s.channelProgram ev.channel)).getD 0, ?_⟩
    simp only [Function.update_same]

/-- C10 (counterexample): with the user map (0, 0, -1, -1) both Duty channels are
bound to source channel 0; the note-off at row 2 for the note held on Duty1
since row 0 also rewrites rows 0 and 1 of Duty2. -/
theorem C10_counterexample :
    (buildGrid
      (midi_to_uge [⟨0, EventKind.noteOn, 0, 60, 100, 0, 0⟩,
        ⟨12, EventKind.noteOff, 0, 60, 0, 0, 0⟩] (some fun i => if i = 0 ∨ i = 1 then 0 else -1))
      (total_rows [⟨0, EventKind.noteOn, 0, 60, 100, 0, 0⟩,
        ⟨12, EventKind.noteOff, 0, 60, 0, 0, 0⟩])
      [⟨0, EventKind.noteOn, 0, 60, 100, 0, 0⟩]).active_notes 0 60 = some (0, 0, 100) ∧
    (buildGrid
      (midi_to_uge [⟨0, EventKind.noteOn, 0, 60, 100, 0, 0⟩,
        ⟨12, EventKind.noteOff, 0, 60, 0, 0, 0⟩] (some fun i => if i = 0 ∨ i = 1 then 0 else -1))
      (total_rows [⟨0, EventKind.noteOn, 0, 60, 100, 0, 0⟩,
        ⟨12, EventKind.noteOff, 0, 60, 0, 0, 0⟩])
      [⟨0, EventKind.noteOn, 0, 60, 100, 0, 0⟩]).channel_rows 1
      = [⟨90, 0, 0⟩, ⟨90, 0, 0⟩, ⟨90, 0, 0⟩] ∧
    (buildGrid
      (midi_to_uge [⟨0, EventKind.noteOn, 0, 60, 100, 0, 0⟩,
        ⟨12, EventKind.noteOff, 0, 60, 0, 0, 0⟩] (some fun i => if i = 0 ∨ i = 1 then 0 else -1))
      (total_rows [⟨0, EventKind.noteOn, 0, 60, 100, 0, 0⟩,
        ⟨12, EventKind.noteOff, 0, 60, 0, 0, 0⟩])
      ([⟨0, EventKind.noteOn, 0, 60, 100, 0, 0⟩] ++
        [⟨12, EventKind.noteOff, 0, 60, 0, 0, 0⟩])).channel_rows 1
      = [⟨60, 0, 100⟩, ⟨60, 0, 100⟩, ⟨90, 0, 0⟩] := by
  decide

theorem foldl_max_tick (l : List MidiEvent) (init : Nat) :
    init ≤ l.foldl (fun m ev => max m ev.tick) init ∧
      ∀ ev ∈ l, ev.tick ≤ l.foldl (fun m ev => max m ev.tick) init := by
  induction l generalizing init with
  | nil => exact ⟨le_refl _, fun _ h => absurd h (List.not_mem_nil _)⟩
  | cons a as ih =>
    have h := ih (max init a.tick)
    rw [List.foldl_cons]
    constructor
    · exact le_trans (le_max_left _ _) h.1
    · intro ev hev
      rcases List.mem_cons.mp hev with rfl | hev
      · exact le_trans (le_max_right _ _) h.1
      · exact h.2 ev hev

/-- Every event of the input falls on a row inside the grid. -/
theorem row_lt_total_rows (evs : List MidiEvent) (ev : MidiEvent) (hev : ev ∈ evs) :
    ev.tick / TICKS_PER_ROW < total_rows evs := by
  have h := (foldl_max_tick evs 0).2 ev hev
  unfold total_rows max_tick
  exact Nat.lt_succ_of_le (Nat.div_le_div_right h)

theorem note_off_fill_state (map : Fin 4 → Int) (tr : Nat) (s : BuildState) (ev : MidiEvent)
    (h : Fin 4) (k i v start : Nat) (hh : h ≠ 3) (hmap : map h = ev.channel)
    (hch : 0 ≤ ev.channel ∧ ev.channel ≤ 15) (hoff : ev.isOff) (hkey : ev.key = k)
    (hk : k ≤ 127) (hv : v ≤ 127) (hact : s.active_notes h k = some (start, i, v))
    (hrow : ev.tick / TICKS_PER_ROW < tr) (hlen : (s.channel_rows h).length = tr) :
    (∀ r, start ≤ r → r < ev.tick / TICKS_PER_ROW →
      ((processEvent map tr s ev).channel_rows h)[r]? = some ⟨k, i, v⟩) ∧
    ((processEvent map tr s ev).channel_rows h)[ev.tick / TICKS_PER_ROW]? = some emptyRow ∧
    (∀ r, ¬ (start ≤ r ∧ r < ev.tick / TICKS_PER_ROW) → r ≠ ev.tick / TICKS_PER_ROW →
      ((processEvent map tr s ev).channel_rows h)[r]? = (s.channel_rows h)[r]?) ∧
    (∀ c : Fin 4, c ≠ h → map c ≠ ev.channel →
      (processEvent map tr s ev).channel_rows c = s.channel_rows c) := by
  subst hkey
  have hrows := processEvent_off_rows map tr s ev h hh hmap hch hoff start i v hact hrow
  have hk2 : ev.key % 256 = ev.key := by omega
  have hv2 : v % 256 = v := by omega
  rw [hk2, hv2] at hrows
  refine ⟨?_, ?_, ?_, ?_⟩
  · intro r h1 h2
    rw [hrows, List.getElem?_set_ne (by omega), getElem?_fillRows,
      if_pos ⟨h1, by omega, by omega⟩]
  · rw [hrows, List.getElem?_set_self]
    unfold fillRows
    rw [length_fillLoop]
    omega
  · intro r h1 h2
    rw [hrows, List.getElem?_set_ne (Ne.symm h2), getElem?_fillRows, if_neg (by omega)]
  · intro c _ hc
    exact (processEvent_rows_frame map tr s ev c (Or.inr (Or.inr (Ne.symm hc)))).1

theorem buildGrid_snoc (map : Fin 4 → Int) (tr : Nat) (pre : List MidiEvent) (ev : MidiEvent) :
    buildGrid map tr (pre ++ [ev]) = processEvent map tr (buildGrid map tr pre) ev := by
  unfold buildGrid
  rw [List.foldl_append]
  rfl

/-- C10 (amended): in a run over `evs = pre ++ ev :: post`, on a melodic hardware
channel `h` bound to the source channel of `ev`, when after `pre` the note
`(start, i, v)` is held for key `k` and `ev` is a note-off or a zero-velocity
note-on for `k` at row `e = tick div 6`, then immediately after `ev` every row `r`
with `start ≤ r < e` holds `(k, i, v)`, row `e` holds `(UGE_EMPTY_NOTE, 0, 0)`, every
other row of channel `h` is unchanged, and all rows of every other hardware
channel that is not bound to the same source channel are unchanged. -/
theorem C10_note_off_fill (evs pre post : List MidiEvent) (ev : MidiEvent)
    (um : Option (Fin 4 → Int)) (h : Fin 4) (k i v start : Nat)
    (hevs : evs = pre ++ ev :: post) (hh : h ≠ 3) (hmap : midi_to_uge evs um h = ev.channel)
    (hch : 0 ≤ ev.channel ∧ ev.channel ≤ 15) (hoff : ev.isOff) (hkey : ev.key = k)
    (hk : k ≤ 127) (hv : v ≤ 127)
    (hact : (buildGrid (midi_to_uge evs um) (total_rows evs) pre).active_notes h k
      = some (start, i, v)) :
    (∀ r, start ≤ r → r < ev.tick / TICKS_PER_ROW →
      ((buildGrid (midi_to_uge evs um) (total_rows evs) (pre ++ [ev])).channel_rows h)[r]?
        = some ⟨k, i, v⟩) ∧
    ((buildGrid (midi_to_uge evs um) (total_rows evs) (pre ++ [ev])).channel_rows h)[
      ev.tick / TICKS_PER_ROW]? = some emptyRow ∧
    (∀ r, ¬ (start ≤ r ∧ r < ev.tick / TICKS_PER_ROW) → r ≠ ev.tick / TICKS_PER_ROW →
      ((buildGrid (midi_to_uge evs um) (total_rows evs) (pre ++ [ev])).channel_rows h)[r]?
        = ((buildGrid (midi_to_uge evs um) (total_rows evs) pre).channel_rows h)[r]?) ∧
    (∀ c : Fin 4, c ≠ h → midi_to_uge evs um c ≠ ev.channel →
      (buildGrid (midi_to_uge evs um) (total_rows evs) (pre ++ [ev])).channel_rows c
        = (buildGrid (midi_to_uge evs um) (total_rows evs) pre).channel_rows c) := by
  have hrow : ev.tick / TICKS_PER_ROW < total_rows evs :=
    row_lt_total_rows evs ev (by rw [hevs]; simp)
  rw [buildGrid_snoc]
  exact note_off_fill_state _ _ _ ev h k i v start hh hmap hch hoff hkey hk hv hact hrow
    (buildGrid_length _ _ _ h)

theorem C10_note_off_fill_witness :
    ((buildGrid
      (midi_to_uge [⟨0, EventKind.noteOn, 0, 60, 100, 0, 0⟩,
        ⟨24, EventKind.noteOff, 0, 60, 0, 0, 0⟩] none)
      (total_rows [⟨0, EventKind.noteOn, 0, 60, 100, 0, 0⟩,
        ⟨24, EventKind.noteOff, 0, 60, 0, 0, 0⟩])
      ([⟨0, EventKind.noteOn, 0, 60, 100, 0, 0⟩] ++
        [⟨24, EventKind.noteOff, 0, 60, 0, 0, 0⟩])).channel_rows 0)[24 / TICKS_PER_ROW]?
      = some emptyRow :=
  (C10_note_off_fill
    [⟨0, EventKind.noteOn, 0, 60, 100, 0, 0⟩, ⟨24, EventKind.noteOff, 0, 60, 0, 0, 0⟩]
    [⟨0, EventKind.noteOn, 0, 60, 100, 0, 0⟩] []
    ⟨24, EventKind.noteOff, 0, 60, 0, 0, 0⟩ none 0 60 0 100 0 rfl (by decide) (by decide)
    (by decide) (by decide) rfl (by decide) (by decide) (by decide)).2.1

/-! ## Instrument volume -/

theorem velocityToVolume_mono (v w : Nat) (h : v ≤ w) :
    velocityToVolume v ≤ velocityToVolume w := by
  unfold velocityToVolume
  have h1 : (v * 15 + 63) / 127 ≤ (w * 15 + 63) / 127 :=
    Nat.div_le_div_right (by omega)
  omega

theorem velocityToVolume_range (v : Nat) :
    1 ≤ velocityToVolume v ∧ velocityToVolume v ≤ 15 := by
  unfold velocityToVolume
  omega

/-- Rounding `15 v / 127` to the nearest integer is `(15 v + 63) div 127`. -/
theorem floor_volume (v : Nat) :
    ⌊((v : ℚ) * 15 / 127 + 1 / 2)⌋ = (((v * 15 + 63) / 127 : Nat) : ℤ) := by
  rw [Int.floor_eq_iff]
  have h1 := Nat.div_add_mod (v * 15 + 63) 127
  have h2 := Nat.mod_lt (v * 15 + 63) (show 127 > 0 by norm_num)
  generalize (v * 15 + 63) / 127 = q at *
  generalize (v * 15 + 63) % 127 = r at *
  have h3 : ((v : ℚ) * 15 + 63) = 127 * q + r := by exact_mod_cast h1.symm
  have h4 : (r : ℚ) < 127 := by exact_mod_cast h2
  have h5 : (r : ℚ) ≤ 126 := by
    have : r ≤ 126 := by omega
    exact_mod_cast this
  have h6 : (0 : ℚ) ≤ r := by positivity
  have h7 : (v : ℚ) * 15 / 127 + 1 / 2 = q + (r + 1 / 2) / 127 := by
    field_simp
    linarith
  rw [h7]
  push_cast
  constructor
  · have : (0 : ℚ) ≤ (r + 1 / 2) / 127 := by positivity
    linarith
  · have : ((r : ℚ) + 1 / 2) / 127 < 1 := by
      rw [div_lt_one (by norm_num)]
      linarith
    linarith

theorem velocityToVolume_eq (v : Nat) :
    ((velocityToVolume v : Nat) : ℤ) = max 1 (min 15 ⌊((v : ℚ) * 15 / 127 + 1 / 2)⌋) := by
  rw [floor_volume]
  unfold velocityToVolume
  push_cast
  rfl

theorem specVolume_34 : specVolume 34 = 5 := by
  unfold specVolume
  have : ⌊(((34 : Nat) : ℚ) * 15 / 127 + 1 / 2) + 1 / 2⌋ = 5 := by
    rw [Int.floor_eq_iff]
    norm_num
  rw [this]
  rfl


theorem instVolume_le (mv : Option Nat) : instVolume mv ≤ 15 := by
  unfold instVolume
  cases mv with
  | none => exact le_refl _
  | some v => exact (velocityToVolume_range v).2

theorem bank_getElem {α : Type} (f : Nat → α) (i : Nat) (hi : i < 15) :
    ((List.range 15).map f)[i]? = some (f i) := by
  rw [List.getElem?_map, List.getElem?_range hi]
  rfl

theorem dutyInstrument_volume (grid : BuildState) (lens : LengthState) (i : Nat) (prog : Int)
    (h : reverseTable grid.midiProgToUgeInst i = some prog) :
    (dutyInstrument grid lens i).initial_volume = instVolume (grid.progMaxVelocity prog) := by
  have hv := instVolume_le (grid.progMaxVelocity prog)
  unfold dutyInstrument
  rw [h]
  simp only
  split <;> (try split_ifs) <;> simp only [init_duty_instrument] <;> omega

theorem waveInstrument_volume (grid : BuildState) (i : Nat) (prog : Int)
    (h : reverseTable grid.midiProgToUgeWaveInst i = some prog) :
    (waveInstrument grid i).volume = instVolume (grid.waveProgMaxVelocity prog) := by
  have hv := instVolume_le (grid.waveProgMaxVelocity prog)
  unfold waveInstrument
  rw [h]
  simp only [init_wave_instrument]
  omega

theorem noiseInstrument_volume (grid : BuildState) (lens : LengthState) (i : Nat) (note : Nat)
    (h : reverseTable grid.percussionNoteToUgeInst i = some note) :
    (noiseInstrument grid lens i).initial_volume = instVolume (grid.percMaxVelocity note) := by
  have hv := instVolume_le (grid.percMaxVelocity note)
  unfold noiseInstrument
  rw [h]
  simp only
  split <;> (try split_ifs) <;> simp only [init_noise_instrument] <;> omega

theorem instVolume_spec (mv : Option Nat) :
    (∀ v, mv = some v →
      ((instVolume mv : Nat) : ℤ) = max 1 (min 15 ⌊((v : ℚ) * 15 / 127 + 1 / 2)⌋)) ∧
    (mv = none → instVolume mv = 15) := by
  constructor
  · intro v hv
    rw [hv]
    exact velocityToVolume_eq v
  · intro hv
    rw [hv]
    rfl

/-- C12 (counterexample): a single note with velocity 34 on the most active
channel gives the live Duty instrument 0 the recorded maximum velocity 34 and
the volume `(34 * 15 + 63) div 127 = 4`, whereas `clamp(round(34 * 15/127 + 0.5), 1, 15)`
is 5. -/
theorem C12_counterexample :
    (convertMidiToUge (fun _ => 0) 24
      [⟨0, EventKind.noteOn, 0, 60, 34, 0, 0⟩, ⟨24, EventKind.noteOff, 0, 60, 0, 0, 0⟩]
      none).grid.progMaxVelocity 0 = some 34 ∧
    reverseTable (convertMidiToUge (fun _ => 0) 24
      [⟨0, EventKind.noteOn, 0, 60, 34, 0, 0⟩, ⟨24, EventKind.noteOff, 0, 60, 0, 0, 0⟩]
      none).grid.midiProgToUgeInst 0 = some 0 ∧
    ((convertMidiToUge (fun _ => 0) 24
      [⟨0, EventKind.noteOn, 0, 60, 34, 0, 0⟩, ⟨24, EventKind.noteOff, 0, 60, 0, 0, 0⟩]
      none).duty.map fun inst => inst.initial_volume)[0]? = some 4 ∧
    specVolume 34 = 5 := by
  refine ⟨by decide, by decide, by decide, specVolume_34⟩

/-- C13: the mapping `v -> max(1, min(15, (v * 15 + 63) div 127))`, which gives the
volume of every live instrument of the three banks with a recorded maximum
velocity, is monotone non-decreasing in `v` and its result is always in 1..15. -/
theorem C13_volume_monotone (v w : Nat) (h : v ≤ w) :
    velocityToVolume v ≤ velocityToVolume w ∧
    1 ≤ velocityToVolume v ∧ velocityToVolume v ≤ 15 ∧
    instVolume (some v) = velocityToVolume v :=
  ⟨velocityToVolume_mono v w h, (velocityToVolume_range v).1, (velocityToVolume_range v).2, rfl⟩

theorem C13_volume_monotone_witness :
    velocityToVolume 34 ≤ velocityToVolume 127 ∧
    1 ≤ velocityToVolume 34 ∧ velocityToVolume 34 ≤ 15 ∧
    instVolume (some 34) = velocityToVolume 34 :=
  C13_volume_monotone 34 127 (by decide)

/-! ## Note lengths -/

theorem lengthProgOff_pos (st : LengthState) (slot : Fin 4) (prog : Int) (note row : Nat)
    (h : (∀ k, ∀ x ∈ st.progNoteLengths k, 0 < x) ∧ (∀ k, ∀ x ∈ st.percNoteLengths k, 0 < x)) :
    (∀ k, ∀ x ∈ (lengthProgOff st slot prog note row).progNoteLengths k, 0 < x) ∧
    (∀ k, ∀ x ∈ (lengthProgOff st slot prog note row).percNoteLengths k, 0 < x) := by
  unfold lengthProgOff
  split
  · refine ⟨?_, h.2⟩
    intro k x hx
    simp only at hx
    split_ifs at hx with hlen
    · by_cases hk : k = prog
      · subst hk
        rw [Function.update_same, List.mem_append, List.mem_singleton] at hx
        rcases hx with hx | rfl
        · exact h.1 k x hx
        · exact hlen
      · rw [Function.update_noteq hk] at hx
        exact h.1 k x hx
    · exact h.1 k x hx
  · exact h

theorem lengthPercOff_pos (st : LengthState) (note row : Nat)
    (h : (∀ k, ∀ x ∈ st.progNoteLengths k, 0 < x) ∧ (∀ k, ∀ x ∈ st.percNoteLengths k, 0 < x)) :
    (∀ k, ∀ x ∈ (lengthPercOff st note row).progNoteLengths k, 0 < x) ∧
    (∀ k, ∀ x ∈ (lengthPercOff st note row).percNoteLengths k, 0 < x) := by
  unfold lengthPercOff
  split
  · refine ⟨h.1, ?_⟩
    intro k x hx
    simp only at hx
    split_ifs at hx with hlen
    · by_cases hk : k = note
      · subst hk
        rw [Function.update_same, List.mem_append, List.mem_singleton] at hx
        rcases hx with hx | rfl
        · exact h.2 k x hx
        · exact hlen
      · rw [Function.update_noteq hk] at hx
        exact h.2 k x hx
    · exact h.2 k x hx
  · exact h

theorem lengthStep_cases (cp : Int → Int) (tr : Nat) (st : LengthState) (ev : MidiEvent) :
    lengthStep cp tr st ev = st ∨
    (∃ slot, lengthStep cp tr st ev = lengthNoteOn st slot ev.key (ev.tick / TICKS_PER_ROW)) ∨
    lengthStep cp tr st ev = lengthPercOff st ev.key (ev.tick / TICKS_PER_ROW) ∨
    (∃ slot prog,
      lengthStep cp tr st ev = lengthProgOff st slot prog ev.key (ev.tick / TICKS_PER_ROW)) := by
  unfold lengthStep
  simp only
  by_cases h1 : ev.tick / TICKS_PER_ROW ≥ tr
  · rw [if_pos h1]
    exact Or.inl rfl
  rw [if_neg h1]
  by_cases h2 : ev.channel < 0 ∨ ev.channel > 15
  · rw [if_pos h2]
    exact Or.inl rfl
  rw [if_neg h2]
  by_cases hon : ev.isOn
  · by_cases h3 : ev.channel = 9
    · rw [if_pos h3, if_pos hon]
      exact Or.inr (Or.inl ⟨_, rfl⟩)
    rw [if_neg h3]
    have hp : ev.kind ≠ EventKind.programChange := by
      rw [hon.1]
      decide
    by_cases h4 : ev.channel = 2
    · rw [if_pos h4, if_neg hp, if_pos hon]
      exact Or.inr (Or.inl ⟨_, rfl⟩)
    rw [if_neg h4]
    by_cases h5 : ev.channel ≥ 0 ∧ ev.channel < 2
    · rw [if_pos h5, if_neg hp, if_pos hon]
      exact Or.inr (Or.inl ⟨_, rfl⟩)
    · rw [if_neg h5]
      exact Or.inl rfl
  · by_cases hoff : ev.isOff
    · by_cases h3 : ev.channel = 9
      · rw [if_pos h3, if_neg hon, if_pos hoff]
        exact Or.inr (Or.inr (Or.inl rfl))
      rw [if_neg h3]
      have hp : ev.kind ≠ EventKind.programChange := (isOff_not_isOn ev hoff).2
      by_cases h4 : ev.channel = 2
      · rw [if_pos h4, if_neg hp, if_neg hon, if_pos hoff]
        exact Or.inr (Or.inr (Or.inr ⟨_, _, rfl⟩))
      rw [if_neg h4]
      by_cases h5 : ev.channel ≥ 0 ∧ ev.channel < 2
      · rw [if_pos h5, if_neg hp, if_neg hon, if_pos hoff]
        exact Or.inr (Or.inr (Or.inr ⟨_, _, rfl⟩))
      · rw [if_neg h5]
        exact Or.inl rfl
    · left
      by_cases h3 : ev.channel = 9
      · rw [if_pos h3, if_neg hon, if_neg hoff]
      rw [if_neg h3]
      by_cases h4 : ev.channel = 2
      · rw [if_pos h4, if_neg hon, if_neg hoff, ite_self]
      rw [if_neg h4]
      by_cases h5 : ev.channel ≥ 0 ∧ ev.channel < 2
      · rw [if_pos h5, if_neg hon, if_neg hoff, ite_self]
      · rw [if_neg h5]

theorem lengthStep_pos (cp : Int → Int) (tr : Nat) (st : LengthState) (ev : MidiEvent)
    (h : (∀ k, ∀ x ∈ st.progNoteLengths k, 0 < x) ∧ (∀ k, ∀ x ∈ st.percNoteLengths k, 0 < x)) :
    (∀ k, ∀ x ∈ (lengthStep cp tr st ev).progNoteLengths k, 0 < x) ∧
    (∀ k, ∀ x ∈ (lengthStep cp tr st ev).percNoteLengths k, 0 < x) := by
  rcases lengthStep_cases cp tr st ev with e | ⟨slot, e⟩ | e | ⟨slot, prog, e⟩
  · rw [e]
    exact h
  · rw [e]
    exact h
  · rw [e]
    exact lengthPercOff_pos _ _ _ h
  · rw [e]
    exact lengthProgOff_pos _ _ _ _ _ h

/-- Every recorded note length is positive. -/
theorem noteLengths_pos (cp : Int → Int) (tr : Nat) (evs : List MidiEvent) :
    (∀ k, ∀ x ∈ (noteLengths cp tr evs).progNoteLengths k, 0 < x) ∧
    (∀ k, ∀ x ∈ (noteLengths cp tr evs).percNoteLengths k, 0 < x) := by
  unfold noteLengths
  refine foldl_invariant (fun st : LengthState =>
    (∀ k, ∀ x ∈ st.progNoteLengths k, 0 < x) ∧ (∀ k, ∀ x ∈ st.percNoteLengths k, 0 < x))
    _ _ _ ?_ ?_
  · exact ⟨fun _ _ hx => absurd hx (List.not_mem_nil _),
      fun _ _ hx => absurd hx (List.not_mem_nil _)⟩
  · intro s ev _ hs
    exact lengthStep_pos cp tr s ev hs

theorem avgLen_pos (l : List Nat) (hne : l ≠ []) (hpos : ∀ x ∈ l, 0 < x) :
    avgLen l = some (l.sum / l.length) ∧ 0 < l.sum / l.length := by
  unfold avgLen
  rw [if_neg hne]
  refine ⟨rfl, ?_⟩
  have h1 : l.length ≤ l.sum := List.length_le_sum_of_one_le l hpos
  have h2 : 0 < l.length := List.length_pos.mpr hne
  exact Nat.div_pos h1 h2

theorem noiseInstrument_sweep (grid : BuildState) (lens : LengthState) (i : Nat) (note : Nat)
    (h : reverseTable grid.percussionNoteToUgeInst i = some note)
    (hne : lens.percNoteLengths note ≠ []) (hpos : ∀ x ∈ lens.percNoteLengths note, 0 < x) :
    (noiseInstrument grid lens i).volume_sweep_change
      = lenToSweep ((lens.percNoteLengths note).sum / (lens.percNoteLengths note).length) := by
  have ha := avgLen_pos _ hne hpos
  unfold noiseInstrument
  rw [h]
  simp only
  rw [ha.1]
  simp only
  rw [if_pos ha.2]
  simp only [init_noise_instrument]
  unfold lenToSweep
  split_ifs <;> rfl

/-- The sweep classes in terms of the exact mean. -/
theorem lenToSweep_mean (s n : Nat) (hn : 0 < n) :
    (((s : ℚ) / n < 3) → lenToSweep (s / n) = 7) ∧
    ((3 ≤ (s : ℚ) / n) → ((s : ℚ) / n < 9) → lenToSweep (s / n) = 4) ∧
    ((9 ≤ (s : ℚ) / n) → lenToSweep (s / n) = 1) := by
  have hn' : (0 : ℚ) < n := by exact_mod_cast hn
  have lt_iff : ∀ c : Nat, ((s : ℚ) / n < c) ↔ s / n < c := by
    intro c
    rw [div_lt_iff₀ hn', Nat.div_lt_iff_lt_mul hn]
    exact_mod_cast Iff.rfl
  have h3 := lt_iff 3
  have h9 := lt_iff 9
  push_cast at h3 h9
  unfold lenToSweep
  refine ⟨?_, ?_, ?_⟩
  · intro h
    have := h3.mp h
    rw [if_pos (by omega)]
  · intro h1 h2
    have := h9.mp h2
    have : ¬ s / n < 3 := fun hh => absurd (h3.mpr hh) (not_lt.mpr h1)
    rw [if_neg (by omega), if_pos (by omega)]
  · intro h
    have : ¬ s / n < 9 := fun hh => absurd (h9.mpr hh) (not_lt.mpr h)
    rw [if_neg (by omega), if_neg (by omega)]

/-- C14 (counterexample): percussion key 36 played twice on source channel 9 with
lengths 2 and 3 rows has mean length 5/2, which is above 2 and at most 8, but the
Noise instrument of key 36 gets the sweep amount 7, not 4. -/
theorem C14_counterexample :
    (convertMidiToUge (fun _ => 0) 24
      [⟨0, EventKind.noteOn, 9, 36, 100, 0, 0⟩, ⟨12, EventKind.noteOff, 9, 36, 0, 0, 0⟩,
        ⟨24, EventKind.noteOn, 9, 36, 100, 0, 0⟩, ⟨42, EventKind.noteOff, 9, 36, 0, 0, 0⟩]
      none).lengths.percNoteLengths 36 = [2, 3] ∧
    reverseTable (convertMidiToUge (fun _ => 0) 24
      [⟨0, EventKind.noteOn, 9, 36, 100, 0, 0⟩, ⟨12, EventKind.noteOff, 9, 36, 0, 0, 0⟩,
        ⟨24, EventKind.noteOn, 9, 36, 100, 0, 0⟩, ⟨42, EventKind.noteOff, 9, 36, 0, 0, 0⟩]
      none).grid.percussionNoteToUgeInst 0 = some 36 ∧
    ((convertMidiToUge (fun _ => 0) 24
      [⟨0, EventKind.noteOn, 9, 36, 100, 0, 0⟩, ⟨12, EventKind.noteOff, 9, 36, 0, 0, 0⟩,
        ⟨24, EventKind.noteOn, 9, 36, 100, 0, 0⟩, ⟨42, EventKind.noteOff, 9, 36, 0, 0, 0⟩]
      none).noise.map fun inst => inst.volume_sweep_change)[0]? = some 7 ∧
    (2 : ℚ) < (2 + 3) / 2 ∧ ((2 : ℚ) + 3) / 2 ≤ 8 := by
  refine ⟨by decide, by decide, by decide, by norm_num, by norm_num⟩

/-- C14 (amended): for every live Noise instrument (slot `i` with percussion key
`note` in the reverse table) for which at least one note length is recorded
(only positive lengths, in rows, of notes on source channel 9 are recorded), the
sweep amount is decided by the arithmetic mean `m` of the recorded lengths
rounded down: 7 when `m < 3`, 4 when `3 ≤ m < 9`, and 1 when `m ≥ 9`. -/
theorem C14_noise_sweep (hasher : List Nat → Nat) (tpq : Int) (evs : List MidiEvent)
    (um : Option (Fin 4 → Int)) (i note : Nat) (hi : i < 15)
    (hlive : reverseTable (convertMidiToUge hasher tpq evs um).grid.percussionNoteToUgeInst i
      = some note)
    (hne : (convertMidiToUge hasher tpq evs um).lengths.percNoteLengths note ≠ []) :
    ∃ inst, (convertMidiToUge hasher tpq evs um).noise[i]? = some inst ∧
      ((((convertMidiToUge hasher tpq evs um).lengths.percNoteLengths note).sum : ℚ)
        / ((convertMidiToUge hasher tpq evs um).lengths.percNoteLengths note).length < 3 →
        inst.volume_sweep_change = 7) ∧
      (3 ≤ (((convertMidiToUge hasher tpq evs um).lengths.percNoteLengths note).sum : ℚ)
        / ((convertMidiToUge hasher tpq evs um).lengths.percNoteLengths note).length →
       (((convertMidiToUge hasher tpq evs um).lengths.percNoteLengths note).sum : ℚ)
        / ((convertMidiToUge hasher tpq evs um).lengths.percNoteLengths note).length < 9 →
        inst.volume_sweep_change = 4) ∧
      (9 ≤ (((convertMidiToUge hasher tpq evs um).lengths.percNoteLengths note).sum : ℚ)
        / ((convertMidiToUge hasher tpq evs um).lengths.percNoteLengths note).length →
        inst.volume_sweep_change = 1) := by
  refine ⟨noiseInstrument (convertMidiToUge hasher tpq evs um).grid
    (convertMidiToUge hasher tpq evs um).lengths i, bank_getElem _ i hi, ?_⟩
  have hpos := (noteLengths_pos (convertMidiToUge hasher tpq evs um).grid.channelProgram
    (total_rows evs) evs).2 note
  rw [noiseInstrument_sweep _ _ i note hlive hne hpos]
  exact lenToSweep_mean _ _ (List.length_pos.mpr hne)

theorem C14_noise_sweep_witness :
    ∃ inst, (convertMidiToUge (fun _ => 0) 24
      [⟨0, EventKind.noteOn, 9, 36, 100, 0, 0⟩, ⟨12, EventKind.noteOff, 9, 36, 0, 0, 0⟩,
        ⟨24, EventKind.noteOn, 9, 36, 100, 0, 0⟩, ⟨42, EventKind.noteOff, 9, 36, 0, 0, 0⟩]
      none).noise[0]? = some inst ∧ inst.volume_sweep_change = 7 :=
  match C14_noise_sweep (fun _ => 0) 24
    [⟨0, EventKind.noteOn, 9, 36, 100, 0, 0⟩, ⟨12, EventKind.noteOff, 9, 36, 0, 0, 0⟩,
      ⟨24, EventKind.noteOn, 9, 36, 100, 0, 0⟩, ⟨42, EventKind.noteOff, 9, 36, 0, 0, 0⟩]
    none 0 36 (by decide) (by decide) (by decide) with
  | ⟨inst, h1, h2, _, _⟩ => ⟨inst, h1, h2 (by
      have e : (convertMidiToUge (fun _ => 0) 24
        [⟨0, EventKind.noteOn, 9, 36, 100, 0, 0⟩, ⟨12, EventKind.noteOff, 9, 36, 0, 0, 0⟩,
          ⟨24, EventKind.noteOn, 9, 36, 100, 0, 0⟩, ⟨42, EventKind.noteOff, 9, 36, 0, 0, 0⟩]
        none).lengths.percNoteLengths 36 = [2, 3] := by decide
      rw [e]
      norm_num)⟩

/-! ## Order matrix encoding -/

theorem length_write_le32 (v : Nat) : (write_le32 v).length = 4 := rfl

theorem read_write_le32 (v : Nat) : read_u32 (write_le32 v) = v % 2 ^ 32 := by
  unfold read_u32 write_le32
  simp only [List.getD_cons_zero, List.getD_cons_succ]
  omega

theorem write_le32_bytes (v : Nat) : ∀ b ∈ write_le32 v, b < 256 := by
  intro b hb
  unfold write_le32 at hb
  simp only [List.mem_cons, List.mem_singleton, List.not_mem_nil, or_false] at hb
  rcases hb with rfl | rfl | rfl | rfl <;> exact Nat.mod_lt _ (by norm_num)

theorem length_writeOrderEntries (l : List Nat) : (writeOrderEntries l).length = 4 * l.length := by
  induction l with
  | nil => rfl
  | cons a as ih =>
    simp only [writeOrderEntries, List.length_append, length_write_le32, ih, List.length_cons]
    omega

theorem writeOrderEntries_slice (l : List Nat) (j : Nat) (hj : j < l.length) :
    ((writeOrderEntries l).drop (4 * j)).take 4 = write_le32 (l.getD j 0) := by
  induction l generalizing j with
  | nil => simp at hj
  | cons a as ih =>
    cases j with
    | zero =>
      simp only [writeOrderEntries, Nat.mul_zero, List.drop_zero, List.getD_cons_zero]
      rw [List.take_append_of_le_length (by rw [length_write_le32])]
      exact List.take_of_length_le (by rw [length_write_le32])
    | succ j =>
      have hj2 : j < as.length := by
        simp only [List.length_cons] at hj
        omega
      simp only [writeOrderEntries, List.getD_cons_succ]
      have h4 : 4 * (j + 1) = (write_le32 a).length + 4 * j := by
        rw [length_write_le32]
        omega
      rw [h4, List.drop_append]
      exact ih j hj2

theorem writeOrderEntries_bytes (l : List Nat) : ∀ b ∈ writeOrderEntries l, b < 256 := by
  induction l with
  | nil =>
    intro b hb
    exact absurd hb (List.not_mem_nil b)
  | cons a as ih =>
    intro b hb
    simp only [writeOrderEntries, List.mem_append] at hb
    rcases hb with hb | hb
    · exact write_le32_bytes _ b hb
    · exact ih b hb

theorem writeOrderChannel_eq (order : List Nat) (hL : order.length < 2 ^ 32 - 1) :
    writeOrderChannel order =
      write_le32 (order.length + 1) ++ writeOrderEntries order ++ write_le32 0 := by
  unfold writeOrderChannel
  have h1 : order.length % 2 ^ 32 = order.length := Nat.mod_eq_of_lt (by omega)
  have h2 : (order.length + 1) % 2 ^ 32 = order.length + 1 := Nat.mod_eq_of_lt (by omega)
  rw [h1, h2, List.take_length]

/-- C20: `writeUgeFile` encodes the order matrix as the four channels in order;
for a channel whose order list has length `L < 2^32 - 1` the bytes are the
little-endian 32-bit value `L + 1` (reading the first four bytes with `read_u32`
gives `L + 1`), then the `L` indices as little-endian 32-bit values in order (the
four bytes at offset `4 + 4 j` are those of index `j`), then four zero bytes:
`4 * (L + 2)` bytes in all, each below 256. -/
theorem C20_order_matrix_encoding (orders : Fin 4 → List Nat) (ch : Fin 4)
    (hL : (orders ch).length < 2 ^ 32 - 1) :
    writeOrderMatrix orders = writeOrderChannel (orders 0) ++ writeOrderChannel (orders 1) ++
      writeOrderChannel (orders 2) ++ writeOrderChannel (orders 3) ∧
    (writeOrderChannel (orders ch)).length = 4 * ((orders ch).length + 2) ∧
    (writeOrderChannel (orders ch)).take 4 = write_le32 ((orders ch).length + 1) ∧
    read_u32 ((writeOrderChannel (orders ch)).take 4) = (orders ch).length + 1 ∧
    (∀ j, j < (orders ch).length →
      ((writeOrderChannel (orders ch)).drop (4 + 4 * j)).take 4
        = write_le32 ((orders ch).getD j 0) ∧
      (read_u32 (((writeOrderChannel (orders ch)).drop (4 + 4 * j)).take 4)
        = (orders ch).getD j 0 % 2 ^ 32)) ∧
    (writeOrderChannel (orders ch)).drop (4 + 4 * (orders ch).length) = [0, 0, 0, 0] ∧
    (∀ b ∈ writeOrderChannel (orders ch), b < 256) := by
  have heq := writeOrderChannel_eq (orders ch) hL
  have hslice : ∀ j, j < (orders ch).length →
      ((writeOrderChannel (orders ch)).drop (4 + 4 * j)).take 4
        = write_le32 ((orders ch).getD j 0) := by
    intro j hj
    rw [heq, List.append_assoc]
    have h4 : 4 + 4 * j = (write_le32 ((orders ch).length + 1)).length + 4 * j := by
      rw [length_write_le32]
    rw [h4, List.drop_append, List.drop_append_of_le_length
      (by rw [length_writeOrderEntries]; omega),
      List.take_append_of_le_length
        (by rw [List.length_drop, length_writeOrderEntries]; omega)]
    exact writeOrderEntries_slice (orders ch) j hj
  have htake : (writeOrderChannel (orders ch)).take 4 = write_le32 ((orders ch).length + 1) := by
    rw [heq, List.append_assoc, List.take_append_of_le_length (by rw [length_write_le32])]
    exact List.take_of_length_le (by rw [length_write_le32])
  refine ⟨rfl, ?_, htake, ?_, ?_, ?_, ?_⟩
  · rw [heq]
    simp only [List.length_append, length_write_le32, length_writeOrderEntries]
    omega
  · rw [htake, read_write_le32]
    exact Nat.mod_eq_of_lt (by omega)
  · intro j hj
    refine ⟨hslice j hj, ?_⟩
    rw [hslice j hj, read_write_le32]
  · rw [heq]
    have h4 : 4 + 4 * (orders ch).length
        = (write_le32 ((orders ch).length + 1) ++ writeOrderEntries (orders ch)).length := by
      rw [List.length_append, length_write_le32, length_writeOrderEntries]
    rw [h4, List.drop_left]
    rfl
  · intro b hb
    rw [heq] at hb
    simp only [List.mem_append] at hb
    rcases hb with (hb | hb) | hb
    · exact write_le32_bytes _ b hb
    · exact writeOrderEntries_bytes _ b hb
    · exact write_le32_bytes _ b hb

theorem C20_order_matrix_encoding_witness :
    (writeOrderChannel [0, 1, 1]).length = 4 * (3 + 2) ∧
    (writeOrderChannel [0, 1, 1]).take 4 = write_le32 (3 + 1) ∧
    (writeOrderChannel [0, 1, 1]).drop (4 + 4 * 3) = [0, 0, 0, 0] :=
  ⟨(C20_order_matrix_encoding (fun _ => [0, 1, 1]) 0 (by decide)).2.1,
    (C20_order_matrix_encoding (fun _ => [0, 1, 1]) 0 (by decide)).2.2.1,
    (C20_order_matrix_encoding (fun _ => [0, 1, 1]) 0 (by decide)).2.2.2.2.2.1⟩

/-! ## Note-on on the percussion channel -/

theorem tableAssign_cases (table : List (Nat × Nat)) (next limit k : Nat) :
    (∀ j, table.lookup k = some j →
      tableAssign table next limit k = (table, next) ∧
        ((tableAssign table next limit k).1.lookup k).getD 0 = j) ∧
    (table.lookup k = none → next < limit →
      tableAssign table next limit k = (table ++ [(k, next)], next + 1) ∧
        ((tableAssign table next limit k).1.lookup k).getD 0 = next) ∧
    (table.lookup k = none → ¬ next < limit →
      tableAssign table next limit k = (table, next) ∧
        ((tableAssign table next limit k).1.lookup k).getD 0 = 0) := by
  unfold tableAssign
  refine ⟨?_, ?_, ?_⟩
  · intro j hj
    have h : ¬ ((table.lookup k).isNone ∧ next < limit) := by
      rw [hj]
      simp
    rw [if_neg h]
    simp only [hj, Option.getD_some, and_self]
  · intro hn hlt
    have h : (table.lookup k).isNone ∧ next < limit := by
      rw [hn]
      exact ⟨rfl, hlt⟩
    rw [if_pos h]
    refine ⟨rfl, ?_⟩
    simp only [List.lookup_append, hn, Option.none_or, List.lookup_cons, beq_self_eq_true,
      Option.getD_some]
  · intro hn hlt
    have h : ¬ ((table.lookup k).isNone ∧ next < limit) := fun hh => hlt hh.2
    rw [if_neg h]
    simp only [hn, Option.getD_none, and_self]

theorem processNoise_on (s : BuildState) (ev : MidiEvent) (row tr : Nat) (hon : ev.isOn) :
    (processNoise s ev row tr).channel_rows 3 =
      (if row + 1 < tr then
        ((s.channel_rows 3).set row ⟨ev.key % 256,
          ((tableAssign s.percussionNoteToUgeInst s.nextNoiseInst UGE_NUM_NOISE
            ev.key).1.lookup ev.key).getD 0, ev.velocity % 256⟩).set (row + 1) emptyRow
      else (s.channel_rows 3).set row ⟨ev.key % 256,
          ((tableAssign s.percussionNoteToUgeInst s.nextNoiseInst UGE_NUM_NOISE
            ev.key).1.lookup ev.key).getD 0, ev.velocity % 256⟩) ∧
    (processNoise s ev row tr).percussionNoteToUgeInst =
      (tableAssign s.percussionNoteToUgeInst s.nextNoiseInst UGE_NUM_NOISE ev.key).1 ∧
    (processNoise s ev row tr).nextNoiseInst =
      (tableAssign s.percussionNoteToUgeInst s.nextNoiseInst UGE_NUM_NOISE ev.key).2 := by
  unfold processNoise
  rw [if_pos hon]
  simp only
  split_ifs <;> simp only [setRow, Function.update_same, and_self]

/-- The melodic branch never touches the percussion table. -/
theorem processMelodic_noise_frame (s : BuildState) (ev : MidiEvent) (row tr : Nat)
    (c : Fin 4) :
    (processMelodic s ev row tr c).percussionNoteToUgeInst = s.percussionNoteToUgeInst ∧
    (processMelodic s ev row tr c).nextNoiseInst = s.nextNoiseInst ∧
    (processMelodic s ev row tr c).percMaxVelocity = s.percMaxVelocity := by
  by_cases hp : ev.kind = EventKind.programChange
  · unfold processMelodic
    rw [if_pos hp]
    split_ifs <;> exact ⟨rfl, rfl, rfl⟩
  · by_cases hon : ev.isOn
    · unfold processMelodic
      rw [if_neg hp, if_pos hon]
      split_ifs <;> exact ⟨rfl, rfl, rfl⟩
    · by_cases hoff : ev.isOff
      · cases hact : s.active_notes c ev.key with
        | none =>
          rw [processMelodic_off_none s ev row tr c hp hon hact]
          exact ⟨rfl, rfl, rfl⟩
        | some x =>
          obtain ⟨a, b, d⟩ := x
          rw [processMelodic_off_some s ev row tr c hp hon hoff a b d hact]
          exact ⟨rfl, rfl, rfl⟩
      · unfold processMelodic
        rw [if_neg hp, if_neg hon, if_neg hoff]
        exact ⟨rfl, rfl, rfl⟩

/-- The noise branch touches the percussion table only on a note-on. -/
theorem processNoise_not_on (s : BuildState) (ev : MidiEvent) (row tr : Nat)
    (hon : ¬ ev.isOn) : processNoise s ev row tr = s := by
  unfold processNoise
  rw [if_neg hon]

/-- For a note-on, a melodic hardware channel writes no row and leaves the
percussion table alone. -/
theorem processChannel_on_frame (map : Fin 4 → Int) (tr : Nat) (ev : MidiEvent) (row : Nat)
    (s : BuildState) (c : Fin 4) (hc : c ≠ 3) (hon : ev.isOn) :
    (processChannel map tr ev row s c).channel_rows = s.channel_rows ∧
    (processChannel map tr ev row s c).percussionNoteToUgeInst = s.percussionNoteToUgeInst ∧
    (processChannel map tr ev row s c).nextNoiseInst = s.nextNoiseInst := by
  unfold processChannel
  simp only
  split_ifs
  · exact ⟨rfl, rfl, rfl⟩
  · exact ⟨rfl, rfl, rfl⟩
  · exact ⟨processMelodic_rows_not_off s ev row tr c (Or.inr (Or.inl hon)),
      (processMelodic_noise_frame s ev row tr c).1, (processMelodic_noise_frame s ev row tr c).2.1⟩

theorem processEvent_noise_on (map : Fin 4 → Int) (tr : Nat) (s : BuildState) (ev : MidiEvent)
    (hmap : map 3 = ev.channel) (hch : 0 ≤ ev.channel ∧ ev.channel ≤ 15) (hon : ev.isOn)
    (hrow : ev.tick / TICKS_PER_ROW < tr) :
    (processEvent map tr s ev).channel_rows 3 =
      (if ev.tick / TICKS_PER_ROW + 1 < tr then
        ((s.channel_rows 3).set (ev.tick / TICKS_PER_ROW) ⟨ev.key % 256,
          ((tableAssign s.percussionNoteToUgeInst s.nextNoiseInst UGE_NUM_NOISE
            ev.key).1.lookup ev.key).getD 0, ev.velocity % 256⟩).set
              (ev.tick / TICKS_PER_ROW + 1) emptyRow
      else (s.channel_rows 3).set (ev.tick / TICKS_PER_ROW) ⟨ev.key % 256,
          ((tableAssign s.percussionNoteToUgeInst s.nextNoiseInst UGE_NUM_NOISE
            ev.key).1.lookup ev.key).getD 0, ev.velocity % 256⟩) ∧
    (processEvent map tr s ev).percussionNoteToUgeInst =
      (tableAssign s.percussionNoteToUgeInst s.nextNoiseInst UGE_NUM_NOISE ev.key).1 ∧
    (processEvent map tr s ev).nextNoiseInst =
      (tableAssign s.percussionNoteToUgeInst s.nextNoiseInst UGE_NUM_NOISE ev.key).2 ∧
    (∀ c : Fin 4, c ≠ 3 → (processEvent map tr s ev).channel_rows c = s.channel_rows c) := by
  rw [processEvent_eq map tr s ev hrow hch]
  have f0 := processChannel_on_frame map tr ev (ev.tick / TICKS_PER_ROW) s 0 (by decide) hon
  have f1 := processChannel_on_frame map tr ev (ev.tick / TICKS_PER_ROW)
    (processChannel map tr ev (ev.tick / TICKS_PER_ROW) s 0) 1 (by decide) hon
  have f2 := processChannel_on_frame map tr ev (ev.tick / TICKS_PER_ROW)
    (processChannel map tr ev (ev.tick / TICKS_PER_ROW)
      (processChannel map tr ev (ev.tick / TICKS_PER_ROW) s 0) 1) 2 (by decide) hon
  rw [f0.1] at f1
  rw [f0.2.1, f0.2.2] at f1
  rw [f1.1] at f2
  rw [f1.2.1, f1.2.2] at f2
  have h3 : processChannel map tr ev (ev.tick / TICKS_PER_ROW)
      (processChannel map tr ev (ev.tick / TICKS_PER_ROW)
        (processChannel map tr ev (ev.tick / TICKS_PER_ROW)
          (processChannel map tr ev (ev.tick / TICKS_PER_ROW) s 0) 1) 2) 3
      = processNoise (processChannel map tr ev (ev.tick / TICKS_PER_ROW)
        (processChannel map tr ev (ev.tick / TICKS_PER_ROW)
          (processChannel map tr ev (ev.tick / TICKS_PER_ROW) s 0) 1) 2) ev
          (ev.tick / TICKS_PER_ROW) tr := by
    generalize (processChannel map tr ev (ev.tick / TICKS_PER_ROW)
        (processChannel map tr ev (ev.tick / TICKS_PER_ROW)
          (processChannel map tr ev (ev.tick / TICKS_PER_ROW) s 0) 1) 2) = s3
    unfold processChannel
    simp only
    rw [if_neg (by omega), if_neg (by rw [hmap]; exact fun hh => hh rfl), if_pos trivial]
  rw [h3]
  have hn := processNoise_on (processChannel map tr ev (ev.tick / TICKS_PER_ROW)
        (processChannel map tr ev (ev.tick / TICKS_PER_ROW)
          (processChannel map tr ev (ev.tick / TICKS_PER_ROW) s 0) 1) 2) ev
          (ev.tick / TICKS_PER_ROW) tr hon
  rw [f2.1, f2.2.1, f2.2.2] at hn
  refine ⟨hn.1, hn.2.1, hn.2.2, ?_⟩
  intro c hc
  rw [processNoise_rows_other _ ev _ tr c hc, f2.1]

/-- The percussion table has one entry per assigned index and never more than 15. -/
theorem buildGrid_noise_table (map : Fin 4 → Int) (tr : Nat) (evs : List MidiEvent) :
    (buildGrid map tr evs).nextNoiseInst = (buildGrid map tr evs).percussionNoteToUgeInst.length ∧
    (buildGrid map tr evs).percussionNoteToUgeInst.map Prod.snd
      = List.range (buildGrid map tr evs).percussionNoteToUgeInst.length ∧
    (buildGrid map tr evs).percussionNoteToUgeInst.length ≤ 15 := by
  unfold buildGrid
  refine foldl_invariant (fun s : BuildState =>
    s.nextNoiseInst = s.percussionNoteToUgeInst.length ∧
    s.percussionNoteToUgeInst.map Prod.snd = List.range s.percussionNoteToUgeInst.length ∧
    s.percussionNoteToUgeInst.length ≤ 15) _ _ _ ?_ ?_
  · exact ⟨rfl, rfl, Nat.zero_le 15⟩
  · intro s ev _ hs
    have step : ∀ (s : BuildState) (c : Fin 4),
        (s.nextNoiseInst = s.percussionNoteToUgeInst.length ∧
          s.percussionNoteToUgeInst.map Prod.snd = List.range s.percussionNoteToUgeInst.length ∧
          s.percussionNoteToUgeInst.length ≤ 15) →
        ((processChannel map tr ev (ev.tick / TICKS_PER_ROW) s c).nextNoiseInst
          = (processChannel map tr ev (ev.tick / TICKS_PER_ROW) s c).percussionNoteToUgeInst.length ∧
        (processChannel map tr ev (ev.tick / TICKS_PER_ROW) s c).percussionNoteToUgeInst.map
            Prod.snd
          = List.range
            (processChannel map tr ev (ev.tick / TICKS_PER_ROW) s c).percussionNoteToUgeInst.length ∧
        (processChannel map tr ev (ev.tick / TICKS_PER_ROW) s c).percussionNoteToUgeInst.length
          ≤ 15) := by
      intro s c hs
      unfold processChannel
      simp only
      split_ifs
      · exact hs
      · exact hs
      · by_cases hon : ev.isOn
        · have hn := processNoise_on s ev (ev.tick / TICKS_PER_ROW) tr hon
          rw [hn.2.1, hn.2.2]
          have hc := tableAssign_cases s.percussionNoteToUgeInst s.nextNoiseInst UGE_NUM_NOISE
            ev.key
          cases hl : s.percussionNoteToUgeInst.lookup ev.key with
          | some j =>
            rw [(hc.1 j hl).1]
            exact hs
          | none =>
            by_cases hlt : s.nextNoiseInst < UGE_NUM_NOISE
            · rw [(hc.2.1 hl hlt).1]
              simp only [List.length_append, List.length_singleton, List.map_append,
                List.map_cons, List.map_nil, List.range_succ]
              have h15 : UGE_NUM_NOISE = 15 := rfl
              refine ⟨by omega, ?_, by omega⟩
              rw [hs.2.1, hs.1]
            · rw [(hc.2.2 hl hlt).1]
              exact hs
        · rw [processNoise_not_on s ev _ tr hon]
          exact hs
      · have hf := processMelodic_noise_frame s ev (ev.tick / TICKS_PER_ROW) tr c
        rw [hf.1, hf.2.1]
        exact hs
    rcases processEvent_cases map tr s ev with e | ⟨-, -, e⟩
    · rw [e]
      exact hs
    · rw [e]
      exact step _ 3 (step _ 2 (step _ 1 (step _ 0 hs)))

/-- C11: in a run over `evs = pre ++ ev :: post`, when `ev` is a note-on with
velocity `v > 0` for key `k` on the source channel bound to the percussion
hardware channel, then immediately after `ev` row `r = tick div 6` of that channel
holds `(k, i, v)`, row `r + 1` holds `(UGE_EMPTY_NOTE, 0, 0)` whenever `r + 1` is
within the grid, and no other row of any hardware channel is changed. The
instrument `i` is the index of `k` in the first-come-first-served percussion
table: the index `k` already has; otherwise the number of keys assigned so far,
if that is below 15, and `k` is entered with it; otherwise 0, and `k` gets no
entry. The table holds the indices `0, 1, 2, ...` in order of assignment. -/
theorem C11_percussion_note_on (evs pre post : List MidiEvent) (ev : MidiEvent)
    (um : Option (Fin 4 → Int)) (k v : Nat)
    (hevs : evs = pre ++ ev :: post) (hmap : midi_to_uge evs um 3 = ev.channel)
    (hch : 0 ≤ ev.channel ∧ ev.channel ≤ 15) (hon : ev.isOn) (hkey : ev.key = k)
    (hvel : ev.velocity = v) (hk : k ≤ 127) (hv : v ≤ 127) :
    ∃ i,
      ((buildGrid (midi_to_uge evs um) (total_rows evs) (pre ++ [ev])).channel_rows 3)[
        ev.tick / TICKS_PER_ROW]? = some ⟨k, i, v⟩ ∧
      (ev.tick / TICKS_PER_ROW + 1 < total_rows evs →
        ((buildGrid (midi_to_uge evs um) (total_rows evs) (pre ++ [ev])).channel_rows 3)[
          ev.tick / TICKS_PER_ROW + 1]? = some emptyRow) ∧
      (∀ r, r ≠ ev.tick / TICKS_PER_ROW → r ≠ ev.tick / TICKS_PER_ROW + 1 →
        ((buildGrid (midi_to_uge evs um) (total_rows evs) (pre ++ [ev])).channel_rows 3)[r]?
          = ((buildGrid (midi_to_uge evs um) (total_rows evs) pre).channel_rows 3)[r]?) ∧
      (∀ c : Fin 4, c ≠ 3 →
        (buildGrid (midi_to_uge evs um) (total_rows evs) (pre ++ [ev])).channel_rows c
          = (buildGrid (midi_to_uge evs um) (total_rows evs) pre).channel_rows c) ∧
      (∀ j, (buildGrid (midi_to_uge evs um) (total_rows evs) pre).percussionNoteToUgeInst.lookup k
          = some j →
        i = j ∧
        (buildGrid (midi_to_uge evs um) (total_rows evs) (pre ++ [ev])).percussionNoteToUgeInst
          = (buildGrid (midi_to_uge evs um) (total_rows evs) pre).percussionNoteToUgeInst) ∧
      ((buildGrid (midi_to_uge evs um) (total_rows evs) pre).percussionNoteToUgeInst.lookup k
          = none →
        (buildGrid (midi_to_uge evs um) (total_rows evs) pre).percussionNoteToUgeInst.length
          < 15 →
        i = (buildGrid (midi_to_uge evs um) (total_rows evs) pre).percussionNoteToUgeInst.length ∧
        (buildGrid (midi_to_uge evs um) (total_rows evs) (pre ++ [ev])).percussionNoteToUgeInst
          = (buildGrid (midi_to_uge evs um) (total_rows evs) pre).percussionNoteToUgeInst
            ++ [(k, i)]) ∧
      ((buildGrid (midi_to_uge evs um) (total_rows evs) pre).percussionNoteToUgeInst.lookup k
          = none →
        (buildGrid (midi_to_uge evs um) (total_rows evs) pre).percussionNoteToUgeInst.length
          = 15 →
        i = 0 ∧
        (buildGrid (midi_to_uge evs um) (total_rows evs) (pre ++ [ev])).percussionNoteToUgeInst
          = (buildGrid (midi_to_uge evs um) (total_rows evs) pre).percussionNoteToUgeInst) ∧
      (buildGrid (midi_to_uge evs um) (total_rows evs) pre).percussionNoteToUgeInst.map Prod.snd
        = List.range
          (buildGrid (midi_to_uge evs um) (total_rows evs) pre).percussionNoteToUgeInst.length ∧
      (buildGrid (midi_to_uge evs um) (total_rows evs) pre).percussionNoteToUgeInst.length
        ≤ 15 := by
  have hrow : ev.tick / TICKS_PER_ROW < total_rows evs :=
    row_lt_total_rows evs ev (by rw [hevs]; simp)
  have hlen := buildGrid_length (midi_to_uge evs um) (total_rows evs) pre 3
  have htab := buildGrid_noise_table (midi_to_uge evs um) (total_rows evs) pre
  have hstep := processEvent_noise_on (midi_to_uge evs um) (total_rows evs)
    (buildGrid (midi_to_uge evs um) (total_rows evs) pre) ev hmap hch hon hrow
  have hc := tableAssign_cases
    (buildGrid (midi_to_uge evs um) (total_rows evs) pre).percussionNoteToUgeInst
    (buildGrid (midi_to_uge evs um) (total_rows evs) pre).nextNoiseInst UGE_NUM_NOISE ev.key
  rw [buildGrid_snoc]
  subst hkey hvel
  have hk2 : ev.key % 256 = ev.key := by omega
  have hv2 : ev.velocity % 256 = ev.velocity := by omega
  rw [hk2, hv2] at hstep
  have h15 : UGE_NUM_NOISE = 15 := rfl
  refine ⟨((tableAssign
    (buildGrid (midi_to_uge evs um) (total_rows evs) pre).percussionNoteToUgeInst
    (buildGrid (midi_to_uge evs um) (total_rows evs) pre).nextNoiseInst UGE_NUM_NOISE
    ev.key).1.lookup ev.key).getD 0, ?_, ?_, ?_, hstep.2.2.2, ?_, ?_, ?_, htab.2.1, htab.2.2⟩
  · rw [hstep.1]
    split_ifs
    · rw [List.getElem?_set_ne (by omega), List.getElem?_set_self (by omega)]
    · rw [List.getElem?_set_self (by omega)]
  · intro h1
    rw [hstep.1, if_pos h1, List.getElem?_set_self (by rw [List.length_set]; omega)]
  · intro r h1 h2
    rw [hstep.1]
    split_ifs
    · rw [List.getElem?_set_ne (Ne.symm h2), List.getElem?_set_ne (Ne.symm h1)]
    · rw [List.getElem?_set_ne (Ne.symm h1)]
  · intro j hj
    rw [hstep.2.1, (hc.1 j hj).2, (hc.1 j hj).1]
    exact ⟨rfl, rfl⟩
  · intro hn hlt
    have hlt2 : (buildGrid (midi_to_uge evs um) (total_rows evs) pre).nextNoiseInst
        < UGE_NUM_NOISE := by
      rw [htab.1, h15]
      exact hlt
    rw [hstep.2.1, (hc.2.1 hn hlt2).2, (hc.2.1 hn hlt2).1, htab.1]
    exact ⟨rfl, rfl⟩
  · intro hn hlt
    have hlt2 : ¬ (buildGrid (midi_to_uge evs um) (total_rows evs) pre).nextNoiseInst
        < UGE_NUM_NOISE := by
      rw [htab.1, h15]
      omega
    rw [hstep.2.1, (hc.2.2 hn hlt2).2, (hc.2.2 hn hlt2).1]
    exact ⟨rfl, rfl⟩

theorem C11_percussion_note_on_witness :
    ∃ i,
      ((buildGrid
        (midi_to_uge [⟨0, EventKind.noteOn, 9, 36, 100, 0, 0⟩,
          ⟨12, EventKind.noteOn, 9, 38, 90, 0, 0⟩] none)
        (total_rows [⟨0, EventKind.noteOn, 9, 36, 100, 0, 0⟩,
          ⟨12, EventKind.noteOn, 9, 38, 90, 0, 0⟩])
        ([⟨0, EventKind.noteOn, 9, 36, 100, 0, 0⟩] ++
          [⟨12, EventKind.noteOn, 9, 38, 90, 0, 0⟩])).channel_rows 3)[12 / TICKS_PER_ROW]?
        = some ⟨38, i, 90⟩ :=
  match C11_percussion_note_on
    [⟨0, EventKind.noteOn, 9, 36, 100, 0, 0⟩, ⟨12, EventKind.noteOn, 9, 38, 90, 0, 0⟩]
    [⟨0, EventKind.noteOn, 9, 36, 100, 0, 0⟩] []
    ⟨12, EventKind.noteOn, 9, 38, 90, 0, 0⟩ none 38 90 rfl (by decide) (by decide)
    (by decide) rfl rfl (by decide) (by decide) with
  | ⟨i, h, _⟩ => ⟨i, h⟩

/-! ## Pattern emission: deduplication -/

theorem foldr_quad_inj (l : List Nat) (n i n2 i2 : Nat → Nat) :
    l.foldr (fun r acc => n r :: i r :: 0 :: 0 :: acc) []
      = l.foldr (fun r acc => n2 r :: i2 r :: 0 :: 0 :: acc) [] ↔
    ∀ r ∈ l, n r = n2 r ∧ i r = i2 r := by
  induction l with
  | nil => simp
  | cons a as ih =>
    simp only [List.foldr_cons, List.cons.injEq, true_and, ih, List.forall_mem_cons]
    tauto

/-- Two pages have the same hashed string exactly when they have the same rows. -/
theorem pat_data_eq_iff (rows : Fin 4 → List Row) (tr : Nat) (ch ch2 : Fin 4) (p p2 : Nat) :
    pat_data rows tr ch p = pat_data rows tr ch2 p2 ↔
      blockRows rows tr ch p = blockRows rows tr ch2 p2 := by
  unfold pat_data blockRows buildPattern
  rw [foldr_quad_inj, List.map_inj_left]
  simp only [UgePatternRow.mk.injEq, and_true]

theorem buildPattern_eq (idx : Nat) (rows : Fin 4 → List Row) (tr : Nat) (ch : Fin 4)
    (pat : Nat) :
    buildPattern idx rows tr ch pat = ⟨idx, blockRows rows tr ch pat⟩ := rfl

theorem getElem?_append_some {α : Type} (l e : List α) (i : Nat) (x : α)
    (h : l[i]? = some x) : (l ++ e)[i]? = some x := by
  obtain ⟨hi, _⟩ := List.getElem?_eq_some.mp h
  rw [List.getElem?_append_left hi]
  exact h

theorem emitBlock_hit (hasher : List Nat → Nat) (rows : Fin 4 → List Row) (tr : Nat)
    (ch : Fin 4) (st : EmitState) (pat : Nat) (idx : Nat)
    (h : st.pattern_hash_to_index ch (hasher (pat_data rows tr ch pat)) = some idx) :
    emitBlock hasher rows tr ch st pat =
      { st with orders := Function.update st.orders ch (st.orders ch ++ [idx]) } := by
  unfold emitBlock
  simp only [h]

theorem emitBlock_miss (hasher : List Nat → Nat) (rows : Fin 4 → List Row) (tr : Nat)
    (ch : Fin 4) (st : EmitState) (pat : Nat)
    (h : st.pattern_hash_to_index ch (hasher (pat_data rows tr ch pat)) = none) :
    emitBlock hasher rows tr ch st pat =
      { patterns := st.patterns ++ [buildPattern st.new_pattern_idx rows tr ch pat]
        orders := Function.update st.orders ch (st.orders ch ++ [st.new_pattern_idx])
        new_pattern_idx := st.new_pattern_idx + 1
        pattern_hash_to_index := Function.update st.pattern_hash_to_index ch
          (Function.update (st.pattern_hash_to_index ch) (hasher (pat_data rows tr ch pat))
            (some st.new_pattern_idx)) } := by
  unfold emitBlock
  simp only [h]

theorem ChanInv_step (hasher : List Nat → Nat) (rows : Fin 4 → List Row) (tr : Nat)
    (ch : Fin 4) (st0 : EmitState) (pages : List Nat) (st : EmitState) (pat : Nat)
    (hinv : ChanInv hasher rows tr ch st0 pages st) :
    ChanInv hasher rows tr ch st0 (pages ++ [pat]) (emitBlock hasher rows tr ch st pat) := by
  obtain ⟨hlen, hidx, ⟨ext, hext⟩, hmono, hord, htab, hcov, hoth⟩ := hinv
  cases hlook : st.pattern_hash_to_index ch (hasher (pat_data rows tr ch pat)) with
  | some idx =>
    rw [emitBlock_hit hasher rows tr ch st pat idx hlook]
    refine ⟨hlen, hidx, ⟨ext, hext⟩, hmono, ?_, ?_, hcov, ?_⟩
    · simp only [Function.update_same]
      exact List.rel_append hord (List.Forall₂.cons hlook List.Forall₂.nil)
    · intro h i hi
      obtain ⟨h1, h2, p, hp, h3, h4⟩ := htab h i hi
      exact ⟨h1, h2, p, List.mem_append_left _ hp, h3, h4⟩
    · intro c hc
      simp only [Function.update_noteq hc]
      exact hoth c hc
  | none =>
    rw [emitBlock_miss hasher rows tr ch st pat hlook]
    refine ⟨?_, ?_, ⟨ext ++ [buildPattern st.new_pattern_idx rows tr ch pat], ?_⟩, ?_, ?_, ?_,
      ?_, ?_⟩
    · simp only [List.length_append, List.length_singleton, hlen]
    · intro k p hk
      simp only at hk
      by_cases hkl : k < st.patterns.length
      · rw [List.getElem?_append_left hkl] at hk
        exact hidx k p hk
      · have hk2 : k = st.patterns.length := by
          have := (List.getElem?_eq_some.mp hk).1
          simp only [List.length_append, List.length_singleton] at this
          omega
        subst hk2
        rw [List.getElem?_concat_length] at hk
        rw [← Option.some.inj hk, hlen]
        rfl
    · simp only [hext, List.append_assoc]
    · simp only
      omega
    · simp only [Function.update_same]
      refine List.rel_append (List.Forall₂.imp ?_ hord) (List.Forall₂.cons ?_ List.Forall₂.nil)
      · intro p i hpi
        have hne : hasher (pat_data rows tr ch p) ≠ hasher (pat_data rows tr ch pat) := by
          intro e
          rw [e, hlook] at hpi
          exact absurd hpi (by simp)
        rw [Function.update_noteq hne]
        exact hpi
      · exact Function.update_same _ _ _
    · intro h i hi
      simp only [Function.update_same] at hi
      by_cases hh : h = hasher (pat_data rows tr ch pat)
      · subst hh
        rw [Function.update_same] at hi
        have hi2 : st.new_pattern_idx = i := Option.some.inj hi
        subst hi2
        refine ⟨hmono, Nat.lt_succ_self _, pat, List.mem_append_right _ (List.mem_singleton_self _),
          rfl, ?_⟩
        rw [← hlen]
        exact List.getElem?_concat_length _ _
      · rw [Function.update_noteq hh] at hi
        obtain ⟨h1, h2, p, hp, h3, h4⟩ := htab h i hi
        exact ⟨h1, Nat.lt_succ_of_lt h2, p, List.mem_append_left _ hp, h3,
          getElem?_append_some _ _ _ _ h4⟩
    · intro i h1 h2
      simp only [Function.update_same]
      simp only at h2
      by_cases hi : i = st.new_pattern_idx
      · exact ⟨hasher (pat_data rows tr ch pat), by rw [Function.update_same, hi]⟩
      · obtain ⟨h, hh⟩ := hcov i h1 (by omega)
        refine ⟨h, ?_⟩
        have hne : h ≠ hasher (pat_data rows tr ch pat) := by
          intro e
          rw [e, hlook] at hh
          exact absurd hh (by simp)
        rw [Function.update_noteq hne]
        exact hh
    · intro c hc
      simp only [Function.update_noteq hc]
      exact hoth c hc

theorem ChanInv_foldl (hasher : List Nat → Nat) (rows : Fin 4 → List Row) (tr : Nat)
    (ch : Fin 4) (st0 : EmitState) (l pages : List Nat) (st : EmitState)
    (hinv : ChanInv hasher rows tr ch st0 pages st) :
    ChanInv hasher rows tr ch st0 (pages ++ l) (l.foldl (emitBlock hasher rows tr ch) st) := by
  induction l generalizing pages st with
  | nil =>
    rw [List.append_nil]
    exact hinv
  | cons a as ih =>
    rw [List.foldl_cons]
    have := ih (pages ++ [a]) _ (ChanInv_step hasher rows tr ch st0 pages st a hinv)
    rw [List.append_assoc] at this
    exact this

/-- The invariant holds throughout the loop over `pat`, from any entry state whose
patterns are numbered by position and whose table for channel `ch` is empty. -/
theorem ChanInv_run (hasher : List Nat → Nat) (rows : Fin 4 → List Row) (tr : Nat)
    (ch : Fin 4) (st0 : EmitState) (l : List Nat)
    (hlen : st0.patterns.length = st0.new_pattern_idx)
    (hidx : ∀ (k : Nat) (p : UgePattern), st0.patterns[k]? = some p → p.index = k)
    (hemp : ∀ h, st0.pattern_hash_to_index ch h = none) :
    ChanInv hasher rows tr ch st0 l
      (l.foldl (emitBlock hasher rows tr ch)
        { st0 with orders := Function.update st0.orders ch [] }) := by
  have := ChanInv_foldl hasher rows tr ch st0 l []
    { st0 with orders := Function.update st0.orders ch [] }
    ⟨hlen, hidx, ⟨[], (List.append_nil _).symm⟩, le_refl _, by
      simp only [Function.update_same]
      exact List.Forall₂.nil, by
      intro h i hi
      rw [hemp h] at hi
      exact absurd hi (by simp), by
      intro i h1 h2
      simp only at h2
      omega, by
      intro c hc
      simp only [Function.update_noteq hc, and_self]⟩
  rw [List.nil_append] at this
  exact this

theorem emitEntry_succ (hasher : List Nat → Nat) (rows : Fin 4 → List Row)
    (tr sp np : Nat) (n : Nat) (hn : n < 4) :
    emitEntry hasher rows tr sp np (n + 1)
      = emitChannel hasher rows tr sp np (emitEntry hasher rows tr sp np n) ⟨n, hn⟩ := by
  interval_cases n <;> rfl

theorem emitPatterns_eq_entry (hasher : List Nat → Nat) (rows : Fin 4 → List Row)
    (tr sp np : Nat) :
    emitPatterns hasher rows tr sp np = emitEntry hasher rows tr sp np 4 := rfl

theorem emitChannel_eq_at (hasher : List Nat → Nat) (rows : Fin 4 → List Row)
    (tr sp np : Nat) (ch : Fin 4) :
    emitChannel hasher rows tr sp np (emitEntry hasher rows tr sp np ch.val) ch
      = emitAt hasher rows tr sp np ch (np - sp) := rfl

theorem emitAt_succ (hasher : List Nat → Nat) (rows : Fin 4 → List Row)
    (tr sp np : Nat) (ch : Fin 4) (j : Nat) :
    emitAt hasher rows tr sp np ch (j + 1)
      = emitBlock hasher rows tr ch (emitAt hasher rows tr sp np ch j) (sp + j) := by
  unfold emitAt
  rw [List.range'_concat, List.foldl_append]
  simp only [List.foldl_cons, List.foldl_nil, one_mul]

/-- The state after `n` channels: patterns are numbered by position, the tables of
the channels still to come are empty, and every completed channel keeps its
result. -/
theorem emit_global (hasher : List Nat → Nat) (rows : Fin 4 → List Row)
    (tr sp np : Nat) (n : Nat) (hn : n ≤ 4) :
    (emitEntry hasher rows tr sp np n).patterns.length
      = (emitEntry hasher rows tr sp np n).new_pattern_idx ∧
    (∀ (k : Nat) (p : UgePattern),
      (emitEntry hasher rows tr sp np n).patterns[k]? = some p → p.index = k) ∧
    (∀ c : Fin 4, n ≤ c.val →
      ∀ h, (emitEntry hasher rows tr sp np n).pattern_hash_to_index c h = none) ∧
    (∀ c : Fin 4, c.val < n →
      ChanRes hasher rows tr c (emitEntry hasher rows tr sp np c.val).new_pattern_idx
        (emitEntry hasher rows tr sp np (c.val + 1)).new_pattern_idx
        (List.range' sp (np - sp)) (emitEntry hasher rows tr sp np n)) ∧
    (∀ m, m ≤ n → (emitEntry hasher rows tr sp np m).new_pattern_idx
      ≤ (emitEntry hasher rows tr sp np n).new_pattern_idx) := by
  induction n with
  | zero =>
    refine ⟨rfl, ?_, ?_, ?_, ?_⟩
    · intro k p hk
      exact absurd hk (by simp [emitEntry])
    · intro c _ h
      rfl
    · intro c hc
      exact absurd hc (Nat.not_lt_zero _)
    · intro m hm
      have : m = 0 := by omega
      subst this
      exact le_refl _
  | succ n ih =>
    have hn4 : n < 4 := by omega
    obtain ⟨hlen, hidx, hemp, hres, hmon⟩ := ih (by omega)
    have hci : ChanInv hasher rows tr ⟨n, hn4⟩ (emitEntry hasher rows tr sp np n)
        (List.range' sp (np - sp)) (emitEntry hasher rows tr sp np (n + 1)) := by
      rw [emitEntry_succ hasher rows tr sp np n hn4]
      exact ChanInv_run hasher rows tr ⟨n, hn4⟩ _ _ hlen hidx (hemp ⟨n, hn4⟩ (le_refl _))
    obtain ⟨clen, cidx, ⟨ext, cext⟩, cmono, cord, ctab, ccov, coth⟩ := hci
    refine ⟨clen, cidx, ?_, ?_, ?_⟩
    · intro c hc h
      have hne : c ≠ ⟨n, hn4⟩ := by
        intro e
        rw [e] at hc
        simp only at hc
        omega
      rw [(coth c hne).2]
      exact hemp c (by omega) h
    · intro c hc
      by_cases hcn : c.val = n
      · have hce : c = ⟨n, hn4⟩ := Fin.ext hcn
        subst hce
        exact ⟨cord, ctab, ccov⟩
      · have hne : c ≠ ⟨n, hn4⟩ := fun e => hcn (by rw [e])
        obtain ⟨rord, rtab, rcov⟩ := hres c (by omega)
        refine ⟨?_, ?_, ?_⟩
        · rw [(coth c hne).1, (coth c hne).2]
          exact rord
        · intro h i hi
          rw [(coth c hne).2] at hi
          obtain ⟨h1, h2, p, hp, h3, h4⟩ := rtab h i hi
          refine ⟨h1, h2, p, hp, h3, ?_⟩
          rw [cext]
          exact getElem?_append_some _ _ _ _ h4
        · intro i h1 h2
          rw [(coth c hne).2]
          exact rcov i h1 h2
    · intro m hm
      by_cases hmn : m = n + 1
      · rw [hmn]
      · exact le_trans (hmon m (by omega)) cmono

/-- The final state of the pattern loop, channel by channel: with
`lo = b ch` and `hi = b (ch + 1)` the patterns made for channel `ch` are those with
index in `lo .. hi - 1`. -/
theorem emitPatterns_channel (hasher : List Nat → Nat) (rows : Fin 4 → List Row)
    (tr sp np : Nat) (ch : Fin 4) :
    ChanRes hasher rows tr ch (emitEntry hasher rows tr sp np ch.val).new_pattern_idx
      (emitEntry hasher rows tr sp np (ch.val + 1)).new_pattern_idx
      (List.range' sp (np - sp)) (emitPatterns hasher rows tr sp np) :=
  (emit_global hasher rows tr sp np 4 (le_refl 4)).2.2.2.1 ch ch.isLt

theorem emitPatterns_orders_length (hasher : List Nat → Nat) (rows : Fin 4 → List Row)
    (tr sp np : Nat) (ch : Fin 4) :
    ((emitPatterns hasher rows tr sp np).orders ch).length = np - sp := by
  have h := (emitPatterns_channel hasher rows tr sp np ch).1.length_eq
  rw [List.length_range'] at h
  exact h.symm

/-- Entry `j` of the order list of channel `ch` is the table entry of the hash of
page `sp + j`. -/
theorem emitPatterns_orders_get (hasher : List Nat → Nat) (rows : Fin 4 → List Row)
    (tr sp np : Nat) (ch : Fin 4) (j : Nat) (hj : j < np - sp) :
    ∃ i, ((emitPatterns hasher rows tr sp np).orders ch)[j]? = some i ∧
      (emitPatterns hasher rows tr sp np).pattern_hash_to_index ch
        (hasher (pat_data rows tr ch (sp + j))) = some i := by
  have h := (emitPatterns_channel hasher rows tr sp np ch).1
  rw [List.forall₂_iff_get] at h
  have hl : j < ((emitPatterns hasher rows tr sp np).orders ch).length := by
    rw [emitPatterns_orders_length]
    exact hj
  have hr : j < (List.range' sp (np - sp)).length := by
    rw [List.length_range']
    exact hj
  have := h.2 j hr hl
  simp only [List.get_eq_getElem, List.getElem_range', one_mul] at this
  exact ⟨_, List.getElem?_eq_getElem hl, this⟩

/-- A table entry of channel `ch` names a pattern built from a page of that
channel with that hash. -/
theorem emitPatterns_table (hasher : List Nat → Nat) (rows : Fin 4 → List Row)
    (tr sp np : Nat) (ch : Fin 4) (h i : Nat)
    (hi : (emitPatterns hasher rows tr sp np).pattern_hash_to_index ch h = some i) :
    (emitEntry hasher rows tr sp np ch.val).new_pattern_idx ≤ i ∧
    i < (emitEntry hasher rows tr sp np (ch.val + 1)).new_pattern_idx ∧
    ∃ j, j < np - sp ∧ hasher (pat_data rows tr ch (sp + j)) = h ∧
      (emitPatterns hasher rows tr sp np).patterns[i]?
        = some (buildPattern i rows tr ch (sp + j)) := by
  obtain ⟨h1, h2, p, hp, h3, h4⟩ := (emitPatterns_channel hasher rows tr sp np ch).2.1 h i hi
  rw [List.mem_range'_1] at hp
  exact ⟨h1, h2, p - sp, by omega, by rw [show sp + (p - sp) = p by omega]; exact h3,
    by rw [show sp + (p - sp) = p by omega]; exact h4⟩

/-- The table of a channel maps different hashes to different indices. -/
theorem emitPatterns_table_inj (hasher : List Nat → Nat) (rows : Fin 4 → List Row)
    (tr sp np : Nat) (ch : Fin 4) (h1 h2 i : Nat)
    (e1 : (emitPatterns hasher rows tr sp np).pattern_hash_to_index ch h1 = some i)
    (e2 : (emitPatterns hasher rows tr sp np).pattern_hash_to_index ch h2 = some i) :
    h1 = h2 := by
  obtain ⟨-, -, j1, -, a1, b1⟩ := emitPatterns_table hasher rows tr sp np ch h1 i e1
  obtain ⟨-, -, j2, -, a2, b2⟩ := emitPatterns_table hasher rows tr sp np ch h2 i e2
  rw [b1] at b2
  have hb : blockRows rows tr ch (sp + j1) = blockRows rows tr ch (sp + j2) := by
    have := Option.some.inj b2
    rw [buildPattern_eq, buildPattern_eq] at this
    exact (UgePattern.mk.inj this).2
  rw [← a1, ← a2, (pat_data_eq_iff rows tr ch ch _ _).mpr hb]

theorem emitEntry_mono (hasher : List Nat → Nat) (rows : Fin 4 → List Row)
    (tr sp np : Nat) (a b : Nat) (hab : a ≤ b) (hb : b ≤ 4) :
    (emitEntry hasher rows tr sp np a).new_pattern_idx
      ≤ (emitEntry hasher rows tr sp np b).new_pattern_idx :=
  (emit_global hasher rows tr sp np b hb).2.2.2.2 a hab

/-- The order list of a channel names only patterns made for that channel. -/
theorem emitPatterns_orders_range (hasher : List Nat → Nat) (rows : Fin 4 → List Row)
    (tr sp np : Nat) (c : Fin 4) (i : Nat)
    (hi : i ∈ (emitPatterns hasher rows tr sp np).orders c) :
    (emitEntry hasher rows tr sp np c.val).new_pattern_idx ≤ i ∧
      i < (emitEntry hasher rows tr sp np (c.val + 1)).new_pattern_idx := by
  obtain ⟨j, hj, hij⟩ := List.getElem_of_mem hi
  have hj2 : j < np - sp := by
    rw [← emitPatterns_orders_length hasher rows tr sp np c]
    exact hj
  obtain ⟨i2, a, b⟩ := emitPatterns_orders_get hasher rows tr sp np c j hj2
  rw [List.getElem?_eq_getElem hj, hij] at a
  rw [← Option.some.inj a] at b
  obtain ⟨h1, h2, -⟩ := emitPatterns_table hasher rows tr sp np c _ i b
  exact ⟨h1, h2⟩

theorem convert_orders (hasher : List Nat → Nat) (tpq : Int) (evs : List MidiEvent)
    (um : Option (Fin 4 → Int)) :
    (convertMidiToUge hasher tpq evs um).orders =
      (emitPatterns hasher (convertMidiToUge hasher tpq evs um).grid.channel_rows
        (total_rows evs)
        (first_nonempty_row (convertMidiToUge hasher tpq evs um).grid.channel_rows
          (total_rows evs) / UGE_PATTERN_ROWS) (num_patterns evs)).orders := rfl

theorem convert_patterns (hasher : List Nat → Nat) (tpq : Int) (evs : List MidiEvent)
    (um : Option (Fin 4 → Int)) :
    (convertMidiToUge hasher tpq evs um).patterns =
      (emitPatterns hasher (convertMidiToUge hasher tpq evs um).grid.channel_rows
        (total_rows evs)
        (first_nonempty_row (convertMidiToUge hasher tpq evs um).grid.channel_rows
          (total_rows evs) / UGE_PATTERN_ROWS) (num_patterns evs)).patterns := rfl

theorem emitAt_inv (hasher : List Nat → Nat) (rows : Fin 4 → List Row)
    (tr sp np : Nat) (ch : Fin 4) (j : Nat) :
    ChanInv hasher rows tr ch (emitEntry hasher rows tr sp np ch.val) (List.range' sp j)
      (emitAt hasher rows tr sp np ch j) := by
  obtain ⟨hlen, hidx, hemp, -, -⟩ :=
    emit_global hasher rows tr sp np ch.val (Nat.le_of_lt ch.isLt)
  exact ChanInv_run hasher rows tr ch _ _ hlen hidx (hemp ch (le_refl _))

/-- Inside channel `ch`, after `j` pages, the table knows the hash of every page
processed so far and of no other. -/
theorem emitAt_table (hasher : List Nat → Nat) (rows : Fin 4 → List Row)
    (tr sp np : Nat) (ch : Fin 4) (j : Nat) (h : Nat) :
    ((emitAt hasher rows tr sp np ch j).pattern_hash_to_index ch h).isSome ↔
      ∃ q, q < j ∧ hasher (pat_data rows tr ch (sp + q)) = h := by
  obtain ⟨-, -, -, -, hord, htab, -, -⟩ := emitAt_inv hasher rows tr sp np ch j
  constructor
  · intro hs
    obtain ⟨i, hi⟩ := Option.isSome_iff_exists.mp hs
    obtain ⟨-, -, p, hp, h3, -⟩ := htab h i hi
    rw [List.mem_range'_1] at hp
    exact ⟨p - sp, by omega, by rw [show sp + (p - sp) = p by omega]; exact h3⟩
  · rintro ⟨q, hq, rfl⟩
    rw [List.forall₂_iff_get] at hord
    have hr : q < (List.range' sp j).length := by
      rw [List.length_range']
      exact hq
    have := hord.2 q hr (by rw [← hord.1]; exact hr)
    simp only [List.get_eq_getElem, List.getElem_range', one_mul] at this
    rw [this]
    rfl

/-- C16: in the pattern loop (run by `convertMidiToUge` on its row grid with
`sp = first_nonempty_page` and `np = num_patterns`), two block positions `j1 < j2`
of one hardware channel whose 64 rows are identical receive the same pattern
index in that channel's order list; the later one appends no pattern; and the
earlier one appends the pattern built from its rows when no block before it in
that channel has the same hash value. -/
theorem C16_same_block_same_index (hasher : List Nat → Nat) (rows : Fin 4 → List Row)
    (tr sp np : Nat) (ch : Fin 4) (j1 j2 : Nat) (h12 : j1 < j2) (hj2 : j2 < np - sp)
    (hsame : blockRows rows tr ch (sp + j1) = blockRows rows tr ch (sp + j2)) :
    (∃ i, ((emitPatterns hasher rows tr sp np).orders ch)[j1]? = some i ∧
      ((emitPatterns hasher rows tr sp np).orders ch)[j2]? = some i) ∧
    (emitAt hasher rows tr sp np ch (j2 + 1)).patterns
      = (emitAt hasher rows tr sp np ch j2).patterns ∧
    ((∀ q, q < j1 → hasher (pat_data rows tr ch (sp + q))
        ≠ hasher (pat_data rows tr ch (sp + j1))) →
      (emitAt hasher rows tr sp np ch (j1 + 1)).patterns
        = (emitAt hasher rows tr sp np ch j1).patterns ++
          [buildPattern (emitAt hasher rows tr sp np ch j1).new_pattern_idx rows tr ch
            (sp + j1)]) := by
  have hdata := (pat_data_eq_iff rows tr ch ch (sp + j1) (sp + j2)).mpr hsame
  refine ⟨?_, ?_, ?_⟩
  · obtain ⟨i1, a1, b1⟩ := emitPatterns_orders_get hasher rows tr sp np ch j1 (by omega)
    obtain ⟨i2, a2, b2⟩ := emitPatterns_orders_get hasher rows tr sp np ch j2 hj2
    rw [hdata, b2] at b1
    have : i2 = i1 := Option.some.inj b1
    subst this
    exact ⟨i2, a1, a2⟩
  · have hs := (emitAt_table hasher rows tr sp np ch j2
      (hasher (pat_data rows tr ch (sp + j2)))).mpr ⟨j1, h12, by rw [hdata]⟩
    obtain ⟨i, hi⟩ := Option.isSome_iff_exists.mp hs
    rw [emitAt_succ, emitBlock_hit hasher rows tr ch _ _ i hi]
  · intro hfirst
    have hn : (emitAt hasher rows tr sp np ch j1).pattern_hash_to_index ch
        (hasher (pat_data rows tr ch (sp + j1))) = none := by
      rw [← Option.not_isSome_iff_eq_none, emitAt_table]
      rintro ⟨q, hq, he⟩
      exact hfirst q hq he
    rw [emitAt_succ, emitBlock_miss hasher rows tr ch _ _ hn]

theorem C16_same_block_same_index_witness :
    ∃ i, ((emitPatterns (fun _ => 0) (fun _ => []) 0 0 2).orders 1)[0]? = some i ∧
      ((emitPatterns (fun _ => 0) (fun _ => []) 0 0 2).orders 1)[1]? = some i :=
  (C16_same_block_same_index (fun _ => 0) (fun _ => []) 0 0 2 1 0 1 (by decide) (by decide)
    (by decide)).1

/-- C17 (amended): two block positions of one hardware channel receive the same
pattern index exactly when the hash values of their contents are equal; so
blocks whose contents have different hash values receive distinct indices, and
blocks with different contents are told apart only if their hash values
differ. -/
theorem C17_distinct_hash_distinct_index (hasher : List Nat → Nat)
    (rows : Fin 4 → List Row) (tr sp np : Nat) (ch : Fin 4) (j1 j2 : Nat)
    (hj1 : j1 < np - sp) (hj2 : j2 < np - sp) :
    ∃ i1 i2, ((emitPatterns hasher rows tr sp np).orders ch)[j1]? = some i1 ∧
      ((emitPatterns hasher rows tr sp np).orders ch)[j2]? = some i2 ∧
      (i1 = i2 ↔ hasher (pat_data rows tr ch (sp + j1))
        = hasher (pat_data rows tr ch (sp + j2))) ∧
      (hasher (pat_data rows tr ch (sp + j1)) ≠ hasher (pat_data rows tr ch (sp + j2)) →
        i1 ≠ i2 ∧ blockRows rows tr ch (sp + j1) ≠ blockRows rows tr ch (sp + j2)) := by
  obtain ⟨i1, a1, b1⟩ := emitPatterns_orders_get hasher rows tr sp np ch j1 hj1
  obtain ⟨i2, a2, b2⟩ := emitPatterns_orders_get hasher rows tr sp np ch j2 hj2
  have hiff : i1 = i2 ↔ hasher (pat_data rows tr ch (sp + j1))
      = hasher (pat_data rows tr ch (sp + j2)) := by
    constructor
    · intro e
      subst e
      exact emitPatterns_table_inj hasher rows tr sp np ch _ _ i1 b1 b2
    · intro e
      rw [e, b2] at b1
      exact (Option.some.inj b1).symm
  refine ⟨i1, i2, a1, a2, hiff, ?_⟩
  intro hne
  refine ⟨fun e => hne (hiff.mp e), ?_⟩
  intro e
  exact hne (by rw [(pat_data_eq_iff rows tr ch ch _ _).mpr e])

theorem C17_distinct_hash_distinct_index_witness :
    ∃ i1 i2,
      ((emitPatterns (fun l => l.headD 0) (fun _ => [⟨60, 0, 100⟩]) 65 0 2).orders 0)[0]? = some i1 ∧
      ((emitPatterns (fun l => l.headD 0) (fun _ => [⟨60, 0, 100⟩]) 65 0 2).orders 0)[1]? = some i2 ∧
      i1 ≠ i2 :=
  match C17_distinct_hash_distinct_index (fun l => l.headD 0) (fun _ => [⟨60, 0, 100⟩]) 65 0 2 0 0 1
    (by decide) (by decide) with
  | ⟨i1, i2, h1, h2, _, h4⟩ => ⟨i1, i2, h1, h2, (h4 (by decide)).1⟩

/-- C15 (amended): the patterns made for hardware channel `ch` are those with index
in `b ch .. b (ch + 1) - 1`, where `b n` is the pattern count after `n` channels
(`b 0 = 0`, `b 4` is the size of the pattern table, `b` is non-decreasing). The
order list of a channel names exactly the patterns made for that channel, so
blocks of different channels are never referenced by the same index; and two
different pattern-table entries made for the same channel never have identical
rows. -/
theorem C15_patterns_per_channel (hasher : List Nat → Nat) (rows : Fin 4 → List Row)
    (tr sp np : Nat) (ch : Fin 4) :
    (emitEntry hasher rows tr sp np 0).new_pattern_idx = 0 ∧
    (emitEntry hasher rows tr sp np 4).new_pattern_idx
      = (emitPatterns hasher rows tr sp np).patterns.length ∧
    (emitEntry hasher rows tr sp np ch.val).new_pattern_idx
      ≤ (emitEntry hasher rows tr sp np (ch.val + 1)).new_pattern_idx ∧
    (∀ c : Fin 4, ch < c → (emitEntry hasher rows tr sp np (ch.val + 1)).new_pattern_idx
      ≤ (emitEntry hasher rows tr sp np c.val).new_pattern_idx) ∧
    (∀ i ∈ (emitPatterns hasher rows tr sp np).orders ch,
      (emitEntry hasher rows tr sp np ch.val).new_pattern_idx ≤ i ∧
        i < (emitEntry hasher rows tr sp np (ch.val + 1)).new_pattern_idx) ∧
    (∀ i, (emitEntry hasher rows tr sp np ch.val).new_pattern_idx ≤ i →
      i < (emitEntry hasher rows tr sp np (ch.val + 1)).new_pattern_idx →
      i ∈ (emitPatterns hasher rows tr sp np).orders ch) ∧
    (∀ c : Fin 4, c ≠ ch → ∀ i ∈ (emitPatterns hasher rows tr sp np).orders ch,
      i ∉ (emitPatterns hasher rows tr sp np).orders c) ∧
    (∀ i1 i2 p1 p2, (emitEntry hasher rows tr sp np ch.val).new_pattern_idx ≤ i1 → i1 < i2 →
      i2 < (emitEntry hasher rows tr sp np (ch.val + 1)).new_pattern_idx →
      (emitPatterns hasher rows tr sp np).patterns[i1]? = some p1 →
      (emitPatterns hasher rows tr sp np).patterns[i2]? = some p2 →
      p1.rows ≠ p2.rows) := by
  have hg := emit_global hasher rows tr sp np 4 (le_refl 4)
  have hmem := emitPatterns_orders_range hasher rows tr sp np
  have hmono := emitEntry_mono hasher rows tr sp np
  refine ⟨rfl, hg.1.symm, hmono _ _ (Nat.le_succ _) ch.isLt, ?_, hmem ch, ?_, ?_, ?_⟩
  · intro c hc
    exact hmono _ _ hc (Nat.le_of_lt c.isLt)
  · intro i h1 h2
    obtain ⟨h, hh⟩ := (emitPatterns_channel hasher rows tr sp np ch).2.2 i h1 h2
    obtain ⟨-, -, j, hj, hjh, -⟩ := emitPatterns_table hasher rows tr sp np ch h i hh
    obtain ⟨i2, a, b⟩ := emitPatterns_orders_get hasher rows tr sp np ch j hj
    rw [hjh, hh] at b
    rw [← Option.some.inj b] at a
    exact List.mem_iff_getElem?.mpr ⟨j, a⟩
  · intro c hc i hi hi2
    have h1 := hmem ch i hi
    have h2 := hmem c i hi2
    rcases lt_or_gt_of_ne (fun e => hc (Fin.ext e) : c.val ≠ ch.val) with hlt | hgt
    · have := hmono (c.val + 1) ch.val hlt (Nat.le_of_lt ch.isLt)
      omega
    · have := hmono (ch.val + 1) c.val hgt (Nat.le_of_lt c.isLt)
      omega
  · intro i1 i2 p1 p2 h1 h12 h2 e1 e2 hrows
    obtain ⟨g1, hg1⟩ := (emitPatterns_channel hasher rows tr sp np ch).2.2 i1 h1 (by omega)
    obtain ⟨g2, hg2⟩ := (emitPatterns_channel hasher rows tr sp np ch).2.2 i2 (by omega) h2
    obtain ⟨-, -, j1, -, a1, b1⟩ := emitPatterns_table hasher rows tr sp np ch g1 i1 hg1
    obtain ⟨-, -, j2, -, a2, b2⟩ := emitPatterns_table hasher rows tr sp np ch g2 i2 hg2
    rw [e1] at b1
    rw [e2] at b2
    rw [Option.some.inj b1, Option.some.inj b2, buildPattern_eq, buildPattern_eq] at hrows
    have hd := (pat_data_eq_iff rows tr ch ch _ _).mpr hrows
    rw [← a1, hd] at hg1
    rw [← a2, hg1] at hg2
    have := Option.some.inj hg2
    omega

theorem C15_patterns_per_channel_witness :
    0 ∉ (emitPatterns (fun _ => 0) (fun _ => []) 0 0 2).orders 1 :=
  (C15_patterns_per_channel (fun _ => 0) (fun _ => []) 0 0 2 0).2.2.2.2.2.2.1 1 (by decide)
    0 (by decide)

/-- For a single note on source channel 0 the hardware channels Duty 2 and Wave
hold one all-empty page each; whatever the hash function, the two blocks are
referenced by different pattern indices and the pattern table holds two
entries with identical rows. -/
theorem cross_channel_duplicate (hasher : List Nat → Nat) :
    ∃ i1 i2 p1 p2,
      ((convertMidiToUge hasher 24 oneNoteSong none).orders 1)[0]? = some i1 ∧
      ((convertMidiToUge hasher 24 oneNoteSong none).orders 2)[0]? = some i2 ∧
      i1 ≠ i2 ∧
      (convertMidiToUge hasher 24 oneNoteSong none).patterns[i1]? = some p1 ∧
      (convertMidiToUge hasher 24 oneNoteSong none).patterns[i2]? = some p2 ∧
      p1.rows = p2.rows := by
  have hfp : first_nonempty_row (convertMidiToUge hasher 24 oneNoteSong none).grid.channel_rows
      (total_rows oneNoteSong) / UGE_PATTERN_ROWS = 0 := by
    show first_nonempty_row (buildGrid (midi_to_uge oneNoteSong none) (total_rows oneNoteSong)
      oneNoteSong).channel_rows (total_rows oneNoteSong) / UGE_PATTERN_ROWS = 0
    decide
  have hnp : num_patterns oneNoteSong = 1 := by decide
  have hb : blockRows (convertMidiToUge hasher 24 oneNoteSong none).grid.channel_rows
      (total_rows oneNoteSong) 1 0
      = blockRows (convertMidiToUge hasher 24 oneNoteSong none).grid.channel_rows
        (total_rows oneNoteSong) 2 0 := by
    show blockRows (buildGrid (midi_to_uge oneNoteSong none) (total_rows oneNoteSong)
      oneNoteSong).channel_rows (total_rows oneNoteSong) 1 0
      = blockRows (buildGrid (midi_to_uge oneNoteSong none) (total_rows oneNoteSong)
        oneNoteSong).channel_rows (total_rows oneNoteSong) 2 0
    decide
  rw [convert_orders, convert_patterns, hfp, hnp]
  obtain ⟨i1, a1, b1⟩ := emitPatterns_orders_get hasher
    (convertMidiToUge hasher 24 oneNoteSong none).grid.channel_rows (total_rows oneNoteSong)
    0 1 1 0 (by decide)
  obtain ⟨i2, a2, b2⟩ := emitPatterns_orders_get hasher
    (convertMidiToUge hasher 24 oneNoteSong none).grid.channel_rows (total_rows oneNoteSong)
    0 1 2 0 (by decide)
  obtain ⟨-, u1, j1, hj1, -, c1⟩ := emitPatterns_table hasher _ _ _ _ 1 _ i1 b1
  obtain ⟨l2, -, j2, hj2, -, c2⟩ := emitPatterns_table hasher _ _ _ _ 2 _ i2 b2
  have e1 : j1 = 0 := by omega
  have e2 : j2 = 0 := by omega
  subst e1 e2
  refine ⟨i1, i2, _, _, a1, a2, ?_, c1, c2, ?_⟩
  · exact Nat.ne_of_lt (Nat.lt_of_lt_of_le u1 l2)
  · rw [buildPattern_eq, buildPattern_eq]
    exact hb

/-- C15 (counterexample): for the input `oneNoteSong` (one note on source channel
0) the hardware channels Duty 2 and Wave hold one all-empty page each. With
the byte sum as hash function the order lists of Duty 2 and Wave are `[1]` and
`[2]` and the patterns 1 and 2 of the pattern table have identical rows; and
for every hash function the two blocks are referenced by different pattern
indices that name entries with identical rows. -/
theorem C15_counterexample :
    ((convertMidiToUge byteSum 24 oneNoteSong none).orders 1 = [1] ∧
      (convertMidiToUge byteSum 24 oneNoteSong none).orders 2 = [2] ∧
      ((convertMidiToUge byteSum 24 oneNoteSong none).patterns[1]?.map fun p => p.rows)
        = some (blockRows (convertMidiToUge byteSum 24 oneNoteSong none).grid.channel_rows
          (total_rows oneNoteSong) 1 0) ∧
      ((convertMidiToUge byteSum 24 oneNoteSong none).patterns[2]?.map fun p => p.rows)
        = some (blockRows (convertMidiToUge byteSum 24 oneNoteSong none).grid.channel_rows
          (total_rows oneNoteSong) 1 0)) ∧
    (∀ hasher : List Nat → Nat, ∃ i1 i2 p1 p2,
      ((convertMidiToUge hasher 24 oneNoteSong none).orders 1)[0]? = some i1 ∧
      ((convertMidiToUge hasher 24 oneNoteSong none).orders 2)[0]? = some i2 ∧
      i1 ≠ i2 ∧
      (convertMidiToUge hasher 24 oneNoteSong none).patterns[i1]? = some p1 ∧
      (convertMidiToUge hasher 24 oneNoteSong none).patterns[i2]? = some p2 ∧
      p1.rows = p2.rows) :=
  ⟨by decide, cross_channel_duplicate⟩

/-- C18 (failing input): for a percussion hit at tick 0 and one at tick 4608
(row 768) the song has 769 rows and 13 pages, the limit computed by the
converter is `max_patterns = 12`, and the order list of every hardware channel
has 13 entries: no block is dropped. -/
theorem C18_orders_exceed_limit (hasher : List Nat → Nat) (ch : Fin 4) :
    ((convertMidiToUge hasher 24 longSong none).orders ch).length = 13 ∧
    total_rows longSong = 769 ∧ num_patterns longSong = 13 ∧
    max_patterns (num_patterns longSong) = 12 ∧
    max_patterns_by_size = 12 ∧ MAX_PATTERNS_PER_CHANNEL = 256 := by
  refine ⟨?_, by decide, by decide, by decide, by decide, rfl⟩
  rw [convert_orders, emitPatterns_orders_length]
  show num_patterns longSong
    - first_nonempty_row (buildGrid (midi_to_uge longSong none) (total_rows longSong)
      longSong).channel_rows (total_rows longSong) / UGE_PATTERN_ROWS = 13
  set_option maxRecDepth 100000 in decide

/-! ## Instrument indices stay below 15 -/

theorem lookup_bound {κ : Type} [BEq κ] (table : List (κ × Nat)) (limit : Nat) (k : κ)
    (h : ∀ kv ∈ table, kv.2 < limit) (hl : 0 < limit) :
    (table.lookup k).getD 0 < limit := by
  induction table with
  | nil => exact hl
  | cons a as ih =>
    obtain ⟨a1, a2⟩ := a
    rw [List.lookup_cons]
    split
    · exact h (a1, a2) (List.mem_cons_self _ _)
    · exact ih (fun kv hkv => h kv (List.mem_cons_of_mem _ hkv))

theorem tableAssign_bound {κ : Type} [BEq κ] (table : List (κ × Nat)) (next limit : Nat)
    (k : κ) (h : ∀ kv ∈ table, kv.2 < limit) (hl : 0 < limit) :
    (∀ kv ∈ (tableAssign table next limit k).1, kv.2 < limit) ∧
    ((tableAssign table next limit k).1.lookup k).getD 0 < limit := by
  have h1 : ∀ kv ∈ (tableAssign table next limit k).1, kv.2 < limit := by
    unfold tableAssign
    split_ifs with hc
    · intro kv hkv
      simp only [List.mem_append, List.mem_singleton] at hkv
      rcases hkv with hkv | rfl
      · exact h kv hkv
      · exact hc.2
    · exact h
  exact ⟨h1, lookup_bound _ limit k h1 hl⟩

theorem processNoise_bound (s : BuildState) (ev : MidiEvent) (row tr : Nat)
    (hs : InstBound s) : InstBound (processNoise s ev row tr) := by
  by_cases hon : ev.isOn
  · obtain ⟨h1, h2, h3, h4, h5⟩ := hs
    have ht := tableAssign_bound s.percussionNoteToUgeInst s.nextNoiseInst UGE_NUM_NOISE ev.key
      h3 (by decide)
    have hn := processNoise_on s ev row tr hon
    refine ⟨?_, ?_, ?_, ?_, ?_⟩
    · unfold processNoise
      rw [if_pos hon]
      simp only
      split_ifs <;> exact h1
    · unfold processNoise
      rw [if_pos hon]
      simp only
      split_ifs <;> exact h2
    · rw [hn.2.1]
      exact ht.1
    · rw [processNoise_active]
      exact h4
    · intro h x hx
      by_cases h3 : h = 3
      · subst h3
        rw [hn.1] at hx
        split_ifs at hx
        · rcases List.mem_or_eq_of_mem_set hx with hx | rfl
          · rcases List.mem_or_eq_of_mem_set hx with hx | rfl
            · exact h5 3 x hx
            · exact ht.2
          · decide
        · rcases List.mem_or_eq_of_mem_set hx with hx | rfl
          · exact h5 3 x hx
          · exact ht.2
      · rw [processNoise_rows_other s ev row tr h h3] at hx
        exact h5 h x hx
  · rw [processNoise_not_on s ev row tr hon]
    exact hs

theorem processMelodic_bound (s : BuildState) (ev : MidiEvent) (row tr : Nat) (c : Fin 4)
    (hs : InstBound s) : InstBound (processMelodic s ev row tr c) := by
  obtain ⟨h1, h2, h3, h4, h5⟩ := hs
  by_cases hp : ev.kind = EventKind.programChange
  · unfold processMelodic
    rw [if_pos hp]
    simp only
    split_ifs
    · exact ⟨h1, (tableAssign_bound _ _ UGE_NUM_WAVE _ h2 (by decide)).1, h3, h4, h5⟩
    · exact ⟨(tableAssign_bound _ _ UGE_NUM_DUTY _ h1 (by decide)).1, h2, h3, h4, h5⟩
  · by_cases hon : ev.isOn
    · unfold processMelodic
      rw [if_neg hp, if_pos hon]
      simp only
      split_ifs
      · have ht := tableAssign_bound s.midiProgToUgeWaveInst s.nextUgeWaveInst UGE_NUM_WAVE
          (s.channelProgram ev.channel) h2 (by decide)
        refine ⟨h1, ht.1, h3, ?_, h5⟩
        intro h k a i v hact
        simp only at hact
        by_cases hh : h = c
        · subst hh
          rw [Function.update_same] at hact
          by_cases hk : k = ev.key
          · subst hk
            rw [Function.update_same] at hact
            have := Option.some.inj hact
            simp only [Prod.mk.injEq] at this
            rw [← this.2.1]
            exact ht.2
          · rw [Function.update_noteq hk] at hact
            exact h4 h k a i v hact
        · rw [Function.update_noteq hh] at hact
          exact h4 h k a i v hact
      · have ht := tableAssign_bound s.midiProgToUgeInst s.nextUgeInst UGE_NUM_DUTY
          (s.channelProgram ev.channel) h1 (by decide)
        refine ⟨ht.1, h2, h3, ?_, h5⟩
        intro h k a i v hact
        simp only at hact
        by_cases hh : h = c
        · subst hh
          rw [Function.update_same] at hact
          by_cases hk : k = ev.key
          · subst hk
            rw [Function.update_same] at hact
            have := Option.some.inj hact
            simp only [Prod.mk.injEq] at this
            rw [← this.2.1]
            exact ht.2
          · rw [Function.update_noteq hk] at hact
            exact h4 h k a i v hact
        · rw [Function.update_noteq hh] at hact
          exact h4 h k a i v hact
    · by_cases hoff : ev.isOff
      · cases hact : s.active_notes c ev.key with
        | none =>
          rw [processMelodic_off_none s ev row tr c hp hon hact]
          exact ⟨h1, h2, h3, h4, h5⟩
        | some x =>
          obtain ⟨a, b, d⟩ := x
          rw [processMelodic_off_some s ev row tr c hp hon hoff a b d hact]
          have hb : b < 15 := h4 c ev.key a b d hact
          refine ⟨h1, h2, h3, ?_, ?_⟩
          · intro h k a2 i v hact2
            simp only at hact2
            by_cases hh : h = c
            · subst hh
              rw [Function.update_same] at hact2
              by_cases hk : k = ev.key
              · subst hk
                rw [Function.update_same] at hact2
                exact absurd hact2 (by simp)
              · rw [Function.update_noteq hk] at hact2
                exact h4 h k a2 i v hact2
            · rw [Function.update_noteq hh] at hact2
              exact h4 h k a2 i v hact2
          · intro h x hx
            simp only at hx
            by_cases hh : h = c
            · subst hh
              rw [Function.update_same] at hx
              have hfill : ∀ y ∈ fillRows (s.channel_rows h) ⟨ev.key % 256, b, d % 256⟩ a
                  (min row tr), y.instrument < 15 := by
                intro y hy
                rcases mem_fillLoop _ _ _ _ y hy with rfl | hy
                · exact hb
                · exact h5 h y hy
              split_ifs at hx
              · rcases List.mem_or_eq_of_mem_set hx with hx | rfl
                · exact hfill x hx
                · decide
              · exact hfill x hx
            · rw [Function.update_noteq hh] at hx
              exact h5 h x hx
      · unfold processMelodic
        rw [if_neg hp, if_neg hon, if_neg hoff]
        exact ⟨h1, h2, h3, h4, h5⟩

theorem processChannel_bound (map : Fin 4 → Int) (tr : Nat) (ev : MidiEvent) (row : Nat)
    (s : BuildState) (c : Fin 4) (hs : InstBound s) :
    InstBound (processChannel map tr ev row s c) := by
  unfold processChannel
  simp only
  split_ifs
  · exact hs
  · exact hs
  · exact processNoise_bound s ev row tr hs
  · exact processMelodic_bound s ev row tr c hs

/-- Every instrument index in the row grid is below 15. -/
theorem buildGrid_bound (map : Fin 4 → Int) (tr : Nat) (evs : List MidiEvent) :
    InstBound (buildGrid map tr evs) := by
  unfold buildGrid
  refine foldl_invariant InstBound _ _ _ ?_ ?_
  · refine ⟨?_, ?_, ?_, ?_, ?_⟩
    · intro kv hkv
      exact absurd hkv (List.not_mem_nil _)
    · intro kv hkv
      exact absurd hkv (List.not_mem_nil _)
    · intro kv hkv
      exact absurd hkv (List.not_mem_nil _)
    · intro h k a i v hact
      exact absurd hact (by simp [initState])
    · intro h x hx
      simp only [initState, List.mem_replicate] at hx
      rw [hx.2]
      decide
  · intro s ev _ hs
    rcases processEvent_cases map tr s ev with e | ⟨-, -, e⟩
    · rw [e]
      exact hs
    · rw [e]
      exact processChannel_bound _ _ _ _ _ 3 (processChannel_bound _ _ _ _ _ 2
        (processChannel_bound _ _ _ _ _ 1 (processChannel_bound _ _ _ _ _ 0 hs)))

/-! ## The order lists reconstruct the grid -/

theorem getElem?_blockRows (rows : Fin 4 → List Row) (tr : Nat) (ch : Fin 4) (pat r : Nat)
    (hr : r < 64) :
    (blockRows rows tr ch pat)[r]? = some ⟨songNote rows tr ch (pat * UGE_PATTERN_ROWS + r),
      songInst rows tr ch (pat * UGE_PATTERN_ROWS + r), 0, 0, 0⟩ := by
  unfold blockRows buildPattern
  simp only
  rw [List.getElem?_map, List.getElem?_range (by exact hr)]
  rfl

theorem length_blockRows (rows : Fin 4 → List Row) (tr : Nat) (ch : Fin 4) (pat : Nat) :
    (blockRows rows tr ch pat).length = 64 := by
  unfold blockRows buildPattern
  simp only [List.length_map, List.length_range]
  rfl

theorem total_rows_le (evs : List MidiEvent) :
    total_rows evs ≤ UGE_PATTERN_ROWS * num_patterns evs := by
  unfold num_patterns UGE_PATTERN_ROWS
  omega

/-- C19 (amended): when the hash function has no collision among the pages of
hardware channel `ch` (pages with equal hash values have equal rows), the order
list of `ch` has one entry for each page from `first_nonempty_page` to the last
(the pages cover the grid to its end), every entry `j` names a pattern of the
pattern table, with that index and 64 rows, and row `r` of that pattern holds
the note and the instrument of row `64 * (first_nonempty_page + j) + r` of the
channel's row grid, or `(UGE_EMPTY_NOTE, 0)` when that row is past the end of the
grid, with effect and effect parameter 0. -/
theorem C19_orders_reconstruct_grid (hasher : List Nat → Nat) (tpq : Int)
    (evs : List MidiEvent) (um : Option (Fin 4 → Int)) (ch : Fin 4)
    (rows : Fin 4 → List Row) (fp : Nat)
    (hrows : rows = (convertMidiToUge hasher tpq evs um).grid.channel_rows)
    (hfp : fp = first_nonempty_row rows (total_rows evs) / UGE_PATTERN_ROWS)
    (hinj : ∀ p q, p < num_patterns evs - fp → q < num_patterns evs - fp →
      hasher (pat_data rows (total_rows evs) ch (fp + p))
        = hasher (pat_data rows (total_rows evs) ch (fp + q)) →
      blockRows rows (total_rows evs) ch (fp + p) = blockRows rows (total_rows evs) ch (fp + q)) :
    ((convertMidiToUge hasher tpq evs um).orders ch).length = num_patterns evs - fp ∧
    total_rows evs ≤ UGE_PATTERN_ROWS * num_patterns evs ∧
    (rows ch).length = total_rows evs ∧
    ∀ j r, j < num_patterns evs - fp → r < UGE_PATTERN_ROWS →
      ∃ i p, ((convertMidiToUge hasher tpq evs um).orders ch)[j]? = some i ∧
        (convertMidiToUge hasher tpq evs um).patterns[i]? = some p ∧
        p.index = i ∧ p.rows.length = UGE_PATTERN_ROWS ∧
        (∀ x, (rows ch)[(fp + j) * UGE_PATTERN_ROWS + r]? = some x →
          p.rows[r]? = some ⟨x.note, x.instrument, 0, 0, 0⟩) ∧
        (total_rows evs ≤ (fp + j) * UGE_PATTERN_ROWS + r →
          p.rows[r]? = some ⟨UGE_EMPTY_NOTE, 0, 0, 0, 0⟩) := by
  have hlen : (rows ch).length = total_rows evs := by
    rw [hrows]
    exact buildGrid_length _ _ _ ch
  have hbound : ∀ x ∈ rows ch, x.instrument < 15 := by
    rw [hrows]
    exact (buildGrid_bound _ _ _).2.2.2.2 ch
  have ho : (convertMidiToUge hasher tpq evs um).orders
      = (emitPatterns hasher rows (total_rows evs) fp (num_patterns evs)).orders := by
    rw [hfp, hrows]
    rfl
  have hp : (convertMidiToUge hasher tpq evs um).patterns
      = (emitPatterns hasher rows (total_rows evs) fp (num_patterns evs)).patterns := by
    rw [hfp, hrows]
    rfl
  rw [ho, hp]
  refine ⟨emitPatterns_orders_length _ _ _ _ _ ch, total_rows_le evs, hlen, ?_⟩
  intro j r hj hr
  obtain ⟨i, a, b⟩ := emitPatterns_orders_get hasher rows (total_rows evs) fp
    (num_patterns evs) ch j hj
  obtain ⟨-, -, q, hq, hh, c⟩ := emitPatterns_table hasher rows (total_rows evs) fp
    (num_patterns evs) ch _ i b
  have hblock := hinj q j hq hj hh
  rw [buildPattern_eq, hblock] at c
  refine ⟨i, _, a, c, rfl, length_blockRows _ _ _ _, ?_, ?_⟩
  · intro x hx
    obtain ⟨hlt, hget⟩ := List.getElem?_eq_some.mp hx
    have hmem : x ∈ rows ch := by
      rw [← hget]
      exact List.getElem_mem hlt
    have hb := hbound x hmem
    show (blockRows rows (total_rows evs) ch (fp + j))[r]? = _
    rw [getElem?_blockRows _ _ _ _ _ hr]
    unfold songNote songInst
    rw [hlen] at hlt
    rw [if_pos hlt, if_pos hlt, List.getD_eq_getElem?_getD, hx, Option.getD_some,
      Nat.mod_eq_of_lt (by omega)]
  · intro hge
    show (blockRows rows (total_rows evs) ch (fp + j))[r]? = _
    rw [getElem?_blockRows _ _ _ _ _ hr]
    unfold songNote songInst
    rw [if_neg (by omega), if_neg (by omega)]

theorem C19_orders_reconstruct_grid_witness :
    ∃ i p, ((convertMidiToUge (fun l => l.headD 0) 24 oneNoteSong none).orders 0)[0]? = some i ∧
      (convertMidiToUge (fun l => l.headD 0) 24 oneNoteSong none).patterns[i]? = some p ∧
      p.rows[1]? = some ⟨60, 0, 0, 0, 0⟩ :=
  match (C19_orders_reconstruct_grid (fun l => l.headD 0) 24 oneNoteSong none 0
    (convertMidiToUge (fun l => l.headD 0) 24 oneNoteSong none).grid.channel_rows 0 rfl
    (by decide) (by
      intro p q hp hq _
      have e1 : num_patterns oneNoteSong - 0 = 1 := by decide
      rw [e1] at hp hq
      have e2 : p = q := by omega
      rw [e2])).2.2.2 0 1 (by decide) (by decide) with
  | ⟨i, p, h1, h2, _, _, h5, _⟩ => ⟨i, p, h1, h2, h5 ⟨60, 0, 100⟩ (by decide)⟩

/-! ## Hash collisions -/

theorem processEvent_dutyOnly (tr : Nat) (s : BuildState) (ev : MidiEvent)
    (hch : ev.channel = 0) (hrow : ev.tick / TICKS_PER_ROW < tr) :
    processEvent dutyOnlyMap tr s ev = processMelodic s ev (ev.tick / TICKS_PER_ROW) tr 0 := by
  rw [processEvent_eq dutyOnlyMap tr s ev hrow (by omega),
    processChannel_skip dutyOnlyMap tr ev _ _ 3 (Or.inl (by decide)),
    processChannel_skip dutyOnlyMap tr ev _ _ 2 (Or.inl (by decide)),
    processChannel_skip dutyOnlyMap tr ev _ _ 1 (Or.inl (by decide))]
  unfold processChannel
  simp only
  rw [if_neg (by decide), if_neg (by rw [hch]; decide), if_neg (by decide)]

theorem fillRows_one (l : List Row) (v : Row) (r : Nat) :
    fillRows l v r (r + 1) = l.set r v := by
  unfold fillRows
  rw [Nat.add_sub_cancel_left]
  rfl

/-- A note-on and its note-off one row later write the note and clear the next row. -/
theorem pair_step (tr : Nat) (s : BuildState) (r k : Nat) (hs : DutyIdle tr s)
    (hr : r + 1 < tr) (hk : k ≤ 127) :
    DutyIdle tr ((noteEvents r k).foldl (processEvent dutyOnlyMap tr) s) ∧
    ((noteEvents r k).foldl (processEvent dutyOnlyMap tr) s).channel_rows 0
      = ((s.channel_rows 0).set r ⟨k, 0, 100⟩).set (r + 1) emptyRow := by
  obtain ⟨hact, hprog, htab, hlen⟩ := hs
  have hrow1 : (r * TICKS_PER_ROW) / TICKS_PER_ROW = r := Nat.mul_div_cancel r (by decide)
  have hrow2 : ((r + 1) * TICKS_PER_ROW) / TICKS_PER_ROW = r + 1 :=
    Nat.mul_div_cancel (r + 1) (by decide)
  have hinst : ((tableAssign s.midiProgToUgeInst s.nextUgeInst UGE_NUM_DUTY (0 : Int)).1.lookup
      (0 : Int)).getD 0 = 0 ∧
      (tableAssign s.midiProgToUgeInst s.nextUgeInst UGE_NUM_DUTY (0 : Int)).1 = [(0, 0)] := by
    rcases htab with ⟨h1, h2⟩ | h1
    · rw [h1, h2]
      decide
    · rw [h1]
      unfold tableAssign
      rw [if_neg (by simp)]
      exact ⟨rfl, rfl⟩
  unfold noteEvents
  rw [List.foldl_cons, List.foldl_cons, List.foldl_nil,
    processEvent_dutyOnly tr s _ rfl (by rw [hrow1]; omega)]
  have hon : (⟨r * TICKS_PER_ROW, EventKind.noteOn, 0, k, 100, 0, 0⟩ : MidiEvent).isOn :=
    ⟨rfl, by norm_num⟩
  have hs1 : processMelodic s ⟨r * TICKS_PER_ROW, EventKind.noteOn, 0, k, 100, 0, 0⟩
      ((r * TICKS_PER_ROW) / TICKS_PER_ROW) tr 0 =
      { s with
        midiProgToUgeInst := [(0, 0)]
        nextUgeInst := (tableAssign s.midiProgToUgeInst s.nextUgeInst UGE_NUM_DUTY (0 : Int)).2
        progMaxVelocity := bumpMax s.progMaxVelocity 0 100
        active_notes := Function.update s.active_notes 0
          (Function.update (s.active_notes 0) k (some (r, 0, 100))) } := by
    unfold processMelodic
    rw [if_neg (by simp), if_pos hon, if_neg (by decide)]
    simp only [hprog, hinst.1, hinst.2, hrow1]
    rfl
  rw [hs1, processEvent_dutyOnly tr _ _ rfl (by rw [hrow2]; exact hr)]
  have hoff : (⟨(r + 1) * TICKS_PER_ROW, EventKind.noteOff, 0, k, 0, 0, 0⟩ : MidiEvent).isOff :=
    Or.inl rfl
  rw [processMelodic_off_some _ _ _ tr 0 (isOff_not_isOn _ hoff).2 (isOff_not_isOn _ hoff).1 hoff
    r 0 100 (by simp only [Function.update_same])]
  simp only [hrow2, if_pos hr, Function.update_same, Nat.min_eq_left (Nat.le_of_lt hr),
    fillRows_one]
  have hk2 : k % 256 = k := by omega
  rw [hk2]
  refine ⟨⟨?_, hprog, Or.inr rfl, ?_⟩, rfl⟩
  · intro k2
    by_cases hkk : k2 = k
    · subst hkk
      simp only [Function.update_same]
    · simp only [Function.update_same, Function.update_noteq hkk]
      exact hact k2
  · simp only [Function.update_same, List.length_set]
    exact hlen

theorem run_block (tr : Nat) (ks : List Nat) (r : Nat) (s : BuildState) (hs : DutyIdle tr s)
    (hks : ∀ k ∈ ks, k ≤ 127) (hfit : ks ≠ [] → r + 2 * ks.length ≤ tr) :
    DutyIdle tr ((blockEvents r ks).foldl (processEvent dutyOnlyMap tr) s) ∧
    ((blockEvents r ks).foldl (processEvent dutyOnlyMap tr) s).channel_rows 0
      = writeNotes r ks (s.channel_rows 0) := by
  induction ks generalizing r s with
  | nil => exact ⟨hs, rfl⟩
  | cons k ks ih =>
    have hfit2 := hfit (List.cons_ne_nil _ _)
    simp only [List.length_cons] at hfit2
    have hp := pair_step tr s r k hs (by omega) (hks k (List.mem_cons_self _ _))
    have := ih (r + 2) _ hp.1 (fun k2 hk2 => hks k2 (List.mem_cons_of_mem _ hk2))
      (fun _ => by omega)
    unfold blockEvents
    rw [List.foldl_append, this.2, hp.2]
    exact ⟨this.1, rfl⟩

theorem getElem?_writeNotes (ks : List Nat) (r : Nat) (l : List Row) (n : Nat)
    (hfit : ks ≠ [] → r + 2 * ks.length ≤ l.length) :
    (writeNotes r ks l)[n]? =
      if r ≤ n ∧ n < r + 2 * ks.length then
        some (if (n - r) % 2 = 0 then ⟨ks.getD ((n - r) / 2) 0, 0, 100⟩ else emptyRow)
      else l[n]? := by
  induction ks generalizing r l with
  | nil =>
    rw [if_neg (by simp)]
    rfl
  | cons k ks ih =>
    have hfit2 := hfit (List.cons_ne_nil _ _)
    simp only [List.length_cons] at hfit2
    unfold writeNotes
    rw [ih (r + 2) _ (fun _ => by rw [List.length_set, List.length_set]; omega)]
    simp only [List.length_cons]
    by_cases h1 : r + 2 ≤ n ∧ n < r + 2 + 2 * ks.length
    · have h2 : r ≤ n ∧ n < r + 2 * (ks.length + 1) := by omega
      have e1 : (n - r) % 2 = (n - (r + 2)) % 2 := by omega
      have e2 : (n - r) / 2 = (n - (r + 2)) / 2 + 1 := by omega
      rw [if_pos h1, if_pos h2, e1, e2, List.getD_cons_succ]
    · rw [if_neg h1]
      by_cases h2 : n = r
      · subst h2
        have h3 : n ≤ n ∧ n < n + 2 * (ks.length + 1) := by omega
        rw [List.getElem?_set_ne (by omega), List.getElem?_set_self (by omega), if_pos h3]
        simp
      · by_cases h3 : n = r + 1
        · subst h3
          have h4 : r ≤ r + 1 ∧ r + 1 < r + 2 * (ks.length + 1) := by omega
          rw [List.getElem?_set_self (by rw [List.length_set]; omega), if_pos h4]
          simp
        · have h4 : ¬ (r ≤ n ∧ n < r + 2 * (ks.length + 1)) := by omega
          rw [List.getElem?_set_ne (by omega), List.getElem?_set_ne (by omega), if_neg h4]

theorem blockEvents_last (ks : List Nat) (r : Nat) (hne : ks ≠ []) :
    ∃ ev ∈ blockEvents r ks, ev.tick = (r + 2 * ks.length - 1) * TICKS_PER_ROW := by
  induction ks generalizing r with
  | nil => exact absurd rfl hne
  | cons k ks ih =>
    unfold blockEvents
    by_cases hks : ks = []
    · subst hks
      refine ⟨⟨(r + 1) * TICKS_PER_ROW, EventKind.noteOff, 0, k, 0, 0, 0⟩, ?_, rfl⟩
      simp [noteEvents]
    · obtain ⟨ev, hev, ht⟩ := ih (r + 2) hks
      refine ⟨ev, List.mem_append_right _ hev, ?_⟩
      rw [ht]
      simp only [List.length_cons]
      congr 1
      omega

theorem blockEvents_channel (ks : List Nat) (r : Nat) :
    ∀ ev ∈ blockEvents r ks, ev.channel = 0 := by
  induction ks generalizing r with
  | nil =>
    intro ev hev
    exact absurd hev (List.not_mem_nil _)
  | cons k ks ih =>
    intro ev hev
    unfold blockEvents at hev
    rcases List.mem_append.mp hev with h | h
    · simp only [noteEvents, List.mem_cons, List.mem_singleton, List.not_mem_nil, or_false] at h
      rcases h with rfl | rfl <;> rfl
    · exact ih (r + 2) ev h

theorem length_writeNotes (ks : List Nat) (r : Nat) (l : List Row) :
    (writeNotes r ks l).length = l.length := by
  induction ks generalizing r l with
  | nil => rfl
  | cons k ks ih =>
    unfold writeNotes
    rw [ih, List.length_set, List.length_set]

theorem twoPage_rows_gen (tr : Nat) (xs ys : List Nat) (hxs : ∀ k ∈ xs, k ≤ 127)
    (hys : ∀ k ∈ ys, k ≤ 127) (hx : 2 * xs.length ≤ 64) (htr : 64 + 2 * ys.length ≤ tr) :
    (buildGrid dutyOnlyMap tr (blockEvents 0 xs ++ blockEvents 64 ys)).channel_rows 0
      = writeNotes 64 ys (writeNotes 0 xs (List.replicate tr emptyRow)) := by
  have h0 : DutyIdle tr (initState tr) :=
    ⟨fun _ => rfl, rfl, Or.inl ⟨rfl, rfl⟩, by simp [initState]⟩
  have h1 := run_block tr xs 0 _ h0 hxs (fun _ => by omega)
  have h2 := run_block tr ys 64 _ h1.1 hys (fun _ => htr)
  unfold buildGrid
  rw [List.foldl_append, h2.2, h1.2]
  rfl

/-- The row grid of Duty 1 for a two-page input. -/
theorem twoPage_rows (xs ys : List Nat) (hxs : ∀ k ∈ xs, k ≤ 127) (hys : ∀ k ∈ ys, k ≤ 127)
    (hx : 2 * xs.length ≤ 64) (hy : ys ≠ []) :
    64 + 2 * ys.length ≤ total_rows (twoPageSong xs ys) ∧
    (buildGrid dutyOnlyMap (total_rows (twoPageSong xs ys)) (twoPageSong xs ys)).channel_rows 0
      = writeNotes 64 ys (writeNotes 0 xs
        (List.replicate (total_rows (twoPageSong xs ys)) emptyRow)) := by
  have htr : 64 + 2 * ys.length ≤ total_rows (twoPageSong xs ys) := by
    obtain ⟨ev, hev, ht⟩ := blockEvents_last ys 64 hy
    have := row_lt_total_rows (twoPageSong xs ys) ev (List.mem_append_right _ hev)
    rw [ht, Nat.mul_div_cancel _ (by decide)] at this
    omega
  exact ⟨htr, twoPage_rows_gen _ xs ys hxs hys hx htr⟩

theorem twoPage_getElem? (xs ys : List Nat) (hxs : ∀ k ∈ xs, k ≤ 127)
    (hys : ∀ k ∈ ys, k ≤ 127) (hx : 2 * xs.length ≤ 64) (hy : ys ≠ []) (n : Nat) :
    ((buildGrid dutyOnlyMap (total_rows (twoPageSong xs ys))
      (twoPageSong xs ys)).channel_rows 0)[n]? =
      if 64 ≤ n ∧ n < 64 + 2 * ys.length then
        some (if (n - 64) % 2 = 0 then ⟨ys.getD ((n - 64) / 2) 0, 0, 100⟩ else emptyRow)
      else if n < 2 * xs.length then
        some (if n % 2 = 0 then ⟨xs.getD (n / 2) 0, 0, 100⟩ else emptyRow)
      else if n < total_rows (twoPageSong xs ys) then some emptyRow else none := by
  obtain ⟨htr, hrows⟩ := twoPage_rows xs ys hxs hys hx hy
  rw [hrows, getElem?_writeNotes ys 64 _ n (fun _ => by
    rw [length_writeNotes, List.length_replicate]
    exact htr)]
  rw [getElem?_writeNotes xs 0 _ n (fun _ => by rw [List.length_replicate]; omega)]
  simp only [Nat.zero_le, true_and, Nat.zero_add, Nat.sub_zero, List.getElem?_replicate]

theorem twoPage_songNote (xs ys : List Nat) (hxs : ∀ k ∈ xs, k ≤ 127)
    (hys : ∀ k ∈ ys, k ≤ 127) (hx : 2 * xs.length ≤ 64) (hy : ys ≠ [])
    (hy2 : 2 * ys.length ≤ 64) (row : Nat) (hrow : row < 64) :
    (songNote (buildGrid dutyOnlyMap (total_rows (twoPageSong xs ys))
        (twoPageSong xs ys)).channel_rows (total_rows (twoPageSong xs ys)) 0
        (0 * UGE_PATTERN_ROWS + row) = noteAt xs row ∧
      songInst (buildGrid dutyOnlyMap (total_rows (twoPageSong xs ys))
        (twoPageSong xs ys)).channel_rows (total_rows (twoPageSong xs ys)) 0
        (0 * UGE_PATTERN_ROWS + row) = 0) ∧
    (songNote (buildGrid dutyOnlyMap (total_rows (twoPageSong xs ys))
        (twoPageSong xs ys)).channel_rows (total_rows (twoPageSong xs ys)) 0
        (1 * UGE_PATTERN_ROWS + row) = noteAt ys row ∧
      songInst (buildGrid dutyOnlyMap (total_rows (twoPageSong xs ys))
        (twoPageSong xs ys)).channel_rows (total_rows (twoPageSong xs ys)) 0
        (1 * UGE_PATTERN_ROWS + row) = 0) := by
  have htr := (twoPage_rows xs ys hxs hys hx hy).1
  have hylen : 0 < ys.length := List.length_pos.mpr hy
  have hg := twoPage_getElem? xs ys hxs hys hx hy
  have h64 : UGE_PATTERN_ROWS = 64 := rfl
  have e1 : 64 + row - 64 = row := by omega
  unfold songNote songInst noteAt
  simp only [h64, Nat.zero_mul, Nat.zero_add, Nat.one_mul, List.getD_eq_getElem?_getD, hg, e1]
  refine ⟨⟨?_, ?_⟩, ⟨?_, ?_⟩⟩ <;> split_ifs <;>
    first
    | rfl
    | omega

theorem foldr_quad_congr (l : List Nat) (n i n2 i2 : Nat → Nat)
    (h : ∀ r ∈ l, n r = n2 r ∧ i r = i2 r) :
    l.foldr (fun r acc => n r :: i r :: 0 :: 0 :: acc) []
      = l.foldr (fun r acc => n2 r :: i2 r :: 0 :: 0 :: acc) [] :=
  (foldr_quad_inj l n i n2 i2).mpr h

theorem twoPage_pat_data (xs ys : List Nat) (hxs : ∀ k ∈ xs, k ≤ 127)
    (hys : ∀ k ∈ ys, k ≤ 127) (hx : 2 * xs.length ≤ 64) (hy : ys ≠ [])
    (hy2 : 2 * ys.length ≤ 64) :
    pat_data (buildGrid dutyOnlyMap (total_rows (twoPageSong xs ys))
      (twoPageSong xs ys)).channel_rows (total_rows (twoPageSong xs ys)) 0 0 = blockData xs ∧
    pat_data (buildGrid dutyOnlyMap (total_rows (twoPageSong xs ys))
      (twoPageSong xs ys)).channel_rows (total_rows (twoPageSong xs ys)) 0 1 = blockData ys := by
  unfold pat_data blockData
  constructor
  · apply foldr_quad_congr _ _ _ (noteAt xs) (fun _ => 0)
    intro r hr
    exact (twoPage_songNote xs ys hxs hys hx hy hy2 r (List.mem_range.mp hr)).1
  · apply foldr_quad_congr _ _ _ (noteAt ys) (fun _ => 0)
    intro r hr
    exact (twoPage_songNote xs ys hxs hys hx hy hy2 r (List.mem_range.mp hr)).2

theorem blockData_inj (xs ys : List Nat) (hlen : xs.length = ys.length)
    (hx : 2 * xs.length ≤ 64) (h : blockData xs = blockData ys) : xs = ys := by
  unfold blockData at h
  have h2 := (foldr_quad_inj (List.range UGE_PATTERN_ROWS) (noteAt xs) (fun _ => 0)
    (noteAt ys) (fun _ => 0)).mp h
  apply List.ext_getElem hlen
  intro n h1 h3
  have := (h2 (2 * n) (List.mem_range.mpr (by
    have h64 : UGE_PATTERN_ROWS = 64 := rfl
    omega))).1
  unfold noteAt at this
  rw [if_pos ⟨by omega, by omega⟩, if_pos ⟨by omega, by omega⟩,
    Nat.mul_div_cancel_left n (by decide), List.getD_eq_getElem _ _ h1,
    List.getD_eq_getElem _ _ h3] at this
  exact this

theorem first_nonempty_row_zero (rows : Fin 4 → List Row) (tr : Nat) (htr : 0 < tr)
    (h : ((rows 0).getD 0 emptyRow).note ≠ UGE_EMPTY_NOTE) :
    first_nonempty_row rows tr = 0 := by
  unfold first_nonempty_row
  obtain ⟨t, rfl⟩ : ∃ t, tr = t + 1 := ⟨tr - 1, by omega⟩
  rw [List.range_succ_eq_map, List.find?_cons_of_pos]
  · rfl
  · simp only [List.any_cons, decide_eq_true h, Bool.true_or]

/-- Every hash function with values below `2^64` has a collision among the
two-page inputs: two different lists of 11 keys below 64 whose pages are hashed
to the same value. -/
theorem hash_collision (hasher : List Nat → Fin (2 ^ 64)) :
    ∃ xs ys : List Nat, xs ≠ ys ∧ xs.length = 11 ∧ ys.length = 11 ∧
      (∀ k ∈ xs, k < 64) ∧ (∀ k ∈ ys, k < 64) ∧
      hasher (blockData xs) = hasher (blockData ys) := by
  have hcard : Fintype.card (Fin (2 ^ 64)) < Fintype.card (Fin 11 → Fin 64) := by
    simp only [Fintype.card_fin, Fintype.card_fun]
    norm_num
  obtain ⟨K1, K2, hne, heq⟩ := Fintype.exists_ne_map_eq_of_card_lt
    (fun K : Fin 11 → Fin 64 => hasher (blockData (List.ofFn fun i => (K i).val))) hcard
  refine ⟨List.ofFn fun i => (K1 i).val, List.ofFn fun i => (K2 i).val, ?_,
    List.length_ofFn _, List.length_ofFn _, ?_, ?_, heq⟩
  · intro e
    apply hne
    have := List.ofFn_injective e
    funext i
    exact Fin.ext (congrFun this i)
  · intro k hk
    rw [List.mem_ofFn] at hk
    obtain ⟨i, rfl⟩ := hk
    exact (K1 i).isLt
  · intro k hk
    rw [List.mem_ofFn] at hk
    obtain ⟨i, rfl⟩ := hk
    exact (K2 i).isLt

/-- For every hash function with values below `2^64` there is a two-page input
whose two pages of Duty 1 have different rows and the same hash value. -/
theorem collision_song (hasher : List Nat → Fin (2 ^ 64)) :
    ∃ xs ys : List Nat, (∀ k ∈ xs, k ≤ 127) ∧ (∀ k ∈ ys, k ≤ 127) ∧
      first_nonempty_row (convertMidiToUge (fun d => (hasher d).val) 24 (twoPageSong xs ys)
        (some dutyOnlyMap)).grid.channel_rows (total_rows (twoPageSong xs ys))
        / UGE_PATTERN_ROWS = 0 ∧
      2 ≤ num_patterns (twoPageSong xs ys) ∧
      blockRows (convertMidiToUge (fun d => (hasher d).val) 24 (twoPageSong xs ys)
        (some dutyOnlyMap)).grid.channel_rows (total_rows (twoPageSong xs ys)) 0 0
        ≠ blockRows (convertMidiToUge (fun d => (hasher d).val) 24 (twoPageSong xs ys)
          (some dutyOnlyMap)).grid.channel_rows (total_rows (twoPageSong xs ys)) 0 1 ∧
      (hasher (pat_data (convertMidiToUge (fun d => (hasher d).val) 24 (twoPageSong xs ys)
        (some dutyOnlyMap)).grid.channel_rows (total_rows (twoPageSong xs ys)) 0 0)).val
        = (hasher (pat_data (convertMidiToUge (fun d => (hasher d).val) 24 (twoPageSong xs ys)
          (some dutyOnlyMap)).grid.channel_rows (total_rows (twoPageSong xs ys)) 0 1)).val := by
  obtain ⟨xs, ys, hne, hlx, hly, hkx, hky, hh⟩ := hash_collision hasher
  have hxs : ∀ k ∈ xs, k ≤ 127 := fun k hk => by
    have := hkx k hk
    omega
  have hys : ∀ k ∈ ys, k ≤ 127 := fun k hk => by
    have := hky k hk
    omega
  have hy : ys ≠ [] := by
    intro e
    rw [e] at hly
    exact absurd hly (by decide)
  have hx2 : 2 * xs.length ≤ 64 := by omega
  have hy2 : 2 * ys.length ≤ 64 := by omega
  have htr := (twoPage_rows xs ys hxs hys hx2 hy).1
  have hpd := twoPage_pat_data xs ys hxs hys hx2 hy hy2
  refine ⟨xs, ys, hxs, hys, ?_, ?_, ?_, ?_⟩
  · show first_nonempty_row (buildGrid dutyOnlyMap (total_rows (twoPageSong xs ys))
      (twoPageSong xs ys)).channel_rows (total_rows (twoPageSong xs ys)) / UGE_PATTERN_ROWS = 0
    rw [first_nonempty_row_zero _ _ (by omega)]
    · rfl
    · rw [List.getD_eq_getElem?_getD, twoPage_getElem? xs ys hxs hys hx2 hy 0,
        if_neg (by omega), if_pos (by omega)]
      simp only [Nat.zero_mod, if_true, Nat.zero_div, Option.getD_some]
      have h0 : 0 < xs.length := by omega
      rw [List.getD_eq_getElem _ _ h0]
      have := hkx _ (List.getElem_mem h0)
      unfold UGE_EMPTY_NOTE
      omega
  · simp only [num_patterns, UGE_PATTERN_ROWS]
    omega
  · show blockRows (buildGrid dutyOnlyMap (total_rows (twoPageSong xs ys))
      (twoPageSong xs ys)).channel_rows (total_rows (twoPageSong xs ys)) 0 0
      ≠ blockRows (buildGrid dutyOnlyMap (total_rows (twoPageSong xs ys))
        (twoPageSong xs ys)).channel_rows (total_rows (twoPageSong xs ys)) 0 1
    intro e
    have := (pat_data_eq_iff _ _ 0 0 0 1).mpr e
    rw [hpd.1, hpd.2] at this
    exact hne (blockData_inj xs ys (by omega) hx2 this)
  · show (hasher (pat_data (buildGrid dutyOnlyMap (total_rows (twoPageSong xs ys))
      (twoPageSong xs ys)).channel_rows (total_rows (twoPageSong xs ys)) 0 0)).val
      = (hasher (pat_data (buildGrid dutyOnlyMap (total_rows (twoPageSong xs ys))
        (twoPageSong xs ys)).channel_rows (total_rows (twoPageSong xs ys)) 0 1)).val
    rw [hpd.1, hpd.2, hh]

/-- Whatever the hash function (any function into 64-bit values), there is an
input with key numbers in 0..127, played on Duty 1, whose blocks at positions
0 and 1 of that channel's order list differ in their rows and receive the same
pattern index. -/
theorem collision_same_index (hasher : List Nat → Fin (2 ^ 64)) :
    ∃ (xs ys : List Nat) (i : Nat), (∀ k ∈ xs, k ≤ 127) ∧ (∀ k ∈ ys, k ≤ 127) ∧
      first_nonempty_row (convertMidiToUge (fun d => (hasher d).val) 24 (twoPageSong xs ys)
        (some dutyOnlyMap)).grid.channel_rows (total_rows (twoPageSong xs ys))
        / UGE_PATTERN_ROWS = 0 ∧
      blockRows (convertMidiToUge (fun d => (hasher d).val) 24 (twoPageSong xs ys)
        (some dutyOnlyMap)).grid.channel_rows (total_rows (twoPageSong xs ys)) 0 0
        ≠ blockRows (convertMidiToUge (fun d => (hasher d).val) 24 (twoPageSong xs ys)
          (some dutyOnlyMap)).grid.channel_rows (total_rows (twoPageSong xs ys)) 0 1 ∧
      ((convertMidiToUge (fun d => (hasher d).val) 24 (twoPageSong xs ys)
        (some dutyOnlyMap)).orders 0)[0]? = some i ∧
      ((convertMidiToUge (fun d => (hasher d).val) 24 (twoPageSong xs ys)
        (some dutyOnlyMap)).orders 0)[1]? = some i := by
  obtain ⟨xs, ys, hxs, hys, hfp, hnp, hrows, hhash⟩ := collision_song hasher
  have ho := convert_orders (fun d => (hasher d).val) 24 (twoPageSong xs ys) (some dutyOnlyMap)
  rw [hfp] at ho
  obtain ⟨i0, a0, b0⟩ := emitPatterns_orders_get (fun d => (hasher d).val)
    (convertMidiToUge (fun d => (hasher d).val) 24 (twoPageSong xs ys)
      (some dutyOnlyMap)).grid.channel_rows (total_rows (twoPageSong xs ys)) 0
    (num_patterns (twoPageSong xs ys)) 0 0 (by omega)
  obtain ⟨i1, a1, b1⟩ := emitPatterns_orders_get (fun d => (hasher d).val)
    (convertMidiToUge (fun d => (hasher d).val) 24 (twoPageSong xs ys)
      (some dutyOnlyMap)).grid.channel_rows (total_rows (twoPageSong xs ys)) 0
    (num_patterns (twoPageSong xs ys)) 0 1 (by omega)
  simp only [Nat.zero_add] at b0 b1
  have e : i1 = i0 := by
    rw [hhash, b1] at b0
    exact Option.some.inj b0
  subst e
  rw [← ho] at a0 a1
  exact ⟨xs, ys, i1, hxs, hys, hfp, hrows, a0, a1⟩

/-- C17 (counterexample): the input `twoPageSong [60, 62] [62, 60]` on Duty 1 holds
the notes 60, 62 on page 0 and 62, 60 on page 1; with the byte sum as hash
function the two pages have different rows and the same hash value, and both
positions of the order list get pattern index 0. Such an input exists for every
hash function with 64-bit values: two pages of Duty 1 that differ in their rows
and receive the same pattern index. -/
theorem C17_counterexample :
    ((convertMidiToUge byteSum 24 (twoPageSong [60, 62] [62, 60]) (some dutyOnlyMap)).orders 0
        = [0, 0] ∧
      first_nonempty_row (convertMidiToUge byteSum 24 (twoPageSong [60, 62] [62, 60])
        (some dutyOnlyMap)).grid.channel_rows (total_rows (twoPageSong [60, 62] [62, 60]))
        / UGE_PATTERN_ROWS = 0 ∧
      blockRows (convertMidiToUge byteSum 24 (twoPageSong [60, 62] [62, 60])
        (some dutyOnlyMap)).grid.channel_rows (total_rows (twoPageSong [60, 62] [62, 60])) 0 0
        ≠ blockRows (convertMidiToUge byteSum 24 (twoPageSong [60, 62] [62, 60])
          (some dutyOnlyMap)).grid.channel_rows (total_rows (twoPageSong [60, 62] [62, 60]))
          0 1) ∧
    (∀ hasher : List Nat → Fin (2 ^ 64), ∃ (xs ys : List Nat) (i : Nat),
      (∀ k ∈ xs, k ≤ 127) ∧ (∀ k ∈ ys, k ≤ 127) ∧
      first_nonempty_row (convertMidiToUge (fun d => (hasher d).val) 24 (twoPageSong xs ys)
        (some dutyOnlyMap)).grid.channel_rows (total_rows (twoPageSong xs ys))
        / UGE_PATTERN_ROWS = 0 ∧
      blockRows (convertMidiToUge (fun d => (hasher d).val) 24 (twoPageSong xs ys)
        (some dutyOnlyMap)).grid.channel_rows (total_rows (twoPageSong xs ys)) 0 0
        ≠ blockRows (convertMidiToUge (fun d => (hasher d).val) 24 (twoPageSong xs ys)
          (some dutyOnlyMap)).grid.channel_rows (total_rows (twoPageSong xs ys)) 0 1 ∧
      ((convertMidiToUge (fun d => (hasher d).val) 24 (twoPageSong xs ys)
        (some dutyOnlyMap)).orders 0)[0]? = some i ∧
      ((convertMidiToUge (fun d => (hasher d).val) 24 (twoPageSong xs ys)
        (some dutyOnlyMap)).orders 0)[1]? = some i) :=
  ⟨by set_option maxRecDepth 100000 in decide, collision_same_index⟩

/-- Whatever the hash function (any function into 64-bit values), there is an
input with key numbers in 0..127, played on Duty 1, and a position `j` of the
order list of Duty 1 such that the pattern named by entry `j` does not hold the
rows of page `first_nonempty_page + j` of the row grid. -/
theorem collision_wrong_rows (hasher : List Nat → Fin (2 ^ 64)) :
    ∃ (xs ys : List Nat) (j i : Nat) (p : UgePattern),
      (∀ k ∈ xs, k ≤ 127) ∧ (∀ k ∈ ys, k ≤ 127) ∧
      first_nonempty_row (convertMidiToUge (fun d => (hasher d).val) 24 (twoPageSong xs ys)
        (some dutyOnlyMap)).grid.channel_rows (total_rows (twoPageSong xs ys))
        / UGE_PATTERN_ROWS = 0 ∧
      j < num_patterns (twoPageSong xs ys) ∧
      ((convertMidiToUge (fun d => (hasher d).val) 24 (twoPageSong xs ys)
        (some dutyOnlyMap)).orders 0)[j]? = some i ∧
      (convertMidiToUge (fun d => (hasher d).val) 24 (twoPageSong xs ys)
        (some dutyOnlyMap)).patterns[i]? = some p ∧
      p.rows ≠ blockRows (convertMidiToUge (fun d => (hasher d).val) 24 (twoPageSong xs ys)
        (some dutyOnlyMap)).grid.channel_rows (total_rows (twoPageSong xs ys)) 0 j := by
  obtain ⟨xs, ys, hxs, hys, hfp, hnp, hrows, hhash⟩ := collision_song hasher
  have ho := convert_orders (fun d => (hasher d).val) 24 (twoPageSong xs ys) (some dutyOnlyMap)
  have hp := convert_patterns (fun d => (hasher d).val) 24 (twoPageSong xs ys)
    (some dutyOnlyMap)
  rw [hfp] at ho hp
  obtain ⟨i0, a0, b0⟩ := emitPatterns_orders_get (fun d => (hasher d).val)
    (convertMidiToUge (fun d => (hasher d).val) 24 (twoPageSong xs ys)
      (some dutyOnlyMap)).grid.channel_rows (total_rows (twoPageSong xs ys)) 0
    (num_patterns (twoPageSong xs ys)) 0 0 (by omega)
  obtain ⟨i1, a1, b1⟩ := emitPatterns_orders_get (fun d => (hasher d).val)
    (convertMidiToUge (fun d => (hasher d).val) 24 (twoPageSong xs ys)
      (some dutyOnlyMap)).grid.channel_rows (total_rows (twoPageSong xs ys)) 0
    (num_patterns (twoPageSong xs ys)) 0 1 (by omega)
  obtain ⟨-, -, q, -, -, c⟩ := emitPatterns_table (fun d => (hasher d).val) _ _ _ _ 0 _ i0 b0
  simp only [Nat.zero_add] at b0 b1
  have e : i1 = i0 := by
    rw [hhash, b1] at b0
    exact Option.some.inj b0
  subst e
  rw [← ho] at a0 a1
  rw [← hp] at c
  by_cases h0 : (buildPattern i1 (convertMidiToUge (fun d => (hasher d).val) 24
      (twoPageSong xs ys) (some dutyOnlyMap)).grid.channel_rows
      (total_rows (twoPageSong xs ys)) 0 (0 + q)).rows
      = blockRows (convertMidiToUge (fun d => (hasher d).val) 24 (twoPageSong xs ys)
        (some dutyOnlyMap)).grid.channel_rows (total_rows (twoPageSong xs ys)) 0 0
  · refine ⟨xs, ys, 1, i1, _, hxs, hys, hfp, by omega, a1, c, ?_⟩
    rw [h0]
    exact hrows
  · exact ⟨xs, ys, 0, i1, _, hxs, hys, hfp, by omega, a0, c, h0⟩

/-- C19 (counterexample): the input `twoPageSong [60, 64] [64, 60]` on Duty 1 holds
the notes 60, 64 on page 0 and 64, 60 on page 1; with the byte sum as hash
function entry 1 of the order list of Duty 1 names pattern 0, whose rows are
those of page 0 and not those of page 1 of the row grid. For every hash
function with 64-bit values there is such an input: an entry `j` of the order
list of Duty 1 whose pattern does not hold the rows of page
`first_nonempty_page + j`. -/
theorem C19_counterexample :
    (((convertMidiToUge byteSum 24 (twoPageSong [60, 64] [64, 60])
        (some dutyOnlyMap)).orders 0)[1]? = some 0 ∧
      first_nonempty_row (convertMidiToUge byteSum 24 (twoPageSong [60, 64] [64, 60])
        (some dutyOnlyMap)).grid.channel_rows (total_rows (twoPageSong [60, 64] [64, 60]))
        / UGE_PATTERN_ROWS = 0 ∧
      ((convertMidiToUge byteSum 24 (twoPageSong [60, 64] [64, 60])
        (some dutyOnlyMap)).patterns[0]?.map fun p => p.rows)
        = some (blockRows (convertMidiToUge byteSum 24 (twoPageSong [60, 64] [64, 60])
          (some dutyOnlyMap)).grid.channel_rows (total_rows (twoPageSong [60, 64] [64, 60]))
          0 0) ∧
      blockRows (convertMidiToUge byteSum 24 (twoPageSong [60, 64] [64, 60])
        (some dutyOnlyMap)).grid.channel_rows (total_rows (twoPageSong [60, 64] [64, 60])) 0 0
        ≠ blockRows (convertMidiToUge byteSum 24 (twoPageSong [60, 64] [64, 60])
          (some dutyOnlyMap)).grid.channel_rows (total_rows (twoPageSong [60, 64] [64, 60]))
          0 1) ∧
    (∀ hasher : List Nat → Fin (2 ^ 64), ∃ (xs ys : List Nat) (j i : Nat) (p : UgePattern),
      (∀ k ∈ xs, k ≤ 127) ∧ (∀ k ∈ ys, k ≤ 127) ∧
      first_nonempty_row (convertMidiToUge (fun d => (hasher d).val) 24 (twoPageSong xs ys)
        (some dutyOnlyMap)).grid.channel_rows (total_rows (twoPageSong xs ys))
        / UGE_PATTERN_ROWS = 0 ∧
      j < num_patterns (twoPageSong xs ys) ∧
      ((convertMidiToUge (fun d => (hasher d).val) 24 (twoPageSong xs ys)
        (some dutyOnlyMap)).orders 0)[j]? = some i ∧
      (convertMidiToUge (fun d => (hasher d).val) 24 (twoPageSong xs ys)
        (some dutyOnlyMap)).patterns[i]? = some p ∧
      p.rows ≠ blockRows (convertMidiToUge (fun d => (hasher d).val) 24 (twoPageSong xs ys)
        (some dutyOnlyMap)).grid.channel_rows (total_rows (twoPageSong xs ys)) 0 j) :=
  ⟨by set_option maxRecDepth 100000 in decide, collision_wrong_rows⟩

/-! ## Serialised lengths -/

theorem length_write_le8 (v : Nat) : (write_le8 v).length = 1 := rfl

theorem length_write_shortstring (s : UgeShortString) : (write_shortstring s).length = 256 := by
  unfold write_shortstring
  rw [List.length_append, length_write_le8, s.data_length]

theorem length_repeatBytes (n : Nat) (b : List Nat) :
    (repeatBytes n b).length = n * b.length := by
  induction n with
  | zero => simp [repeatBytes]
  | succ n ih =>
    simp only [repeatBytes, List.length_append, ih]
    ring

theorem length_writeSubpattern : writeSubpattern.length = 64 * 17 := by
  unfold writeSubpattern
  rw [length_repeatBytes]
  rfl

theorem length_dutyRecord (inst : UgeDutyInstrument) : (dutyRecord inst).length = 297 := by
  unfold dutyRecord
  simp only [List.length_append, length_write_le32, length_write_le8, length_write_shortstring]

theorem length_waveRecord (inst : UgeWaveInstrument) : (waveRecord inst).length = 297 := by
  unfold waveRecord
  simp only [List.length_append, length_write_le32, length_write_le8, length_write_shortstring]

theorem length_noiseRecord (inst : UgeNoiseInstrument) : (noiseRecord inst).length = 297 := by
  unfold noiseRecord
  simp only [List.length_append, length_write_le32, length_write_le8, length_write_shortstring]

theorem length_writeAll {α : Type} (w : α → List Nat) (c : Nat) (l : List α)
    (h : ∀ x ∈ l, (w x).length = c) : (writeAll w l).length = l.length * c := by
  induction l with
  | nil => simp [writeAll]
  | cons a as ih =>
    simp only [writeAll, List.length_append, List.length_cons,
      h a (List.mem_cons_self _ _), ih (fun x hx => h x (List.mem_cons_of_mem _ hx))]
    ring

theorem length_writePatternRow (r : UgePatternRow) : (writePatternRow r).length = 17 := rfl

theorem length_writePattern (p : UgePattern) :
    (writePattern p).length = 4 + p.rows.length * 17 := by
  unfold writePattern
  rw [List.length_append, length_write_le32,
    length_writeAll writePatternRow 17 p.rows (fun r _ => length_writePatternRow r)]

theorem length_writeHead (header : UgeSongHeader) : (writeHead header).length = 63609 := by
  unfold writeHead
  simp only [List.length_append, length_write_le32, length_write_shortstring]
  rw [length_writeAll _ (297 + 64 * 17) header.duty (fun x _ => by
      rw [List.length_append, length_dutyRecord, length_writeSubpattern]),
    length_writeAll _ (297 + 64 * 17) header.wave (fun x _ => by
      rw [List.length_append, length_waveRecord, length_writeSubpattern]),
    length_writeAll _ (297 + 64 * 17) header.noise (fun x _ => by
      rw [List.length_append, length_noiseRecord, length_writeSubpattern]),
    length_writeAll _ 32 header.wavetable (fun w hw => by
      rw [List.length_map, header.wavetable_row_size w hw]),
    header.duty_size, header.wave_size, header.noise_size, header.wavetable_size]

theorem length_writeTiming (header : UgeSongHeader) : (writeTiming header).length = 9 := rfl

/-! ## Claims on the serialiser -/

theorem writeAll_slice {α : Type} (w : α → List Nat) (c : Nat) (l : List α)
    (h : ∀ x ∈ l, (w x).length = c) (k : Nat) (x : α) (hk : l[k]? = some x) :
    ((writeAll w l).drop (k * c)).take c = w x := by
  induction l generalizing k with
  | nil => simp at hk
  | cons a as ih =>
    have ha := h a (List.mem_cons_self _ _)
    cases k with
    | zero =>
      simp only [List.getElem?_cons_zero, Option.some.injEq] at hk
      subst hk
      simp only [writeAll, Nat.zero_mul, List.drop_zero]
      rw [List.take_append_of_le_length (by omega)]
      exact List.take_of_length_le (by omega)
    | succ k =>
      simp only [List.getElem?_cons_succ] at hk
      simp only [writeAll]
      have h4 : (k + 1) * c = (w a).length + k * c := by
        rw [ha]
        ring
      rw [h4, List.drop_append]
      exact ih (fun x hx => h x (List.mem_cons_of_mem _ hx)) k hk

theorem take_drop_append_mid (a b c : List Nat) (n m : Nat) (ha : a.length = n)
    (hb : b.length = m) : ((a ++ b ++ c).drop n).take m = b := by
  subst ha hb
  rw [List.append_assoc, List.drop_left, List.take_left]

/-- C21 (counterexample): a pattern list with one pattern of 64 empty rows is
written as 4 + 4 + 64 * 17 = 1096 bytes; the pattern occupies 1092 bytes, not
1284, and its second row starts at offset 4 + 17 of the pattern, right after the
17 bytes of the first row. -/
theorem C21_counterexample :
    (writePatterns [buildPattern 0 (fun _ => []) 0 0 0]).length = 4 + (4 + 64 * 17) ∧
    (writePattern (buildPattern 0 (fun _ => []) 0 0 0)).length = 1092 ∧
    (writePattern (buildPattern 0 (fun _ => []) 0 0 0)).take 21
      = [0, 0, 0, 0, 90, 0, 0, 0, 0, 0, 0, 0, 0, 0, 0, 0, 0, 0, 0, 0, 0] ∧
    ((writePattern (buildPattern 0 (fun _ => []) 0 0 0)).drop 21).take 4 = [90, 0, 0, 0] ∧
    (1092 : Nat) ≠ 4 + 64 * 20 := by
  set_option maxRecDepth 100000 in decide

/-- C21 (amended): for every pattern list whose patterns have 64 rows, the
pattern table is the little-endian 32-bit count followed by the patterns, 1092
bytes each: pattern `k` starts at offset `4 + 1092 * k` with its 4-byte index, and
its row `r` occupies the 17 bytes from offset `4 + 17 * r` of the pattern: note,
instrument, a zero word and effect as 4-byte little-endian fields and the effect
parameter as one byte, with no padding. -/
theorem C21_pattern_table_encoding (patterns : List UgePattern) (k r : Nat) (p : UgePattern)
    (row : UgePatternRow) (h64 : ∀ q ∈ patterns, q.rows.length = 64)
    (hk : patterns[k]? = some p) (hr : p.rows[r]? = some row) :
    (writePatterns patterns).take 4 = write_le32 patterns.length ∧
    (writePatterns patterns).length = 4 + patterns.length * 1092 ∧
    ((writePatterns patterns).drop (4 + k * 1092)).take 1092 = writePattern p ∧
    (writePattern p).take 4 = write_le32 p.index ∧
    ((writePattern p).drop (4 + r * 17)).take 17
      = write_le32 (row.note % 256) ++ write_le32 (row.instrument % 256) ++ write_le32 0 ++
        write_le32 (row.effect % 256) ++ [row.effect_param % 256] := by
  have hlen : ∀ q ∈ patterns, (writePattern q).length = 1092 := by
    intro q hq
    rw [length_writePattern, h64 q hq]
  refine ⟨?_, ?_, ?_, ?_, ?_⟩
  · unfold writePatterns
    rw [List.take_append_of_le_length (by rw [length_write_le32])]
    exact List.take_of_length_le (by rw [length_write_le32])
  · unfold writePatterns
    rw [List.length_append, length_write_le32, length_writeAll writePattern 1092 patterns hlen]
  · unfold writePatterns
    have h4 : 4 + k * 1092 = (write_le32 patterns.length).length + k * 1092 := by
      rw [length_write_le32]
    rw [h4, List.drop_append]
    exact writeAll_slice writePattern 1092 patterns hlen k p hk
  · unfold writePattern
    rw [List.take_append_of_le_length (by rw [length_write_le32])]
    exact List.take_of_length_le (by rw [length_write_le32])
  · unfold writePattern
    have h4 : 4 + r * 17 = (write_le32 p.index).length + r * 17 := by
      rw [length_write_le32]
    rw [h4, List.drop_append]
    exact writeAll_slice writePatternRow 17 p.rows (fun x _ => length_writePatternRow x) r row hr

theorem C21_pattern_table_encoding_witness :
    ((writePatterns [buildPattern 0 (fun _ => []) 0 0 0]).drop (4 + 0 * 1092)).take 1092
      = writePattern (buildPattern 0 (fun _ => []) 0 0 0) :=
  (C21_pattern_table_encoding [buildPattern 0 (fun _ => []) 0 0 0] 0 0
    (buildPattern 0 (fun _ => []) 0 0 0) ⟨90, 0, 0, 0, 0⟩ (by decide) rfl (by decide)).2.2.1

/-- C22: the file that `writeUgeFile` leaves has length `max n 81254`, where `n` is
the length of the unpadded encoding; its first `n` bytes are the unpadded
encoding and all remaining bytes are zero; when `n ≥ 81254` the file is the
unpadded encoding, never truncated. -/
theorem C22_file_padding (header : UgeSongHeader) (patterns : List UgePattern)
    (orders : Fin 4 → List Nat) (routines : List (List Nat)) :
    (writeUgeFile header patterns orders routines).length
      = max (writeBody header patterns orders routines).length 81254 ∧
    (writeUgeFile header patterns orders routines).take
      (writeBody header patterns orders routines).length
      = writeBody header patterns orders routines ∧
    (writeUgeFile header patterns orders routines).drop
      (writeBody header patterns orders routines).length
      = List.replicate (81254 - (writeBody header patterns orders routines).length) 0 ∧
    (81254 ≤ (writeBody header patterns orders routines).length →
      writeUgeFile header patterns orders routines
        = writeBody header patterns orders routines) := by
  unfold writeUgeFile REF_SIZE
  by_cases h : (writeBody header patterns orders routines).length < 81254
  · rw [if_pos h]
    refine ⟨?_, List.take_left _ _, List.drop_left _ _, fun h2 => absurd h (by omega)⟩
    rw [List.length_append, List.length_replicate]
    omega
  · rw [if_neg h]
    refine ⟨by omega, List.take_length _, ?_, fun _ => rfl⟩
    rw [List.drop_length, show 81254 - (writeBody header patterns orders routines).length = 0
      from by omega]
    rfl

theorem C22_file_padding_witness :
    (writeUgeFile (exampleHeader ((List.range 15).map fun i =>
      init_duty_instrument "(unused)" 15 4 i) (by simp)) [] (fun _ => []) []).length
      = max (writeBody (exampleHeader ((List.range 15).map fun i =>
        init_duty_instrument "(unused)" 15 4 i) (by simp)) [] (fun _ => []) []).length 81254 :=
  (C22_file_padding (exampleHeader ((List.range 15).map fun i =>
    init_duty_instrument "(unused)" 15 4 i) (by simp)) [] (fun _ => []) []).1

/-- C23: for every byte string `s`, `make_shortstring` followed by
`write_shortstring` gives 256 bytes; reading them back with `read_shortstring`
returns `s` when `s` has at most 255 bytes, and for a longer `s` the length byte
is 255 and the first 255 bytes of `s` are returned. -/
theorem C23_shortstring_round_trip (s : List Nat) :
    (write_shortstring (make_shortstring s)).length = 256 ∧
    read_shortstring (write_shortstring (make_shortstring s)) = s.take 255 ∧
    (s.length ≤ 255 → read_shortstring (write_shortstring (make_shortstring s)) = s) ∧
    (255 < s.length → read_u8 (write_shortstring (make_shortstring s)) = 255) := by
  have hread : read_shortstring (write_shortstring (make_shortstring s)) = s.take 255 := by
    unfold read_shortstring read_u8 write_shortstring write_le8 make_shortstring
    simp only [List.singleton_append, List.getD_cons_zero, List.drop_succ_cons, List.drop_zero]
    by_cases h : s.length ≤ 255
    · have h3 : List.take s.length s = s := List.take_of_length_le (le_refl _)
      have h4 : List.take 255 (s ++ List.replicate (255 - s.length) 0)
          = s ++ List.replicate (255 - s.length) 0 :=
        List.take_of_length_le (by
          rw [List.length_append, List.length_replicate]
          omega)
      rw [Nat.min_eq_left h, Nat.mod_eq_of_lt (by omega), List.take_of_length_le h, h3, h4]
      exact List.take_left _ _
    · have h2 : 255 ≤ s.length := by omega
      rw [Nat.min_eq_right h2, Nat.sub_self]
      simp only [List.replicate_zero, List.append_nil, Nat.reduceMod, List.take_take,
        Nat.min_self]
  refine ⟨length_write_shortstring _, hread, ?_, ?_⟩
  · intro h
    rw [hread, List.take_of_length_le h]
  · intro h
    unfold read_u8 write_shortstring write_le8 make_shortstring
    simp only [List.singleton_append, List.getD_cons_zero]
    rw [Nat.min_eq_right (by omega)]

theorem C23_shortstring_round_trip_witness :
    read_shortstring (write_shortstring (make_shortstring [77, 73, 68, 73])) = [77, 73, 68, 73] :=
  (C23_shortstring_round_trip [77, 73, 68, 73]).2.2.1 (by decide)

/-- C24: for every header, pattern list, order matrix and routine bank, the bytes
written before the pattern table are 63618 (0xF882): the 4 version bytes, three
256-byte strings, 45 instrument records of 297 bytes each followed by a
64 x 17-byte subpattern block, the 16 x 32-byte wavetable (63609 bytes so far)
and the 9-byte timing block, which holds `ticks_per_row` at offset 63609,
`timer_enabled` at offset 63613 and `timer_divider` at offset 63614; the pattern
count is at offset 0xF882, in the unpadded encoding and in the file. -/
theorem C24_pattern_table_offset (header : UgeSongHeader) (patterns : List UgePattern)
    (orders : Fin 4 → List Nat) (routines : List (List Nat)) :
    (∀ inst, (dutyRecord inst).length = 297) ∧
    (∀ inst, (waveRecord inst).length = 297) ∧
    (∀ inst, (noiseRecord inst).length = 297) ∧
    writeSubpattern.length = 64 * 17 ∧
    (writeHead header).length = 63609 ∧
    (writeHead header ++ writeTiming header).length = 0xF882 ∧
    writeBody header patterns orders routines
      = writeHead header ++ writeTiming header ++ (writePatterns patterns ++
        writeOrderMatrix orders ++ writeRoutines routines) ∧
    ((writeBody header patterns orders routines).drop 63609).take 4
      = write_le32 header.ticks_per_row ∧
    ((writeBody header patterns orders routines).drop 63613).take 1
      = [header.timer_enabled % 256] ∧
    ((writeBody header patterns orders routines).drop 63614).take 4
      = write_le32 header.timer_divider ∧
    ((writeBody header patterns orders routines).drop 0xF882).take 4
      = write_le32 patterns.length ∧
    ((writeUgeFile header patterns orders routines).drop 0xF882).take 4
      = write_le32 patterns.length ∧
    read_u32 (((writeUgeFile header patterns orders routines).drop 0xF882).take 4)
      = patterns.length % 2 ^ 32 := by
  have hhead := length_writeHead header
  have hbody : writeBody header patterns orders routines
      = writeHead header ++ writeTiming header ++ (writePatterns patterns ++
        writeOrderMatrix orders ++ writeRoutines routines) := by
    unfold writeBody
    simp only [List.append_assoc]
  have hcount : ((writeBody header patterns orders routines).drop 0xF882).take 4
      = write_le32 patterns.length := by
    rw [hbody]
    have h4 : (0xF882 : Nat) = (writeHead header ++ writeTiming header).length := by
      rw [List.length_append, hhead, length_writeTiming]
    rw [h4, List.drop_left]
    unfold writePatterns
    rw [List.append_assoc, List.append_assoc,
      List.take_append_of_le_length (by rw [length_write_le32])]
    exact List.take_of_length_le (by rw [length_write_le32])
  have hfile : ((writeUgeFile header patterns orders routines).drop 0xF882).take 4
      = write_le32 patterns.length := by
    unfold writeUgeFile
    split_ifs
    · have hl : 0xF882 + 4 ≤ (writeBody header patterns orders routines).length := by
        rw [hbody]
        simp only [List.length_append, hhead, length_writeTiming, writePatterns,
          length_write_le32]
        omega
      rw [List.drop_append_of_le_length (by omega),
        List.take_append_of_le_length (by rw [List.length_drop]; omega)]
      exact hcount
    · exact hcount
  have htiming : writeBody header patterns orders routines
      = writeHead header ++ (write_le32 header.ticks_per_row ++
        (write_le8 header.timer_enabled ++ (write_le32 header.timer_divider ++
          (writePatterns patterns ++ writeOrderMatrix orders ++ writeRoutines routines)))) := by
    rw [hbody]
    unfold writeTiming
    simp only [List.append_assoc]
  refine ⟨length_dutyRecord, length_waveRecord, length_noiseRecord,
    length_writeSubpattern, hhead, ?_, hbody, ?_, ?_, ?_, hcount, hfile, ?_⟩
  · rw [List.length_append, hhead, length_writeTiming]
  · rw [htiming]
    have h4 : (63609 : Nat) = (writeHead header).length := hhead.symm
    rw [h4, List.drop_left, List.take_append_of_le_length (by rw [length_write_le32])]
    exact List.take_of_length_le (by rw [length_write_le32])
  · rw [htiming, ← List.append_assoc]
    have h4 : (63613 : Nat) = (writeHead header ++ write_le32 header.ticks_per_row).length := by
      rw [List.length_append, hhead, length_write_le32]
    rw [h4, List.drop_left]
    rfl
  · rw [htiming, ← List.append_assoc, ← List.append_assoc]
    have h4 : (63614 : Nat) = (writeHead header ++ write_le32 header.ticks_per_row ++
        write_le8 header.timer_enabled).length := by
      rw [List.length_append, List.length_append, hhead, length_write_le32, length_write_le8]
    rw [h4, List.drop_left, List.take_append_of_le_length (by rw [length_write_le32])]
    exact List.take_of_length_le (by rw [length_write_le32])
  · rw [hfile, read_write_le32]

/-- C26 (failing input): the Duty instrument with initial volume 12, sweep amount
4 and duty 2 is written with the byte 15 at the offset of `initial_volume` (265)
and the byte 0 at the offsets of `volume_sweep_change` (270) and `duty` (283),
where the encoding of its own fields has 12, 4 and 2; the record of every Duty
or Wave instrument is the record of any other instrument with the same name. -/
theorem C26_duty_record_constant :
    (init_duty_instrument "MIDI Prog 0" 12 4 2).initial_volume = 12 ∧
    (init_duty_instrument "MIDI Prog 0" 12 4 2).volume_sweep_change = 4 ∧
    (init_duty_instrument "MIDI Prog 0" 12 4 2).duty = 2 ∧
    (dutyRecord (init_duty_instrument "MIDI Prog 0" 12 4 2)).getD 265 0 = 15 ∧
    (dutyRecord (init_duty_instrument "MIDI Prog 0" 12 4 2)).getD 270 0 = 0 ∧
    (dutyRecord (init_duty_instrument "MIDI Prog 0" 12 4 2)).getD 283 0 = 0 ∧
    (dutyFields (init_duty_instrument "MIDI Prog 0" 12 4 2)).getD 265 0 = 12 ∧
    (dutyFields (init_duty_instrument "MIDI Prog 0" 12 4 2)).getD 270 0 = 4 ∧
    (dutyFields (init_duty_instrument "MIDI Prog 0" 12 4 2)).getD 283 0 = 2 ∧
    dutyRecord (init_duty_instrument "MIDI Prog 0" 12 4 2)
      ≠ dutyFields (init_duty_instrument "MIDI Prog 0" 12 4 2) ∧
    (∀ a b : UgeDutyInstrument, a.name = b.name → dutyRecord a = dutyRecord b) ∧
    (∀ a b : UgeWaveInstrument, a.name = b.name → waveRecord a = waveRecord b) := by
  refine ⟨rfl, rfl, rfl, by decide, by decide, by decide, by decide, by decide, by decide,
    fun h => absurd (congrArg (fun l => l.getD 265 0) h) (by decide), ?_, ?_⟩
  · intro a b h
    unfold dutyRecord
    rw [h]
  · intro a b h
    unfold waveRecord
    rw [h]

/-! ## Index tables -/

theorem lookup_isNone_iff {κ : Type} [BEq κ] [LawfulBEq κ] (table : List (κ × Nat)) (k : κ) :
    (table.lookup k).isNone ↔ k ∉ table.map Prod.fst := by
  induction table with
  | nil => simp
  | cons a as ih =>
    obtain ⟨a1, a2⟩ := a
    rw [List.lookup_cons]
    by_cases h : k = a1
    · subst h
      simp
    · have h2 : (k == a1) = false := by simpa using h
      rw [h2]
      simp only [List.map_cons, List.mem_cons, not_or]
      rw [ih]
      exact ⟨fun x => ⟨h, x⟩, fun x => x.2⟩

theorem lookup_some_mem {κ : Type} [BEq κ] [LawfulBEq κ] (table : List (κ × Nat)) (k : κ)
    (i : Nat) (h : table.lookup k = some i) : (k, i) ∈ table := by
  induction table with
  | nil => simp at h
  | cons a as ih =>
    obtain ⟨a1, a2⟩ := a
    rw [List.lookup_cons] at h
    by_cases hk : k = a1
    · subst hk
      simp only [beq_self_eq_true, Option.some.injEq] at h
      subst h
      exact List.mem_cons_self _ _
    · have h2 : (k == a1) = false := by simpa using hk
      rw [h2] at h
      exact List.mem_cons_of_mem _ (ih h)

theorem mem_lookup_some {κ : Type} [BEq κ] [LawfulBEq κ] (table : List (κ × Nat)) (k : κ)
    (i : Nat) (hn : (table.map Prod.fst).Nodup) (h : (k, i) ∈ table) :
    table.lookup k = some i := by
  induction table with
  | nil => simp at h
  | cons a as ih =>
    obtain ⟨a1, a2⟩ := a
    rw [List.map_cons, List.nodup_cons] at hn
    rw [List.lookup_cons]
    rcases List.mem_cons.mp h with hm | hm
    · simp only [Prod.mk.injEq] at hm
      rw [hm.1, hm.2]
      simp
    · have hk : k ≠ a1 := by
        intro e
        rw [← e] at hn
        exact hn.1 (List.mem_map.mpr ⟨(k, i), hm, rfl⟩)
      have h2 : (k == a1) = false := by simpa using hk
      rw [h2]
      exact ih hn.2 hm

theorem lookup_append_some {κ : Type} [BEq κ] (t e : List (κ × Nat)) (k : κ) (i : Nat)
    (h : t.lookup k = some i) : (t ++ e).lookup k = some i := by
  induction t with
  | nil => simp at h
  | cons a as ih =>
    obtain ⟨a1, a2⟩ := a
    rw [List.cons_append, List.lookup_cons]
    rw [List.lookup_cons] at h
    split
    · rename_i hb
      rw [hb] at h
      exact h
    · rename_i hb
      rw [hb] at h
      exact ih h

theorem indexTable_getElem {κ : Type} (table : List (κ × Nat)) (next : Nat)
    (h : IndexTable table next) (j : Nat) (kv : κ × Nat) (hj : table[j]? = some kv) :
    kv.2 = j := by
  have h1 : (table.map Prod.snd)[j]? = some kv.2 := by
    rw [List.getElem?_map, hj]
    rfl
  rw [h.1] at h1
  have hlt : j < table.length := by
    by_contra hc
    rw [List.getElem?_eq_none (by omega)] at hj
    exact absurd hj (by simp)
  rw [List.getElem?_range hlt] at h1
  exact (Option.some.inj h1).symm

/-- In an index table, `lookup k = some i` exactly when the entry at position `i` is `(k, i)`. -/
theorem indexTable_lookup_iff {κ : Type} [BEq κ] [LawfulBEq κ] (table : List (κ × Nat))
    (next : Nat) (h : IndexTable table next) (k : κ) (i : Nat) :
    table.lookup k = some i ↔ table[i]? = some (k, i) := by
  constructor
  · intro hl
    obtain ⟨j, hj⟩ := List.mem_iff_getElem?.mp (lookup_some_mem table k i hl)
    have := indexTable_getElem table next h j (k, i) hj
    simp only at this
    subst this
    exact hj
  · intro hg
    exact mem_lookup_some table k i h.2.2.2 (List.mem_iff_getElem?.mpr ⟨i, hg⟩)

theorem indexTable_isIndexMap {κ : Type} [BEq κ] [LawfulBEq κ] (table : List (κ × Nat))
    (next : Nat) (h : IndexTable table next) : IsIndexMap table := by
  refine ⟨?_, table.length, h.2.2.1, ?_⟩
  · intro k1 k2 i h1 h2
    rw [indexTable_lookup_iff table next h] at h1 h2
    rw [h1] at h2
    simp only [Option.some.injEq, Prod.mk.injEq, and_true] at h2
    exact h2
  · intro i
    constructor
    · rintro ⟨k, hk⟩
      rw [indexTable_lookup_iff table next h] at hk
      by_contra hc
      rw [List.getElem?_eq_none (by omega)] at hk
      exact absurd hk (by simp)
    · intro hi
      refine ⟨(table[i]).1, ?_⟩
      rw [indexTable_lookup_iff table next h, List.getElem?_eq_getElem hi]
      have := indexTable_getElem table next h i table[i] (List.getElem?_eq_getElem hi)
      congr 1
      exact Prod.ext rfl this

theorem keepsIndices_of_append {κ : Type} [BEq κ] (t1 t2 : List (κ × Nat))
    (h : ∃ e, t2 = t1 ++ e) : KeepsIndices t1 t2 := by
  refine ⟨h, ?_⟩
  obtain ⟨e, rfl⟩ := h
  intro k i hk
  exact lookup_append_some t1 e k i hk

theorem tableAssign_indexTable {κ : Type} [BEq κ] [LawfulBEq κ] (table : List (κ × Nat))
    (next limit : Nat) (k : κ) (hl : limit ≤ 15) (h : IndexTable table next) :
    IndexTable (tableAssign table next limit k).1 (tableAssign table next limit k).2 ∧
    ∃ e, (tableAssign table next limit k).1 = table ++ e := by
  unfold tableAssign
  split_ifs with hc
  · obtain ⟨h1, h2, h3, h4⟩ := h
    refine ⟨⟨?_, ?_, ?_, ?_⟩, [(k, next)], rfl⟩
    · simp only [List.map_append, List.map_cons, List.map_nil, List.length_append,
        List.length_singleton]
      rw [List.range_succ, h1, h2]
    · simp only [List.length_append, List.length_singleton]
      omega
    · simp only [List.length_append, List.length_singleton]
      omega
    · simp only [List.map_append, List.map_cons, List.map_nil]
      rw [List.nodup_append]
      refine ⟨h4, List.nodup_singleton _, ?_⟩
      intro a ha hb
      rw [List.mem_singleton] at hb
      subst hb
      exact (lookup_isNone_iff table a).mp hc.1 ha
  · exact ⟨h, [], (List.append_nil _).symm⟩

theorem TablesGrow_refl (s : BuildState) : TablesGrow s s :=
  ⟨⟨[], (List.append_nil _).symm⟩, ⟨[], (List.append_nil _).symm⟩,
    ⟨[], (List.append_nil _).symm⟩⟩

theorem TablesGrow_trans (s1 s2 s3 : BuildState) (h1 : TablesGrow s1 s2)
    (h2 : TablesGrow s2 s3) : TablesGrow s1 s3 := by
  obtain ⟨⟨a1, ha1⟩, ⟨b1, hb1⟩, ⟨c1, hc1⟩⟩ := h1
  obtain ⟨⟨a2, ha2⟩, ⟨b2, hb2⟩, ⟨c2, hc2⟩⟩ := h2
  exact ⟨⟨a1 ++ a2, by rw [ha2, ha1, List.append_assoc]⟩,
    ⟨b1 ++ b2, by rw [hb2, hb1, List.append_assoc]⟩,
    ⟨c1 ++ c2, by rw [hc2, hc1, List.append_assoc]⟩⟩

/-- The tables after the melodic branch: the Noise table is untouched; on the Wave
channel only the Wave table can change, on a Duty channel only the Duty table;
a table that changes is the result of one `tableAssign`. -/
theorem processMelodic_tables (s : BuildState) (ev : MidiEvent) (row tr : Nat) (c : Fin 4) :
    (processMelodic s ev row tr c).percussionNoteToUgeInst = s.percussionNoteToUgeInst ∧
    (processMelodic s ev row tr c).nextNoiseInst = s.nextNoiseInst ∧
    (c ≠ 2 → (processMelodic s ev row tr c).midiProgToUgeWaveInst = s.midiProgToUgeWaveInst ∧
      (processMelodic s ev row tr c).nextUgeWaveInst = s.nextUgeWaveInst) ∧
    (c = 2 → (processMelodic s ev row tr c).midiProgToUgeInst = s.midiProgToUgeInst ∧
      (processMelodic s ev row tr c).nextUgeInst = s.nextUgeInst) ∧
    (((processMelodic s ev row tr c).midiProgToUgeInst = s.midiProgToUgeInst ∧
        (processMelodic s ev row tr c).nextUgeInst = s.nextUgeInst) ∨
      ∃ p, (processMelodic s ev row tr c).midiProgToUgeInst
          = (tableAssign s.midiProgToUgeInst s.nextUgeInst UGE_NUM_DUTY p).1 ∧
        (processMelodic s ev row tr c).nextUgeInst
          = (tableAssign s.midiProgToUgeInst s.nextUgeInst UGE_NUM_DUTY p).2) ∧
    (((processMelodic s ev row tr c).midiProgToUgeWaveInst = s.midiProgToUgeWaveInst ∧
        (processMelodic s ev row tr c).nextUgeWaveInst = s.nextUgeWaveInst) ∨
      ∃ p, (processMelodic s ev row tr c).midiProgToUgeWaveInst
          = (tableAssign s.midiProgToUgeWaveInst s.nextUgeWaveInst UGE_NUM_WAVE p).1 ∧
        (processMelodic s ev row tr c).nextUgeWaveInst
          = (tableAssign s.midiProgToUgeWaveInst s.nextUgeWaveInst UGE_NUM_WAVE p).2) := by
  by_cases hp : ev.kind = EventKind.programChange
  · unfold processMelodic
    rw [if_pos hp]
    simp only
    by_cases hc : c = 2
    · rw [if_pos hc]
      exact ⟨rfl, rfl, fun h => absurd hc h, fun _ => ⟨rfl, rfl⟩, Or.inl ⟨rfl, rfl⟩,
        Or.inr ⟨ev.program, rfl, rfl⟩⟩
    · rw [if_neg hc]
      exact ⟨rfl, rfl, fun _ => ⟨rfl, rfl⟩, fun h => absurd h hc,
        Or.inr ⟨ev.program, rfl, rfl⟩, Or.inl ⟨rfl, rfl⟩⟩
  · by_cases hon : ev.isOn
    · unfold processMelodic
      rw [if_neg hp, if_pos hon]
      simp only
      by_cases hc : c = 2
      · rw [if_pos hc]
        exact ⟨rfl, rfl, fun h => absurd hc h, fun _ => ⟨rfl, rfl⟩, Or.inl ⟨rfl, rfl⟩,
          Or.inr ⟨s.channelProgram ev.channel, rfl, rfl⟩⟩
      · rw [if_neg hc]
        exact ⟨rfl, rfl, fun _ => ⟨rfl, rfl⟩, fun h => absurd h hc,
          Or.inr ⟨s.channelProgram ev.channel, rfl, rfl⟩, Or.inl ⟨rfl, rfl⟩⟩
    · by_cases hoff : ev.isOff
      · cases hact : s.active_notes c ev.key with
        | none =>
          rw [processMelodic_off_none s ev row tr c hp hon hact]
          exact ⟨rfl, rfl, fun _ => ⟨rfl, rfl⟩, fun _ => ⟨rfl, rfl⟩, Or.inl ⟨rfl, rfl⟩,
            Or.inl ⟨rfl, rfl⟩⟩
        | some x =>
          obtain ⟨a, b, d⟩ := x
          rw [processMelodic_off_some s ev row tr c hp hon hoff a b d hact]
          exact ⟨rfl, rfl, fun _ => ⟨rfl, rfl⟩, fun _ => ⟨rfl, rfl⟩, Or.inl ⟨rfl, rfl⟩,
            Or.inl ⟨rfl, rfl⟩⟩
      · unfold processMelodic
        rw [if_neg hp, if_neg hon, if_neg hoff]
        exact ⟨rfl, rfl, fun _ => ⟨rfl, rfl⟩, fun _ => ⟨rfl, rfl⟩, Or.inl ⟨rfl, rfl⟩,
          Or.inl ⟨rfl, rfl⟩⟩

/-- The tables after the Noise branch: the Duty and Wave tables are untouched, the
Noise table is unchanged or the result of one `tableAssign`. -/
theorem processNoise_tables (s : BuildState) (ev : MidiEvent) (row tr : Nat) :
    (processNoise s ev row tr).midiProgToUgeInst = s.midiProgToUgeInst ∧
    (processNoise s ev row tr).nextUgeInst = s.nextUgeInst ∧
    (processNoise s ev row tr).midiProgToUgeWaveInst = s.midiProgToUgeWaveInst ∧
    (processNoise s ev row tr).nextUgeWaveInst = s.nextUgeWaveInst ∧
    (((processNoise s ev row tr).percussionNoteToUgeInst = s.percussionNoteToUgeInst ∧
        (processNoise s ev row tr).nextNoiseInst = s.nextNoiseInst) ∨
      ∃ p, (processNoise s ev row tr).percussionNoteToUgeInst
          = (tableAssign s.percussionNoteToUgeInst s.nextNoiseInst UGE_NUM_NOISE p).1 ∧
        (processNoise s ev row tr).nextNoiseInst
          = (tableAssign s.percussionNoteToUgeInst s.nextNoiseInst UGE_NUM_NOISE p).2) := by
  by_cases hon : ev.isOn
  · unfold processNoise
    rw [if_pos hon]
    simp only
    split_ifs
    · exact ⟨rfl, rfl, rfl, rfl, Or.inr ⟨ev.key, rfl, rfl⟩⟩
    · exact ⟨rfl, rfl, rfl, rfl, Or.inr ⟨ev.key, rfl, rfl⟩⟩
  · rw [processNoise_not_on s ev row tr hon]
    exact ⟨rfl, rfl, rfl, rfl, Or.inl ⟨rfl, rfl⟩⟩

theorem indexTable_step {κ : Type} [BEq κ] [LawfulBEq κ] (t t2 : List (κ × Nat))
    (n n2 limit : Nat) (hl : limit ≤ 15) (h : IndexTable t n)
    (hs : (t2 = t ∧ n2 = n) ∨ ∃ p, t2 = (tableAssign t n limit p).1 ∧
      n2 = (tableAssign t n limit p).2) :
    IndexTable t2 n2 ∧ ∃ e, t2 = t ++ e := by
  rcases hs with ⟨h1, h2⟩ | ⟨p, h1, h2⟩
  · rw [h1, h2]
    exact ⟨h, [], (List.append_nil _).symm⟩
  · rw [h1, h2]
    exact tableAssign_indexTable t n limit p hl h

theorem processChannel_tables (map : Fin 4 → Int) (tr : Nat) (ev : MidiEvent) (row : Nat)
    (s : BuildState) (c : Fin 4) (hs : TablesOk s) :
    TablesOk (processChannel map tr ev row s c) ∧
      TablesGrow s (processChannel map tr ev row s c) := by
  unfold processChannel
  simp only
  split_ifs
  · exact ⟨hs, TablesGrow_refl s⟩
  · exact ⟨hs, TablesGrow_refl s⟩
  · obtain ⟨h1, h2, h3, h4, h5⟩ := processNoise_tables s ev row tr
    have h6 := indexTable_step _ _ _ _ UGE_NUM_NOISE (by decide) hs.2.2 h5
    refine ⟨⟨?_, ?_, h6.1⟩, ⟨[], ?_⟩, ⟨[], ?_⟩, h6.2⟩
    · rw [h1, h2]
      exact hs.1
    · rw [h3, h4]
      exact hs.2.1
    · rw [h1, List.append_nil]
    · rw [h3, List.append_nil]
  · obtain ⟨h1, h2, -, -, h5, h6⟩ := processMelodic_tables s ev row tr c
    have h7 := indexTable_step _ _ _ _ UGE_NUM_DUTY (by decide) hs.1 h5
    have h8 := indexTable_step _ _ _ _ UGE_NUM_WAVE (by decide) hs.2.1 h6
    refine ⟨⟨h7.1, h8.1, ?_⟩, h7.2, h8.2, ⟨[], ?_⟩⟩
    · rw [h1, h2]
      exact hs.2.2
    · rw [h1, List.append_nil]

theorem processEvent_tables (map : Fin 4 → Int) (tr : Nat) (s : BuildState) (ev : MidiEvent)
    (hs : TablesOk s) :
    TablesOk (processEvent map tr s ev) ∧ TablesGrow s (processEvent map tr s ev) := by
  rcases processEvent_cases map tr s ev with e | ⟨-, -, e⟩
  · rw [e]
    exact ⟨hs, TablesGrow_refl s⟩
  · rw [e]
    have a0 := processChannel_tables map tr ev (ev.tick / TICKS_PER_ROW) s 0 hs
    have a1 := processChannel_tables map tr ev (ev.tick / TICKS_PER_ROW) _ 1 a0.1
    have a2 := processChannel_tables map tr ev (ev.tick / TICKS_PER_ROW) _ 2 a1.1
    have a3 := processChannel_tables map tr ev (ev.tick / TICKS_PER_ROW) _ 3 a2.1
    exact ⟨a3.1, TablesGrow_trans _ _ _ (TablesGrow_trans _ _ _
      (TablesGrow_trans _ _ _ a0.2 a1.2) a2.2) a3.2⟩

theorem initState_tables (tr : Nat) : TablesOk (initState tr) := by
  refine ⟨⟨rfl, rfl, ?_, List.nodup_nil⟩, ⟨rfl, rfl, ?_, List.nodup_nil⟩,
    ⟨rfl, rfl, ?_, List.nodup_nil⟩⟩ <;> exact Nat.zero_le 15

theorem foldl_tables (map : Fin 4 → Int) (tr : Nat) (evs : List MidiEvent) (s : BuildState)
    (hs : TablesOk s) :
    TablesOk (evs.foldl (processEvent map tr) s) ∧
      TablesGrow s (evs.foldl (processEvent map tr) s) := by
  induction evs generalizing s with
  | nil => exact ⟨hs, TablesGrow_refl s⟩
  | cons ev rest ih =>
    have h1 := processEvent_tables map tr s ev hs
    have h2 := ih (processEvent map tr s ev) h1.1
    rw [List.foldl_cons]
    exact ⟨h2.1, TablesGrow_trans _ _ _ h1.2 h2.2⟩

/-- The index tables keep their shape throughout the row-grid loop. -/
theorem buildGrid_tables (map : Fin 4 → Int) (tr : Nat) (evs : List MidiEvent) :
    TablesOk (buildGrid map tr evs) :=
  (foldl_tables map tr evs (initState tr) (initState_tables tr)).1

theorem buildGrid_grow (map : Fin 4 → Int) (tr : Nat) (pre post : List MidiEvent) :
    TablesGrow (buildGrid map tr pre) (buildGrid map tr (pre ++ post)) := by
  unfold buildGrid
  rw [List.foldl_append]
  exact (foldl_tables map tr post _ (buildGrid_tables map tr pre)).2

/-- C29: at every point of the row-grid loop (after any initial part `pre` of the
events) each of the three index tables, read as a map, is injective with image
`0 .. n - 1` for some `n ≤ 15`; its indices are `0, 1, ..` in the order in which the
keys were first entered; at any later point (after `pre ++ post`) the table is
the earlier one followed by new entries, and every key keeps its index; the
melodic branch of a Duty channel leaves the Wave table as it is and that of the
Wave channel leaves the Duty table as it is, so that one program can have
different indices in the two tables; every instrument index in the row grid is
below 15. -/
theorem C29_index_tables (map : Fin 4 → Int) (tr : Nat) (pre post : List MidiEvent) :
    (IsIndexMap (buildGrid map tr pre).midiProgToUgeInst ∧
      IsIndexMap (buildGrid map tr pre).midiProgToUgeWaveInst ∧
      IsIndexMap (buildGrid map tr pre).percussionNoteToUgeInst) ∧
    ((buildGrid map tr pre).midiProgToUgeInst.map Prod.snd
        = List.range (buildGrid map tr pre).midiProgToUgeInst.length ∧
      (buildGrid map tr pre).midiProgToUgeWaveInst.map Prod.snd
        = List.range (buildGrid map tr pre).midiProgToUgeWaveInst.length ∧
      (buildGrid map tr pre).percussionNoteToUgeInst.map Prod.snd
        = List.range (buildGrid map tr pre).percussionNoteToUgeInst.length) ∧
    (KeepsIndices (buildGrid map tr pre).midiProgToUgeInst
        (buildGrid map tr (pre ++ post)).midiProgToUgeInst ∧
      KeepsIndices (buildGrid map tr pre).midiProgToUgeWaveInst
        (buildGrid map tr (pre ++ post)).midiProgToUgeWaveInst ∧
      KeepsIndices (buildGrid map tr pre).percussionNoteToUgeInst
        (buildGrid map tr (pre ++ post)).percussionNoteToUgeInst) ∧
    (∀ (s : BuildState) (ev : MidiEvent) (row : Nat) (c : Fin 4), c ≠ 2 →
      (processMelodic s ev row tr c).midiProgToUgeWaveInst = s.midiProgToUgeWaveInst) ∧
    (∀ (s : BuildState) (ev : MidiEvent) (row : Nat),
      (processMelodic s ev row tr 2).midiProgToUgeInst = s.midiProgToUgeInst) ∧
    (∃ (m : Fin 4 → Int) (evs : List MidiEvent) (p : Int) (i j : Nat), i ≠ j ∧
      (buildGrid m 1 evs).midiProgToUgeInst.lookup p = some i ∧
      (buildGrid m 1 evs).midiProgToUgeWaveInst.lookup p = some j) ∧
    (∀ (h : Fin 4) (r : Nat) (x : Row),
      ((buildGrid map tr pre).channel_rows h)[r]? = some x → x.instrument < 15) := by
  have hok := buildGrid_tables map tr pre
  have hgrow := buildGrid_grow map tr pre post
  refine ⟨⟨indexTable_isIndexMap _ _ hok.1, indexTable_isIndexMap _ _ hok.2.1,
    indexTable_isIndexMap _ _ hok.2.2⟩, ⟨hok.1.1, hok.2.1.1, hok.2.2.1⟩,
    ⟨keepsIndices_of_append _ _ hgrow.1, keepsIndices_of_append _ _ hgrow.2.1,
      keepsIndices_of_append _ _ hgrow.2.2⟩, ?_, ?_, ?_, ?_⟩
  · intro s ev row c hc
    exact ((processMelodic_tables s ev row tr c).2.2.1 hc).1
  · intro s ev row
    exact ((processMelodic_tables s ev row tr 2).2.2.2.1 rfl).1
  · refine ⟨fun i => if i = 2 then 1 else 0,
      [⟨0, EventKind.programChange, 0, 0, 0, 3, 0⟩, ⟨0, EventKind.programChange, 0, 0, 0, 7, 0⟩,
        ⟨0, EventKind.programChange, 1, 0, 0, 7, 0⟩], 7, 1, 0, by decide, by decide, by decide⟩
  · intro h r x hx
    exact (buildGrid_bound map tr pre).2.2.2.2 h x (List.mem_iff_getElem?.mpr ⟨r, hx⟩)

/-! ## The instrument banks are fully populated -/

theorem reverseTable_snoc {κ : Type} (t : List (κ × Nat)) (kv : κ × Nat) :
    reverseTable (t ++ [kv]) = Function.update (reverseTable t) kv.2 (some kv.1) := by
  unfold reverseTable
  rw [List.foldl_append]
  rfl

/-- For a table whose indices are `0, 1, ..` in order, the reverse map sends `i` to the
key of the entry at position `i`. -/
theorem reverseTable_spec {κ : Type} (table : List (κ × Nat))
    (h : table.map Prod.snd = List.range table.length) (i : Nat) :
    reverseTable table i = (table[i]?).map Prod.fst := by
  induction table using List.reverseRecOn generalizing i with
  | nil => rfl
  | append_singleton t kv ih =>
    rw [List.map_append, List.length_append, List.length_singleton, List.range_succ,
      List.map_singleton] at h
    have h2 := List.append_inj h (by rw [List.length_map, List.length_range])
    have hkv : kv.2 = t.length := by
      have := h2.2
      simp only [List.cons.injEq, and_true] at this
      exact this
    rw [reverseTable_snoc, hkv]
    by_cases hi : i = t.length
    · subst hi
      rw [Function.update_same, List.getElem?_append_right (le_refl _)]
      simp
    · rw [Function.update_noteq hi, ih h2.1]
      by_cases hlt : i < t.length
      · rw [List.getElem?_append_left hlt]
      · rw [List.getElem?_eq_none (by omega), List.getElem?_eq_none (by
          rw [List.length_append, List.length_singleton]
          omega)]

theorem indexTable_slot {κ : Type} (table : List (κ × Nat)) (next : Nat)
    (h : IndexTable table next) (i : Nat) :
    (i < table.length → ∃ p, table[i]? = some (p, i) ∧ reverseTable table i = some p) ∧
    (table.length ≤ i → reverseTable table i = none) := by
  constructor
  · intro hi
    have hg : table[i]? = some table[i] := List.getElem?_eq_getElem hi
    have h2 := indexTable_getElem table next h i table[i] hg
    have h3 : table[i] = ((table[i]).1, i) := Prod.ext rfl h2
    refine ⟨(table[i]).1, by rw [hg, ← h3], ?_⟩
    rw [reverseTable_spec table h.1, hg]
    rfl
  · intro hi
    rw [reverseTable_spec table h.1, List.getElem?_eq_none hi]
    rfl

theorem dutyInstrument_live (grid : BuildState) (lens : LengthState) (i : Nat) (p : Int)
    (h : reverseTable grid.midiProgToUgeInst i = some p) :
    (dutyInstrument grid lens i).name = "MIDI Prog " ++ toString p := by
  unfold dutyInstrument
  rw [h]
  simp only
  split
  · split_ifs <;> rfl
  · rfl

theorem dutyInstrument_unused (grid : BuildState) (lens : LengthState) (i : Nat)
    (h : reverseTable grid.midiProgToUgeInst i = none) :
    dutyInstrument grid lens i
      = { init_duty_instrument "(unused)" 15 4 (i % 4) with volume_sweep_direction := 1 } := by
  unfold dutyInstrument
  rw [h]

theorem waveInstrument_live (grid : BuildState) (i : Nat) (p : Int)
    (h : reverseTable grid.midiProgToUgeWaveInst i = some p) :
    (waveInstrument grid i).name = "MIDI Prog " ++ toString p := by
  unfold waveInstrument
  rw [h]
  rfl

theorem waveInstrument_unused (grid : BuildState) (i : Nat)
    (h : reverseTable grid.midiProgToUgeWaveInst i = none) :
    waveInstrument grid i = init_wave_instrument "(unused)" 15 0 := by
  unfold waveInstrument
  rw [h]

theorem noiseInstrument_live (grid : BuildState) (lens : LengthState) (i k : Nat)
    (h : reverseTable grid.percussionNoteToUgeInst i = some k) :
    (noiseInstrument grid lens i).name = "Perc Note " ++ toString k := by
  unfold noiseInstrument
  rw [h]
  simp only
  split
  · split_ifs <;> rfl
  · rfl

theorem noiseInstrument_unused (grid : BuildState) (lens : LengthState) (i : Nat)
    (h : reverseTable grid.percussionNoteToUgeInst i = none) :
    noiseInstrument grid lens i
      = { init_noise_instrument "(unused)" 15 4 0 with volume_sweep_direction := 1 } := by
  unfold noiseInstrument
  rw [h]

/-- C27: for every input, each of the three banks built by `convertMidiToUge` has
15 slots; with `n ≤ 15` the number of entries of the index table of the bank, every
slot `i < n` holds the instrument named "MIDI Prog p" (Duty, Wave) or "Perc Note k"
(Noise) for the program `p` or key `k` that the table maps to `i`, and every slot
`i` with `n ≤ i < 15` holds the placeholder named "(unused)" with volume 15 and, in
the Duty and Noise banks, sweep amount 4 (a Wave instrument has no sweep field). -/
theorem C27_banks_populated (hasher : List Nat → Nat) (tpq : Int) (evs : List MidiEvent)
    (um : Option (Fin 4 → Int)) :
    ((convertMidiToUge hasher tpq evs um).duty.length = 15 ∧
      (convertMidiToUge hasher tpq evs um).wave.length = 15 ∧
      (convertMidiToUge hasher tpq evs um).noise.length = 15) ∧
    ((convertMidiToUge hasher tpq evs um).grid.midiProgToUgeInst.length ≤ 15 ∧
      (convertMidiToUge hasher tpq evs um).grid.midiProgToUgeWaveInst.length ≤ 15 ∧
      (convertMidiToUge hasher tpq evs um).grid.percussionNoteToUgeInst.length ≤ 15) ∧
    (∀ i : Nat, i < 15 → ∃ d, (convertMidiToUge hasher tpq evs um).duty[i]? = some d ∧
      (i < (convertMidiToUge hasher tpq evs um).grid.midiProgToUgeInst.length →
        ∃ p : Int, (convertMidiToUge hasher tpq evs um).grid.midiProgToUgeInst.lookup p
            = some i ∧ d.name = "MIDI Prog " ++ toString p) ∧
      ((convertMidiToUge hasher tpq evs um).grid.midiProgToUgeInst.length ≤ i →
        d.name = "(unused)" ∧ d.initial_volume = 15 ∧ d.volume_sweep_change = 4)) ∧
    (∀ i : Nat, i < 15 → ∃ d, (convertMidiToUge hasher tpq evs um).wave[i]? = some d ∧
      (i < (convertMidiToUge hasher tpq evs um).grid.midiProgToUgeWaveInst.length →
        ∃ p : Int, (convertMidiToUge hasher tpq evs um).grid.midiProgToUgeWaveInst.lookup p
            = some i ∧ d.name = "MIDI Prog " ++ toString p) ∧
      ((convertMidiToUge hasher tpq evs um).grid.midiProgToUgeWaveInst.length ≤ i →
        d.name = "(unused)" ∧ d.volume = 15)) ∧
    (∀ i : Nat, i < 15 → ∃ d, (convertMidiToUge hasher tpq evs um).noise[i]? = some d ∧
      (i < (convertMidiToUge hasher tpq evs um).grid.percussionNoteToUgeInst.length →
        ∃ k : Nat, (convertMidiToUge hasher tpq evs um).grid.percussionNoteToUgeInst.lookup k
            = some i ∧ d.name = "Perc Note " ++ toString k) ∧
      ((convertMidiToUge hasher tpq evs um).grid.percussionNoteToUgeInst.length ≤ i →
        d.name = "(unused)" ∧ d.initial_volume = 15 ∧ d.volume_sweep_change = 4)) := by
  have hok := buildGrid_tables (midi_to_uge evs um) (total_rows evs) evs
  refine ⟨⟨?_, ?_, ?_⟩, ⟨hok.1.2.2.1, hok.2.1.2.2.1, hok.2.2.2.2.1⟩, ?_, ?_, ?_⟩
  · simp [convertMidiToUge, UGE_NUM_DUTY]
  · simp [convertMidiToUge, UGE_NUM_WAVE]
  · simp [convertMidiToUge, UGE_NUM_NOISE]
  · intro i hi
    have hs := indexTable_slot _ _ hok.1 i
    refine ⟨dutyInstrument (buildGrid (midi_to_uge evs um) (total_rows evs) evs)
      (noteLengths (buildGrid (midi_to_uge evs um) (total_rows evs) evs).channelProgram
        (total_rows evs) evs) i, bank_getElem _ i hi, ?_, ?_⟩
    · intro hlt
      obtain ⟨p, hp1, hp2⟩ := hs.1 hlt
      exact ⟨p, (indexTable_lookup_iff _ _ hok.1 p i).mpr hp1, dutyInstrument_live _ _ i p hp2⟩
    · intro hge
      rw [dutyInstrument_unused _ _ i (hs.2 hge)]
      exact ⟨rfl, rfl, rfl⟩
  · intro i hi
    have hs := indexTable_slot _ _ hok.2.1 i
    refine ⟨waveInstrument (buildGrid (midi_to_uge evs um) (total_rows evs) evs) i,
      bank_getElem _ i hi, ?_, ?_⟩
    · intro hlt
      obtain ⟨p, hp1, hp2⟩ := hs.1 hlt
      exact ⟨p, (indexTable_lookup_iff _ _ hok.2.1 p i).mpr hp1, waveInstrument_live _ i p hp2⟩
    · intro hge
      rw [waveInstrument_unused _ i (hs.2 hge)]
      exact ⟨rfl, rfl⟩
  · intro i hi
    have hs := indexTable_slot _ _ hok.2.2 i
    refine ⟨noiseInstrument (buildGrid (midi_to_uge evs um) (total_rows evs) evs)
      (noteLengths (buildGrid (midi_to_uge evs um) (total_rows evs) evs).channelProgram
        (total_rows evs) evs) i, bank_getElem _ i hi, ?_, ?_⟩
    · intro hlt
      obtain ⟨k, hk1, hk2⟩ := hs.1 hlt
      exact ⟨k, (indexTable_lookup_iff _ _ hok.2.2 k i).mpr hk1,
        noiseInstrument_live _ _ i k hk2⟩
    · intro hge
      rw [noiseInstrument_unused _ _ i (hs.2 hge)]
      exact ⟨rfl, rfl, rfl⟩

/-! ## Overlapping note-ons -/

/-- Within one event, the rows and held notes of hardware channel `h` are those left
by the body of the channel loop for `h`, run on a state that agrees with the
state before the event on channel `h`. -/
theorem processEvent_via (map : Fin 4 → Int) (tr : Nat) (s : BuildState) (ev : MidiEvent)
    (h : Fin 4) (hrow : ev.tick / TICKS_PER_ROW < tr) (hch : 0 ≤ ev.channel ∧ ev.channel ≤ 15) :
    ∃ sp : BuildState, sp.channel_rows h = s.channel_rows h ∧
      sp.active_notes h = s.active_notes h ∧
      (processEvent map tr s ev).channel_rows h
        = (processChannel map tr ev (ev.tick / TICKS_PER_ROW) sp h).channel_rows h ∧
      (processEvent map tr s ev).active_notes h
        = (processChannel map tr ev (ev.tick / TICKS_PER_ROW) sp h).active_notes h := by
  obtain ⟨pre, post, hsplit, hpre, hpost⟩ := split_channels h
  have hf := foldl_processChannel_frame map tr ev (ev.tick / TICKS_PER_ROW) h pre hpre s
  refine ⟨pre.foldl (processChannel map tr ev (ev.tick / TICKS_PER_ROW)) s, hf.1, hf.2, ?_, ?_⟩
  · unfold processEvent
    simp only
    rw [if_neg (by omega), if_neg (by omega), hsplit, List.foldl_append, List.foldl_cons,
      (foldl_processChannel_frame map tr ev _ h post hpost _).1]
  · unfold processEvent
    simp only
    rw [if_neg (by omega), if_neg (by omega), hsplit, List.foldl_append, List.foldl_cons,
      (foldl_processChannel_frame map tr ev _ h post hpost _).2]

theorem processChannel_melodic (map : Fin 4 → Int) (tr : Nat) (ev : MidiEvent) (row : Nat)
    (s : BuildState) (c : Fin 4) (hc : c ≠ 3) (hmap : map c = ev.channel)
    (hch : 0 ≤ ev.channel ∧ ev.channel ≤ 15) :
    processChannel map tr ev row s c = processMelodic s ev row tr c := by
  unfold processChannel
  simp only
  rw [if_neg (by omega), if_neg (by rw [hmap]; exact fun hh => hh rfl), if_neg hc]

/-- A note-on on the source channel of a melodic hardware channel `h` records
`(row, instrument, velocity)` under its key and writes no row of `h`. -/
theorem processEvent_on_active (map : Fin 4 → Int) (tr : Nat) (s : BuildState)
    (ev : MidiEvent) (h : Fin 4) (hh : h ≠ 3) (hmap : map h = ev.channel)
    (hch : 0 ≤ ev.channel ∧ ev.channel ≤ 15) (hon : ev.isOn)
    (hrow : ev.tick / TICKS_PER_ROW < tr) :
    (∃ inst, (processEvent map tr s ev).active_notes h ev.key
      = some (ev.tick / TICKS_PER_ROW, inst, ev.velocity)) ∧
    (processEvent map tr s ev).channel_rows h = s.channel_rows h := by
  obtain ⟨sp, h1, h2, h3, h4⟩ := processEvent_via map tr s ev h hrow hch
  rw [processChannel_melodic map tr ev _ sp h hh hmap hch] at h3 h4
  have hm := processMelodic_on sp ev (ev.tick / TICKS_PER_ROW) tr h hon
  obtain ⟨inst, hi⟩ := hm.1
  refine ⟨⟨inst, ?_⟩, ?_⟩
  · rw [h4]
    exact hi
  · rw [h3, hm.2, h1]

/-- The melodic branch leaves the held note of key `k` as it is unless the event is a
note-on or a note-off for `k`. -/
theorem processMelodic_active_key (s : BuildState) (ev : MidiEvent) (row tr : Nat)
    (c : Fin 4) (k : Nat) (hk : ev.key = k → ¬ ev.isOn ∧ ¬ ev.isOff) :
    (processMelodic s ev row tr c).active_notes c k = s.active_notes c k := by
  by_cases hp : ev.kind = EventKind.programChange
  · unfold processMelodic
    rw [if_pos hp]
    simp only
    split_ifs <;> rfl
  · by_cases hon : ev.isOn
    · have hne : k ≠ ev.key := fun e => (hk e.symm).1 hon
      unfold processMelodic
      rw [if_neg hp, if_pos hon]
      simp only
      split_ifs <;> simp only [Function.update_same, Function.update_noteq hne]
    · by_cases hoff : ev.isOff
      · have hne : k ≠ ev.key := fun e => (hk e.symm).2 hoff
        cases hact : s.active_notes c ev.key with
        | none => rw [processMelodic_off_none s ev row tr c hp hon hact]
        | some x =>
          obtain ⟨a, b, d⟩ := x
          rw [processMelodic_off_some s ev row tr c hp hon hoff a b d hact]
          simp only [Function.update_same, Function.update_noteq hne]
      · unfold processMelodic
        rw [if_neg hp, if_neg hon, if_neg hoff]

theorem processChannel_active_key (map : Fin 4 → Int) (tr : Nat) (ev : MidiEvent) (row : Nat)
    (s : BuildState) (h : Fin 4) (k : Nat)
    (hk : ev.channel = map h → ev.key = k → ¬ ev.isOn ∧ ¬ ev.isOff) :
    (processChannel map tr ev row s h).active_notes h k = s.active_notes h k := by
  unfold processChannel
  simp only
  split_ifs with h1 h2 h3
  · rfl
  · rfl
  · rw [processNoise_active]
  · exact processMelodic_active_key s ev row tr h k (hk (not_not.mp h2))

/-- An event that is not a note-on or note-off for key `k` on the source channel of `h`
leaves the held note of `k` on `h` as it is. -/
theorem processEvent_active_key (map : Fin 4 → Int) (tr : Nat) (s : BuildState)
    (ev : MidiEvent) (h : Fin 4) (k : Nat)
    (hk : ev.channel = map h → ev.key = k → ¬ ev.isOn ∧ ¬ ev.isOff) :
    (processEvent map tr s ev).active_notes h k = s.active_notes h k := by
  rcases processEvent_cases map tr s ev with e | ⟨hrow, hch, -⟩
  · rw [e]
  · obtain ⟨sp, -, h2, -, h4⟩ := processEvent_via map tr s ev h hrow hch
    rw [h4, processChannel_active_key map tr ev _ sp h k hk, h2]

/-- A held note stays held over an event that is not a note-off for its key. -/
theorem processEvent_active_isSome (map : Fin 4 → Int) (tr : Nat) (s : BuildState)
    (ev : MidiEvent) (h : Fin 4) (k : Nat) (hh : h ≠ 3)
    (hk : ev.channel = map h → ev.key = k → ¬ ev.isOff)
    (hs : (s.active_notes h k).isSome) :
    ((processEvent map tr s ev).active_notes h k).isSome := by
  rcases processEvent_cases map tr s ev with e | ⟨hrow, hch, -⟩
  · rw [e]
    exact hs
  · by_cases hc : ev.channel = map h ∧ ev.key = k ∧ ev.isOn
    · obtain ⟨inst, hi⟩ := (processEvent_on_active map tr s ev h hh hc.1.symm hch hc.2.2 hrow).1
      rw [← hc.2.1, hi]
      rfl
    · rw [processEvent_active_key map tr s ev h k
        (fun h1 h2 => ⟨fun h3 => hc ⟨h1, h2, h3⟩, hk h1 h2⟩)]
      exact hs

theorem foldl_active_isSome (map : Fin 4 → Int) (tr : Nat) (evs : List MidiEvent)
    (s : BuildState) (h : Fin 4) (k : Nat) (hh : h ≠ 3)
    (hk : ∀ ev ∈ evs, ev.channel = map h → ev.key = k → ¬ ev.isOff)
    (hs : (s.active_notes h k).isSome) :
    ((evs.foldl (processEvent map tr) s).active_notes h k).isSome := by
  induction evs generalizing s with
  | nil => exact hs
  | cons ev rest ih =>
    rw [List.foldl_cons]
    exact ih _ (fun e he => hk e (List.mem_cons_of_mem _ he))
      (processEvent_active_isSome map tr s ev h k hh (hk ev (List.mem_cons_self _ _)) hs)

theorem buildGrid_append (map : Fin 4 → Int) (tr : Nat) (l1 l2 : List MidiEvent) :
    buildGrid map tr (l1 ++ l2) = l2.foldl (processEvent map tr) (buildGrid map tr l1) := by
  unfold buildGrid
  rw [List.foldl_append]

/-! ## Scenario A -/

theorem scenarioA_map (k : Nat) : midi_to_uge (scenarioA k) none = midi_to_uge oneNoteSong none := by
  funext i
  fin_cases i <;> rfl

theorem scenarioA_total_rows (k : Nat) : total_rows (scenarioA k) = 5 := by
  simp [total_rows, max_tick, scenarioA, TICKS_PER_ROW]

theorem scenarioA_num_patterns (k : Nat) : num_patterns (scenarioA k) = 1 := by
  simp [num_patterns, scenarioA_total_rows, UGE_PATTERN_ROWS]

theorem scenarioA_step (s : BuildState) (ev : MidiEvent) (r : Nat) (hch : ev.channel = 0)
    (hr : ev.tick / TICKS_PER_ROW = r) (hrow : r < 5) :
    processEvent (midi_to_uge oneNoteSong none) 5 s ev = processMelodic s ev r 5 0 := by
  subst hr
  rw [processEvent_eq _ _ _ _ hrow (by omega),
    processChannel_skip _ _ _ _ _ 3 (Or.inr (Or.inr (by rw [hch]; decide))),
    processChannel_skip _ _ _ _ _ 2 (Or.inr (Or.inr (by rw [hch]; decide))),
    processChannel_skip _ _ _ _ _ 1 (Or.inr (Or.inr (by rw [hch]; decide))),
    processChannel_melodic _ _ _ _ _ 0 (by decide) (by rw [hch]; decide) (by omega)]

/-- The state of the row-grid loop after the two events of scenario A. -/
theorem scenarioA_grid (k : Nat) :
    buildGrid (midi_to_uge oneNoteSong none) 5 (scenarioA k)
      = { initState 5 with
          midiProgToUgeInst := [(0, 0)]
          nextUgeInst := 1
          progMaxVelocity := bumpMax (fun _ => none) 0 100
          channel_rows := Function.update (initState 5).channel_rows 0
            ((fillRows (List.replicate 5 emptyRow) ⟨k % 256, 0, 100⟩ 0 4).set 4 emptyRow)
          active_notes := Function.update
            (Function.update (fun _ _ => none) 0
              (Function.update (fun _ => none) k (some (0, 0, 100)))) 0
            (Function.update (Function.update (fun _ => none) k (some (0, 0, 100))) k none) } := by
  have h1 : processEvent (midi_to_uge oneNoteSong none) 5 (initState 5)
      ⟨0, EventKind.noteOn, 0, k, 100, 0, 0⟩
      = { initState 5 with
          midiProgToUgeInst := [(0, 0)]
          nextUgeInst := 1
          progMaxVelocity := bumpMax (fun _ => none) 0 100
          active_notes := Function.update (fun _ _ => none) 0
            (Function.update (fun _ => none) k (some (0, 0, 100))) } := by
    rw [scenarioA_step _ _ 0 rfl (by simp [TICKS_PER_ROW]) (by decide)]
    rfl
  unfold buildGrid scenarioA
  rw [List.foldl_cons, List.foldl_cons, List.foldl_nil, h1,
    scenarioA_step _ _ 4 rfl (by simp [TICKS_PER_ROW]) (by decide),
    processMelodic_off_some _ _ _ _ _ (by simp) (by simp [MidiEvent.isOn]) (Or.inl rfl) 0 0 100
      (by simp only [Function.update_same])]
  rfl

theorem scenarioA_rows (k : Nat) (hk : k ≤ 127) :
    (buildGrid (midi_to_uge oneNoteSong none) 5 (scenarioA k)).channel_rows 0
      = [⟨k, 0, 100⟩, ⟨k, 0, 100⟩, ⟨k, 0, 100⟩, ⟨k, 0, 100⟩, emptyRow] := by
  rw [scenarioA_grid]
  simp only [Function.update_same]
  rw [Nat.mod_eq_of_lt (by omega)]
  rfl

theorem scenarioA_lengths (k : Nat) (cp : Int → Int) (hcp : cp 0 = 0) :
    (noteLengths cp 5 (scenarioA k)).progNoteLengths 0 = [4] := by
  have h1 : lengthStep cp 5
      { progNoteLengths := fun _ => [], percNoteLengths := fun _ => [], noteOnRow := fun _ _ => none }
      ⟨0, EventKind.noteOn, 0, k, 100, 0, 0⟩
      = lengthNoteOn
        { progNoteLengths := fun _ => [], percNoteLengths := fun _ => [],
          noteOnRow := fun _ _ => none } 0 k 0 := by
    simp [lengthStep, TICKS_PER_ROW]
  have h2 : ∀ st, lengthStep cp 5 st ⟨24, EventKind.noteOff, 0, k, 0, 0, 0⟩
      = lengthProgOff st 0 (cp 0) k 4 := by
    intro st
    simp [lengthStep, TICKS_PER_ROW, MidiEvent.isOn, MidiEvent.isOff]
  unfold noteLengths scenarioA
  rw [List.foldl_cons, List.foldl_cons, List.foldl_nil, h1, h2, hcp]
  unfold lengthProgOff lengthNoteOn
  simp only [Function.update_same]
  rfl

theorem scenarioA_pattern (hasher : List Nat → Nat) (rows : Fin 4 → List Row) (tr : Nat) :
    (emitPatterns hasher rows tr 0 1).orders 0 = [0] ∧
    (emitPatterns hasher rows tr 0 1).patterns[0]? = some (buildPattern 0 rows tr 0 0) :=
  ⟨rfl, rfl⟩

theorem scenarioA_name : "MIDI Prog " ++ toString (0 : Int) = "MIDI Prog 0" := by
  decide

theorem scenarioA_song_grid (hasher : List Nat → Nat) (k : Nat) :
    (convertMidiToUge hasher 24 (scenarioA k) none).grid
      = buildGrid (midi_to_uge oneNoteSong none) 5 (scenarioA k) := by
  show buildGrid (midi_to_uge (scenarioA k) none) (total_rows (scenarioA k)) (scenarioA k) = _
  rw [scenarioA_map, scenarioA_total_rows]

theorem scenarioA_song_lengths (hasher : List Nat → Nat) (k : Nat) :
    (convertMidiToUge hasher 24 (scenarioA k) none).lengths.progNoteLengths 0 = [4] := by
  show (noteLengths (convertMidiToUge hasher 24 (scenarioA k) none).grid.channelProgram
    (total_rows (scenarioA k)) (scenarioA k)).progNoteLengths 0 = [4]
  rw [scenarioA_total_rows]
  refine scenarioA_lengths k _ ?_
  rw [scenarioA_song_grid, scenarioA_grid]
  rfl

theorem scenarioA_songRow (rows : Fin 4 → List Row) (k r : Nat)
    (h : rows 0 = [⟨k, 0, 100⟩, ⟨k, 0, 100⟩, ⟨k, 0, 100⟩, ⟨k, 0, 100⟩, emptyRow]) :
    songNote rows 5 0 r = (if r < 4 then k else UGE_EMPTY_NOTE) ∧ songInst rows 5 0 r = 0 := by
  unfold songNote songInst
  rw [h]
  by_cases hr : r < 5
  · rw [if_pos hr, if_pos hr]
    interval_cases r <;> exact ⟨rfl, rfl⟩
  · rw [if_neg hr, if_neg hr, if_neg (by omega)]
    exact ⟨rfl, rfl⟩

/-- C25: for the source with a note-on for a key `k ≠ 90` at tick 0 with velocity 100 and
its note-off at tick 24, both on source channel 0, with 24 ticks per quarter
note and no user map: the Duty table holds the single entry program 0 -> index
0 and the Wave and Noise tables are empty; Duty slot 0 is the instrument
"MIDI Prog 0" with initial volume 12 (sweep amount 4, length 24 enabled), and
every other slot of the three banks is the unused placeholder; Duty1 holds
`(k, 0, 100)` in rows 0..3 and the empty row in row 4; its order list is `[0]`, and
pattern 0 has 64 rows, `(k, instrument 0)` in rows 0..3 and the empty note in rows
4..63. -/
theorem C25_scenario_single_note (hasher : List Nat → Nat) (k : Nat) (hk : k ≤ 127)
    (hk90 : k ≠ 90) :
    ((convertMidiToUge hasher 24 (scenarioA k) none).grid.midiProgToUgeInst = [(0, 0)] ∧
      (convertMidiToUge hasher 24 (scenarioA k) none).grid.midiProgToUgeWaveInst = [] ∧
      (convertMidiToUge hasher 24 (scenarioA k) none).grid.percussionNoteToUgeInst = []) ∧
    (convertMidiToUge hasher 24 (scenarioA k) none).duty[0]?
      = some { init_duty_instrument "MIDI Prog 0" 12 4 0 with
          volume_sweep_direction := 1
          length_enabled := 1
          length := 24 } ∧
    (init_duty_instrument "MIDI Prog 0" 12 4 0).initial_volume = 12 ∧
    (∀ i : Nat, 1 ≤ i → i < 15 →
      (convertMidiToUge hasher 24 (scenarioA k) none).duty[i]?
        = some { init_duty_instrument "(unused)" 15 4 (i % 4) with
            volume_sweep_direction := 1 }) ∧
    (∀ i : Nat, i < 15 →
      (convertMidiToUge hasher 24 (scenarioA k) none).wave[i]?
        = some (init_wave_instrument "(unused)" 15 0)) ∧
    (∀ i : Nat, i < 15 →
      (convertMidiToUge hasher 24 (scenarioA k) none).noise[i]?
        = some { init_noise_instrument "(unused)" 15 4 0 with volume_sweep_direction := 1 }) ∧
    (convertMidiToUge hasher 24 (scenarioA k) none).grid.channel_rows 0
      = [⟨k, 0, 100⟩, ⟨k, 0, 100⟩, ⟨k, 0, 100⟩, ⟨k, 0, 100⟩, emptyRow] ∧
    (convertMidiToUge hasher 24 (scenarioA k) none).orders 0 = [0] ∧
    ∃ p : UgePattern, (convertMidiToUge hasher 24 (scenarioA k) none).patterns[0]? = some p ∧
      p.index = 0 ∧ p.rows.length = 64 ∧
      (∀ r : Nat, r < 4 → p.rows[r]? = some ⟨k, 0, 0, 0, 0⟩) ∧
      (∀ r : Nat, 4 ≤ r → r < 64 → p.rows[r]? = some ⟨UGE_EMPTY_NOTE, 0, 0, 0, 0⟩) := by
  have hg := scenarioA_song_grid hasher k
  have hrows : (convertMidiToUge hasher 24 (scenarioA k) none).grid.channel_rows 0
      = [⟨k, 0, 100⟩, ⟨k, 0, 100⟩, ⟨k, 0, 100⟩, ⟨k, 0, 100⟩, emptyRow] := by
    rw [hg]
    exact scenarioA_rows k hk
  have hduty : (convertMidiToUge hasher 24 (scenarioA k) none).grid.midiProgToUgeInst
      = [(0, 0)] := by
    rw [hg, scenarioA_grid]
  have hwave : (convertMidiToUge hasher 24 (scenarioA k) none).grid.midiProgToUgeWaveInst
      = [] := by
    rw [hg, scenarioA_grid]
    rfl
  have hnoise : (convertMidiToUge hasher 24 (scenarioA k) none).grid.percussionNoteToUgeInst
      = [] := by
    rw [hg, scenarioA_grid]
    rfl
  have hvel : (convertMidiToUge hasher 24 (scenarioA k) none).grid.progMaxVelocity 0
      = some 100 := by
    rw [hg, scenarioA_grid]
    rfl
  have hfirst : first_nonempty_row
      (convertMidiToUge hasher 24 (scenarioA k) none).grid.channel_rows 5 = 0 := by
    refine first_nonempty_row_zero _ 5 (by decide) ?_
    rw [hrows]
    exact hk90
  have hem : (convertMidiToUge hasher 24 (scenarioA k) none).orders
        = (emitPatterns hasher (convertMidiToUge hasher 24 (scenarioA k) none).grid.channel_rows
            5 0 1).orders ∧
      (convertMidiToUge hasher 24 (scenarioA k) none).patterns
        = (emitPatterns hasher (convertMidiToUge hasher 24 (scenarioA k) none).grid.channel_rows
            5 0 1).patterns := by
    rw [convert_orders, convert_patterns, scenarioA_total_rows, scenarioA_num_patterns, hfirst,
      Nat.zero_div]
    exact ⟨rfl, rfl⟩
  refine ⟨⟨hduty, hwave, hnoise⟩, ?_, rfl, ?_, ?_, ?_, hrows, ?_, ?_⟩
  · have hb : (convertMidiToUge hasher 24 (scenarioA k) none).duty[0]?
        = some (dutyInstrument (convertMidiToUge hasher 24 (scenarioA k) none).grid
          (convertMidiToUge hasher 24 (scenarioA k) none).lengths 0) :=
      bank_getElem _ 0 (by decide)
    rw [hb]
    unfold dutyInstrument
    rw [hduty]
    have hrev : reverseTable [((0 : Int), 0)] 0 = some 0 := rfl
    rw [hrev]
    simp only
    rw [scenarioA_song_lengths, hvel]
    rfl
  · intro i h1 h2
    have hb : (convertMidiToUge hasher 24 (scenarioA k) none).duty[i]?
        = some (dutyInstrument (convertMidiToUge hasher 24 (scenarioA k) none).grid
          (convertMidiToUge hasher 24 (scenarioA k) none).lengths i) :=
      bank_getElem _ i h2
    rw [hb, dutyInstrument_unused]
    rw [hduty]
    show Function.update (fun _ => none) 0 (some (0 : Int)) i = none
    rw [Function.update_noteq (by omega)]
  · intro i h2
    have hb : (convertMidiToUge hasher 24 (scenarioA k) none).wave[i]?
        = some (waveInstrument (convertMidiToUge hasher 24 (scenarioA k) none).grid i) :=
      bank_getElem _ i h2
    rw [hb, waveInstrument_unused]
    rw [hwave]
    rfl
  · intro i h2
    have hb : (convertMidiToUge hasher 24 (scenarioA k) none).noise[i]?
        = some (noiseInstrument (convertMidiToUge hasher 24 (scenarioA k) none).grid
          (convertMidiToUge hasher 24 (scenarioA k) none).lengths i) :=
      bank_getElem _ i h2
    rw [hb, noiseInstrument_unused]
    rw [hnoise]
    rfl
  · rw [hem.1]
    exact (scenarioA_pattern hasher _ 5).1
  · refine ⟨buildPattern 0 (convertMidiToUge hasher 24 (scenarioA k) none).grid.channel_rows
      5 0 0, ?_, rfl, length_blockRows _ 5 0 0, ?_, ?_⟩
    · rw [hem.2]
      exact (scenarioA_pattern hasher _ 5).2
    · intro r hr
      have hb := getElem?_blockRows
        (convertMidiToUge hasher 24 (scenarioA k) none).grid.channel_rows 5 0 0 r (by omega)
      have hs := scenarioA_songRow _ k (0 * UGE_PATTERN_ROWS + r) hrows
      rw [hs.1, hs.2, if_pos (by omega)] at hb
      exact hb
    · intro r h1 h2
      have hb := getElem?_blockRows
        (convertMidiToUge hasher 24 (scenarioA k) none).grid.channel_rows 5 0 0 r h2
      have hs := scenarioA_songRow _ k (0 * UGE_PATTERN_ROWS + r) hrows
      rw [hs.1, hs.2, if_neg (by omega)] at hb
      exact hb

theorem C25_scenario_single_note_witness :
    (convertMidiToUge byteSum 24 (scenarioA 60) none).grid.channel_rows 0
      = [⟨60, 0, 100⟩, ⟨60, 0, 100⟩, ⟨60, 0, 100⟩, ⟨60, 0, 100⟩, emptyRow] :=
  (C25_scenario_single_note byteSum 60 (by decide) (by decide)).2.2.2.2.2.2.1

/-! ## Note lengths and the channel map -/

/-- C30 (failing input): one note of 20 rows on source channel 5. The automatic map
and the user map (5, -1, -1, -1) both bind Duty1 to source channel 5, and the note
fills rows 0..19 of Duty1 with instrument 0; no note length is recorded for
program 0, and Duty instrument 0 gets the default sweep amount 4 with its
length disabled, where the mean length 20 gives 1. The same note on source channel 0
gets the sweep amount 1. -/
theorem C30_lengths_ignore_channel_map :
    (convertMidiToUge byteSum 24 (longNoteSong 5) none).midi_to_uge 0 = 5 ∧
    (∀ r : Nat, r < 20 →
      ((convertMidiToUge byteSum 24 (longNoteSong 5) none).grid.channel_rows 0)[r]?
        = some ⟨60, 0, 100⟩) ∧
    (convertMidiToUge byteSum 24 (longNoteSong 5) none).grid.midiProgToUgeInst = [(0, 0)] ∧
    (convertMidiToUge byteSum 24 (longNoteSong 5) none).lengths.progNoteLengths 0 = [] ∧
    ((convertMidiToUge byteSum 24 (longNoteSong 5) none).duty[0]?).map
      (fun d => (d.volume_sweep_change, d.length_enabled, d.length)) = some (4, 0, 0) ∧
    (convertMidiToUge byteSum 24 (longNoteSong 5)
      (some fun i => if i = 0 then 5 else -1)).midi_to_uge 0 = 5 ∧
    (∀ r : Nat, r < 20 →
      ((convertMidiToUge byteSum 24 (longNoteSong 5)
        (some fun i => if i = 0 then 5 else -1)).grid.channel_rows 0)[r]?
        = some ⟨60, 0, 100⟩) ∧
    (convertMidiToUge byteSum 24 (longNoteSong 5)
      (some fun i => if i = 0 then 5 else -1)).lengths.progNoteLengths 0 = [] ∧
    ((convertMidiToUge byteSum 24 (longNoteSong 5)
      (some fun i => if i = 0 then 5 else -1)).duty[0]?).map
      (fun d => (d.volume_sweep_change, d.length_enabled, d.length)) = some (4, 0, 0) ∧
    lenToSweep 20 = 1 ∧
    (convertMidiToUge byteSum 24 (longNoteSong 0) none).lengths.progNoteLengths 0 = [20] ∧
    ((convertMidiToUge byteSum 24 (longNoteSong 0) none).duty[0]?).map
      (fun d => (d.volume_sweep_change, d.length_enabled, d.length)) = some (1, 1, 120) := by
  set_option maxRecDepth 100000 in decide

/-! ## Noise mode, duty cycle and wave index -/

theorem noiseInstrument_mode (grid : BuildState) (lens : LengthState) (i k : Nat)
    (h : reverseTable grid.percussionNoteToUgeInst i = some k) :
    (noiseInstrument grid lens i).noise_mode = noteToNoiseMode k % 256 := by
  unfold noiseInstrument
  rw [h]
  simp only
  split
  · split_ifs <;> rfl
  · rfl

theorem noteToNoiseMode_eq (k : Nat) :
    noteToNoiseMode k % 256 = if k ∈ [42, 44, 46, 49, 51, 52, 55, 57, 59] then 1 else 0 := by
  unfold noteToNoiseMode
  simp only [List.mem_cons, List.mem_singleton, List.not_mem_nil, or_false]
  split_ifs <;> rfl

theorem lookup_reverseTable {κ : Type} [BEq κ] [LawfulBEq κ] (table : List (κ × Nat))
    (next : Nat) (h : IndexTable table next) (k : κ) (i : Nat)
    (hl : table.lookup k = some i) : reverseTable table i = some k := by
  rw [reverseTable_spec table h.1, (indexTable_lookup_iff table next h k i).mp hl]
  rfl

/-- C33: for every input and every slot `i` of the Noise bank, the instrument of a
slot that is live for the percussion key `k` (the Noise table maps `k` to `i`) has
`noise_mode` 1 when `k` is one of 42, 44, 46, 49, 51, 52, 55, 57, 59 and 0 otherwise, and
the instrument of an unused slot has `noise_mode` 0. -/
theorem C33_noise_mode (hasher : List Nat → Nat) (tpq : Int) (evs : List MidiEvent)
    (um : Option (Fin 4 → Int)) (i : Nat) (hi : i < 15) :
    ∃ d, (convertMidiToUge hasher tpq evs um).noise[i]? = some d ∧
      (∀ k : Nat,
        (convertMidiToUge hasher tpq evs um).grid.percussionNoteToUgeInst.lookup k = some i →
        d.noise_mode = if k ∈ [42, 44, 46, 49, 51, 52, 55, 57, 59] then 1 else 0) ∧
      ((convertMidiToUge hasher tpq evs um).grid.percussionNoteToUgeInst.length ≤ i →
        d.noise_mode = 0) := by
  have hok := buildGrid_tables (midi_to_uge evs um) (total_rows evs) evs
  refine ⟨noiseInstrument (buildGrid (midi_to_uge evs um) (total_rows evs) evs)
    (noteLengths (buildGrid (midi_to_uge evs um) (total_rows evs) evs).channelProgram
      (total_rows evs) evs) i, bank_getElem _ i hi, ?_, ?_⟩
  · intro k hk
    rw [noiseInstrument_mode _ _ i k (lookup_reverseTable _ _ hok.2.2 k i hk),
      noteToNoiseMode_eq]
  · intro hge
    rw [noiseInstrument_unused _ _ i ((indexTable_slot _ _ hok.2.2 i).2 hge)]
    rfl

theorem C33_noise_mode_witness :
    ∃ d, (convertMidiToUge byteSum 24 longSong none).noise[0]? = some d ∧
      (∀ k : Nat,
        (convertMidiToUge byteSum 24 longSong none).grid.percussionNoteToUgeInst.lookup k
          = some 0 →
        d.noise_mode = if k ∈ [42, 44, 46, 49, 51, 52, 55, 57, 59] then 1 else 0) ∧
      ((convertMidiToUge byteSum 24 longSong none).grid.percussionNoteToUgeInst.length ≤ 0 →
        d.noise_mode = 0) :=
  C33_noise_mode byteSum 24 longSong none 0 (by decide)

theorem dutyInstrument_duty (grid : BuildState) (lens : LengthState) (i : Nat) :
    (dutyInstrument grid lens i).duty = i % 4 := by
  unfold dutyInstrument
  split
  · simp only
    split
    · split_ifs <;> exact Nat.mod_mod _ _
    · exact Nat.mod_mod _ _
  · exact Nat.mod_mod _ _

theorem waveInstrument_index (grid : BuildState) (i : Nat) :
    (waveInstrument grid i).wave_index = 0 := by
  unfold waveInstrument
  split <;> rfl

/-- C34: for every input and every slot `i` in 0..14, the Duty instrument of slot `i`
has duty cycle index `i mod 4`, live or unused, and the Wave instrument of slot
`i` has wave index 0. -/
theorem C34_duty_cycle_wave_index (hasher : List Nat → Nat) (tpq : Int)
    (evs : List MidiEvent) (um : Option (Fin 4 → Int)) (i : Nat) (hi : i < 15) :
    (∃ d, (convertMidiToUge hasher tpq evs um).duty[i]? = some d ∧ d.duty = i % 4) ∧
    (∃ w, (convertMidiToUge hasher tpq evs um).wave[i]? = some w ∧ w.wave_index = 0) :=
  ⟨⟨dutyInstrument (buildGrid (midi_to_uge evs um) (total_rows evs) evs)
      (noteLengths (buildGrid (midi_to_uge evs um) (total_rows evs) evs).channelProgram
        (total_rows evs) evs) i, bank_getElem _ i hi, dutyInstrument_duty _ _ i⟩,
    ⟨waveInstrument (buildGrid (midi_to_uge evs um) (total_rows evs) evs) i,
      bank_getElem _ i hi, waveInstrument_index _ i⟩⟩

theorem C34_duty_cycle_wave_index_witness :
    (∃ d, (convertMidiToUge byteSum 24 oneNoteSong none).duty[6]? = some d ∧ d.duty = 6 % 4) ∧
    (∃ w, (convertMidiToUge byteSum 24 oneNoteSong none).wave[6]? = some w ∧
      w.wave_index = 0) :=
  C34_duty_cycle_wave_index byteSum 24 oneNoteSong none 6 (by decide)

/-! ## Pattern indices and order entries -/

/-- C36: for every input, the pattern at position `k` of the emitted pattern list has
index `k`, and every entry of each of the four order lists is smaller than the
number of emitted patterns. -/
theorem C36_pattern_indices (hasher : List Nat → Nat) (tpq : Int) (evs : List MidiEvent)
    (um : Option (Fin 4 → Int)) :
    (∀ (k : Nat) (p : UgePattern),
      (convertMidiToUge hasher tpq evs um).patterns[k]? = some p → p.index = k) ∧
    (∀ (ch : Fin 4) (i : Nat), i ∈ (convertMidiToUge hasher tpq evs um).orders ch →
      i < (convertMidiToUge hasher tpq evs um).patterns.length) := by
  rw [convert_orders, convert_patterns]
  have hg := emit_global hasher (convertMidiToUge hasher tpq evs um).grid.channel_rows
    (total_rows evs)
    (first_nonempty_row (convertMidiToUge hasher tpq evs um).grid.channel_rows
      (total_rows evs) / UGE_PATTERN_ROWS) (num_patterns evs) 4 (le_refl 4)
  rw [emitPatterns_eq_entry]
  refine ⟨hg.2.1, ?_⟩
  intro ch i hi
  rw [← emitPatterns_eq_entry] at hi
  have hr := emitPatterns_orders_range _ _ _ _ _ ch i hi
  have hm := emitEntry_mono hasher (convertMidiToUge hasher tpq evs um).grid.channel_rows
    (total_rows evs)
    (first_nonempty_row (convertMidiToUge hasher tpq evs um).grid.channel_rows
      (total_rows evs) / UGE_PATTERN_ROWS) (num_patterns evs) (ch.val + 1) 4
    (by have := ch.isLt; omega) (le_refl 4)
  rw [hg.1]
  omega

/-! ## The timer divider at ordinary tempos -/

theorem specDividerClosed_clamped (T Q : ℤ) (hT : 60000 ≤ T) (hQ1 : 1 ≤ Q) (hQ2 : Q ≤ 960) :
    specDividerClosed T Q = 255 := by
  have hR := ticks_per_row_eq Q (by omega)
  have hR1 : 1 ≤ ticks_per_row Q := by
    rw [hR]
    omega
  have hR2 : ticks_per_row Q = 16 ∨ Q ≤ 4 * ticks_per_row Q + 3 := by
    rw [hR]
    omega
  have hRQ : 254500000 * Q ≤ 15728640000 * ticks_per_row Q := by
    rcases hR2 with h | h
    · rw [h]
      omega
    · omega
  have hTR : 15728640000 * ticks_per_row Q ≤ 262144 * T * ticks_per_row Q := by
    nlinarith
  have hz : 509 * (1000000 * Q) ≤ 2 * (262144 * T * ticks_per_row Q) := by
    omega
  have hq : (509 : ℚ) * (1000000 * (Q : ℚ)) ≤ 2 * (262144 * (T : ℚ) * (ticks_per_row Q : ℚ)) := by
    exact_mod_cast hz
  have hQpos : (0 : ℚ) < 1000000 * (Q : ℚ) := by
    have : (1 : ℚ) ≤ (Q : ℚ) := by exact_mod_cast hQ1
    linarith
  have hfloor : (255 : ℤ) ≤
      ⌊(262144 * (T : ℚ) * (ticks_per_row Q : ℚ)) / (1000000 * (Q : ℚ)) + 1 / 2⌋ := by
    rw [Int.le_floor]
    have h2 : (509 : ℚ) / 2 ≤ (262144 * (T : ℚ) * (ticks_per_row Q : ℚ)) / (1000000 * (Q : ℚ)) := by
      rw [le_div_iff₀ hQpos]
      linarith
    push_cast
    linarith
  unfold specDividerClosed
  omega

/-- C37: for every ticks-per-quarter-note from 1 to 960 and every tempo of at least
60000 microseconds per quarter note (below `2^31`, the range of the `int` that holds
it), the binary64 computation of the timer divider is defined and the stored
divider is 255; so the divider of the converted song is 255 whatever the tempo
found in the input. -/
theorem C37_timer_divider_clamped (T Q : ℤ) (hT1 : 60000 ≤ T) (hT2 : T < 2 ^ 31)
    (hQ1 : 1 ≤ Q) (hQ2 : Q ≤ 960) :
    timer_divider T Q = some 255 ∧
    ∀ (hasher : List Nat → Nat) (evs : List MidiEvent) (um : Option (Fin 4 → Int)),
      midi_tempo_us_per_qn evs = T →
      (convertMidiToUge hasher Q evs um).timer_divider = some 255 := by
  have h1 : timer_divider T Q = some 255 := by
    rw [timer_divider_exact T Q (by omega) hT2 hQ1 (by norm_num; omega),
      specDividerClosed_clamped T Q hT1 hQ1 hQ2]
  refine ⟨h1, ?_⟩
  intro hasher evs um hT
  show timer_divider (midi_tempo_us_per_qn evs) Q = some 255
  rw [hT]
  exact h1

theorem C37_timer_divider_clamped_witness :
    timer_divider 500000 480 = some 255 :=
  (C37_timer_divider_clamped 500000 480 (by decide) (by decide) (by decide) (by decide)).1

/-! ## Subscripts of `channelProgram` -/

theorem mem_programSubscripts (ev : MidiEvent) (i : Int) (h : i ∈ programSubscripts ev) :
    i = ev.channel := by
  unfold programSubscripts at h
  by_cases hp : ev.kind = EventKind.programChange
  · rw [if_pos hp] at h
    exact List.mem_singleton.mp h
  · rw [if_neg hp] at h
    by_cases hon : ev.isOn
    · rw [if_pos hon] at h
      exact List.mem_singleton.mp h
    · rw [if_neg hon] at h
      exact absurd h (List.not_mem_nil _)

/-- Every subscript of `channelProgram` is the source channel bound to some melodic
hardware channel, a value in `0 .. 15`. -/
theorem mem_channelProgramSubscripts (map : Fin 4 → Int) (tr : Nat) (ev : MidiEvent) (i : Int)
    (h : i ∈ channelProgramSubscripts map tr ev) :
    ∃ c : Fin 4, c ≠ 3 ∧ map c = i ∧ 0 ≤ i ∧ i ≤ 15 := by
  unfold channelProgramSubscripts at h
  simp only at h
  split_ifs at h with h1 h2
  · exact absurd h (List.not_mem_nil _)
  · exact absurd h (List.not_mem_nil _)
  · rw [List.mem_flatMap] at h
    obtain ⟨c, -, hc⟩ := h
    split_ifs at hc with h3 h4 h5
    · exact absurd hc (List.not_mem_nil _)
    · exact absurd hc (List.not_mem_nil _)
    · exact absurd hc (List.not_mem_nil _)
    · have hi := mem_programSubscripts ev i hc
      have h6 : ev.channel = map c := not_not.mp h4
      refine ⟨c, h5, ?_, ?_, ?_⟩
      · rw [hi, h6]
      · rw [hi]
        omega
      · rw [hi]
        omega

/-- C31 (failing input): a program change and a note-on on source channel 5. The
automatic map holds source channels in `0 .. 15` in every slot and binds Duty1 to
source channel 5; the row-grid loop writes `channelProgram[5]` for the program
change and reads `channelProgram[5]` for the note-on, and 5 is not below the size
4 of the array. In general a subscript of `channelProgram` is the source channel
bound to a melodic hardware channel, whatever its value in `0 .. 15`. -/
theorem C31_channelProgram_out_of_bounds :
    (∀ c : Fin 4, 0 ≤ midi_to_uge channelFiveSong none c ∧
      midi_to_uge channelFiveSong none c ≤ 15) ∧
    midi_to_uge channelFiveSong none 0 = 5 ∧
    channelFiveSong.flatMap (channelProgramSubscripts (midi_to_uge channelFiveSong none)
      (total_rows channelFiveSong)) = [5, 5] ∧
    ¬ ((5 : Int) < UGE_NUM_CHANNELS) ∧
    (∀ (map : Fin 4 → Int) (tr : Nat) (ev : MidiEvent) (i : Int),
      i ∈ channelProgramSubscripts map tr ev → ∃ c : Fin 4, c ≠ 3 ∧ map c = i ∧ 0 ≤ i ∧ i ≤ 15) ∧
    (buildGrid (midi_to_uge channelFiveSong none) (total_rows channelFiveSong)
      channelFiveSong).channelProgram 5 = 3 :=
  ⟨by decide, by decide, by decide, by decide, mem_channelProgramSubscripts, by decide⟩

/-! ## The writer reads only the names of Duty and Wave instruments -/

theorem writeAll_map {α β : Type} (w : α → List Nat) (f : α → β) (g : β → List Nat)
    (hw : ∀ a, w a = g (f a)) (l : List α) : writeAll w l = writeAll g (l.map f) := by
  induction l with
  | nil => rfl
  | cons a as ih =>
    rw [List.map_cons]
    unfold writeAll
    rw [ih, hw]

theorem writeAll_duty_names (l1 l2 : List UgeDutyInstrument)
    (h : l1.map (fun d => d.name) = l2.map (fun d => d.name)) :
    writeAll (fun inst => dutyRecord inst ++ writeSubpattern) l1
      = writeAll (fun inst => dutyRecord inst ++ writeSubpattern) l2 := by
  rw [writeAll_map (fun inst => dutyRecord inst ++ writeSubpattern) (fun d => d.name)
      (fun n => dutyRecord (init_duty_instrument n 0 0 0) ++ writeSubpattern) (fun _ => rfl) l1,
    writeAll_map (fun inst => dutyRecord inst ++ writeSubpattern) (fun d => d.name)
      (fun n => dutyRecord (init_duty_instrument n 0 0 0) ++ writeSubpattern) (fun _ => rfl) l2,
    h]

theorem writeAll_wave_names (l1 l2 : List UgeWaveInstrument)
    (h : l1.map (fun d => d.name) = l2.map (fun d => d.name)) :
    writeAll (fun inst => waveRecord inst ++ writeSubpattern) l1
      = writeAll (fun inst => waveRecord inst ++ writeSubpattern) l2 := by
  rw [writeAll_map (fun inst => waveRecord inst ++ writeSubpattern) (fun d => d.name)
      (fun n => waveRecord (init_wave_instrument n 0 0) ++ writeSubpattern) (fun _ => rfl) l1,
    writeAll_map (fun inst => waveRecord inst ++ writeSubpattern) (fun d => d.name)
      (fun n => waveRecord (init_wave_instrument n 0 0) ++ writeSubpattern) (fun _ => rfl) l2,
    h]

/-- C35: two headers that agree on the version, the three strings, the names of
the Duty instruments slot by slot, the names of the Wave instruments slot by
slot, the Noise bank, the wavetable and the timing fields give byte-identical
files for the same patterns, orders and routines, whatever the other fields of
their Duty and Wave instruments are. -/
theorem C35_writer_names_only (h1 h2 : UgeSongHeader) (patterns : List UgePattern)
    (orders : Fin 4 → List Nat) (routines : List (List Nat))
    (hversion : h1.version = h2.version) (hname : h1.name = h2.name)
    (hartist : h1.artist = h2.artist) (hcomment : h1.comment = h2.comment)
    (hduty : h1.duty.map (fun d => d.name) = h2.duty.map (fun d => d.name))
    (hwave : h1.wave.map (fun d => d.name) = h2.wave.map (fun d => d.name))
    (hnoise : h1.noise = h2.noise) (hwavetable : h1.wavetable = h2.wavetable)
    (hticks : h1.ticks_per_row = h2.ticks_per_row)
    (henabled : h1.timer_enabled = h2.timer_enabled)
    (hdivider : h1.timer_divider = h2.timer_divider) :
    writeUgeFile h1 patterns orders routines = writeUgeFile h2 patterns orders routines := by
  have hhead : writeHead h1 = writeHead h2 := by
    unfold writeHead
    rw [hversion, hname, hartist, hcomment, hnoise, hwavetable,
      writeAll_duty_names h1.duty h2.duty hduty, writeAll_wave_names h1.wave h2.wave hwave]
  have htiming : writeTiming h1 = writeTiming h2 := by
    unfold writeTiming
    rw [hticks, henabled, hdivider]
  have hbody : writeBody h1 patterns orders routines = writeBody h2 patterns orders routines := by
    unfold writeBody
    rw [hhead, htiming]
  unfold writeUgeFile
  rw [hbody]

theorem C35_writer_names_only_witness :
    writeUgeFile
        (exampleHeader ((List.range 15).map fun i => init_duty_instrument "(unused)" 15 4 i)
          (by simp)) [] (fun _ => []) []
      = writeUgeFile
        (exampleHeader ((List.range 15).map fun i => init_duty_instrument "(unused)" 3 7 (i + 1))
          (by simp)) [] (fun _ => []) [] :=
  C35_writer_names_only _ _ [] (fun _ => []) [] rfl rfl rfl rfl rfl
    rfl rfl rfl rfl rfl rfl

/-! ## Leading rows skipped by the pattern loop -/

theorem find_range_first (p : Nat → Bool) (n : Nat) :
    ((List.range n).find? p).getD n ≤ n ∧
    (∀ r, r < ((List.range n).find? p).getD n → p r = false) ∧
    (((List.range n).find? p).getD n < n → p (((List.range n).find? p).getD n) = true) := by
  induction n with
  | zero =>
    refine ⟨le_refl _, ?_, ?_⟩
    · intro r hr
      exact absurd hr (Nat.not_lt_zero r)
    · intro h
      exact absurd h (Nat.not_lt_zero _)
  | succ n ih =>
    rw [List.range_succ, List.find?_append]
    cases hf : (List.range n).find? p with
    | some a =>
      rw [hf] at ih
      simp only [Option.or, Option.getD_some] at ih ⊢
      have hp : p a = true := List.find?_some hf
      have ha : a < n := List.mem_range.mp (List.mem_of_find?_eq_some hf)
      exact ⟨by omega, ih.2.1, fun _ => hp⟩
    | none =>
      rw [hf] at ih
      simp only [Option.or, Option.getD_none] at ih ⊢
      by_cases hn : p n = true
      · rw [List.find?_cons_of_pos _ hn]
        simp only [Option.getD_some]
        exact ⟨by omega, ih.2.1, fun _ => hn⟩
      · rw [List.find?_cons_of_neg _ hn]
        simp only [List.find?_nil, Option.getD_none]
        refine ⟨le_refl _, ?_, fun h => absurd h (lt_irrefl _)⟩
        intro r hr
        by_cases hrn : r = n
        · rw [hrn]
          exact Bool.eq_false_iff.mpr hn
        · exact ih.2.1 r (by omega)

/-- The first non-empty row `f`: every row before it holds the empty note on all four
channels, and if `f` is inside the grid some channel holds another note at `f`. -/
theorem first_nonempty_row_spec (rows : Fin 4 → List Row) (tr : Nat) :
    first_nonempty_row rows tr ≤ tr ∧
    (∀ r, r < first_nonempty_row rows tr → ∀ ch : Fin 4,
      ((rows ch).getD r emptyRow).note = UGE_EMPTY_NOTE) ∧
    (first_nonempty_row rows tr < tr → ∃ ch : Fin 4,
      ((rows ch).getD (first_nonempty_row rows tr) emptyRow).note ≠ UGE_EMPTY_NOTE) := by
  have h := find_range_first (fun row =>
    ([0, 1, 2, 3] : List (Fin 4)).any fun ch =>
      decide (((rows ch).getD row emptyRow).note ≠ UGE_EMPTY_NOTE)) tr
  unfold first_nonempty_row
  refine ⟨h.1, ?_, ?_⟩
  · intro r hr ch
    have h2 := h.2.1 r hr
    simp only [List.any_eq_false, decide_eq_true_eq, not_not] at h2
    exact h2 ch (by fin_cases ch <;> simp)
  · intro hlt
    have h2 := h.2.2 hlt
    simp only [List.any_eq_true, decide_eq_true_eq] at h2
    obtain ⟨ch, -, hch⟩ := h2
    exact ⟨ch, hch⟩

/-- C32: with `f` the first row at which a hardware channel holds a note other than
the empty note (`f = total_rows` if there is none), the pattern loop starts at page
`f div 64`: every order list has `num_patterns - f div 64` entries and its entry at
position `j` is the index of a pattern whose content has the hash of page
`f div 64 + j`; every row below `64 * (f div 64)` holds the empty note on all four
channels; and when the song contains a note, page `f div 64` is emitted and
contains row `f`, where some channel holds another note. -/
theorem C32_leading_rows_skipped (hasher : List Nat → Nat) (tpq : Int)
    (evs : List MidiEvent) (um : Option (Fin 4 → Int)) :
    first_nonempty_row (convertMidiToUge hasher tpq evs um).grid.channel_rows (total_rows evs)
      ≤ total_rows evs ∧
    (∀ ch : Fin 4, ((convertMidiToUge hasher tpq evs um).orders ch).length
      = num_patterns evs -
        first_nonempty_row (convertMidiToUge hasher tpq evs um).grid.channel_rows
          (total_rows evs) / 64) ∧
    (∀ (ch : Fin 4) (j : Nat), j < num_patterns evs -
        first_nonempty_row (convertMidiToUge hasher tpq evs um).grid.channel_rows
          (total_rows evs) / 64 →
      ∃ i q, ((convertMidiToUge hasher tpq evs um).orders ch)[j]? = some i ∧
        hasher (pat_data (convertMidiToUge hasher tpq evs um).grid.channel_rows
          (total_rows evs) ch
          (first_nonempty_row (convertMidiToUge hasher tpq evs um).grid.channel_rows
            (total_rows evs) / 64 + q))
          = hasher (pat_data (convertMidiToUge hasher tpq evs um).grid.channel_rows
            (total_rows evs) ch
            (first_nonempty_row (convertMidiToUge hasher tpq evs um).grid.channel_rows
              (total_rows evs) / 64 + j)) ∧
        (convertMidiToUge hasher tpq evs um).patterns[i]?
          = some (buildPattern i (convertMidiToUge hasher tpq evs um).grid.channel_rows
            (total_rows evs) ch
            (first_nonempty_row (convertMidiToUge hasher tpq evs um).grid.channel_rows
              (total_rows evs) / 64 + q))) ∧
    (∀ r, r < 64 * (first_nonempty_row (convertMidiToUge hasher tpq evs um).grid.channel_rows
        (total_rows evs) / 64) →
      ∀ ch : Fin 4,
        (((convertMidiToUge hasher tpq evs um).grid.channel_rows ch).getD r emptyRow).note
          = UGE_EMPTY_NOTE) ∧
    (first_nonempty_row (convertMidiToUge hasher tpq evs um).grid.channel_rows (total_rows evs)
        < total_rows evs →
      first_nonempty_row (convertMidiToUge hasher tpq evs um).grid.channel_rows
        (total_rows evs) / 64 < num_patterns evs ∧
      64 * (first_nonempty_row (convertMidiToUge hasher tpq evs um).grid.channel_rows
        (total_rows evs) / 64)
        ≤ first_nonempty_row (convertMidiToUge hasher tpq evs um).grid.channel_rows
          (total_rows evs) ∧
      first_nonempty_row (convertMidiToUge hasher tpq evs um).grid.channel_rows (total_rows evs)
        < 64 * (first_nonempty_row (convertMidiToUge hasher tpq evs um).grid.channel_rows
          (total_rows evs) / 64) + 64 ∧
      ∃ ch : Fin 4,
        (((convertMidiToUge hasher tpq evs um).grid.channel_rows ch).getD
          (first_nonempty_row (convertMidiToUge hasher tpq evs um).grid.channel_rows
            (total_rows evs)) emptyRow).note ≠ UGE_EMPTY_NOTE) := by
  have hs := first_nonempty_row_spec (convertMidiToUge hasher tpq evs um).grid.channel_rows
    (total_rows evs)
  have ho := convert_orders hasher tpq evs um
  have hp := convert_patterns hasher tpq evs um
  have h64 : UGE_PATTERN_ROWS = 64 := rfl
  rw [h64] at ho hp
  refine ⟨hs.1, ?_, ?_, ?_, ?_⟩
  · intro ch
    rw [ho, emitPatterns_orders_length]
  · intro ch j hj
    obtain ⟨i, hi1, hi2⟩ := emitPatterns_orders_get hasher
      (convertMidiToUge hasher tpq evs um).grid.channel_rows (total_rows evs) _ _ ch j hj
    obtain ⟨-, -, q, -, hq2, hq3⟩ := emitPatterns_table hasher
      (convertMidiToUge hasher tpq evs um).grid.channel_rows (total_rows evs) _ _ ch _ i hi2
    refine ⟨i, q, ?_, hq2, ?_⟩
    · rw [ho]
      exact hi1
    · rw [hp]
      exact hq3
  · intro r hr ch
    exact hs.2.1 r (by omega) ch
  · intro hlt
    refine ⟨?_, by omega, by omega, hs.2.2 hlt⟩
    unfold num_patterns
    rw [h64]
    omega

/-! ## A note-on without note-off -/

theorem getElem?_set_cases (l : List Row) (i r : Nat) (v x : Row)
    (h : (l.set i v)[r]? = some x) : x = v ∨ l[r]? = some x := by
  by_cases hi : i = r
  · subst hi
    by_cases hl : i < l.length
    · rw [List.getElem?_set_self hl] at h
      exact Or.inl (Option.some.inj h).symm
    · rw [List.set_eq_of_length_le (by omega)] at h
      exact Or.inr h
  · rw [List.getElem?_set_ne hi] at h
    exact Or.inr h

theorem getElem?_fillRows_cases (l : List Row) (v x : Row) (a b r : Nat)
    (h : (fillRows l v a b)[r]? = some x) : x = v ∨ l[r]? = some x := by
  rw [getElem?_fillRows] at h
  split_ifs at h
  · exact Or.inl (Option.some.inj h).symm
  · exact Or.inr h

/-- A row of channel `c` that holds key `k` after the melodic branch held it before,
unless the event is a note-off for `k`. -/
theorem processMelodic_rows_key (s : BuildState) (ev : MidiEvent) (row tr : Nat) (c : Fin 4)
    (k : Nat) (hk90 : k ≠ UGE_EMPTY_NOTE) (hne : ev.isOff → ev.key % 256 ≠ k) (r : Nat)
    (x : Row) (hx : ((processMelodic s ev row tr c).channel_rows c)[r]? = some x)
    (hnote : x.note = k) : (s.channel_rows c)[r]? = some x := by
  rcases processMelodic_rows_same s ev row tr c with e | ⟨-, -, hoff, a, b, d, -, e⟩
  · rw [e] at hx
    exact hx
  · rw [e] at hx
    have hfill : ∀ y, (fillRows (s.channel_rows c) ⟨ev.key % 256, b, d % 256⟩ a
        (min row tr))[r]? = some y → y.note = k → (s.channel_rows c)[r]? = some y := by
      intro y hy hyk
      rcases getElem?_fillRows_cases _ _ _ _ _ _ hy with rfl | h2
      · exact absurd hyk (hne hoff)
      · exact h2
    split_ifs at hx
    · rcases getElem?_set_cases _ _ _ _ _ hx with rfl | h2
      · exact absurd hnote.symm hk90
      · exact hfill x h2 hnote
    · exact hfill x hx hnote

theorem processChannel_rows_key (map : Fin 4 → Int) (tr : Nat) (ev : MidiEvent) (row : Nat)
    (s : BuildState) (h : Fin 4) (k : Nat) (hh : h ≠ 3) (hk90 : k ≠ UGE_EMPTY_NOTE)
    (hne : ev.channel = map h → ev.isOff → ev.key % 256 ≠ k) (r : Nat) (x : Row)
    (hx : ((processChannel map tr ev row s h).channel_rows h)[r]? = some x)
    (hnote : x.note = k) : (s.channel_rows h)[r]? = some x := by
  unfold processChannel at hx
  simp only at hx
  split_ifs at hx with h1 h2
  · exact hx
  · exact hx
  · exact processMelodic_rows_key s ev row tr h k hk90 (hne (not_not.mp h2)) r x hx hnote

/-- A row of a melodic channel `h` that holds key `k` after an event held it before,
unless the event is a note-off for `k` on the source channel of `h`. -/
theorem processEvent_rows_key (map : Fin 4 → Int) (tr : Nat) (s : BuildState)
    (ev : MidiEvent) (h : Fin 4) (k : Nat) (hh : h ≠ 3) (hk90 : k ≠ UGE_EMPTY_NOTE)
    (hne : ev.channel = map h → ev.isOff → ev.key % 256 ≠ k) (r : Nat) (x : Row)
    (hx : ((processEvent map tr s ev).channel_rows h)[r]? = some x)
    (hnote : x.note = k) : (s.channel_rows h)[r]? = some x := by
  rcases processEvent_cases map tr s ev with e | ⟨hrow, hch, -⟩
  · rw [e] at hx
    exact hx
  · obtain ⟨sp, h1, -, h3, -⟩ := processEvent_via map tr s ev h hrow hch
    rw [h3] at hx
    rw [← h1]
    exact processChannel_rows_key map tr ev _ sp h k hh hk90 hne r x hx hnote

theorem foldl_rows_key (map : Fin 4 → Int) (tr : Nat) (evs : List MidiEvent)
    (s : BuildState) (h : Fin 4) (k : Nat) (hh : h ≠ 3) (hk90 : k ≠ UGE_EMPTY_NOTE)
    (hne : ∀ ev ∈ evs, ev.channel = map h → ev.isOff → ev.key % 256 ≠ k) (r : Nat) (x : Row)
    (hx : ((evs.foldl (processEvent map tr) s).channel_rows h)[r]? = some x)
    (hnote : x.note = k) : (s.channel_rows h)[r]? = some x := by
  induction evs generalizing s with
  | nil => exact hx
  | cons ev rest ih =>
    rw [List.foldl_cons] at hx
    exact processEvent_rows_key map tr s ev h k hh hk90 (hne ev (List.mem_cons_self _ _)) r x
      (ih _ (fun e he => hne e (List.mem_cons_of_mem _ he)) hx) hnote

/-- A note-on writes no row of a melodic hardware channel. -/
theorem processEvent_on_rows (map : Fin 4 → Int) (tr : Nat) (s : BuildState) (ev : MidiEvent)
    (c : Fin 4) (hc : c ≠ 3) (hon : ev.isOn) :
    (processEvent map tr s ev).channel_rows c = s.channel_rows c := by
  rcases processEvent_cases map tr s ev with e | ⟨hrow, hch, -⟩
  · rw [e]
  · obtain ⟨sp, h1, -, h3, -⟩ := processEvent_via map tr s ev c hrow hch
    rw [h3, (processChannel_on_frame map tr ev _ sp c hc hon).1, h1]

/-! ## Reading back what the writer wrote -/

theorem read_u32_append (v : Nat) (rest : List Nat) :
    read_u32 (write_le32 v ++ rest) = v % 2 ^ 32 :=
  read_write_le32 v

theorem drop_write_le32 (v : Nat) (rest : List Nat) : (write_le32 v ++ rest).drop 4 = rest :=
  rfl

theorem parseRow_write (r : UgePatternRow) (rest : List Nat) :
    parseRow (writePatternRow r ++ rest) = (storedRow r, rest) := by
  have h1 : writePatternRow r ++ rest
      = write_le32 (r.note % 256) ++ (write_le32 (r.instrument % 256) ++ (write_le32 0 ++
        (write_le32 (r.effect % 256) ++ (write_le8 r.effect_param ++ rest)))) := by
    unfold writePatternRow
    simp only [List.append_assoc]
  have e1 : read_u32 (writePatternRow r ++ rest) = r.note % 256 := by
    rw [h1, read_u32_append]
    omega
  have e2 : read_u32 ((writePatternRow r ++ rest).drop 4) = r.instrument % 256 := by
    rw [h1, drop_write_le32, read_u32_append]
    omega
  have e3 : read_u32 ((writePatternRow r ++ rest).drop 8) = 0 := by
    rw [h1]
    exact read_u32_append 0 _
  have e4 : read_u32 ((writePatternRow r ++ rest).drop 12) = r.effect % 256 := by
    rw [h1]
    exact (read_u32_append (r.effect % 256) _).trans (by omega)
  have e5 : read_u8 ((writePatternRow r ++ rest).drop 16) = r.effect_param % 256 := by
    rw [h1]
    rfl
  have e6 : (writePatternRow r ++ rest).drop 17 = rest := by
    rw [h1]
    rfl
  unfold parseRow storedRow
  rw [e1, e2, e3, e4, e5, e6]

theorem parseRows_write (rows : List UgePatternRow) (rest : List Nat) :
    parseRows rows.length (writeAll writePatternRow rows ++ rest)
      = (rows.map storedRow, rest) := by
  induction rows with
  | nil => rfl
  | cons r rs ih =>
    rw [List.length_cons, List.map_cons]
    unfold writeAll parseRows
    rw [List.append_assoc, parseRow_write, ih]

theorem parsePattern_write (p : UgePattern) (rest : List Nat) (h64 : p.rows.length = 64) :
    parsePattern (writePattern p ++ rest) = (storedPattern p, rest) := by
  have h1 : writePattern p ++ rest
      = write_le32 p.index ++ (writeAll writePatternRow p.rows ++ rest) := by
    unfold writePattern
    rw [List.append_assoc]
  unfold parsePattern storedPattern
  rw [h1, read_u32_append, drop_write_le32, ← h64, parseRows_write]

theorem parsePatternList_write (ps : List UgePattern) (rest : List Nat)
    (h64 : ∀ p ∈ ps, p.rows.length = 64) :
    parsePatternList ps.length (writeAll writePattern ps ++ rest)
      = (ps.map storedPattern, rest) := by
  induction ps with
  | nil => rfl
  | cons p rs ih =>
    rw [List.length_cons, List.map_cons]
    unfold writeAll parsePatternList
    rw [List.append_assoc, parsePattern_write p _ (h64 p (List.mem_cons_self _ _)),
      ih (fun q hq => h64 q (List.mem_cons_of_mem _ hq))]

theorem parseEntries_write (l : List Nat) (rest : List Nat) :
    parseEntries l.length (writeOrderEntries l ++ rest) = (l.map fun i => i % 2 ^ 32, rest) := by
  induction l with
  | nil => rfl
  | cons i is ih =>
    rw [List.length_cons, List.map_cons]
    unfold writeOrderEntries parseEntries
    rw [List.append_assoc, read_u32_append, drop_write_le32, ih]

theorem writeOrderEntries_append (l1 l2 : List Nat) :
    writeOrderEntries (l1 ++ l2) = writeOrderEntries l1 ++ writeOrderEntries l2 := by
  induction l1 with
  | nil => rfl
  | cons i is ih =>
    show write_le32 i ++ writeOrderEntries (is ++ l2)
      = (write_le32 i ++ writeOrderEntries is) ++ writeOrderEntries l2
    rw [ih, List.append_assoc]

theorem map_mod_of_lt (l : List Nat) (h : ∀ i ∈ l, i < 2 ^ 32) :
    (l.map fun i => i % 2 ^ 32) = l := by
  induction l with
  | nil => rfl
  | cons i is ih =>
    rw [List.map_cons, ih (fun j hj => h j (List.mem_cons_of_mem _ hj)),
      Nat.mod_eq_of_lt (h i (List.mem_cons_self _ _))]

/-- The reader gets the written order list followed by the filler entry 0. -/
theorem parseOrder_write (order : List Nat) (rest : List Nat)
    (hlen : order.length + 1 < 2 ^ 31) (hent : ∀ i ∈ order, i < 2 ^ 32) :
    parseOrder (writeOrderChannel order ++ rest) = (order ++ [0], rest) := by
  have h1 : order.length % 2 ^ 32 = order.length := Nat.mod_eq_of_lt (by omega)
  have h2 : (order.length + 1) % 2 ^ 32 = order.length + 1 := Nat.mod_eq_of_lt (by omega)
  have h3 : writeOrderChannel order ++ rest
      = write_le32 (order.length + 1) ++ (writeOrderEntries (order ++ [0]) ++ rest) := by
    unfold writeOrderChannel
    rw [h1, h2, List.take_of_length_le (le_refl _), writeOrderEntries_append]
    simp only [List.append_assoc]
    rfl
  have h4 : (order ++ [0]).length = order.length + 1 := by
    rw [List.length_append, List.length_singleton]
  unfold parseOrder
  rw [h3, read_u32_append, drop_write_le32, h2]
  unfold loopCount
  rw [if_pos hlen, ← h4, parseEntries_write, map_mod_of_lt]
  intro i hi
  rcases List.mem_append.mp hi with h5 | h5
  · exact hent i h5
  · rw [List.mem_singleton.mp h5]
    decide

/-- The bytes of the file from offset `0xf882` on: the pattern table, the order
matrix, and what follows. -/
theorem writeUgeFile_drop (header : UgeSongHeader) (patterns : List UgePattern)
    (orders : Fin 4 → List Nat) (routines : List (List Nat)) :
    ∃ tail, (writeUgeFile header patterns orders routines).drop 0xf882
      = write_le32 patterns.length ++ (writeAll writePattern patterns ++
        (writeOrderChannel (orders 0) ++ (writeOrderChannel (orders 1) ++
          (writeOrderChannel (orders 2) ++ (writeOrderChannel (orders 3) ++ tail))))) := by
  have hlen : (writeHead header ++ writeTiming header).length = 0xf882 := by
    rw [List.length_append, length_writeHead, length_writeTiming]
  have hbody : ∀ pad : List Nat, (writeBody header patterns orders routines ++ pad)
      = (writeHead header ++ writeTiming header) ++
        (write_le32 patterns.length ++ (writeAll writePattern patterns ++
        (writeOrderChannel (orders 0) ++ (writeOrderChannel (orders 1) ++
          (writeOrderChannel (orders 2) ++ (writeOrderChannel (orders 3) ++
            (writeRoutines routines ++ pad))))))) := by
    intro pad
    unfold writeBody writePatterns writeOrderMatrix
    simp only [List.append_assoc]
  unfold writeUgeFile
  split_ifs
  · refine ⟨writeRoutines routines ++ List.replicate
      (REF_SIZE - (writeBody header patterns orders routines).length) 0, ?_⟩
    rw [hbody, ← hlen, List.drop_left]
  · refine ⟨writeRoutines routines ++ [], ?_⟩
    rw [← List.append_nil (writeBody header patterns orders routines), hbody, ← hlen,
      List.drop_left]

theorem storedPattern_fields (p : UgePattern) (hidx : p.index < 2 ^ 32)
    (hbytes : ∀ r ∈ p.rows, r.note < 256 ∧ r.instrument < 256 ∧ r.effect < 256 ∧
      r.effect_param < 256) :
    patternFields (storedPattern p) = patternFields p := by
  unfold patternFields storedPattern
  simp only [List.map_map]
  rw [Nat.mod_eq_of_lt hidx]
  congr 1
  apply List.map_congr_left
  intro r hr
  obtain ⟨h1, h2, h3, h4⟩ := hbytes r hr
  simp only [Function.comp, rowFields, storedRow]
  rw [Nat.mod_eq_of_lt h1, Nat.mod_eq_of_lt h2, Nat.mod_eq_of_lt h3, Nat.mod_eq_of_lt h4]

theorem parseOrders_write (orders : Fin 4 → List Nat) (tail : List Nat)
    (hlen : ∀ ch, (orders ch).length + 1 < 2 ^ 31)
    (hent : ∀ ch, ∀ i ∈ orders ch, i < 2 ^ 32) (ch : Fin 4) :
    parseOrders (writeOrderChannel (orders 0) ++ (writeOrderChannel (orders 1) ++
      (writeOrderChannel (orders 2) ++ (writeOrderChannel (orders 3) ++ tail)))) ch
      = orders ch ++ [0] := by
  unfold parseOrders
  rw [parseOrder_write (orders 0) _ (hlen 0) (hent 0)]
  rw [parseOrder_write (orders 1) _ (hlen 1) (hent 1)]
  rw [parseOrder_write (orders 2) _ (hlen 2) (hent 2)]
  rw [parseOrder_write (orders 3) _ (hlen 3) (hent 3)]
  fin_cases ch <;> rfl

/-- The reader on the bytes of a pattern table followed by an order matrix. -/
theorem parseTables_write (patterns : List UgePattern) (orders : Fin 4 → List Nat)
    (tail : List Nat) (hn : patterns.length < 2 ^ 31)
    (h64 : ∀ p ∈ patterns, p.rows.length = 64)
    (hlen : ∀ ch, (orders ch).length + 1 < 2 ^ 31)
    (hent : ∀ ch, ∀ i ∈ orders ch, i < 2 ^ 32) :
    (parseTables (write_le32 patterns.length ++ (writeAll writePattern patterns ++
      (writeOrderChannel (orders 0) ++ (writeOrderChannel (orders 1) ++
        (writeOrderChannel (orders 2) ++ (writeOrderChannel (orders 3) ++ tail))))))).num_patterns
      = patterns.length ∧
    (parseTables (write_le32 patterns.length ++ (writeAll writePattern patterns ++
      (writeOrderChannel (orders 0) ++ (writeOrderChannel (orders 1) ++
        (writeOrderChannel (orders 2) ++ (writeOrderChannel (orders 3) ++ tail))))))).patterns
      = patterns.map storedPattern ∧
    ∀ ch, (parseTables (write_le32 patterns.length ++ (writeAll writePattern patterns ++
      (writeOrderChannel (orders 0) ++ (writeOrderChannel (orders 1) ++
        (writeOrderChannel (orders 2) ++ (writeOrderChannel (orders 3) ++ tail))))))).orders ch
      = orders ch ++ [0] := by
  have hcount : patterns.length % 2 ^ 32 = patterns.length := Nat.mod_eq_of_lt (by omega)
  have hloop : loopCount patterns.length = patterns.length := by
    unfold loopCount
    rw [if_pos hn]
  unfold parseTables
  simp only
  rw [read_u32_append, drop_write_le32, hcount, hloop, parsePatternList_write patterns _ h64]
  exact ⟨rfl, rfl, parseOrders_write orders tail hlen hent⟩

/-- C39: for every header, pattern list, order matrix and routine bank, where there
are fewer than `2^31` patterns, each with 64 rows of byte fields and an index below
`2^32`, and every order list has fewer than `2^31 - 1` entries, all below `2^32`:
`parse_uge` applied to the bytes written by `writeUgeFile` reads the pattern count
`patterns.length`, as many patterns of 64 rows, for each pattern the written index
and the written note, instrument, effect and effect parameter of each of its
rows, and for each channel the written order list followed by one entry 0. -/
theorem C39_parse_round_trip (header : UgeSongHeader) (patterns : List UgePattern)
    (orders : Fin 4 → List Nat) (routines : List (List Nat))
    (hn : patterns.length < 2 ^ 31) (h64 : ∀ p ∈ patterns, p.rows.length = 64)
    (hidx : ∀ p ∈ patterns, p.index < 2 ^ 32)
    (hbytes : ∀ p ∈ patterns, ∀ r ∈ p.rows, r.note < 256 ∧ r.instrument < 256 ∧
      r.effect < 256 ∧ r.effect_param < 256)
    (hlen : ∀ ch, (orders ch).length + 1 < 2 ^ 31)
    (hent : ∀ ch, ∀ i ∈ orders ch, i < 2 ^ 32) :
    (parse_uge (writeUgeFile header patterns orders routines)).num_patterns
      = patterns.length ∧
    (parse_uge (writeUgeFile header patterns orders routines)).patterns.length
      = patterns.length ∧
    (parse_uge (writeUgeFile header patterns orders routines)).patterns.map patternFields
      = patterns.map patternFields ∧
    (∀ p ∈ (parse_uge (writeUgeFile header patterns orders routines)).patterns,
      p.rows.length = 64) ∧
    ∀ ch : Fin 4, (parse_uge (writeUgeFile header patterns orders routines)).orders ch
      = orders ch ++ [0] := by
  obtain ⟨tail, ht⟩ := writeUgeFile_drop header patterns orders routines
  have hp := parseTables_write patterns orders tail hn h64 hlen hent
  unfold parse_uge
  rw [ht]
  refine ⟨hp.1, ?_, ?_, ?_, hp.2.2⟩
  · rw [hp.2.1, List.length_map]
  · rw [hp.2.1, List.map_map]
    apply List.map_congr_left
    intro p hpm
    exact storedPattern_fields p (hidx p hpm) (hbytes p hpm)
  · intro p hpm
    rw [hp.2.1] at hpm
    obtain ⟨q, hq, rfl⟩ := List.mem_map.mp hpm
    unfold storedPattern
    simp only [List.length_map]
    exact h64 q hq

theorem C39_parse_round_trip_witness :
    (parse_uge (writeUgeFile
      (exampleHeader ((List.range 15).map fun i => init_duty_instrument "(unused)" 15 4 i)
        (by simp))
      [buildPattern 0 (fun _ => []) 0 0 0] (fun _ => [0]) [])).orders 2 = [0] ++ [0] :=
  (C39_parse_round_trip _ [buildPattern 0 (fun _ => []) 0 0 0] (fun _ => [0]) []
    (by decide) (by decide) (by decide) (by decide) (by decide) (by decide)).2.2.2.2 2

/-! ## The flag `out_of_bounds` and the subscripts of `channelProgram` -/

theorem markSubscript_eq (flag : Bool) (i : Int) :
    markSubscript flag i = (flag || !decide (0 ≤ i ∧ i < UGE_NUM_CHANNELS)) := by
  unfold markSubscript
  by_cases h : 0 ≤ i ∧ i < UGE_NUM_CHANNELS
  · rw [if_pos h]
    simp [h]
  · rw [if_neg h]
    simp [h]

theorem processMelodic_flag (s : BuildState) (ev : MidiEvent) (row tr : Nat) (c : Fin 4) :
    (processMelodic s ev row tr c).out_of_bounds
      = (s.out_of_bounds ||
        (programSubscripts ev).any fun i => !decide (0 ≤ i ∧ i < UGE_NUM_CHANNELS)) := by
  unfold programSubscripts
  by_cases hp : ev.kind = EventKind.programChange
  · unfold processMelodic
    rw [if_pos hp, if_pos hp]
    simp only
    split_ifs <;> simp [markSubscript_eq]
  · by_cases hon : ev.isOn
    · unfold processMelodic
      rw [if_neg hp, if_neg hp, if_pos hon, if_pos hon]
      simp only
      split_ifs <;> simp [markSubscript_eq]
    · by_cases hoff : ev.isOff
      · rw [if_neg hp, if_neg hon]
        cases hact : s.active_notes c ev.key with
        | none =>
          rw [processMelodic_off_none s ev row tr c hp hon hact]
          simp
        | some x =>
          obtain ⟨a, b, d⟩ := x
          rw [processMelodic_off_some s ev row tr c hp hon hoff a b d hact]
          simp
      · unfold processMelodic
        rw [if_neg hp, if_neg hp, if_neg hon, if_neg hon, if_neg hoff]
        simp

theorem processNoise_flag (s : BuildState) (ev : MidiEvent) (row tr : Nat) :
    (processNoise s ev row tr).out_of_bounds = s.out_of_bounds := by
  unfold processNoise
  by_cases hon : ev.isOn
  · rw [if_pos hon]
    simp only
    split_ifs <;> rfl
  · rw [if_neg hon]

theorem processChannel_flag (map : Fin 4 → Int) (tr : Nat) (ev : MidiEvent) (row : Nat)
    (s : BuildState) (c : Fin 4) :
    (processChannel map tr ev row s c).out_of_bounds
      = (s.out_of_bounds ||
        (if map c < 0 ∨ map c > 15 then []
          else if ev.channel ≠ map c then []
          else if c = 3 then []
          else programSubscripts ev).any fun i => !decide (0 ≤ i ∧ i < UGE_NUM_CHANNELS)) := by
  unfold processChannel
  simp only
  split_ifs
  · simp
  · simp
  · rw [processNoise_flag]
    simp
  · exact processMelodic_flag s ev row tr c

theorem processEvent_flag (map : Fin 4 → Int) (tr : Nat) (s : BuildState) (ev : MidiEvent) :
    (processEvent map tr s ev).out_of_bounds
      = (s.out_of_bounds || (channelProgramSubscripts map tr ev).any
        fun i => !decide (0 ≤ i ∧ i < UGE_NUM_CHANNELS)) := by
  by_cases hrow : ev.tick / TICKS_PER_ROW < tr
  · by_cases hch : 0 ≤ ev.channel ∧ ev.channel ≤ 15
    · have e1 : ¬ ev.tick / TICKS_PER_ROW ≥ tr := by omega
      have e2 : ¬ (ev.channel < 0 ∨ ev.channel > 15) := by omega
      rw [processEvent_eq map tr s ev hrow hch, processChannel_flag, processChannel_flag,
        processChannel_flag, processChannel_flag]
      unfold channelProgramSubscripts
      simp only [if_neg e1, if_neg e2, List.flatMap_cons, List.flatMap_nil, List.any_append,
        List.any_nil, Bool.or_false, Bool.or_assoc, List.append_nil]
    · have e1 : ¬ ev.tick / TICKS_PER_ROW ≥ tr := by omega
      have e2 : ev.channel < 0 ∨ ev.channel > 15 := by omega
      unfold processEvent channelProgramSubscripts
      simp only [if_neg e1, if_pos e2, List.any_nil, Bool.or_false]
  · have e1 : ev.tick / TICKS_PER_ROW ≥ tr := by omega
    unfold processEvent channelProgramSubscripts
    simp only [if_pos e1, List.any_nil, Bool.or_false]

theorem foldl_flag (map : Fin 4 → Int) (tr : Nat) (evs : List MidiEvent) (s : BuildState) :
    (evs.foldl (processEvent map tr) s).out_of_bounds
      = (s.out_of_bounds || (evs.flatMap (channelProgramSubscripts map tr)).any
        fun i => !decide (0 ≤ i ∧ i < UGE_NUM_CHANNELS)) := by
  induction evs generalizing s with
  | nil => simp
  | cons ev rest ih =>
    rw [List.foldl_cons, ih, processEvent_flag, List.flatMap_cons, List.any_append,
      Bool.or_assoc]

/-- The flag `out_of_bounds` is set by a run exactly when one of the subscripts at which
the run accesses `channelProgram` lies outside `0 .. UGE_NUM_CHANNELS - 1`. -/
theorem out_of_bounds_iff (map : Fin 4 → Int) (tr : Nat) (evs : List MidiEvent) :
    (buildGrid map tr evs).out_of_bounds = true ↔
      ∃ i ∈ evs.flatMap (channelProgramSubscripts map tr),
        ¬ (0 ≤ i ∧ i < UGE_NUM_CHANNELS) := by
  unfold buildGrid
  rw [foldl_flag]
  simp only [initState, Bool.false_or, List.any_eq_true]
  constructor
  · rintro ⟨i, hi, h⟩
    rw [Bool.not_eq_true', decide_eq_false_iff_not] at h
    exact ⟨i, hi, h⟩
  · rintro ⟨i, hi, h⟩
    refine ⟨i, hi, ?_⟩
    rw [Bool.not_eq_true', decide_eq_false_iff_not]
    exact h

/-- A run that accesses `channelProgram` only inside the array binds every melodic
hardware channel on which a program change or a note-on arrives to one of the source
channels `0 .. 3`. -/
theorem in_bounds_subscripts (map : Fin 4 → Int) (tr : Nat) (evs : List MidiEvent)
    (hb : (buildGrid map tr evs).out_of_bounds = false) (i : Int)
    (hi : i ∈ evs.flatMap (channelProgramSubscripts map tr)) :
    0 ≤ i ∧ i < UGE_NUM_CHANNELS := by
  by_contra hn
  have := (out_of_bounds_iff map tr evs).mpr ⟨i, hi, hn⟩
  rw [hb] at this
  exact Bool.noConfusion this

/-! ## The recorded maximum velocities -/

theorem bumpMax_apply {κ : Type} [DecidableEq κ] (m : κ → Option Nat) (k : κ) (v : Nat)
    (k2 : κ) :
    bumpMax m k v k2
      = if k2 = k then some (if (m k).getD 0 < v then v else (m k).getD 0) else m k2 := by
  unfold bumpMax
  by_cases h : k2 = k
  · rw [if_pos h, h, Function.update_same]
  · rw [if_neg h, Function.update_noteq h]

theorem bumpMax_idem {κ : Type} [DecidableEq κ] (m : κ → Option Nat) (k : κ) (v : Nat) :
    bumpMax (bumpMax m k v) k v = bumpMax m k v := by
  funext k2
  simp only [bumpMax_apply]
  by_cases h : k2 = k
  · simp only [h, ↓reduceIte, Option.getD_some]
    split_ifs <;> rfl
  · simp only [if_neg h]

theorem snoc_split {α : Type} (l pre post : List α) (e ev : α)
    (h : l ++ [e] = pre ++ ev :: post) :
    (pre = l ∧ ev = e ∧ post = []) ∨ ∃ post2, post = post2 ++ [e] ∧ l = pre ++ ev :: post2 := by
  rcases List.eq_nil_or_concat post with hp | ⟨post2, x, hp⟩
  · left
    subst hp
    have := List.append_inj' h rfl
    exact ⟨this.1.symm, (List.singleton_inj.mp this.2).symm, rfl⟩
  · right
    subst hp
    rw [List.concat_eq_append, ← List.cons_append, ← List.append_assoc] at h
    have := List.append_inj' h rfl
    refine ⟨post2, ?_, this.1⟩
    rw [List.concat_eq_append, (List.singleton_inj.mp this.2)]

/-- The invariant of a table of maximum velocities: a table `tab` that starts empty
and that the event `ev` changes by `bumpMax` at the key `key s ev` when `hit ev`
holds, and not at all otherwise, has no entry for a key without a hit, and otherwise
holds the largest velocity of the hits for that key. -/
theorem max_table_spec {κ : Type} [DecidableEq κ] (map : Fin 4 → Int) (tr : Nat)
    (tab : BuildState → κ → Option Nat) (key : BuildState → MidiEvent → κ)
    (hit : MidiEvent → Prop) (h0 : ∀ k, tab (initState tr) k = none)
    (hhit : ∀ s ev, hit ev →
      tab (processEvent map tr s ev) = bumpMax (tab s) (key s ev) ev.velocity)
    (hmiss : ∀ s ev, ¬ hit ev → tab (processEvent map tr s ev) = tab s)
    (evs : List MidiEvent) (k : κ) :
    (tab (buildGrid map tr evs) k = none →
      ∀ pre ev post, evs = pre ++ ev :: post → hit ev → key (buildGrid map tr pre) ev ≠ k) ∧
    (∀ v, tab (buildGrid map tr evs) k = some v →
      (∃ pre ev post, evs = pre ++ ev :: post ∧ hit ev ∧ key (buildGrid map tr pre) ev = k ∧
        ev.velocity = v) ∧
      ∀ pre ev post, evs = pre ++ ev :: post → hit ev → key (buildGrid map tr pre) ev = k →
        ev.velocity ≤ v) := by
  induction evs using List.reverseRecOn with
  | nil =>
    refine ⟨fun _ pre ev post h => absurd h (by simp), fun v hv => ?_⟩
    have := h0 k
    unfold buildGrid at hv
    rw [List.foldl_nil, this] at hv
    exact Option.noConfusion hv
  | append_singleton l e ih =>
    obtain ⟨ih1, ih2⟩ := ih
    rw [buildGrid_snoc]
    by_cases hh : hit e ∧ key (buildGrid map tr l) e = k
    · obtain ⟨hh1, hh2⟩ := hh
      rw [hhit _ _ hh1, bumpMax_apply, if_pos hh2.symm, hh2]
      refine ⟨fun hn => Option.noConfusion hn, fun v hv => ?_⟩
      have hv2 := Option.some.inj hv
      cases hold : tab (buildGrid map tr l) k with
      | none =>
        rw [hold] at hv2
        simp only [Option.getD_none] at hv2
        have hve : e.velocity = v := by
          split_ifs at hv2 <;> omega
        refine ⟨⟨l, e, [], rfl, hh1, hh2, hve⟩, fun pre ev post hs hhev hkey => ?_⟩
        rcases snoc_split l pre post e ev hs with ⟨h1, h2, -⟩ | ⟨post2, -, h2⟩
        · rw [h2, hve]
        · exact absurd hkey (ih1 hold pre ev post2 h2 hhev)
      | some v0 =>
        rw [hold] at hv2
        simp only [Option.getD_some] at hv2
        obtain ⟨⟨pre0, ev0, post0, hs0, hhit0, hkey0, hvel0⟩, hmax⟩ := ih2 v0 hold
        refine ⟨?_, fun pre ev post hs hhev hkey => ?_⟩
        · by_cases hlt : v0 < e.velocity
          · rw [if_pos hlt] at hv2
            exact ⟨l, e, [], rfl, hh1, hh2, hv2⟩
          · rw [if_neg hlt] at hv2
            refine ⟨pre0, ev0, post0 ++ [e], ?_, hhit0, hkey0, by rw [hvel0, hv2]⟩
            rw [hs0, List.append_assoc, List.cons_append]
        · rcases snoc_split l pre post e ev hs with ⟨h1, h2, -⟩ | ⟨post2, -, h2⟩
          · rw [h2]
            split_ifs at hv2 <;> omega
          · have := hmax pre ev post2 h2 hhev hkey
            split_ifs at hv2 <;> omega
    · have htab : tab (processEvent map tr (buildGrid map tr l) e) k
          = tab (buildGrid map tr l) k := by
        by_cases hh1 : hit e
        · have hne : k ≠ key (buildGrid map tr l) e := fun h => hh ⟨hh1, h.symm⟩
          rw [hhit _ _ hh1, bumpMax_apply, if_neg hne]
        · rw [hmiss _ _ hh1]
      rw [htab]
      refine ⟨fun hn pre ev post hs hhev => ?_, fun v hv => ?_⟩
      · rcases snoc_split l pre post e ev hs with ⟨h1, h2, -⟩ | ⟨post2, -, h2⟩
        · subst h1 h2
          exact fun h => hh ⟨hhev, h⟩
        · exact ih1 hn pre ev post2 h2 hhev
      · obtain ⟨⟨pre0, ev0, post0, hs0, hhit0, hkey0, hvel0⟩, hmax⟩ := ih2 v hv
        refine ⟨⟨pre0, ev0, post0 ++ [e], ?_, hhit0, hkey0, hvel0⟩,
          fun pre ev post hs hhev hkey => ?_⟩
        · rw [hs0, List.append_assoc, List.cons_append]
        · rcases snoc_split l pre post e ev hs with ⟨h1, h2, -⟩ | ⟨post2, -, h2⟩
          · subst h1 h2
            exact absurd ⟨hhev, hkey⟩ hh
          · exact hmax pre ev post2 h2 hhev hkey

theorem isOn_not_programChange (ev : MidiEvent) (hon : ev.isOn) :
    ev.kind ≠ EventKind.programChange := by
  rw [hon.1]
  decide

theorem processMelodic_program_keep (s : BuildState) (ev : MidiEvent) (row tr : Nat)
    (c : Fin 4) (hp : ev.kind ≠ EventKind.programChange) :
    (processMelodic s ev row tr c).channelProgram = s.channelProgram := by
  by_cases hon : ev.isOn
  · unfold processMelodic
    rw [if_neg hp, if_pos hon]
    simp only
    split_ifs <;> rfl
  · by_cases hoff : ev.isOff
    · cases hact : s.active_notes c ev.key with
      | none => rw [processMelodic_off_none s ev row tr c hp hon hact]
      | some x =>
        obtain ⟨a, b, d⟩ := x
        rw [processMelodic_off_some s ev row tr c hp hon hoff a b d hact]
    · unfold processMelodic
      rw [if_neg hp, if_neg hon, if_neg hoff]

theorem processNoise_program (s : BuildState) (ev : MidiEvent) (row tr : Nat) :
    (processNoise s ev row tr).channelProgram = s.channelProgram := by
  unfold processNoise
  by_cases hon : ev.isOn
  · rw [if_pos hon]
    simp only
    split_ifs <;> rfl
  · rw [if_neg hon]

theorem processChannel_program_keep (map : Fin 4 → Int) (tr : Nat) (ev : MidiEvent)
    (row : Nat) (s : BuildState) (c : Fin 4) (hp : ev.kind ≠ EventKind.programChange) :
    (processChannel map tr ev row s c).channelProgram = s.channelProgram := by
  unfold processChannel
  simp only
  split_ifs
  · rfl
  · rfl
  · exact processNoise_program s ev row tr
  · exact processMelodic_program_keep s ev row tr c hp

/-- The three tables of maximum velocities after the melodic branch. -/
theorem processMelodic_max (s : BuildState) (ev : MidiEvent) (row tr : Nat) (c : Fin 4) :
    (processMelodic s ev row tr c).progMaxVelocity
      = (if ev.isOn ∧ c ≠ 2 then
          bumpMax s.progMaxVelocity (s.channelProgram ev.channel) ev.velocity
        else s.progMaxVelocity) ∧
    (processMelodic s ev row tr c).waveProgMaxVelocity
      = (if ev.isOn ∧ c = 2 then
          bumpMax s.waveProgMaxVelocity (s.channelProgram ev.channel) ev.velocity
        else s.waveProgMaxVelocity) ∧
    (processMelodic s ev row tr c).percMaxVelocity = s.percMaxVelocity := by
  by_cases hon : ev.isOn
  · have hp := isOn_not_programChange ev hon
    unfold processMelodic
    rw [if_neg hp, if_pos hon]
    simp only
    by_cases hc : c = 2
    · rw [if_pos hc, if_neg (fun h => h.2 hc), if_pos ⟨hon, hc⟩]
      exact ⟨rfl, rfl, rfl⟩
    · rw [if_neg hc, if_pos ⟨hon, hc⟩, if_neg (fun h => hc h.2)]
      exact ⟨rfl, rfl, rfl⟩
  · rw [if_neg (fun h => hon h.1), if_neg (fun h => hon h.1)]
    by_cases hp : ev.kind = EventKind.programChange
    · unfold processMelodic
      rw [if_pos hp]
      simp only
      split_ifs <;> exact ⟨rfl, rfl, rfl⟩
    · by_cases hoff : ev.isOff
      · cases hact : s.active_notes c ev.key with
        | none =>
          rw [processMelodic_off_none s ev row tr c hp hon hact]
          exact ⟨rfl, rfl, rfl⟩
        | some x =>
          obtain ⟨a, b, d⟩ := x
          rw [processMelodic_off_some s ev row tr c hp hon hoff a b d hact]
          exact ⟨rfl, rfl, rfl⟩
      · unfold processMelodic
        rw [if_neg hp, if_neg hon, if_neg hoff]
        exact ⟨rfl, rfl, rfl⟩

/-- The three tables of maximum velocities after the Noise branch. -/
theorem processNoise_max (s : BuildState) (ev : MidiEvent) (row tr : Nat) :
    (processNoise s ev row tr).progMaxVelocity = s.progMaxVelocity ∧
    (processNoise s ev row tr).waveProgMaxVelocity = s.waveProgMaxVelocity ∧
    (processNoise s ev row tr).percMaxVelocity
      = (if ev.isOn then bumpMax s.percMaxVelocity ev.key ev.velocity
        else s.percMaxVelocity) := by
  unfold processNoise
  by_cases hon : ev.isOn
  · rw [if_pos hon, if_pos hon]
    simp only
    split_ifs <;> exact ⟨rfl, rfl, rfl⟩
  · rw [if_neg hon, if_neg hon]
    exact ⟨rfl, rfl, rfl⟩

/-- The three tables of maximum velocities after the body of the channel loop for
hardware channel `c`, for an event on a source channel in `0 .. 15`. -/
theorem processChannel_max (map : Fin 4 → Int) (tr : Nat) (ev : MidiEvent) (row : Nat)
    (s : BuildState) (c : Fin 4) (hch : 0 ≤ ev.channel ∧ ev.channel ≤ 15) :
    (processChannel map tr ev row s c).progMaxVelocity
      = (if ev.isOn ∧ map c = ev.channel ∧ (c = 0 ∨ c = 1) then
          bumpMax s.progMaxVelocity (s.channelProgram ev.channel) ev.velocity
        else s.progMaxVelocity) ∧
    (processChannel map tr ev row s c).waveProgMaxVelocity
      = (if ev.isOn ∧ map c = ev.channel ∧ c = 2 then
          bumpMax s.waveProgMaxVelocity (s.channelProgram ev.channel) ev.velocity
        else s.waveProgMaxVelocity) ∧
    (processChannel map tr ev row s c).percMaxVelocity
      = (if ev.isOn ∧ map c = ev.channel ∧ c = 3 then
          bumpMax s.percMaxVelocity ev.key ev.velocity
        else s.percMaxVelocity) := by
  by_cases hm : map c = ev.channel
  · by_cases hc : c = 3
    · have e : processChannel map tr ev row s c = processNoise s ev row tr := by
        unfold processChannel
        simp only
        rw [if_neg (by omega), if_neg (by rw [hm]; exact fun hh => hh rfl), if_pos hc]
      have h03 : ¬ (c = 0 ∨ c = 1) := by
        rw [hc]
        decide
      have h23 : ¬ c = 2 := by
        rw [hc]
        decide
      rw [e, if_neg (fun h => h03 h.2.2), if_neg (fun h => h23 h.2.2)]
      obtain ⟨h1, h2, h3⟩ := processNoise_max s ev row tr
      refine ⟨h1, h2, ?_⟩
      rw [h3]
      by_cases hon : ev.isOn
      · rw [if_pos hon, if_pos ⟨hon, hm, hc⟩]
      · rw [if_neg hon, if_neg (fun h => hon h.1)]
    · rw [processChannel_melodic map tr ev row s c hc hm hch]
      obtain ⟨h1, h2, h3⟩ := processMelodic_max s ev row tr c
      have h01 : c ≠ 2 ↔ (c = 0 ∨ c = 1) := by
        fin_cases c <;> simp at hc ⊢
      refine ⟨?_, ?_, ?_⟩
      · rw [h1]
        by_cases hh : ev.isOn ∧ c ≠ 2
        · rw [if_pos hh, if_pos ⟨hh.1, hm, h01.mp hh.2⟩]
        · rw [if_neg hh, if_neg (fun h => hh ⟨h.1, h01.mpr h.2.2⟩)]
      · rw [h2]
        by_cases hh : ev.isOn ∧ c = 2
        · rw [if_pos hh, if_pos ⟨hh.1, hm, hh.2⟩]
        · rw [if_neg hh, if_neg (fun h => hh ⟨h.1, h.2.2⟩)]
      · rw [h3, if_neg (fun h => hc h.2.2)]
  · rw [processChannel_skip map tr ev row s c (Or.inr (Or.inr (fun h => hm h.symm))),
      if_neg (fun h => hm h.2.1), if_neg (fun h => hm h.2.1), if_neg (fun h => hm h.2.1)]
    exact ⟨rfl, rfl, rfl⟩

theorem processEvent_duty_hit (map : Fin 4 → Int) (tr : Nat) (s : BuildState) (ev : MidiEvent)
    (h : NoteOnAt map tr ev 0 ∨ NoteOnAt map tr ev 1) :
    (processEvent map tr s ev).progMaxVelocity
      = bumpMax s.progMaxVelocity (s.channelProgram ev.channel) ev.velocity := by
  have hall : ev.isOn ∧ ev.tick / TICKS_PER_ROW < tr ∧ (0 ≤ ev.channel ∧ ev.channel ≤ 15) := by
    rcases h with h | h
    · exact ⟨h.1, h.2.1, h.2.2.1⟩
    · exact ⟨h.1, h.2.1, h.2.2.1⟩
  obtain ⟨hon, hrow, hch⟩ := hall
  have hp := isOn_not_programChange ev hon
  rw [processEvent_eq map tr s ev hrow hch, (processChannel_max map tr ev _ _ 3 hch).1,
    if_neg (fun hh => absurd hh.2.2 (by decide)), (processChannel_max map tr ev _ _ 2 hch).1,
    if_neg (fun hh => absurd hh.2.2 (by decide)), (processChannel_max map tr ev _ _ 1 hch).1,
    processChannel_program_keep map tr ev _ s 0 hp, (processChannel_max map tr ev _ s 0 hch).1]
  by_cases m1 : map 1 = ev.channel
  · rw [if_pos ⟨hon, m1, Or.inr rfl⟩]
    by_cases m0 : map 0 = ev.channel
    · rw [if_pos ⟨hon, m0, Or.inl rfl⟩, bumpMax_idem]
    · rw [if_neg (fun hh => m0 hh.2.1)]
  · rw [if_neg (fun hh => m1 hh.2.1)]
    by_cases m0 : map 0 = ev.channel
    · rw [if_pos ⟨hon, m0, Or.inl rfl⟩]
    · rcases h with h | h
      · exact absurd h.2.2.2 m0
      · exact absurd h.2.2.2 m1

theorem processEvent_duty_miss (map : Fin 4 → Int) (tr : Nat) (s : BuildState) (ev : MidiEvent)
    (h : ¬ (NoteOnAt map tr ev 0 ∨ NoteOnAt map tr ev 1)) :
    (processEvent map tr s ev).progMaxVelocity = s.progMaxVelocity := by
  rcases processEvent_cases map tr s ev with e | ⟨hrow, hch, e⟩
  · rw [e]
  · rw [e, (processChannel_max map tr ev _ _ 3 hch).1,
      if_neg (fun hh => absurd hh.2.2 (by decide)), (processChannel_max map tr ev _ _ 2 hch).1,
      if_neg (fun hh => absurd hh.2.2 (by decide)), (processChannel_max map tr ev _ _ 1 hch).1,
      if_neg (fun hh => h (Or.inr ⟨hh.1, hrow, hch, hh.2.1⟩)),
      (processChannel_max map tr ev _ s 0 hch).1,
      if_neg (fun hh => h (Or.inl ⟨hh.1, hrow, hch, hh.2.1⟩))]

theorem processEvent_wave_hit (map : Fin 4 → Int) (tr : Nat) (s : BuildState) (ev : MidiEvent)
    (h : NoteOnAt map tr ev 2) :
    (processEvent map tr s ev).waveProgMaxVelocity
      = bumpMax s.waveProgMaxVelocity (s.channelProgram ev.channel) ev.velocity := by
  obtain ⟨hon, hrow, hch, hm⟩ := h
  have hp := isOn_not_programChange ev hon
  rw [processEvent_eq map tr s ev hrow hch, (processChannel_max map tr ev _ _ 3 hch).2.1,
    if_neg (fun hh => absurd hh.2.2 (by decide)), (processChannel_max map tr ev _ _ 2 hch).2.1,
    if_pos ⟨hon, hm, rfl⟩, processChannel_program_keep map tr ev _ _ 1 hp,
    processChannel_program_keep map tr ev _ s 0 hp,
    (processChannel_max map tr ev _ _ 1 hch).2.1,
    if_neg (fun hh => absurd hh.2.2 (by decide)), (processChannel_max map tr ev _ s 0 hch).2.1,
    if_neg (fun hh => absurd hh.2.2 (by decide))]

theorem processEvent_wave_miss (map : Fin 4 → Int) (tr : Nat) (s : BuildState) (ev : MidiEvent)
    (h : ¬ NoteOnAt map tr ev 2) :
    (processEvent map tr s ev).waveProgMaxVelocity = s.waveProgMaxVelocity := by
  rcases processEvent_cases map tr s ev with e | ⟨hrow, hch, e⟩
  · rw [e]
  · rw [e, (processChannel_max map tr ev _ _ 3 hch).2.1,
      if_neg (fun hh => absurd hh.2.2 (by decide)),
      (processChannel_max map tr ev _ _ 2 hch).2.1,
      if_neg (fun hh => h ⟨hh.1, hrow, hch, hh.2.1⟩),
      (processChannel_max map tr ev _ _ 1 hch).2.1,
      if_neg (fun hh => absurd hh.2.2 (by decide)),
      (processChannel_max map tr ev _ s 0 hch).2.1,
      if_neg (fun hh => absurd hh.2.2 (by decide))]

theorem processEvent_noise_hit (map : Fin 4 → Int) (tr : Nat) (s : BuildState)
    (ev : MidiEvent) (h : NoteOnAt map tr ev 3) :
    (processEvent map tr s ev).percMaxVelocity
      = bumpMax s.percMaxVelocity ev.key ev.velocity := by
  obtain ⟨hon, hrow, hch, hm⟩ := h
  rw [processEvent_eq map tr s ev hrow hch, (processChannel_max map tr ev _ _ 3 hch).2.2,
    if_pos ⟨hon, hm, rfl⟩, (processChannel_max map tr ev _ _ 2 hch).2.2,
    if_neg (fun hh => absurd hh.2.2 (by decide)), (processChannel_max map tr ev _ _ 1 hch).2.2,
    if_neg (fun hh => absurd hh.2.2 (by decide)), (processChannel_max map tr ev _ s 0 hch).2.2,
    if_neg (fun hh => absurd hh.2.2 (by decide))]

theorem processEvent_noise_miss (map : Fin 4 → Int) (tr : Nat) (s : BuildState)
    (ev : MidiEvent) (h : ¬ NoteOnAt map tr ev 3) :
    (processEvent map tr s ev).percMaxVelocity = s.percMaxVelocity := by
  rcases processEvent_cases map tr s ev with e | ⟨hrow, hch, e⟩
  · rw [e]
  · rw [e, (processChannel_max map tr ev _ _ 3 hch).2.2,
      if_neg (fun hh => h ⟨hh.1, hrow, hch, hh.2.1⟩),
      (processChannel_max map tr ev _ _ 2 hch).2.2,
      if_neg (fun hh => absurd hh.2.2 (by decide)),
      (processChannel_max map tr ev _ _ 1 hch).2.2,
      if_neg (fun hh => absurd hh.2.2 (by decide)),
      (processChannel_max map tr ev _ s 0 hch).2.2,
      if_neg (fun hh => absurd hh.2.2 (by decide))]

/-- The entry of `progMaxVelocity` for program `p` after the run over `evs`: none when
no note was played on a Duty channel with program `p`, and otherwise the largest
velocity of those notes. -/
theorem progMaxVelocity_spec (map : Fin 4 → Int) (tr : Nat) (evs : List MidiEvent) (p : Int) :
    ((buildGrid map tr evs).progMaxVelocity p = none → ∀ w, ¬ DutyVelocity map tr evs p w) ∧
    (∀ v, (buildGrid map tr evs).progMaxVelocity p = some v →
      DutyVelocity map tr evs p v ∧ ∀ w, DutyVelocity map tr evs p w → w ≤ v) := by
  obtain ⟨h1, h2⟩ := max_table_spec map tr (fun s => s.progMaxVelocity)
    (fun s ev => s.channelProgram ev.channel)
    (fun ev => NoteOnAt map tr ev 0 ∨ NoteOnAt map tr ev 1) (fun _ => rfl)
    (fun s ev h => processEvent_duty_hit map tr s ev h)
    (fun s ev h => processEvent_duty_miss map tr s ev h) evs p
  refine ⟨fun hn w hw => ?_, fun v hv => ⟨(h2 v hv).1, fun w hw => ?_⟩⟩
  · obtain ⟨pre, ev, post, hs, hhit, hkey, -⟩ := hw
    exact h1 hn pre ev post hs hhit hkey
  · obtain ⟨pre, ev, post, hs, hhit, hkey, hvel⟩ := hw
    rw [← hvel]
    exact (h2 v hv).2 pre ev post hs hhit hkey

/-- The entry of `waveProgMaxVelocity` for program `p` after the run over `evs`. -/
theorem waveProgMaxVelocity_spec (map : Fin 4 → Int) (tr : Nat) (evs : List MidiEvent)
    (p : Int) :
    ((buildGrid map tr evs).waveProgMaxVelocity p = none →
      ∀ w, ¬ WaveVelocity map tr evs p w) ∧
    (∀ v, (buildGrid map tr evs).waveProgMaxVelocity p = some v →
      WaveVelocity map tr evs p v ∧ ∀ w, WaveVelocity map tr evs p w → w ≤ v) := by
  obtain ⟨h1, h2⟩ := max_table_spec map tr (fun s => s.waveProgMaxVelocity)
    (fun s ev => s.channelProgram ev.channel)
    (fun ev => NoteOnAt map tr ev 2) (fun _ => rfl)
    (fun s ev h => processEvent_wave_hit map tr s ev h)
    (fun s ev h => processEvent_wave_miss map tr s ev h) evs p
  refine ⟨fun hn w hw => ?_, fun v hv => ⟨(h2 v hv).1, fun w hw => ?_⟩⟩
  · obtain ⟨pre, ev, post, hs, hhit, hkey, -⟩ := hw
    exact h1 hn pre ev post hs hhit hkey
  · obtain ⟨pre, ev, post, hs, hhit, hkey, hvel⟩ := hw
    rw [← hvel]
    exact (h2 v hv).2 pre ev post hs hhit hkey

/-- The entry of `percMaxVelocity` for key `k` after the run over `evs`. -/
theorem percMaxVelocity_spec (map : Fin 4 → Int) (tr : Nat) (evs : List MidiEvent) (k : Nat) :
    ((buildGrid map tr evs).percMaxVelocity k = none → ∀ w, ¬ NoiseVelocity map tr evs k w) ∧
    (∀ v, (buildGrid map tr evs).percMaxVelocity k = some v →
      NoiseVelocity map tr evs k v ∧ ∀ w, NoiseVelocity map tr evs k w → w ≤ v) := by
  obtain ⟨h1, h2⟩ := max_table_spec map tr (fun s => s.percMaxVelocity)
    (fun _ ev => ev.key) (fun ev => NoteOnAt map tr ev 3) (fun _ => rfl)
    (fun s ev h => processEvent_noise_hit map tr s ev h)
    (fun s ev h => processEvent_noise_miss map tr s ev h) evs k
  refine ⟨fun hn w hw => ?_, fun v hv => ⟨(h2 v hv).1, fun w hw => ?_⟩⟩
  · obtain ⟨pre, ev, post, hs, hhit, hkey, -⟩ := hw
    exact h1 hn pre ev post hs hhit hkey
  · obtain ⟨pre, ev, post, hs, hhit, hkey, hvel⟩ := hw
    rw [← hvel]
    exact (h2 v hv).2 pre ev post hs hhit hkey

/-- The volume computed from a table entry, when `v` is the largest of the velocities
`V` that the entry stands for. -/
theorem instVolume_loudest (mv : Option Nat) (V : Nat → Prop)
    (h1 : mv = none → ∀ w, ¬ V w) (h2 : ∀ v, mv = some v → V v ∧ ∀ w, V w → w ≤ v) :
    (∀ v, V v → (∀ w, V w → w ≤ v) →
      ((instVolume mv : Nat) : ℤ) = max 1 (min 15 ⌊((v : ℚ) * 15 / 127 + 1 / 2)⌋)) ∧
    ((∀ w, ¬ V w) → instVolume mv = 15) := by
  cases hmv : mv with
  | none =>
    refine ⟨fun v hv _ => absurd hv (h1 hmv v), fun _ => rfl⟩
  | some v0 =>
    obtain ⟨hv0, hmax⟩ := h2 v0 hmv
    refine ⟨fun v hv hle => ?_, fun hn => absurd hv0 (hn v0)⟩
    have : v0 = v := Nat.le_antisymm (hle v0 hv0) (hmax v hv)
    rw [← this]
    exact (instVolume_spec (some v0)).1 v0 rfl

/-! ## Runs that stay inside `channelProgram` -/

/-- A program change or a note-on that reaches the branch of the melodic hardware
channel `h` uses its source channel as a subscript of `channelProgram`. -/
theorem melodic_subscript (map : Fin 4 → Int) (tr : Nat) (ev : MidiEvent) (h : Fin 4)
    (hh : h ≠ 3) (hmap : map h = ev.channel) (hch : 0 ≤ ev.channel ∧ ev.channel ≤ 15)
    (hk : ev.kind = EventKind.programChange ∨ ev.isOn)
    (hrow : ev.tick / TICKS_PER_ROW < tr) :
    ev.channel ∈ channelProgramSubscripts map tr ev := by
  have e1 : ¬ ev.tick / TICKS_PER_ROW ≥ tr := by omega
  have e2 : ¬ (ev.channel < 0 ∨ ev.channel > 15) := by omega
  have e3 : ¬ (map h < 0 ∨ map h > 15) := by omega
  have e4 : ¬ ev.channel ≠ map h := fun hne => hne hmap.symm
  have e5 : programSubscripts ev = [ev.channel] := by
    unfold programSubscripts
    rcases hk with hp | hon
    · rw [if_pos hp]
    · rw [if_neg (isOn_not_programChange ev hon), if_pos hon]
  unfold channelProgramSubscripts
  simp only [if_neg e1, if_neg e2]
  rw [List.mem_flatMap]
  refine ⟨h, by fin_cases h <;> simp, ?_⟩
  rw [if_neg e3, if_neg e4, if_neg hh, e5]
  exact List.mem_singleton_self _

/-- In a run that accesses `channelProgram` inside the array only, a program change
or a note-on of the run that reaches the branch of a melodic hardware channel is on
one of the source channels `0 .. 3`. -/
theorem in_bounds_channel (map : Fin 4 → Int) (evs : List MidiEvent)
    (hb : (buildGrid map (total_rows evs) evs).out_of_bounds = false) (ev : MidiEvent)
    (hev : ev ∈ evs) (h : Fin 4) (hh : h ≠ 3) (hmap : map h = ev.channel)
    (hch : 0 ≤ ev.channel ∧ ev.channel ≤ 15)
    (hk : ev.kind = EventKind.programChange ∨ ev.isOn) :
    0 ≤ ev.channel ∧ ev.channel < UGE_NUM_CHANNELS :=
  in_bounds_subscripts map (total_rows evs) evs hb ev.channel
    (List.mem_flatMap.mpr ⟨ev, hev, melodic_subscript map (total_rows evs) ev h hh hmap hch hk
      (row_lt_total_rows evs ev hev)⟩)

/-! ## The volume of an instrument and its loudest note -/

/-- C12 (amended): in a run that accesses `channelProgram` inside the array only, for
every slot `i` of a bank that is live (the reverse table of the bank names a program
or a percussion key for it), the volume of the synthesized Duty, Wave or Noise
instrument is `clamp(round(v * 15/127), 1, 15)`, rounding to the nearest integer,
when `v` is the velocity of the loudest note of the instrument, and 15 when the
instrument has no note. The notes of a Duty (Wave) instrument are the note-ons that
reach the branch of a Duty channel (of the Wave channel) while the program of their
source channel is the program of the slot; the notes of a Noise instrument are the
note-ons for the key of the slot that reach the Noise branch. The notes of Duty and
Wave instruments are on source channels `0 .. 3`, so that the program read for them is
an entry of the array. -/
theorem C12_instrument_volume (hasher : List Nat → Nat) (tpq : Int) (evs : List MidiEvent)
    (um : Option (Fin 4 → Int)) (i : Nat) (hi : i < 15)
    (hb : (convertMidiToUge hasher tpq evs um).grid.out_of_bounds = false) :
    (∀ prog, reverseTable (convertMidiToUge hasher tpq evs um).grid.midiProgToUgeInst i
        = some prog →
      ∃ inst, (convertMidiToUge hasher tpq evs um).duty[i]? = some inst ∧
        (∀ v, DutyVelocity (midi_to_uge evs um) (total_rows evs) evs prog v →
          (∀ w, DutyVelocity (midi_to_uge evs um) (total_rows evs) evs prog w → w ≤ v) →
          ((inst.initial_volume : Nat) : ℤ)
            = max 1 (min 15 ⌊((v : ℚ) * 15 / 127 + 1 / 2)⌋)) ∧
        ((∀ w, ¬ DutyVelocity (midi_to_uge evs um) (total_rows evs) evs prog w) →
          inst.initial_volume = 15)) ∧
    (∀ prog, reverseTable (convertMidiToUge hasher tpq evs um).grid.midiProgToUgeWaveInst i
        = some prog →
      ∃ inst, (convertMidiToUge hasher tpq evs um).wave[i]? = some inst ∧
        (∀ v, WaveVelocity (midi_to_uge evs um) (total_rows evs) evs prog v →
          (∀ w, WaveVelocity (midi_to_uge evs um) (total_rows evs) evs prog w → w ≤ v) →
          ((inst.volume : Nat) : ℤ) = max 1 (min 15 ⌊((v : ℚ) * 15 / 127 + 1 / 2)⌋)) ∧
        ((∀ w, ¬ WaveVelocity (midi_to_uge evs um) (total_rows evs) evs prog w) →
          inst.volume = 15)) ∧
    (∀ note, reverseTable (convertMidiToUge hasher tpq evs um).grid.percussionNoteToUgeInst i
        = some note →
      ∃ inst, (convertMidiToUge hasher tpq evs um).noise[i]? = some inst ∧
        (∀ v, NoiseVelocity (midi_to_uge evs um) (total_rows evs) evs note v →
          (∀ w, NoiseVelocity (midi_to_uge evs um) (total_rows evs) evs note w → w ≤ v) →
          ((inst.initial_volume : Nat) : ℤ)
            = max 1 (min 15 ⌊((v : ℚ) * 15 / 127 + 1 / 2)⌋)) ∧
        ((∀ w, ¬ NoiseVelocity (midi_to_uge evs um) (total_rows evs) evs note w) →
          inst.initial_volume = 15)) ∧
    (∀ ev ∈ evs, ∀ c : Fin 4, c ≠ 3 → NoteOnAt (midi_to_uge evs um) (total_rows evs) ev c →
      0 ≤ ev.channel ∧ ev.channel < UGE_NUM_CHANNELS) := by
  refine ⟨?_, ?_, ?_, ?_⟩
  · intro prog hp
    have hs := progMaxVelocity_spec (midi_to_uge evs um) (total_rows evs) evs prog
    refine ⟨dutyInstrument (convertMidiToUge hasher tpq evs um).grid
      (convertMidiToUge hasher tpq evs um).lengths i, bank_getElem _ i hi, ?_⟩
    rw [dutyInstrument_volume _ _ i prog hp]
    exact instVolume_loudest _ _ hs.1 hs.2
  · intro prog hp
    have hs := waveProgMaxVelocity_spec (midi_to_uge evs um) (total_rows evs) evs prog
    refine ⟨waveInstrument (convertMidiToUge hasher tpq evs um).grid i,
      bank_getElem _ i hi, ?_⟩
    rw [waveInstrument_volume _ i prog hp]
    exact instVolume_loudest _ _ hs.1 hs.2
  · intro note hp
    have hs := percMaxVelocity_spec (midi_to_uge evs um) (total_rows evs) evs note
    refine ⟨noiseInstrument (convertMidiToUge hasher tpq evs um).grid
      (convertMidiToUge hasher tpq evs um).lengths i, bank_getElem _ i hi, ?_⟩
    rw [noiseInstrument_volume _ _ i note hp]
    exact instVolume_loudest _ _ hs.1 hs.2
  · intro ev hev c hc hn
    exact in_bounds_channel (midi_to_uge evs um) evs hb ev hev c hc hn.2.2.2 hn.2.2.1
      (Or.inr hn.1)

theorem C12_instrument_volume_witness :
    (convertMidiToUge (fun _ => 0) 24 loudSong none).grid.out_of_bounds = false ∧
    DutyVelocity (midi_to_uge loudSong none) (total_rows loudSong) loudSong 0 100 ∧
    (∀ w, DutyVelocity (midi_to_uge loudSong none) (total_rows loudSong) loudSong 0 w →
      w ≤ 100) ∧
    ∃ inst, (convertMidiToUge (fun _ => 0) 24 loudSong none).duty[0]? = some inst ∧
      ((inst.initial_volume : Nat) : ℤ)
        = max 1 (min 15 ⌊(((100 : Nat) : ℚ) * 15 / 127 + 1 / 2)⌋) :=
  have hs := (progMaxVelocity_spec (midi_to_uge loudSong none) (total_rows loudSong)
    loudSong 0).2 100 (by decide)
  ⟨by decide, hs.1, hs.2,
    match (C12_instrument_volume (fun _ => 0) 24 loudSong none 0 (by decide)
      (by decide)).1 0 (by decide) with
    | ⟨inst, h1, h2, _⟩ => ⟨inst, h1, h2 100 hs.1 hs.2⟩⟩

/-! ## A note-on without note-off: the rows written after it -/

/-- A row of channel `c` after the melodic branch is as before, or the event is a
note-off and the row is empty or holds the key of the note-off. -/
theorem processMelodic_rows_written (s : BuildState) (ev : MidiEvent) (row tr : Nat)
    (c : Fin 4) (r : Nat) (x : Row)
    (hx : ((processMelodic s ev row tr c).channel_rows c)[r]? = some x) :
    (s.channel_rows c)[r]? = some x ∨
      (ev.isOff ∧ (x = emptyRow ∨ x.note = ev.key % 256)) := by
  rcases processMelodic_rows_same s ev row tr c with e | ⟨-, -, hoff, a, b, d, -, e⟩
  · rw [e] at hx
    exact Or.inl hx
  · rw [e] at hx
    have hfill : ∀ y, (fillRows (s.channel_rows c) ⟨ev.key % 256, b, d % 256⟩ a
        (min row tr))[r]? = some y →
        (s.channel_rows c)[r]? = some y ∨ (ev.isOff ∧ (y = emptyRow ∨ y.note = ev.key % 256)) := by
      intro y hy
      rcases getElem?_fillRows_cases _ _ _ _ _ _ hy with rfl | h2
      · exact Or.inr ⟨hoff, Or.inr rfl⟩
      · exact Or.inl h2
    split_ifs at hx
    · rcases getElem?_set_cases _ _ _ _ _ hx with rfl | h2
      · exact Or.inr ⟨hoff, Or.inl rfl⟩
      · exact hfill x h2
    · exact hfill x hx

theorem processChannel_rows_written (map : Fin 4 → Int) (tr : Nat) (ev : MidiEvent)
    (row : Nat) (s : BuildState) (h : Fin 4) (hh : h ≠ 3) (r : Nat) (x : Row)
    (hx : ((processChannel map tr ev row s h).channel_rows h)[r]? = some x) :
    (s.channel_rows h)[r]? = some x ∨
      (ev.channel = map h ∧ ev.isOff ∧ (x = emptyRow ∨ x.note = ev.key % 256)) := by
  unfold processChannel at hx
  simp only at hx
  split_ifs at hx with h1 h2
  · exact Or.inl hx
  · exact Or.inl hx
  · rcases processMelodic_rows_written s ev row tr h r x hx with h3 | h3
    · exact Or.inl h3
    · exact Or.inr ⟨not_not.mp h2, h3⟩

/-- A row of a melodic channel `h` after an event is as before, or the event is a
note-off on the source channel of `h` and the row is empty or holds its key. -/
theorem processEvent_rows_written (map : Fin 4 → Int) (tr : Nat) (s : BuildState)
    (ev : MidiEvent) (h : Fin 4) (hh : h ≠ 3) (r : Nat) (x : Row)
    (hx : ((processEvent map tr s ev).channel_rows h)[r]? = some x) :
    (s.channel_rows h)[r]? = some x ∨
      (ev.channel = map h ∧ ev.isOff ∧ (x = emptyRow ∨ x.note = ev.key % 256)) := by
  rcases processEvent_cases map tr s ev with e | ⟨hrow, hch, -⟩
  · rw [e] at hx
    exact Or.inl hx
  · obtain ⟨sp, h1, -, h3, -⟩ := processEvent_via map tr s ev h hrow hch
    rw [h3] at hx
    rw [← h1]
    exact processChannel_rows_written map tr ev _ sp h hh r x hx

theorem foldl_rows_written (map : Fin 4 → Int) (tr : Nat) (evs : List MidiEvent)
    (s : BuildState) (h : Fin 4) (hh : h ≠ 3) (r : Nat) (x : Row)
    (hx : ((evs.foldl (processEvent map tr) s).channel_rows h)[r]? = some x) :
    (s.channel_rows h)[r]? = some x ∨
      ∃ e ∈ evs, e.channel = map h ∧ e.isOff ∧ (x = emptyRow ∨ x.note = e.key % 256) := by
  induction evs generalizing s with
  | nil => exact Or.inl hx
  | cons ev rest ih =>
    rw [List.foldl_cons] at hx
    rcases ih _ hx with h1 | ⟨e, he, h2⟩
    · rcases processEvent_rows_written map tr s ev h hh r x h1 with h3 | h3
      · exact Or.inl h3
      · exact Or.inr ⟨ev, List.mem_cons_self _ _, h3⟩
    · exact Or.inr ⟨e, List.mem_cons_of_mem _ he, h2⟩

/-- C38 (counterexample): with the user channel map `0 -1 -1 0` the melodic hardware
channel Duty 1 is bound to source channel 0, the note-on for key 60 on source channel
0 is followed by no note-off for key 60, and every access to `channelProgram` is
inside the array; the note-on, the first event of the run, changes row 0 of the
Noise channel, which is bound to the same source channel, and the key 60 is in the
rows of the grid from which the patterns of Noise are built. -/
theorem C38_counterexample :
    midi_to_uge heldNoteSong (some dutyNoiseMap) 0 = 0 ∧
    (buildGrid dutyNoiseMap (total_rows heldNoteSong) heldNoteSong).out_of_bounds = false ∧
    (buildGrid dutyNoiseMap (total_rows heldNoteSong) []).channel_rows 3
      = [emptyRow, emptyRow, emptyRow, emptyRow, emptyRow] ∧
    (buildGrid dutyNoiseMap (total_rows heldNoteSong)
      [⟨0, EventKind.noteOn, 0, 60, 100, 0, 0⟩]).channel_rows 3
      = [⟨60, 0, 100⟩, emptyRow, emptyRow, emptyRow, emptyRow] ∧
    (convertMidiToUge byteSum 24 heldNoteSong (some dutyNoiseMap)).grid.channel_rows 3
      = [⟨60, 0, 100⟩, emptyRow, ⟨62, 1, 100⟩, emptyRow, emptyRow] := by
  refine ⟨by decide, by decide, by decide, by decide, by decide⟩

/-- C38 (amended): in a run over `evs = pre ++ ev :: post` that accesses
`channelProgram` inside the array only, where `ev` is a note-on for key `k` on the
source channel bound to the melodic hardware channel `h` and no event of `post` on
that source channel is a note-off or zero-velocity note-on for `k`: the source channel
is one of `0 .. 3`; the note-on changes no row of any melodic hardware channel, and no row of Noise unless Noise is
bound to the same source channel; every row of `h` that is not at the end of the run
as it was before the note-on is empty or holds the key of a note-off for another
key, an event of `post` on that source channel; in particular, for `k` other than
90 and keys in `0 .. 127`, every row of `h` that holds key `k` at the end held the same
content before the note-on; and at the end the note is still held, never written. -/
theorem C38_unterminated_note_on (evs pre post : List MidiEvent) (ev : MidiEvent)
    (um : Option (Fin 4 → Int)) (h : Fin 4) (k : Nat)
    (hevs : evs = pre ++ ev :: post) (hh : h ≠ 3)
    (hmap : midi_to_uge evs um h = ev.channel)
    (hch : 0 ≤ ev.channel ∧ ev.channel ≤ 15) (hon : ev.isOn) (hkey : ev.key = k)
    (hno : ∀ e ∈ post, e.channel = ev.channel → e.isOff → e.key ≠ k)
    (hb : (buildGrid (midi_to_uge evs um) (total_rows evs) evs).out_of_bounds = false) :
    (0 ≤ ev.channel ∧ ev.channel < UGE_NUM_CHANNELS) ∧
    (∀ c : Fin 4, c ≠ 3 →
      (buildGrid (midi_to_uge evs um) (total_rows evs) (pre ++ [ev])).channel_rows c
        = (buildGrid (midi_to_uge evs um) (total_rows evs) pre).channel_rows c) ∧
    (midi_to_uge evs um 3 ≠ ev.channel →
      (buildGrid (midi_to_uge evs um) (total_rows evs) (pre ++ [ev])).channel_rows 3
        = (buildGrid (midi_to_uge evs um) (total_rows evs) pre).channel_rows 3) ∧
    (∀ (r : Nat) (x : Row),
      ((buildGrid (midi_to_uge evs um) (total_rows evs) evs).channel_rows h)[r]? = some x →
      ((buildGrid (midi_to_uge evs um) (total_rows evs) pre).channel_rows h)[r]? = some x ∨
        ∃ e ∈ post, e.channel = ev.channel ∧ e.isOff ∧ e.key ≠ k ∧
          (x = emptyRow ∨ x.note = e.key % 256)) ∧
    (k ≠ UGE_EMPTY_NOTE → k ≤ 127 → (∀ e ∈ post, e.key ≤ 127) →
      ∀ (r : Nat) (x : Row),
        ((buildGrid (midi_to_uge evs um) (total_rows evs) evs).channel_rows h)[r]? = some x →
        x.note = k →
        ((buildGrid (midi_to_uge evs um) (total_rows evs) pre).channel_rows h)[r]? = some x) ∧
    ((buildGrid (midi_to_uge evs um) (total_rows evs) evs).active_notes h k).isSome := by
  have hrow : ev.tick / TICKS_PER_ROW < total_rows evs :=
    row_lt_total_rows evs ev (by rw [hevs]; simp)
  have he : pre ++ ev :: post = (pre ++ [ev]) ++ post := by simp
  have hfin : (buildGrid (midi_to_uge evs um) (total_rows evs) evs)
      = post.foldl (processEvent (midi_to_uge evs um) (total_rows evs))
        (buildGrid (midi_to_uge evs um) (total_rows evs) (pre ++ [ev])) := by
    rw [← buildGrid_append, ← he, ← hevs]
  have hgen : ∀ (r : Nat) (x : Row),
      ((buildGrid (midi_to_uge evs um) (total_rows evs) evs).channel_rows h)[r]? = some x →
      ((buildGrid (midi_to_uge evs um) (total_rows evs) pre).channel_rows h)[r]? = some x ∨
        ∃ e ∈ post, e.channel = ev.channel ∧ e.isOff ∧ e.key ≠ k ∧
          (x = emptyRow ∨ x.note = e.key % 256) := by
    intro r x hx
    rw [hfin] at hx
    rcases foldl_rows_written _ _ post _ h hh r x hx with h1 | ⟨e, he2, hc, hoff, hxe⟩
    · rw [buildGrid_snoc, processEvent_on_rows _ _ _ ev h hh hon] at h1
      exact Or.inl h1
    · exact Or.inr ⟨e, he2, by rw [hc, hmap], hoff, hno e he2 (by rw [hc, hmap]) hoff, hxe⟩
  refine ⟨?_, ?_, ?_, hgen, ?_, ?_⟩
  · exact in_bounds_channel (midi_to_uge evs um) evs hb ev (by rw [hevs]; simp) h hh hmap hch
      (Or.inr hon)
  · intro c hc
    rw [buildGrid_snoc]
    exact processEvent_on_rows _ _ _ ev c hc hon
  · intro h3
    rw [buildGrid_snoc]
    exact (processEvent_rows_frame _ _ _ ev 3 (Or.inr (Or.inr (Ne.symm h3)))).1
  · intro hk90 hk hkeys r x hx hnote
    rcases hgen r x hx with h1 | ⟨e, he2, -, -, hne, hxe⟩
    · exact h1
    · exfalso
      have h5 := hkeys e he2
      rcases hxe with rfl | hxe
      · exact hk90 hnote.symm
      · rw [hnote] at hxe
        omega
  · rw [hfin]
    refine foldl_active_isSome _ _ post _ h k hh (fun e he2 hc hk2 hoff =>
      hno e he2 (by rw [hc, hmap]) hoff hk2) ?_
    rw [buildGrid_snoc]
    obtain ⟨inst, hi⟩ := (processEvent_on_active (midi_to_uge evs um) (total_rows evs)
      (buildGrid (midi_to_uge evs um) (total_rows evs) pre) ev h hh hmap hch hon hrow).1
    rw [← hkey, hi]
    rfl

theorem C38_unterminated_note_on_witness :
    (buildGrid (midi_to_uge heldNoteSong none) (total_rows heldNoteSong)
      heldNoteSong).out_of_bounds = false ∧
    ((buildGrid (midi_to_uge heldNoteSong none) (total_rows heldNoteSong)
      heldNoteSong).active_notes 0 60).isSome :=
  ⟨by decide, (C38_unterminated_note_on heldNoteSong []
    [⟨12, EventKind.noteOn, 0, 62, 100, 0, 0⟩, ⟨24, EventKind.noteOff, 0, 62, 0, 0, 0⟩]
    ⟨0, EventKind.noteOn, 0, 60, 100, 0, 0⟩ none 0 60 rfl (by decide) (by decide) (by decide)
    (by decide) rfl (by simp [MidiEvent.isOff]) (by decide)).2.2.2.2.2⟩

/-! ## The user channel map -/

/-- C7 (code defect and the runs it spares): the user channel map `5 -1 -1 -1` is taken
as it is, and with it the program change and the note-on of `channelFiveSong`, both
on source channel 5, subscript the array `channelProgram` of `UGE_NUM_CHANNELS = 4`
entries at 5: the run accesses storage outside the array. In every run with a user
channel map `m` that accesses `channelProgram` inside the array only, the map used
is `m` and the grid is the one built with `m`; every program change and note-on that
reaches a melodic hardware channel is on a source channel `0 .. 3`; an event of the
run whose source channel differs from `m h` changes neither the rows nor the held
notes of hardware channel `h`; and for every `h` with `m h` outside `0 .. 15` every
row of hardware channel `h` is `(UGE_EMPTY_NOTE, 0, 0)` after the whole run. -/
theorem C7_user_channel_map :
    (midi_to_uge channelFiveSong (some channelFiveMap) = channelFiveMap ∧
      channelFiveSong.flatMap (channelProgramSubscripts
        (midi_to_uge channelFiveSong (some channelFiveMap)) (total_rows channelFiveSong))
        = [5, 5] ∧
      ¬ ((5 : Int) < UGE_NUM_CHANNELS) ∧
      (buildGrid (midi_to_uge channelFiveSong (some channelFiveMap))
        (total_rows channelFiveSong) channelFiveSong).out_of_bounds = true) ∧
    ∀ (hasher : List Nat → Nat) (tpq : Int) (evs : List MidiEvent) (m : Fin 4 → Int),
      (buildGrid m (total_rows evs) evs).out_of_bounds = false →
      midi_to_uge evs (some m) = m ∧
      (convertMidiToUge hasher tpq evs (some m)).midi_to_uge = m ∧
      (convertMidiToUge hasher tpq evs (some m)).grid = buildGrid m (total_rows evs) evs ∧
      (∀ ev ∈ evs, ∀ h : Fin 4, h ≠ 3 → m h = ev.channel →
        0 ≤ ev.channel ∧ ev.channel ≤ 15 →
        ev.kind = EventKind.programChange ∨ ev.isOn →
        0 ≤ m h ∧ m h < UGE_NUM_CHANNELS) ∧
      (∀ (h : Fin 4) (pre post : List MidiEvent) (ev : MidiEvent),
        evs = pre ++ ev :: post → ev.channel ≠ m h →
        (buildGrid m (total_rows evs) (pre ++ [ev])).channel_rows h
          = (buildGrid m (total_rows evs) pre).channel_rows h ∧
        (buildGrid m (total_rows evs) (pre ++ [ev])).active_notes h
          = (buildGrid m (total_rows evs) pre).active_notes h) ∧
      (∀ h : Fin 4, (m h < 0 ∨ 15 < m h) →
        (convertMidiToUge hasher tpq evs (some m)).grid.channel_rows h
          = List.replicate (total_rows evs) emptyRow) := by
  refine ⟨⟨by decide, by decide, by decide, by decide⟩, ?_⟩
  intro hasher tpq evs m hb
  refine ⟨rfl, rfl, rfl, ?_, ?_, ?_⟩
  · intro ev hev h hh hmap hch hk
    rw [hmap]
    exact in_bounds_channel m evs hb ev hev h hh hmap hch hk
  · intro h pre post ev _ hne
    rw [buildGrid_snoc]
    exact processEvent_rows_frame m (total_rows evs) _ ev h (Or.inr (Or.inr hne))
  · intro h hm
    exact buildGrid_unmapped m (total_rows evs) evs h (by omega)

theorem C7_user_channel_map_witness :
    (buildGrid dutyOnlyMap (total_rows oneNoteSong) oneNoteSong).out_of_bounds = false ∧
    midi_to_uge oneNoteSong (some dutyOnlyMap) = dutyOnlyMap ∧
    (convertMidiToUge byteSum 24 oneNoteSong (some dutyOnlyMap)).grid.channel_rows 1
      = List.replicate (total_rows oneNoteSong) emptyRow :=
  have h := C7_user_channel_map.2 byteSum 24 oneNoteSong dutyOnlyMap (by decide)
  ⟨by decide, h.1, h.2.2.2.2.2 1 (by decide)⟩

/-! ## Overlapping note-ons inside the array -/

end Midi2Uge
